import Mathlib

/-!
# HaploClique `AlignmentRecord`: merge engine, CIGAR codec and quality model

A shallow embedding of `src/AlignmentRecord.cpp`.

Conventions of the embedding

* A C++ `char` holding a CIGAR tag or a base is a `Char`; a `char` holding a
  Phred+33 quality is its integer code (`Int`), because the code does
  arithmetic on it.
* `std::string` / `std::vector<char>` are lists; an index that is read is
  checked against the length, and a read outside the container is a fault.
* `unsigned int` positions are `Nat` and `int` cursors are `Int`; the members
  of a record are assumed to fit `unsigned int`. Where the source mixes the two
  types the conversion is part of the model: the loops of the paired and mixed
  merges that test an `int` cursor against an `unsigned int` member convert the
  cursor (`toUnsigned`), and `intersectionLength` stores `unsigned int` values
  in an `int` (`toInt32`). The padded positions of the merges are computed in
  `int` and are assumed to stay inside its range.
* Every `while` loop of the source is a recursive function on a `fuel`
  argument; the callers pass a bound on the number of iterations, and the
  result says whether the loop ran out of fuel.
* A failed `assert` is a fault, like a read outside a container.
* The `float` computations that fill the quality tables are relations over the
  reals (`agreement`, `disagreement`): each operation returns its exact result
  up to a relative error of `2^-20`.
* The `double` computation of `setProbabilities` is a relation of the same
  kind; its one `size_t` subtraction is taken modulo `2^64`.
-/

namespace HaploClique

/-! ## CIGAR operations -/

/-- One run of a compact CIGAR (`BamTools::CigarOp`): tag and run length. -/
structure CigarOp where
  type : Char
  Length : Nat
  deriving DecidableEq, Repr

/-- The unrolling loop of the constructors
(`for it in cigar: for s < it.Length: unrolled.push_back(it.Type)`),
appending to an existing unrolled vector `acc`. -/
def unrollInto (acc : List Char) (cigar : List CigarOp) : List Char :=
  cigar.foldl (fun u it => u ++ List.replicate it.Length it.type) acc

/-- Unrolling a compact CIGAR into an empty vector. -/
def unrollCigar (cigar : List CigarOp) : List Char :=
  unrollInto [] cigar

/-- Inner `while(pos < nucigar.size())` loop of `createCigar`, for the current
tag `c`. Returns `(res, counter, pos)` at the `break` or at the loop exit. -/
def createCigarInner (nucigar : List Char) (c : Char) :
    Nat → List CigarOp → Nat → Nat → List CigarOp × Nat × Nat
  | 0, res, counter, pos => (res, counter, pos)
  | fuel + 1, res, counter, pos =>
    if h : pos < nucigar.length then
      if c = nucigar[pos] then
        createCigarInner nucigar c fuel res (counter + 1) (pos + 1)
      else
        (res ++ [⟨c, counter⟩], 1, pos)
    else
      (res, counter, pos)

/-- Outer `while(pos < nucigar.size())` loop of `createCigar`. -/
def createCigarOuter (nucigar : List Char) :
    Nat → List CigarOp → Nat → Nat → List CigarOp
  | 0, res, _, _ => res
  | fuel + 1, res, counter, pos =>
    if h : pos < nucigar.length then
      let c := nucigar[pos]
      let r := createCigarInner nucigar c nucigar.length res counter (pos + 1)
      let res1 := if r.2.2 = nucigar.length then r.1 ++ [⟨c, r.2.1⟩] else r.1
      createCigarOuter nucigar fuel res1 r.2.1 r.2.2
    else
      res

/-- `createCigar(nucigar)`: run-length encoding of an unrolled CIGAR string.
Each outer iteration consumes at least one character, so `nucigar.size()`
iterations suffice. -/
def createCigar (nucigar : List Char) : List CigarOp :=
  createCigarOuter nucigar nucigar.length [] 1 0

/-! ## Quality model -/

/-- The three lookup tables built at start-up (`error_probs`,
`error_agreement`, `error_disagreement`), indexed by quality codes. The merge
engine is stated over an arbitrary table; what the floating-point code stores
in an entry is described by `agreement` and `disagreement` below. -/
structure QualityTables where
  error_probs : Int → Rat
  error_agreement : Int → Int → Int
  error_disagreement : Int → Int → Int

/-! ### Floating-point model of the table entries

`agreement` and `disagreement` compute in `float` with `std::pow` and `log10`.
Their results are modelled as relations over the reals: every floating-point
operation returns its exact real result up to a relative error of `2^-20`
(the unit roundoff of `float` is `2^-24`; the slack covers the library
functions and the conversion of the `double` power to `float`). The relation
holds of every value the machine arithmetic can produce. -/

/-- `Rounds x y`: `y` is a floating-point result of an operation whose exact
real result is `x`; the relative error is at most `2^-20`. -/
def Rounds (x y : ℝ) : Prop :=
  |y - x| ≤ |x| / 2 ^ 20

/-- `RoundsToInt m n`: `n` is `std::round(m)` (halves away from zero) returned
as `int`. -/
def RoundsToInt (m : ℝ) (n : Int) : Prop :=
  (0 ≤ m → (n : ℝ) ≤ m + 1 / 2 ∧ m + 1 / 2 < n + 1) ∧
  (m < 0 → (n : ℝ) - 1 < m - 1 / 2 ∧ m - 1 / 2 ≤ n)

/-- `PowProb qual prob`: `prob` is a value of `std::pow(10, (float)-qual/10)`
stored in a `float`: the quotient is rounded, the power is rounded. -/
def PowProb (qual : Int) (prob : ℝ) : Prop :=
  ∃ x : ℝ, Rounds (-(qual : ℝ) / 10) x ∧ Rounds ((10 : ℝ) ^ x) prob

/-- `PhredOf posterior n`: `n` is a value of `std::round(-10*log10(posterior))`
returned as `int`: the logarithm is rounded, the product is rounded, and the
result is rounded to the nearest integer. -/
def PhredOf (posterior : ℝ) (n : Int) : Prop :=
  ∃ l m : ℝ, Rounds (Real.logb 10 posterior) l ∧ Rounds (-10 * l) m ∧ RoundsToInt m n

/-- `agreement qual1 qual2 n`: `n` is a value that `agreement(qual1, qual2)` can
return. The existential variables are the intermediate `float` results of
`prob1*prob2/3` and of `1-prob1-prob2+4*prob1*prob2/3`, in evaluation order. -/
def agreement (qual1 qual2 : Int) (n : Int) : Prop :=
  ∃ prob1 prob2 t1 num u1 u2 v1 v2 v3 den posterior : ℝ,
    PowProb qual1 prob1 ∧ PowProb qual2 prob2 ∧
    Rounds (prob1 * prob2) t1 ∧ Rounds (t1 / 3) num ∧
    Rounds (1 - prob1) u1 ∧ Rounds (u1 - prob2) u2 ∧
    Rounds (4 * prob1) v1 ∧ Rounds (v1 * prob2) v2 ∧ Rounds (v2 / 3) v3 ∧
    Rounds (u2 + v3) den ∧
    Rounds (num / den) posterior ∧
    PhredOf posterior n

/-- `disagreement qual1 qual2 n`: `n` is a value that `disagreement(qual1, qual2)`
can return. The existential variables are the intermediate `float` results of
`prob1*(1-prob2/3)` and of `prob1+prob2-4*prob1*prob2/3`, in evaluation order. -/
def disagreement (qual1 qual2 : Int) (n : Int) : Prop :=
  ∃ prob1 prob2 a1 a2 num b1 c1 c2 c3 den posterior : ℝ,
    PowProb qual1 prob1 ∧ PowProb qual2 prob2 ∧
    Rounds (prob2 / 3) a1 ∧ Rounds (1 - a1) a2 ∧ Rounds (prob1 * a2) num ∧
    Rounds (prob1 + prob2) b1 ∧
    Rounds (4 * prob1) c1 ∧ Rounds (c1 * prob2) c2 ∧ Rounds (c2 / 3) c3 ∧
    Rounds (b1 - c3) den ∧
    Rounds (num / den) posterior ∧
    PhredOf posterior n

/-- `compute_error_agreement()`: `t` is a table the start-up code can build,
`t[i][j] = agreement(i-33, j-33)` for `i, j` in `33..126`. -/
def compute_error_agreement (t : Int → Int → Int) : Prop :=
  ∀ i j : Int, 33 ≤ i → i < 127 → 33 ≤ j → j < 127 → agreement (i - 33) (j - 33) (t i j)

/-- `compute_error_disagreement()`: `t` is a table the start-up code can build,
`t[i][j] = disagreement(i-33, j-33)` for `i, j` in `33..126`. -/
def compute_error_disagreement (t : Int → Int → Int) : Prop :=
  ∀ i j : Int, 33 ≤ i → i < 127 → 33 ≤ j → j < 127 → disagreement (i - 33) (j - 33) (t i j)

/-- Conversion of an `int` to `char` (8-bit, signed), as in the assignment
`result.second = <int expression>`. -/
def toChar (x : Int) : Int :=
  (x + 128) % 256 - 128

/-- `computeEntry(base1, qual1, base2, qual2)`. -/
def computeEntry (T : QualityTables) (base1 : Char) (qual1 : Int) (base2 : Char) (qual2 : Int) :
    Char × Int :=
  if base1 = base2 then
    (base1, toChar (min (T.error_agreement qual1 qual2 + 33) 126))
  else if qual1 ≥ qual2 then
    (base1, toChar (T.error_disagreement qual1 qual2 + 33))
  else
    (base2, toChar (T.error_disagreement qual2 qual1 + 33))

/-- `phred_sum(phred, phred_base = 33)`. -/
def phred_sum (phred : List Int) (phred_base : Int) : Int :=
  phred.foldl (fun result q => result + (q - phred_base)) 0

/-! ## Clip offsets -/

/-- `computeOffset(cigar)`: number of leading `S`/`H` tags. -/
def computeOffset : List Char → Int
  | [] => 0
  | i :: rest => if i = 'S' ∨ i = 'H' then computeOffset rest + 1 else 0

/-- `computeRevOffset(cigar)`: number of trailing `S`/`H` tags. -/
def computeRevOffset (cigar : List Char) : Int :=
  computeOffset cigar.reverse

/-! ## Records -/

/-- Modelled from the spec: the sequence+quality storage abstraction
(`ShortDnaSequence`, not part of the source file), used only through
`operator[]`, `qualityChar` and `size`. -/
structure ShortDnaSequence where
  forward : List Char
  forward_qualities : List Int
  deriving DecidableEq, Repr

/-- `ShortDnaSequence::size()`. -/
def ShortDnaSequence.size (s : ShortDnaSequence) : Nat :=
  s.forward.length

/-- The fields of a `BamTools::BamAlignment` that the code reads.
`EndPosition` is the value returned by `GetEndPosition()`. -/
structure BamAlignment where
  Name : String
  Position : Nat
  EndPosition : Nat
  CigarData : List CigarOp
  QueryBases : List Char
  Qualities : List Int
  deriving DecidableEq, Repr

/-- The data members of `AlignmentRecord`. The cached vector `cov_pos` is not a
field: wherever the source refreshes it, it is `coveredPositions()` of the
record. The refreshing call is part of `pairWith`, `getMergedDnaSequence` and
the clique constructor, which complete only if it does. The name-table
pointer, `id` and `probability` take no part in the merge engine. `readNames`
is the `std::set<int>` of read ids. -/
structure AlignmentRecord where
  name : String
  start1 : Nat
  end1 : Nat
  cigar1 : List CigarOp
  cigar1_unrolled : List Char
  sequence1 : ShortDnaSequence
  phred_sum1 : Int
  length_incl_deletions1 : Int
  length_incl_longdeletions1 : Int
  start2 : Nat
  end2 : Nat
  cigar2 : List CigarOp
  cigar2_unrolled : List Char
  sequence2 : ShortDnaSequence
  phred_sum2 : Int
  length_incl_deletions2 : Int
  length_incl_longdeletions2 : Int
  single_end : Bool
  readNames : Finset Int
  deriving DecidableEq

/-- One pass of the constructor loop over a compact CIGAR: unrolls into
`unrolled` and adds the `D` run lengths to the two length statistics. -/
def cigarLoop (cigar : List CigarOp) (unrolled : List Char) (lid lild : Int) :
    List Char × Int × Int :=
  cigar.foldl
    (fun st it =>
      (st.1 ++ List.replicate it.Length it.type,
       if it.type = 'D' then st.2.1 + it.Length else st.2.1,
       if it.type = 'D' ∧ it.Length > 1 then st.2.2 + it.Length else st.2.2))
    (unrolled, lid, lild)

/-- `AlignmentRecord(alignment, readRef, rnm)`: a single-end record from one raw
alignment. The scalar mate-2 members are left uninitialised by the source and
are never read while `single_end` holds; they are 0 here. The record is the
one the constructor leaves when its closing `coveredPositions()` returns,
which it does on every alignment that has a base and a quality for each `M`,
`I` and `S` tag of its CIGAR. -/
def AlignmentRecord.fromAlignment (alignment : BamAlignment) (readRef : Int) : AlignmentRecord :=
  let sequence1 : ShortDnaSequence := ⟨alignment.QueryBases, alignment.Qualities⟩
  let st := cigarLoop alignment.CigarData [] sequence1.size sequence1.size
  { name := alignment.Name
    start1 := alignment.Position + 1
    end1 := alignment.EndPosition
    cigar1 := alignment.CigarData
    cigar1_unrolled := st.1
    sequence1 := sequence1
    phred_sum1 := phred_sum alignment.Qualities 33
    length_incl_deletions1 := st.2.1
    length_incl_longdeletions1 := st.2.2
    start2 := 0
    end2 := 0
    cigar2 := []
    cigar2_unrolled := []
    sequence2 := ⟨[], []⟩
    phred_sum2 := 0
    length_incl_deletions2 := 0
    length_incl_longdeletions2 := 0
    single_end := true
    readNames := {readRef} }

/-! ## Merge steps -/

/-- Why a merge did not produce a record: `fault` is a failed `assert` or a
read outside a container; `outOfFuel` is the loop bound of the embedding. -/
inductive MergeError where
  | fault
  | outOfFuel
  deriving DecidableEq, Repr

/-- Checked read `v[i]`. -/
def readAt {α : Type} (v : List α) (i : Nat) : Except MergeError α :=
  match v[i]? with
  | some a => .ok a
  | none => .error .fault

/-- The local variables of a merge that the step functions update by
reference: the three output strings, the cigar and query cursors of the two
sources, and the reference position that the running phase advances. -/
structure MergeState where
  dna : List Char
  qualities : List Int
  nucigar : List Char
  c_pos1 : Nat
  c_pos2 : Nat
  q_pos1 : Nat
  q_pos2 : Nat
  ref_pos : Int
  deriving DecidableEq, Repr

/-- A `while (cond) body` loop; `fuel` bounds the number of iterations. -/
def whileLoop {σ : Type} (cond : σ → Bool) (body : σ → Except MergeError σ) :
    Nat → σ → Except MergeError σ
  | 0, s => if cond s then .error .outOfFuel else .ok s
  | fuel + 1, s => if cond s then (body s).bind (whileLoop cond body fuel) else .ok s

/-- The by-reference arguments of `noOverlapMerge`. -/
structure SoloState where
  dna : List Char
  qualities : List Int
  nucigar : List Char
  c_pos : Nat
  q_pos : Nat
  ref_pos : Int
  deriving DecidableEq, Repr

/-- Body of `noOverlapMerge` (record overload, after the choice of mate by
`i`) on the source with unrolled CIGAR `cigar`, bases `bases` and qualities
`quals`. -/
def noOverlapMergeOn (cigar : List Char) (bases : List Char) (quals : List Int)
    (st : SoloState) : Except MergeError SoloState := do
  let c ← readAt cigar st.c_pos
  if c = 'H' then
    pure { st with ref_pos := st.ref_pos + 1, c_pos := st.c_pos + 1 }
  else if c = 'I' then
    let b ← readAt bases st.q_pos
    let q ← readAt quals st.q_pos
    pure { st with dna := st.dna ++ [b], qualities := st.qualities ++ [q],
                   nucigar := st.nucigar ++ ['I'], q_pos := st.q_pos + 1, c_pos := st.c_pos + 1 }
  else if c = 'D' then
    pure { st with nucigar := st.nucigar ++ ['D'], ref_pos := st.ref_pos + 1,
                   c_pos := st.c_pos + 1 }
  else if c = 'S' then
    pure { st with ref_pos := st.ref_pos + 1, q_pos := st.q_pos + 1, c_pos := st.c_pos + 1 }
  else if c = 'M' then
    let b ← readAt bases st.q_pos
    let q ← readAt quals st.q_pos
    pure { st with dna := st.dna ++ [b], qualities := st.qualities ++ [q],
                   nucigar := st.nucigar ++ [c], ref_pos := st.ref_pos + 1,
                   q_pos := st.q_pos + 1, c_pos := st.c_pos + 1 }
  else
    .error .fault

/-- Body of `overlapMerge` (record overload, after the choice of mates by `i`
and `j`): source 1 is `(cigar1, bases1, quals1)`, source 2 is `(cigar2, bases2,
quals2)`. -/
def overlapMergeOn (T : QualityTables)
    (cigar1 : List Char) (bases1 : List Char) (quals1 : List Int)
    (cigar2 : List Char) (bases2 : List Char) (quals2 : List Int)
    (st : MergeState) : Except MergeError MergeState := do
  let c1 ← readAt cigar1 st.c_pos1
  let c2 ← readAt cigar2 st.c_pos2
  if (c1 = 'M' ∧ c2 = 'M') ∨ (c1 = 'S' ∧ c2 = 'S') ∨ (c1 = 'I' ∧ c2 = 'I') then
    let st1 ←
      if c1 ≠ 'S' then do
        let b1 ← readAt bases1 st.q_pos1
        let q1 ← readAt quals1 st.q_pos1
        let b2 ← readAt bases2 st.q_pos2
        let q2 ← readAt quals2 st.q_pos2
        let resPair := computeEntry T b1 q1 b2 q2
        pure { st with dna := st.dna ++ [resPair.1], qualities := st.qualities ++ [resPair.2],
                       nucigar := st.nucigar ++ [c1] }
      else pure st
    pure { st1 with ref_pos := if c1 ≠ 'I' then st1.ref_pos + 1 else st1.ref_pos,
                    q_pos1 := st1.q_pos1 + 1, q_pos2 := st1.q_pos2 + 1,
                    c_pos1 := st1.c_pos1 + 1, c_pos2 := st1.c_pos2 + 1 }
  else if (c1 = 'D' ∧ c2 = 'D') ∨ (c1 = 'H' ∧ c2 = 'H') ∨ (c1 = 'D' ∧ c2 = 'H') ∨
      (c1 = 'H' ∧ c2 = 'D') ∨ (c1 = 'D' ∧ c2 = 'S') ∨ (c1 = 'S' ∧ c2 = 'D') then
    pure { st with c_pos1 := st.c_pos1 + 1, c_pos2 := st.c_pos2 + 1, ref_pos := st.ref_pos + 1,
                   nucigar := if c1 = 'D' ∨ c2 = 'D' then st.nucigar ++ ['D'] else st.nucigar,
                   q_pos1 := if c1 = 'S' then st.q_pos1 + 1 else st.q_pos1,
                   q_pos2 := if c1 = 'S' then st.q_pos2
                             else if c2 = 'S' then st.q_pos2 + 1 else st.q_pos2 }
  else if (c1 = 'M' ∧ (c2 = 'D' ∨ c2 = 'H' ∨ c2 = 'S')) ∨
      ((c1 = 'D' ∨ c1 = 'H' ∨ c1 = 'S') ∧ c2 = 'M') ∨ (c1 = 'S' ∧ c2 = 'H') ∨
      (c1 = 'H' ∧ c2 = 'S') then
    if c1 = 'M' then
      let b1 ← readAt bases1 st.q_pos1
      let q1 ← readAt quals1 st.q_pos1
      pure { st with nucigar := st.nucigar ++ ['M'], dna := st.dna ++ [b1],
                     qualities := st.qualities ++ [q1], ref_pos := st.ref_pos + 1,
                     c_pos1 := st.c_pos1 + 1, c_pos2 := st.c_pos2 + 1, q_pos1 := st.q_pos1 + 1,
                     q_pos2 := if c2 = 'S' then st.q_pos2 + 1 else st.q_pos2 }
    else if c2 = 'M' then
      let b2 ← readAt bases2 st.q_pos2
      let q2 ← readAt quals2 st.q_pos2
      pure { st with nucigar := st.nucigar ++ ['M'], dna := st.dna ++ [b2],
                     qualities := st.qualities ++ [q2], ref_pos := st.ref_pos + 1,
                     c_pos1 := st.c_pos1 + 1, c_pos2 := st.c_pos2 + 1, q_pos2 := st.q_pos2 + 1,
                     q_pos1 := if c1 = 'S' then st.q_pos1 + 1 else st.q_pos1 }
    else if c1 = 'S' then
      pure { st with ref_pos := st.ref_pos + 1, c_pos1 := st.c_pos1 + 1,
                     c_pos2 := st.c_pos2 + 1, q_pos1 := st.q_pos1 + 1 }
    else
      pure { st with ref_pos := st.ref_pos + 1, c_pos1 := st.c_pos1 + 1,
                     c_pos2 := st.c_pos2 + 1, q_pos2 := st.q_pos2 + 1 }
  else if c1 = 'I' ∨ c2 = 'I' then
    if c1 = 'I' then
      let b1 ← readAt bases1 st.q_pos1
      let q1 ← readAt quals1 st.q_pos1
      pure { st with nucigar := st.nucigar ++ ['I'], dna := st.dna ++ [b1],
                     qualities := st.qualities ++ [q1],
                     c_pos1 := st.c_pos1 + 1, q_pos1 := st.q_pos1 + 1 }
    else
      let b2 ← readAt bases2 st.q_pos2
      let q2 ← readAt quals2 st.q_pos2
      pure { st with nucigar := st.nucigar ++ ['I'], dna := st.dna ++ [b2],
                     qualities := st.qualities ++ [q2],
                     c_pos2 := st.c_pos2 + 1, q_pos2 := st.q_pos2 + 1 }
  else
    .error .fault

/-- The arguments `(dna, qualities, nucigar, c_pos1, q_pos1, ref_pos)` of a
solo step on source 1. -/
def MergeState.solo1 (st : MergeState) : SoloState :=
  { dna := st.dna, qualities := st.qualities, nucigar := st.nucigar,
    c_pos := st.c_pos1, q_pos := st.q_pos1, ref_pos := st.ref_pos }

/-- Write-back of the by-reference arguments of a solo step on source 1. -/
def MergeState.setSolo1 (st : MergeState) (r : SoloState) : MergeState :=
  { st with dna := r.dna, qualities := r.qualities, nucigar := r.nucigar,
            c_pos1 := r.c_pos, q_pos1 := r.q_pos, ref_pos := r.ref_pos }

/-- The arguments `(dna, qualities, nucigar, c_pos2, q_pos2, ref_pos)` of a
solo step on source 2. -/
def MergeState.solo2 (st : MergeState) : SoloState :=
  { dna := st.dna, qualities := st.qualities, nucigar := st.nucigar,
    c_pos := st.c_pos2, q_pos := st.q_pos2, ref_pos := st.ref_pos }

/-- Write-back of the by-reference arguments of a solo step on source 2. -/
def MergeState.setSolo2 (st : MergeState) (r : SoloState) : MergeState :=
  { st with dna := r.dna, qualities := r.qualities, nucigar := r.nucigar,
            c_pos2 := r.c_pos, q_pos2 := r.q_pos, ref_pos := r.ref_pos }

/-- `getStart2()`, with its `assert(!single_end)`. -/
def AlignmentRecord.getStart2 (r : AlignmentRecord) : Except MergeError Nat :=
  if r.single_end then .error .fault else .ok r.start2

/-- `getEnd2()`, with its `assert(!single_end)`. -/
def AlignmentRecord.getEnd2 (r : AlignmentRecord) : Except MergeError Nat :=
  if r.single_end then .error .fault else .ok r.end2

/-- `getSequence2()`, with its `assert(!single_end)`. -/
def AlignmentRecord.getSequence2 (r : AlignmentRecord) : Except MergeError ShortDnaSequence :=
  if r.single_end then .error .fault else .ok r.sequence2

/-- `AlignmentRecord::noOverlapMerge(dna, qualities, nucigar, c_pos, q_pos,
ref_pos, i)`: one solo step on mate `i` of the record. -/
def AlignmentRecord.noOverlapMerge (self : AlignmentRecord) (st : SoloState) (i : Int) :
    Except MergeError SoloState :=
  if i = 1 then
    noOverlapMergeOn self.cigar1_unrolled self.sequence1.forward
      self.sequence1.forward_qualities st
  else
    noOverlapMergeOn self.cigar2_unrolled self.sequence2.forward
      self.sequence2.forward_qualities st

/-- `AlignmentRecord::overlapMerge(ar, dna, qualities, nucigar, c_pos1, c_pos2,
q_pos1, q_pos2, ref_pos, i, j)`: one joint step on mate `i` of the record and
mate `j` of `ar`. -/
def AlignmentRecord.overlapMerge (T : QualityTables) (self ar : AlignmentRecord)
    (st : MergeState) (i j : Int) : Except MergeError MergeState := do
  let cig1 := if i = 1 then self.cigar1_unrolled else self.cigar2_unrolled
  let s1 := if i = 1 then self.sequence1 else self.sequence2
  let cig2 := if j = 1 then ar.cigar1_unrolled else ar.cigar2_unrolled
  let s2 ← if j = 1 then pure ar.sequence1 else ar.getSequence2
  overlapMergeOn T cig1 s1.forward s1.forward_qualities cig2 s2.forward s2.forward_qualities st

/-- The four-way cascade of `mergeAlignmentRecordsSingle` with its three loops
per case. `solo1`/`solo2` are the solo steps on the record and on `ar`,
`joint` the joint step. Returns the final local variables. -/
def mergePhases (solo1 solo2 joint : MergeState → Except MergeError MergeState)
    (fuel : Nat) (ref_s_pos1 ref_e_pos1 ref_s_pos2 ref_e_pos2 : Int) :
    Except MergeError MergeState := do
  if ref_s_pos1 ≤ ref_s_pos2 ∧ ref_e_pos1 ≤ ref_e_pos2 then
    let st0 : MergeState := ⟨[], [], [], 0, 0, 0, 0, ref_s_pos1⟩
    let st1 ← whileLoop (fun st => st.ref_pos < ref_s_pos2) solo1 fuel st0
    let st2 ← whileLoop (fun st => st.ref_pos ≤ ref_e_pos1) joint fuel st1
    whileLoop (fun st => st.ref_pos ≤ ref_e_pos2) solo2 fuel st2
  else if ref_s_pos1 ≤ ref_s_pos2 ∧ ref_e_pos1 ≥ ref_e_pos2 then
    let st0 : MergeState := ⟨[], [], [], 0, 0, 0, 0, ref_s_pos1⟩
    let st1 ← whileLoop (fun st => st.ref_pos < ref_s_pos2) solo1 fuel st0
    let st2 ← whileLoop (fun st => st.ref_pos ≤ ref_e_pos2) joint fuel st1
    whileLoop (fun st => st.ref_pos ≤ ref_e_pos1) solo1 fuel st2
  else if ref_s_pos1 ≥ ref_s_pos2 ∧ ref_e_pos1 ≤ ref_e_pos2 then
    let st0 : MergeState := ⟨[], [], [], 0, 0, 0, 0, ref_s_pos2⟩
    let st1 ← whileLoop (fun st => st.ref_pos < ref_s_pos1) solo2 fuel st0
    let st2 ← whileLoop (fun st => st.ref_pos ≤ ref_e_pos1) joint fuel st1
    whileLoop (fun st => st.ref_pos ≤ ref_e_pos2) solo2 fuel st2
  else
    if ref_s_pos1 ≥ ref_s_pos2 ∧ ref_e_pos1 ≥ ref_e_pos2 then
      let st0 : MergeState := ⟨[], [], [], 0, 0, 0, 0, ref_s_pos2⟩
      let st1 ← whileLoop (fun st => st.ref_pos < ref_s_pos1) solo2 fuel st0
      let st2 ← whileLoop (fun st => st.ref_pos ≤ ref_e_pos2) joint fuel st1
      whileLoop (fun st => st.ref_pos ≤ ref_e_pos1) solo1 fuel st2
    else
      .error .fault

/-- `AlignmentRecord::mergeAlignmentRecordsSingle(ar, i, j)`: merges mate `j` of
`ar` into mate `i` of the record. Every successful step advances a cigar
cursor, so the sum of the two CIGAR lengths plus one bounds each loop. -/
def AlignmentRecord.mergeAlignmentRecordsSingle (T : QualityTables)
    (self ar : AlignmentRecord) (i j : Int) : Except MergeError AlignmentRecord := do
  let cigarThis := if i = 1 then self.cigar1_unrolled else self.cigar2_unrolled
  let offset_f1 := computeOffset cigarThis
  let offset_b1 := computeRevOffset cigarThis
  let ref_s_pos1 : Int := (if i = 1 then (self.start1 : Int) else self.start2) - offset_f1
  let ref_e_pos1 : Int := (if i = 1 then (self.end1 : Int) else self.end2) + offset_b1
  let cigar := if j = 1 then ar.cigar1_unrolled else ar.cigar2_unrolled
  let offset_f2 := computeOffset cigar
  let offset_b2 := computeRevOffset cigar
  let arStart ← if j = 1 then pure ar.start1 else ar.getStart2
  let arEnd ← if j = 1 then pure ar.end1 else ar.getEnd2
  let ref_s_pos2 : Int := (arStart : Int) - offset_f2
  let ref_e_pos2 : Int := (arEnd : Int) + offset_b2
  let fin ← mergePhases
    (fun st => (self.noOverlapMerge st.solo1 i).map st.setSolo1)
    (fun st => (ar.noOverlapMerge st.solo2 j).map st.setSolo2)
    (fun st => self.overlapMerge T ar st i j)
    (cigarThis.length + cigar.length + 1) ref_s_pos1 ref_e_pos1 ref_s_pos2 ref_e_pos2
  let sequence : ShortDnaSequence := ⟨fin.dna, fin.qualities⟩
  if i = 1 then
    if j = 1 then
      pure { self with
        start1 := min self.start1 ar.start1
        end1 := max ar.end1 self.end1
        single_end := true
        cigar1 := createCigar fin.nucigar
        sequence1 := sequence
        phred_sum1 := phred_sum fin.qualities 33
        length_incl_deletions1 := sequence.size
        length_incl_longdeletions1 := sequence.size
        cigar1_unrolled := fin.nucigar }
    else
      pure { self with
        start2 := min self.start1 arStart
        end2 := max self.end1 arEnd
        cigar2 := createCigar fin.nucigar
        sequence2 := sequence
        phred_sum2 := phred_sum fin.qualities 33
        length_incl_deletions2 := sequence.size
        length_incl_longdeletions2 := sequence.size
        cigar2_unrolled := fin.nucigar }
  else
    pure { self with
      start2 := min self.start2 arStart
      end2 := max arEnd self.end2
      single_end := false
      cigar2 := createCigar fin.nucigar
      sequence2 := sequence
      phred_sum2 := phred_sum fin.qualities 33
      length_incl_deletions2 := sequence.size
      length_incl_longdeletions2 := sequence.size
      cigar2_unrolled := fin.nucigar }

/-! ## Covered positions -/

/-- `AlignmentRecord::mapValue`: one aligned base of a record. -/
structure mapValue where
  ref : Int
  base : Char
  qual : Int
  prob : Rat
  pos : Int
  read : Int
  deriving DecidableEq, Repr

/-- One of the two CIGAR walks of `coveredPositions()`: `r` and `q` are its
reference and query positions, `read` the mate tag of the pushed entries. Tags
without a `case` leave everything unchanged. -/
def coveredPositionsLoop (T : QualityTables) (sequence : ShortDnaSequence) (read : Int) :
    List Char → Int → Nat → List mapValue → Except MergeError (List mapValue)
  | [], _, _, cov_positions => .ok cov_positions
  | c :: rest, r, q, cov_positions =>
    if c = 'M' then do
      let b ← readAt sequence.forward q
      let qual ← readAt sequence.forward_qualities q
      coveredPositionsLoop T sequence read rest (r + 1) (q + 1)
        (cov_positions ++ [⟨r, b, qual, T.error_probs qual, q, read⟩])
    else if c = 'D' then
      coveredPositionsLoop T sequence read rest (r + 1) q cov_positions
    else if c = 'S' ∨ c = 'I' then
      coveredPositionsLoop T sequence read rest r (q + 1) cov_positions
    else
      coveredPositionsLoop T sequence read rest r q cov_positions

/-- `AlignmentRecord::coveredPositions()`. -/
def AlignmentRecord.coveredPositions (T : QualityTables) (self : AlignmentRecord) :
    Except MergeError (List mapValue) := do
  let cov_positions ← coveredPositionsLoop T self.sequence1 0 self.cigar1_unrolled self.start1 0 []
  if ¬ self.single_end then
    if self.start1 ≤ self.start2 then
      coveredPositionsLoop T self.sequence2 1 self.cigar2_unrolled self.start2 0 cov_positions
    else
      .error .fault
  else
    pure cov_positions

/-! ## Pairing while reading alignments -/

/-- `AlignmentRecord::noOverlapMerge(alignment, dna, qualities, nucigar,
cigar_temp_unrolled, c_pos, q_pos, ref_pos)`: one solo step on a raw
alignment. -/
def noOverlapMergeAlignment (alignment : BamAlignment) (cigar_temp_unrolled : List Char)
    (st : SoloState) : Except MergeError SoloState := do
  let c ← readAt cigar_temp_unrolled st.c_pos
  if c = 'H' then
    pure { st with ref_pos := st.ref_pos + 1, c_pos := st.c_pos + 1 }
  else if c = 'I' then
    let b ← readAt alignment.QueryBases st.q_pos
    let q ← readAt alignment.Qualities st.q_pos
    pure { st with dna := st.dna ++ [b], qualities := st.qualities ++ [q],
                   nucigar := st.nucigar ++ ['I'], q_pos := st.q_pos + 1, c_pos := st.c_pos + 1 }
  else if c = 'D' then
    pure { st with nucigar := st.nucigar ++ ['D'], ref_pos := st.ref_pos + 1,
                   c_pos := st.c_pos + 1 }
  else if c = 'S' then
    pure { st with ref_pos := st.ref_pos + 1, q_pos := st.q_pos + 1, c_pos := st.c_pos + 1 }
  else if c = 'M' then
    let b ← readAt alignment.QueryBases st.q_pos
    let q ← readAt alignment.Qualities st.q_pos
    pure { st with dna := st.dna ++ [b], qualities := st.qualities ++ [q],
                   nucigar := st.nucigar ++ [c], ref_pos := st.ref_pos + 1,
                   q_pos := st.q_pos + 1, c_pos := st.c_pos + 1 }
  else
    .error .fault

/-- `AlignmentRecord::overlapMerge(alignment, dna, qualities, nucigar,
cigar_temp_unrolled, c_pos1, c_pos2, q_pos1, q_pos2, ref_pos)`: one joint step
on mate 1 of the record and a raw alignment. -/
def AlignmentRecord.overlapMergeAlignment (T : QualityTables) (self : AlignmentRecord)
    (alignment : BamAlignment) (cigar_temp_unrolled : List Char)
    (st : MergeState) : Except MergeError MergeState := do
  let c1 ← readAt self.cigar1_unrolled st.c_pos1
  let c2 ← readAt cigar_temp_unrolled st.c_pos2
  if (c1 = 'M' ∧ c2 = 'M') ∨ (c1 = 'S' ∧ c2 = 'S') ∨ (c1 = 'I' ∧ c2 = 'I') then
    let st1 ←
      if c1 ≠ 'S' then do
        let b1 ← readAt self.sequence1.forward st.q_pos1
        let q1 ← readAt self.sequence1.forward_qualities st.q_pos1
        let b2 ← readAt alignment.QueryBases st.q_pos2
        let q2 ← readAt alignment.Qualities st.q_pos2
        let resPair := computeEntry T b1 q1 b2 q2
        pure { st with dna := st.dna ++ [resPair.1], qualities := st.qualities ++ [resPair.2],
                       nucigar := st.nucigar ++ [c1] }
      else pure st
    pure { st1 with ref_pos := if c1 ≠ 'I' then st1.ref_pos + 1 else st1.ref_pos,
                    q_pos1 := st1.q_pos1 + 1, q_pos2 := st1.q_pos2 + 1,
                    c_pos1 := st1.c_pos1 + 1, c_pos2 := st1.c_pos2 + 1 }
  else if (c1 = 'D' ∧ c2 = 'D') ∨ (c1 = 'H' ∧ c2 = 'H') ∨ (c1 = 'D' ∧ c2 = 'H') ∨
      (c1 = 'H' ∧ c2 = 'D') ∨ (c1 = 'D' ∧ c2 = 'S') ∨ (c1 = 'S' ∧ c2 = 'D') then
    pure { st with c_pos1 := st.c_pos1 + 1, c_pos2 := st.c_pos2 + 1, ref_pos := st.ref_pos + 1,
                   nucigar := if c1 = 'D' ∨ c2 = 'D' then st.nucigar ++ ['D'] else st.nucigar,
                   q_pos1 := if c1 = 'S' then st.q_pos1 + 1 else st.q_pos1,
                   q_pos2 := if c1 = 'S' then st.q_pos2
                             else if c2 = 'S' then st.q_pos2 + 1 else st.q_pos2 }
  else if (c1 = 'M' ∧ (c2 = 'D' ∨ c2 = 'H' ∨ c2 = 'S')) ∨
      ((c1 = 'D' ∨ c1 = 'H' ∨ c1 = 'S') ∧ c2 = 'M') ∨ (c1 = 'S' ∧ c2 = 'H') ∨
      (c1 = 'H' ∧ c2 = 'S') then
    if c1 = 'M' then
      let b1 ← readAt self.sequence1.forward st.q_pos1
      let q1 ← readAt self.sequence1.forward_qualities st.q_pos1
      pure { st with nucigar := st.nucigar ++ ['M'], dna := st.dna ++ [b1],
                     qualities := st.qualities ++ [q1], ref_pos := st.ref_pos + 1,
                     c_pos1 := st.c_pos1 + 1, c_pos2 := st.c_pos2 + 1, q_pos1 := st.q_pos1 + 1,
                     q_pos2 := if c2 = 'S' then st.q_pos2 + 1 else st.q_pos2 }
    else if c2 = 'M' then
      let b2 ← readAt alignment.QueryBases st.q_pos2
      let q2 ← readAt alignment.Qualities st.q_pos2
      pure { st with nucigar := st.nucigar ++ ['M'], dna := st.dna ++ [b2],
                     qualities := st.qualities ++ [q2], ref_pos := st.ref_pos + 1,
                     c_pos1 := st.c_pos1 + 1, c_pos2 := st.c_pos2 + 1, q_pos2 := st.q_pos2 + 1,
                     q_pos1 := if c1 = 'S' then st.q_pos1 + 1 else st.q_pos1 }
    else if c1 = 'S' then
      pure { st with ref_pos := st.ref_pos + 1, c_pos1 := st.c_pos1 + 1,
                     c_pos2 := st.c_pos2 + 1, q_pos1 := st.q_pos1 + 1 }
    else
      pure { st with ref_pos := st.ref_pos + 1, c_pos1 := st.c_pos1 + 1,
                     c_pos2 := st.c_pos2 + 1, q_pos2 := st.q_pos2 + 1 }
  else if c1 = 'I' ∨ c2 = 'I' then
    if c1 = 'I' then
      let b1 ← readAt self.sequence1.forward st.q_pos1
      let q1 ← readAt self.sequence1.forward_qualities st.q_pos1
      pure { st with nucigar := st.nucigar ++ ['I'], dna := st.dna ++ [b1],
                     qualities := st.qualities ++ [q1],
                     c_pos1 := st.c_pos1 + 1, q_pos1 := st.q_pos1 + 1 }
    else
      let b2 ← readAt alignment.QueryBases st.q_pos2
      let q2 ← readAt alignment.Qualities st.q_pos2
      pure { st with nucigar := st.nucigar ++ ['I'], dna := st.dna ++ [b2],
                     qualities := st.qualities ++ [q2],
                     c_pos2 := st.c_pos2 + 1, q_pos2 := st.q_pos2 + 1 }
  else
    .error .fault

/-- `AlignmentRecord::getMergedDnaSequence(alignment)`: merges an overlapping
raw alignment into mate 1 of the record. The last statement refreshes
`cov_pos` with `coveredPositions()`, so the call completes only if that call
does. -/
def AlignmentRecord.getMergedDnaSequence (T : QualityTables) (self : AlignmentRecord)
    (alignment : BamAlignment) : Except MergeError AlignmentRecord := do
  let cigar_temp_unrolled := unrollInto [] alignment.CigarData
  let offset_f1 := computeOffset self.cigar1_unrolled
  let offset_f2 := computeOffset cigar_temp_unrolled
  let offset_b1 := computeRevOffset self.cigar1_unrolled
  let offset_b2 := computeRevOffset cigar_temp_unrolled
  let ref_s_pos1 : Int := (self.start1 : Int) - offset_f1
  let ref_e_pos1 : Int := (self.end1 : Int) + offset_b1
  let ref_s_pos2 : Int := (alignment.Position : Int) + 1 - offset_f2
  let ref_e_pos2 : Int := (alignment.EndPosition : Int) + offset_b2
  let fuel := self.cigar1_unrolled.length + cigar_temp_unrolled.length + 1
  let solo1 : MergeState → Except MergeError MergeState :=
    fun st => (self.noOverlapMerge st.solo1 1).map st.setSolo1
  let solo2 : MergeState → Except MergeError MergeState :=
    fun st => (noOverlapMergeAlignment alignment cigar_temp_unrolled st.solo2).map st.setSolo2
  let joint : MergeState → Except MergeError MergeState :=
    fun st => self.overlapMergeAlignment T alignment cigar_temp_unrolled st
  let fin ←
    if ref_s_pos1 ≤ ref_s_pos2 ∧ ref_e_pos1 ≤ ref_e_pos2 then do
      let st0 : MergeState := ⟨[], [], [], 0, 0, 0, 0, ref_s_pos1⟩
      let st1 ← whileLoop (fun st => st.ref_pos < ref_s_pos2) solo1 fuel st0
      let st2 ← whileLoop (fun st => st.ref_pos ≤ ref_e_pos1) joint fuel st1
      whileLoop (fun st => st.ref_pos ≤ ref_e_pos2) solo2 fuel st2
    else if ref_s_pos1 ≤ ref_s_pos2 ∧ ref_e_pos1 ≥ ref_e_pos2 then do
      let st0 : MergeState := ⟨[], [], [], 0, 0, 0, 0, ref_s_pos1⟩
      let st1 ← whileLoop (fun st => st.ref_pos < ref_s_pos2) solo1 fuel st0
      let st2 ← whileLoop (fun st => st.ref_pos ≤ ref_e_pos2) joint fuel st1
      whileLoop (fun st => st.ref_pos ≤ ref_e_pos1) solo1 fuel st2
    else if ref_s_pos1 ≥ ref_s_pos2 ∧ ref_e_pos1 ≤ ref_e_pos2 then do
      let st0 : MergeState := ⟨[], [], [], 0, 0, 0, 0, ref_s_pos2⟩
      let st1 ← whileLoop (fun st => st.ref_pos < ref_s_pos1) solo2 fuel st0
      let st2 ← whileLoop (fun st => st.ref_pos ≤ ref_e_pos1) joint fuel st1
      whileLoop (fun st => st.ref_pos ≤ ref_e_pos2) solo2 fuel st2
    else
      if ref_s_pos1 ≥ ref_s_pos2 ∧ ref_e_pos1 ≥ ref_e_pos2 then do
        let st0 : MergeState := ⟨[], [], [], 0, 0, 0, 0, ref_s_pos2⟩
        let st1 ← whileLoop (fun st => st.ref_pos < ref_s_pos1) solo2 fuel st0
        let st2 ← whileLoop (fun st => st.ref_pos ≤ ref_e_pos2) joint fuel st1
        whileLoop (fun st => st.ref_pos ≤ ref_e_pos1) solo1 fuel st2
      else
        .error .fault
  let sequence : ShortDnaSequence := ⟨fin.dna, fin.qualities⟩
  let merged : AlignmentRecord :=
    { self with
      start1 := min self.start1 (alignment.Position + 1)
      end1 := max alignment.EndPosition self.end1
      single_end := true
      cigar1 := createCigar fin.nucigar
      sequence1 := sequence
      phred_sum1 := phred_sum fin.qualities 33
      length_incl_deletions1 := sequence.size
      length_incl_longdeletions1 := sequence.size
      cigar1_unrolled := fin.nucigar }
  let _ ← merged.coveredPositions T
  pure merged

/-- `AlignmentRecord::pairWith(alignment)`. The two branches for an alignment
that does not overlap mate 1 end with `cov_pos = coveredPositions()`, so they
complete only if that call does. -/
def AlignmentRecord.pairWith (T : QualityTables) (self : AlignmentRecord)
    (alignment : BamAlignment) : Except MergeError AlignmentRecord :=
  if alignment.Position + 1 > self.end1 then do
    let sequence2 : ShortDnaSequence := ⟨alignment.QueryBases, alignment.Qualities⟩
    let st := cigarLoop alignment.CigarData self.cigar2_unrolled sequence2.size sequence2.size
    let paired : AlignmentRecord :=
      { self with
        single_end := false
        start2 := alignment.Position + 1
        end2 := alignment.EndPosition
        cigar2 := alignment.CigarData
        sequence2 := sequence2
        phred_sum2 := phred_sum alignment.Qualities 33
        cigar2_unrolled := st.1
        length_incl_deletions2 := st.2.1
        length_incl_longdeletions2 := st.2.2 }
    let _ ← paired.coveredPositions T
    pure paired
  else if alignment.EndPosition < self.start1 then do
    let sequence1 : ShortDnaSequence := ⟨alignment.QueryBases, alignment.Qualities⟩
    let st := cigarLoop alignment.CigarData [] sequence1.size sequence1.size
    let paired : AlignmentRecord :=
      { self with
        single_end := false
        start2 := self.start1
        end2 := self.end1
        cigar2 := self.cigar1
        sequence2 := self.sequence1
        phred_sum2 := self.phred_sum1
        cigar2_unrolled := self.cigar1_unrolled
        length_incl_deletions2 := self.length_incl_deletions1
        length_incl_longdeletions2 := self.length_incl_longdeletions1
        start1 := alignment.Position + 1
        end1 := alignment.EndPosition
        cigar1 := alignment.CigarData
        sequence1 := sequence1
        phred_sum1 := phred_sum alignment.Qualities 33
        cigar1_unrolled := st.1
        length_incl_deletions1 := st.2.1
        length_incl_longdeletions1 := st.2.2 }
    let _ ← paired.coveredPositions T
    pure paired
  else
    self.getMergedDnaSequence T alignment

/-! ## Paired and mixed merges -/

/-- `computeSOffset(cigar, c, q)`: skips the leading clip tags of `cigar`; the
pair is the by-reference arguments `(c, q)`. -/
def computeSOffset : List Char → Nat × Nat → Nat × Nat
  | [], cq => cq
  | i :: rest, cq =>
    if i = 'S' then computeSOffset rest (cq.1 + 1, cq.2 + 1)
    else if i = 'H' then computeSOffset rest (cq.1 + 1, cq.2)
    else cq

/-- The cursor pairs of `mergeAlignmentRecordsPaired`, named after its local
variables `c_<k>_pos<n>` / `q_<k>_pos<n>`: mate `k` of the record (`n = 1`) or of
`ar` (`n = 2`). -/
inductive Cursor where
  | c1_pos1
  | c2_pos1
  | c1_pos2
  | c2_pos2
  deriving DecidableEq, Repr

/-- The local variables of `mergeAlignmentRecordsPaired` that the step
functions update by reference. `ref_pos` is the one reference position that
the taken branch advances. `mergeAlignmentRecordsMixed` uses the same layout:
its cursors `c_pos1`, `c_p_pos1`, `c_p_pos2` are the cursors of the mates they
walk. -/
structure PairedState where
  dna : List Char
  qualities : List Int
  nucigar : List Char
  q_c1_pos1 : Nat
  q_c2_pos1 : Nat
  q_c1_pos2 : Nat
  q_c2_pos2 : Nat
  c_c1_pos1 : Nat
  c_c2_pos1 : Nat
  c_c1_pos2 : Nat
  c_c2_pos2 : Nat
  ref_pos : Int
  deriving DecidableEq, Repr

/-- The locals at the start of a branch whose reference position starts at
`ref`. -/
def PairedState.init (ref : Int) : PairedState :=
  { dna := [], qualities := [], nucigar := [],
    q_c1_pos1 := 0, q_c2_pos1 := 0, q_c1_pos2 := 0, q_c2_pos2 := 0,
    c_c1_pos1 := 0, c_c2_pos1 := 0, c_c1_pos2 := 0, c_c2_pos2 := 0, ref_pos := ref }

/-- Value of the cigar cursor `k`. -/
def PairedState.getC (st : PairedState) : Cursor → Nat
  | .c1_pos1 => st.c_c1_pos1
  | .c2_pos1 => st.c_c2_pos1
  | .c1_pos2 => st.c_c1_pos2
  | .c2_pos2 => st.c_c2_pos2

/-- Value of the query cursor `k`. -/
def PairedState.getQ (st : PairedState) : Cursor → Nat
  | .c1_pos1 => st.q_c1_pos1
  | .c2_pos1 => st.q_c2_pos1
  | .c1_pos2 => st.q_c1_pos2
  | .c2_pos2 => st.q_c2_pos2

/-- Assignment to the cigar cursor `k`. -/
def PairedState.setC (st : PairedState) (k : Cursor) (v : Nat) : PairedState :=
  match k with
  | .c1_pos1 => { st with c_c1_pos1 := v }
  | .c2_pos1 => { st with c_c2_pos1 := v }
  | .c1_pos2 => { st with c_c1_pos2 := v }
  | .c2_pos2 => { st with c_c2_pos2 := v }

/-- Assignment to the query cursor `k`. -/
def PairedState.setQ (st : PairedState) (k : Cursor) (v : Nat) : PairedState :=
  match k with
  | .c1_pos1 => { st with q_c1_pos1 := v }
  | .c2_pos1 => { st with q_c2_pos1 := v }
  | .c1_pos2 => { st with q_c1_pos2 := v }
  | .c2_pos2 => { st with q_c2_pos2 := v }

/-- An `int` converted to `unsigned int`. The loops of
`mergeAlignmentRecordsPaired` and `mergeAlignmentRecordsMixed` that test the
`int` reference cursor against `this->end1`, `this->start2`, `ar.getEnd1()` or
`ar.getStart2()` compare it with an `unsigned int`, so the cursor is converted
first: a negative cursor is a value above every position. -/
def toUnsigned (x : Int) : Int :=
  x % 4294967296

/-- The call `rec.noOverlapMerge(dna, qualities, nucigar, c_k, q_k, ref, i)`
on the locals. -/
def soloStep (rec : AlignmentRecord) (i : Int) (k : Cursor) (st : PairedState) :
    Except MergeError PairedState :=
  (rec.noOverlapMerge
      { dna := st.dna, qualities := st.qualities, nucigar := st.nucigar,
        c_pos := st.getC k, q_pos := st.getQ k, ref_pos := st.ref_pos } i).map
    (fun r => { (st.setC k r.c_pos).setQ k r.q_pos with
      dna := r.dna, qualities := r.qualities, nucigar := r.nucigar, ref_pos := r.ref_pos })

/-- The call `overlapMerge(ar, dna, qualities, nucigar, c_kc1, c_kc2, q_kq1,
q_kq2, ref, i, j)` on the locals. The source never passes the same variable
twice, so the order of the four write-backs does not matter. -/
def jointStep (T : QualityTables) (self ar : AlignmentRecord) (i j : Int)
    (kc1 kc2 kq1 kq2 : Cursor) (st : PairedState) : Except MergeError PairedState :=
  (self.overlapMerge T ar
      { dna := st.dna, qualities := st.qualities, nucigar := st.nucigar,
        c_pos1 := st.getC kc1, c_pos2 := st.getC kc2,
        q_pos1 := st.getQ kq1, q_pos2 := st.getQ kq2, ref_pos := st.ref_pos } i j).map
    (fun r => { (((st.setC kc1 r.c_pos1).setC kc2 r.c_pos2).setQ kq1 r.q_pos1).setQ kq2 r.q_pos2 with
      dna := r.dna, qualities := r.qualities, nucigar := r.nucigar, ref_pos := r.ref_pos })

/-- The call `computeSOffset(cigar, c_k, q_k)` on the locals. -/
def sOffsetStep (cigar : List Char) (k : Cursor) (st : PairedState) : PairedState :=
  let cq := computeSOffset cigar (st.getC k, st.getQ k)
  (st.setC k cq.1).setQ k cq.2

/-- The closing `if (ref-1 == x) { while (ref <= y) a } else if (ref-1 == y)
{ while (ref <= x) b }` of the paired and mixed branches. -/
def tailPhase (fuel : Nat) (x y : Int) (a b : PairedState → Except MergeError PairedState)
    (st : PairedState) : Except MergeError PairedState :=
  if st.ref_pos - 1 = x then
    whileLoop (fun s => s.ref_pos ≤ y) a fuel st
  else if st.ref_pos - 1 = y then
    whileLoop (fun s => s.ref_pos ≤ x) b fuel st
  else
    pure st

/-- The branches of `mergeAlignmentRecordsPaired` after the first one, in
source order (`b2` is the second `if` of the cascade, `b13` the last). -/
inductive PairedBranch where
  | b2 | b3 | b4 | b5 | b6 | b7 | b8 | b9 | b10 | b11 | b12 | b13
  deriving DecidableEq, Repr

/-- The conditions of the `else if` cascade of `mergeAlignmentRecordsPaired`
below its first branch; `none` when no condition holds. -/
def pairedBranch (self ar : AlignmentRecord) : Option PairedBranch :=
  let ref_s_pos1_c1 : Int := (self.start1 : Int) - computeOffset self.cigar1_unrolled
  let ref_s_pos1_c2 : Int := (self.start2 : Int) - computeOffset self.cigar2_unrolled
  let ref_s_pos2_c1 : Int := (ar.start1 : Int) - computeOffset ar.cigar1_unrolled
  let ref_s_pos2_c2 : Int := (ar.start2 : Int) - computeOffset ar.cigar2_unrolled
  if ref_s_pos1_c1 ≤ ref_s_pos2_c1 ∧ self.end1 ≥ ar.start1 ∧ self.start2 ≤ ar.end1 ∧
      self.end2 ≥ ar.start2 then some .b2
  else if ref_s_pos1_c1 ≤ ref_s_pos2_c1 ∧ self.end1 ≥ ar.start1 ∧ self.start2 ≤ ar.end1 ∧
      self.end2 < ar.start2 then some .b3
  else if ref_s_pos2_c1 ≤ ref_s_pos1_c2 ∧ self.end1 < ar.start1 ∧ self.start2 ≤ ar.end1 ∧
      self.end2 ≥ ar.start2 then some .b4
  else if ref_s_pos1_c2 ≤ ref_s_pos2_c1 ∧ self.end1 < ar.start1 ∧ self.start2 ≤ ar.end1 ∧
      self.end2 ≥ ar.start2 then some .b5
  else if ref_s_pos1_c1 ≤ ref_s_pos2_c1 ∧ self.start1 ≤ ar.end1 ∧ self.end1 ≥ ar.start2 ∧
      self.start2 ≤ ar.end2 then some .b6
  else if ref_s_pos1_c1 ≤ ref_s_pos2_c1 ∧ self.start2 > ar.end2 ∧ self.end1 ≥ ar.start2 ∧
      self.start1 ≤ ar.end1 then some .b7
  else if ref_s_pos2_c1 ≤ ref_s_pos1_c1 ∧ self.end1 ≥ ar.start1 ∧ self.start2 ≤ ar.end1 ∧
      self.end2 ≥ ar.start2 then some .b8
  else if ref_s_pos2_c1 ≤ ref_s_pos1_c1 ∧ self.end1 ≥ ar.start1 ∧ self.start2 ≤ ar.end1 ∧
      self.end2 < ar.start2 then some .b9
  else if ref_s_pos1_c1 ≤ ref_s_pos2_c2 ∧ self.start1 > ar.end1 ∧ self.end1 ≥ ar.start2 ∧
      self.start2 ≤ ar.end2 then some .b10
  else if ref_s_pos2_c2 ≤ ref_s_pos1_c1 ∧ ar.end1 < self.start1 ∧ self.end1 ≥ ar.start2 ∧
      self.start2 ≤ ar.end2 then some .b11
  else if ref_s_pos2_c1 ≤ ref_s_pos1_c1 ∧ self.start1 ≤ ar.end1 ∧ self.end1 ≥ ar.start2 ∧
      self.start2 ≤ ar.end2 then some .b12
  else if ref_s_pos2_c1 ≤ ref_s_pos1_c1 ∧ self.start2 > ar.end2 ∧ self.start1 ≤ ar.end1 ∧
      self.end1 ≥ ar.start2 then some .b13
  else none

/-- The loops of branch `b` of `mergeAlignmentRecordsPaired`, from fresh locals
to the locals at the branch's closing assignments. Every successful step
advances a cigar cursor, so the total CIGAR length plus one bounds each loop.
`this1`/`this2`/`ar1`/`ar2` are the solo calls on the four mates, `jKL` the
joint call on mate `K` of the record and mate `L` of `ar`. -/
def pairedLoops (T : QualityTables) (self ar : AlignmentRecord) (b : PairedBranch) :
    Except MergeError PairedState := do
  let fuel := self.cigar1_unrolled.length + self.cigar2_unrolled.length +
    ar.cigar1_unrolled.length + ar.cigar2_unrolled.length + 1
  let ref_s_pos1_c1 : Int := (self.start1 : Int) - computeOffset self.cigar1_unrolled
  let ref_e_pos1_c1 : Int := (self.end1 : Int) + computeRevOffset self.cigar1_unrolled
  let ref_s_pos1_c2 : Int := (self.start2 : Int) - computeOffset self.cigar2_unrolled
  let ref_e_pos1_c2 : Int := (self.end2 : Int) + computeRevOffset self.cigar2_unrolled
  let ref_s_pos2_c1 : Int := (ar.start1 : Int) - computeOffset ar.cigar1_unrolled
  let ref_e_pos2_c1 : Int := (ar.end1 : Int) + computeRevOffset ar.cigar1_unrolled
  let ref_s_pos2_c2 : Int := (ar.start2 : Int) - computeOffset ar.cigar2_unrolled
  let ref_e_pos2_c2 : Int := (ar.end2 : Int) + computeRevOffset ar.cigar2_unrolled
  let this1 := soloStep self 1 .c1_pos1
  let this2 := soloStep self 2 .c2_pos1
  let ar1 := soloStep ar 1 .c1_pos2
  let ar2 := soloStep ar 2 .c2_pos2
  let j11 := jointStep T self ar 1 1 .c1_pos1 .c1_pos2 .c1_pos1 .c1_pos2
  let j21 := jointStep T self ar 2 1 .c2_pos1 .c1_pos2 .c2_pos1 .c1_pos2
  let j22 := jointStep T self ar 2 2 .c2_pos1 .c2_pos2 .c2_pos1 .c2_pos2
  let j12 := jointStep T self ar 1 2 .c1_pos1 .c2_pos2 .c1_pos1 .c2_pos2
  match b with
  | .b2 =>
    let st ← whileLoop (fun s => s.ref_pos < ref_s_pos2_c1) this1 fuel (.init ref_s_pos1_c1)
    let st ← whileLoop (fun s => toUnsigned s.ref_pos ≤ (self.end1 : Int)) j11 fuel st
    let st ← whileLoop (fun s => toUnsigned s.ref_pos < (self.start2 : Int)) ar1 fuel st
    let st := sOffsetStep self.cigar2_unrolled .c2_pos1 st
    let st ← whileLoop (fun s => toUnsigned s.ref_pos ≤ (ar.end1 : Int)) j21 fuel st
    let st ← whileLoop (fun s => toUnsigned s.ref_pos < (ar.start2 : Int)) this2 fuel st
    let st := sOffsetStep ar.cigar2_unrolled .c2_pos2 st
    let st ← whileLoop (fun s => s.ref_pos ≤ ref_e_pos2_c2 ∧ s.ref_pos ≤ ref_e_pos1_c2) j22 fuel st
    tailPhase fuel ref_e_pos2_c2 ref_e_pos1_c2 this2 ar2 st
  | .b3 =>
    let st ← whileLoop (fun s => s.ref_pos ≤ ref_s_pos2_c1) this1 fuel (.init ref_s_pos1_c1)
    let st ← whileLoop (fun s => toUnsigned s.ref_pos ≤ (self.end1 : Int)) j11 fuel st
    let st ← whileLoop (fun s => toUnsigned s.ref_pos < (self.start2 : Int)) ar1 fuel st
    let st := sOffsetStep self.cigar2_unrolled .c2_pos1 st
    let st ← whileLoop (fun s => s.ref_pos ≤ ref_e_pos2_c1 ∧ s.ref_pos ≤ ref_e_pos1_c2) j21 fuel st
    tailPhase fuel ref_e_pos2_c1 ref_e_pos1_c2 this2 ar1 st
  | .b4 =>
    let st ← whileLoop (fun s => s.ref_pos < ref_s_pos1_c2) ar1 fuel (.init ref_s_pos2_c1)
    let st ← whileLoop (fun s => toUnsigned s.ref_pos ≤ (ar.end1 : Int)) j21 fuel st
    let st ← whileLoop (fun s => toUnsigned s.ref_pos < (ar.start2 : Int)) this2 fuel st
    let st := sOffsetStep ar.cigar2_unrolled .c2_pos2 st
    let st ← whileLoop (fun s => s.ref_pos ≤ ref_e_pos2_c2 ∧ s.ref_pos ≤ ref_e_pos1_c2) j22 fuel st
    tailPhase fuel ref_e_pos2_c2 ref_e_pos1_c2 this2 ar2 st
  | .b5 =>
    let st ← whileLoop (fun s => s.ref_pos < ref_s_pos2_c1) this2 fuel (.init ref_s_pos1_c2)
    let st ← whileLoop (fun s => toUnsigned s.ref_pos ≤ (ar.end1 : Int)) j21 fuel st
    let st ← whileLoop (fun s => toUnsigned s.ref_pos < (ar.start2 : Int)) this2 fuel st
    let st := sOffsetStep ar.cigar2_unrolled .c2_pos2 st
    let st ← whileLoop (fun s => s.ref_pos ≤ ref_e_pos1_c2 ∧ s.ref_pos ≤ ref_e_pos2_c2) j22 fuel st
    tailPhase fuel ref_e_pos1_c2 ref_e_pos2_c2 ar2 this2 st
  | .b6 =>
    let st ← whileLoop (fun s => s.ref_pos < ref_s_pos2_c1) this1 fuel (.init ref_s_pos1_c1)
    let st ← whileLoop (fun s => toUnsigned s.ref_pos ≤ (ar.end1 : Int)) j11 fuel st
    let st ← whileLoop (fun s => toUnsigned s.ref_pos < (ar.start2 : Int)) this1 fuel st
    let st := sOffsetStep ar.cigar2_unrolled .c2_pos2 st
    let st ← whileLoop (fun s => toUnsigned s.ref_pos ≤ (self.end1 : Int)) j12 fuel st
    let st ← whileLoop (fun s => toUnsigned s.ref_pos < (self.start2 : Int)) ar2 fuel st
    let st := sOffsetStep self.cigar2_unrolled .c2_pos1 st
    let st ← whileLoop (fun s => s.ref_pos ≤ ref_e_pos2_c2 ∧ s.ref_pos ≤ ref_e_pos1_c2) j22 fuel st
    tailPhase fuel ref_e_pos2_c2 ref_e_pos1_c2 this2 ar2 st
  | .b7 =>
    let st ← whileLoop (fun s => s.ref_pos < ref_s_pos2_c1) this1 fuel (.init ref_s_pos1_c1)
    let st ← whileLoop (fun s => toUnsigned s.ref_pos ≤ (ar.end1 : Int)) j11 fuel st
    let st ← whileLoop (fun s => toUnsigned s.ref_pos < (ar.start2 : Int)) this1 fuel st
    let st := sOffsetStep ar.cigar2_unrolled .c2_pos2 st
    let st ← whileLoop (fun s => s.ref_pos ≤ ref_e_pos1_c1 ∧ s.ref_pos ≤ ref_e_pos2_c2)
      (jointStep T self ar 1 2 .c1_pos1 .c2_pos2 .c2_pos1 .c2_pos2) fuel st
    tailPhase fuel ref_e_pos1_c1 ref_e_pos2_c2 ar2 this1 st
  | .b8 =>
    let st ← whileLoop (fun s => s.ref_pos < ref_s_pos1_c1) ar1 fuel (.init ref_s_pos2_c1)
    let st ← whileLoop (fun s => toUnsigned s.ref_pos ≤ (self.end1 : Int)) j11 fuel st
    let st ← whileLoop (fun s => toUnsigned s.ref_pos < (self.start2 : Int)) ar1 fuel st
    let st := sOffsetStep self.cigar2_unrolled .c2_pos1 st
    let st ← whileLoop (fun s => toUnsigned s.ref_pos ≤ (ar.end1 : Int)) j21 fuel st
    let st ← whileLoop (fun s => toUnsigned s.ref_pos < (ar.start2 : Int)) this2 fuel st
    let st := sOffsetStep ar.cigar2_unrolled .c2_pos2 st
    let st ← whileLoop (fun s => s.ref_pos ≤ ref_e_pos1_c2 ∧ s.ref_pos ≤ ref_e_pos2_c2) j22 fuel st
    tailPhase fuel ref_e_pos1_c2 ref_e_pos2_c2 ar2 this2 st
  | .b9 =>
    let st ← whileLoop (fun s => s.ref_pos < ref_s_pos1_c1) ar1 fuel (.init ref_s_pos2_c1)
    let st ← whileLoop (fun s => toUnsigned s.ref_pos ≤ (self.end1 : Int)) j11 fuel st
    let st ← whileLoop (fun s => toUnsigned s.ref_pos < (self.start2 : Int)) ar1 fuel st
    let st := sOffsetStep self.cigar2_unrolled .c2_pos1 st
    let st ← whileLoop (fun s => s.ref_pos ≤ ref_e_pos2_c1 ∧ s.ref_pos ≤ ref_e_pos1_c2) j21 fuel st
    tailPhase fuel ref_e_pos2_c1 ref_e_pos1_c2 this2 ar1 st
  | .b10 =>
    let st ← whileLoop (fun s => s.ref_pos < ref_s_pos2_c2) this1 fuel (.init ref_s_pos1_c1)
    let st ← whileLoop (fun s => toUnsigned s.ref_pos ≤ (self.end1 : Int)) j12 fuel st
    let st ← whileLoop (fun s => toUnsigned s.ref_pos < (self.start2 : Int)) ar2 fuel st
    let st := sOffsetStep self.cigar2_unrolled .c2_pos1 st
    let st ← whileLoop (fun s => s.ref_pos ≤ ref_e_pos1_c2 ∧ s.ref_pos ≤ ref_e_pos2_c2) j22 fuel st
    tailPhase fuel ref_e_pos1_c2 ref_e_pos2_c2 ar2 this2 st
  | .b11 =>
    let st ← whileLoop (fun s => s.ref_pos < ref_s_pos1_c1) ar2 fuel (.init ref_s_pos2_c2)
    let st ← whileLoop (fun s => toUnsigned s.ref_pos ≤ (self.end1 : Int)) j12 fuel st
    let st ← whileLoop (fun s => toUnsigned s.ref_pos < (self.start2 : Int)) ar2 fuel st
    let st := sOffsetStep self.cigar2_unrolled .c2_pos1 st
    let st ← whileLoop (fun s => s.ref_pos ≤ ref_e_pos1_c2 ∧ s.ref_pos ≤ ref_e_pos2_c2) j22 fuel st
    tailPhase fuel ref_e_pos1_c2 ref_e_pos2_c2 ar2 this2 st
  | .b12 =>
    let st ← whileLoop (fun s => s.ref_pos < ref_s_pos1_c1) ar1 fuel (.init ref_s_pos2_c1)
    let st ← whileLoop (fun s => toUnsigned s.ref_pos ≤ (ar.end1 : Int)) j11 fuel st
    let st ← whileLoop (fun s => toUnsigned s.ref_pos < (ar.start2 : Int)) this1 fuel st
    let st := sOffsetStep ar.cigar2_unrolled .c2_pos2 st
    let st ← whileLoop (fun s => toUnsigned s.ref_pos ≤ (self.end1 : Int)) j12 fuel st
    let st ← whileLoop (fun s => toUnsigned s.ref_pos < (self.start2 : Int)) ar2 fuel st
    let st := sOffsetStep self.cigar2_unrolled .c2_pos1 st
    let st ← whileLoop (fun s => s.ref_pos ≤ ref_e_pos2_c2 ∧ s.ref_pos ≤ ref_e_pos1_c2) j22 fuel st
    tailPhase fuel ref_e_pos2_c2 ref_e_pos1_c2 this2 ar2 st
  | .b13 =>
    let st ← whileLoop (fun s => s.ref_pos < ref_s_pos1_c1) ar1 fuel (.init ref_s_pos2_c1)
    let st ← whileLoop (fun s => toUnsigned s.ref_pos ≤ (ar.end1 : Int)) j11 fuel st
    let st ← whileLoop (fun s => toUnsigned s.ref_pos < (ar.start2 : Int)) this1 fuel st
    let st := sOffsetStep ar.cigar2_unrolled .c2_pos2 st
    let st ← whileLoop (fun s => s.ref_pos ≤ ref_e_pos1_c1 ∧ s.ref_pos ≤ ref_e_pos2_c2) j12 fuel st
    tailPhase fuel ref_e_pos1_c1 ref_e_pos2_c2 ar2 this1 st

/-- The assignments `start1 = min(start1, ar.start1); end1 = e; single_end =
s; cigar1 = createCigar(nucigar); ...` that store the merged strings as mate 1
of the record. -/
def storeMate1 (self ar : AlignmentRecord) (e : Nat) (s : Bool) (st : PairedState) :
    AlignmentRecord :=
  let sequence : ShortDnaSequence := ⟨st.dna, st.qualities⟩
  { self with
    start1 := min self.start1 ar.start1
    end1 := e
    single_end := s
    cigar1 := createCigar st.nucigar
    sequence1 := sequence
    phred_sum1 := phred_sum st.qualities 33
    length_incl_deletions1 := sequence.size
    length_incl_longdeletions1 := sequence.size
    cigar1_unrolled := st.nucigar }

/-- The closing assignments of branch `b` of `mergeAlignmentRecordsPaired`.
`ar` is paired-end here, so its asserting getters return the fields. -/
def pairedAssign (self ar : AlignmentRecord) (b : PairedBranch) (st : PairedState) :
    AlignmentRecord :=
  let sequence : ShortDnaSequence := ⟨st.dna, st.qualities⟩
  match b with
  | .b2 | .b6 | .b8 | .b12 => storeMate1 self ar (max ar.end2 self.end2) true st
  | .b3 | .b9 =>
    { storeMate1 self ar (max ar.end1 self.end2) false st with
      start2 := ar.start2
      end2 := ar.end2
      cigar2 := ar.cigar2
      sequence2 := ar.sequence2
      phred_sum2 := ar.phred_sum2
      length_incl_deletions2 := ar.sequence2.size
      length_incl_longdeletions1 := ar.sequence2.size
      cigar2_unrolled := ar.cigar2_unrolled }
  | .b4 | .b5 =>
    { self with
      start2 := min self.start2 ar.start1
      end2 := max ar.end2 self.end2
      single_end := false
      cigar2 := createCigar st.nucigar
      sequence2 := sequence
      phred_sum2 := phred_sum st.qualities 33
      length_incl_deletions2 := sequence.size
      length_incl_longdeletions2 := sequence.size
      cigar2_unrolled := st.nucigar }
  | .b7 | .b13 => storeMate1 self ar (max ar.end2 self.end1) false st
  | .b10 | .b11 =>
    { self with
      start1 := ar.start1
      end1 := ar.end1
      cigar1 := ar.cigar1
      sequence1 := ar.sequence1
      phred_sum1 := ar.phred_sum1
      length_incl_deletions1 := ar.sequence1.size
      length_incl_longdeletions1 := ar.sequence1.size
      cigar1_unrolled := ar.cigar1_unrolled
      start2 := min ar.start1 ar.start2
      end2 := max ar.end2 self.end2
      single_end := false
      cigar2 := createCigar st.nucigar
      sequence2 := sequence
      phred_sum2 := phred_sum st.qualities 33
      length_incl_deletions2 := sequence.size
      length_incl_longdeletions2 := sequence.size
      cigar2_unrolled := st.nucigar }

/-- `AlignmentRecord::mergeAlignmentRecordsPaired(ar)`. The initialisers call
`ar.getStart2()`, whose assertion needs `ar` to be paired-end. When no branch
condition holds the record is left as it is. -/
def AlignmentRecord.mergeAlignmentRecordsPaired (T : QualityTables)
    (self ar : AlignmentRecord) : Except MergeError AlignmentRecord :=
  if ar.single_end then .error .fault
  else if self.end1 < ar.start2 ∧ self.start2 > ar.end1 then do
    let r ← self.mergeAlignmentRecordsSingle T ar 1 1
    r.mergeAlignmentRecordsSingle T ar 2 2
  else
    match pairedBranch self ar with
    | some b => (pairedLoops T self ar b).map (pairedAssign self ar b)
    | none => pure self

/-- The loop branches of `mergeAlignmentRecordsMixed`: the third and fourth
branch when `ar` is single-end (`s3`, `s4`) and when `ar` is paired-end (`p3`,
`p4`). -/
inductive MixedBranch where
  | s3 | s4 | p3 | p4
  deriving DecidableEq, Repr

/-- The loops of branch `b` of `mergeAlignmentRecordsMixed`. The single-end
operand is walked by `c_pos1`/`q_pos1`, the mates of the paired-end operand by
`c_p_pos1`/`q_p_pos1` and `c_p_pos2`/`q_p_pos2`. -/
def mixedLoops (T : QualityTables) (self ar : AlignmentRecord) (b : MixedBranch) :
    Except MergeError PairedState := do
  let fuel := self.cigar1_unrolled.length + self.cigar2_unrolled.length +
    ar.cigar1_unrolled.length + ar.cigar2_unrolled.length + 1
  let this1 := soloStep self 1 .c1_pos1
  let this2 := soloStep self 2 .c2_pos1
  let ar1 := soloStep ar 1 .c1_pos2
  let ar2 := soloStep ar 2 .c2_pos2
  let j11 := jointStep T self ar 1 1 .c1_pos1 .c1_pos2 .c1_pos1 .c1_pos2
  let j21 := jointStep T self ar 2 1 .c2_pos1 .c1_pos2 .c2_pos1 .c1_pos2
  let j12 := jointStep T self ar 1 2 .c1_pos1 .c2_pos2 .c1_pos1 .c2_pos2
  match b with
  | .s3 =>
    let ref_s_pos1 : Int := (ar.start1 : Int) - computeOffset ar.cigar1_unrolled
    let ref_e_pos1 : Int := (ar.end1 : Int) + computeRevOffset ar.cigar1_unrolled
    let ref_p_s_pos1 : Int := (self.start1 : Int) - computeOffset self.cigar1_unrolled
    let ref_p_e_pos2 : Int := (self.end2 : Int) + computeRevOffset self.cigar2_unrolled
    let st ← whileLoop (fun s => s.ref_pos < ref_p_s_pos1) ar1 fuel (.init ref_s_pos1)
    let st ← whileLoop (fun s => toUnsigned s.ref_pos ≤ (self.end1 : Int)) j11 fuel st
    let st ← whileLoop (fun s => toUnsigned s.ref_pos < (self.start2 : Int)) ar1 fuel st
    let st := sOffsetStep self.cigar2_unrolled .c2_pos1 st
    let st ← whileLoop (fun s => s.ref_pos ≤ ref_p_e_pos2 ∧ s.ref_pos ≤ ref_e_pos1) j21 fuel st
    tailPhase fuel ref_p_e_pos2 ref_e_pos1 ar1 this2 st
  | .s4 =>
    let ref_s_pos1 : Int := (ar.start1 : Int) - computeOffset ar.cigar1_unrolled
    let ref_e_pos1 : Int := (ar.end1 : Int) + computeRevOffset ar.cigar1_unrolled
    let ref_p_s_pos1 : Int := (self.start1 : Int) - computeOffset self.cigar1_unrolled
    let ref_p_e_pos2 : Int := (self.end2 : Int) + computeRevOffset self.cigar2_unrolled
    let st ← whileLoop (fun s => s.ref_pos < ref_s_pos1) this1 fuel (.init ref_p_s_pos1)
    let st ← whileLoop (fun s => toUnsigned s.ref_pos ≤ (self.end1 : Int)) j11 fuel st
    let st ← whileLoop (fun s => toUnsigned s.ref_pos < (self.start2 : Int)) ar1 fuel st
    let st := sOffsetStep self.cigar2_unrolled .c2_pos1 st
    let st ← whileLoop (fun s => s.ref_pos ≤ ref_p_e_pos2 ∧ s.ref_pos ≤ ref_e_pos1) j21 fuel st
    tailPhase fuel ref_p_e_pos2 ref_e_pos1 ar1 this2 st
  | .p3 =>
    let ref_s_pos1 : Int := (self.start1 : Int) - computeOffset self.cigar1_unrolled
    let ref_e_pos1 : Int := (self.end1 : Int) + computeRevOffset self.cigar1_unrolled
    let ref_p_s_pos1 : Int := (ar.start1 : Int) - computeOffset ar.cigar1_unrolled
    let ref_p_e_pos2 : Int := (ar.end2 : Int) + computeRevOffset ar.cigar2_unrolled
    let st ← whileLoop (fun s => s.ref_pos < ref_p_s_pos1) this1 fuel (.init ref_s_pos1)
    let st ← whileLoop (fun s => toUnsigned s.ref_pos ≤ (ar.end1 : Int)) j11 fuel st
    let st ← whileLoop (fun s => toUnsigned s.ref_pos < (ar.start2 : Int)) this1 fuel st
    let st := sOffsetStep ar.cigar2_unrolled .c2_pos2 st
    let st ← whileLoop (fun s => s.ref_pos ≤ ref_p_e_pos2 ∧ s.ref_pos ≤ ref_e_pos1) j12 fuel st
    tailPhase fuel ref_p_e_pos2 ref_e_pos1 this1 ar2 st
  | .p4 =>
    let ref_s_pos1 : Int := (self.start1 : Int) - computeOffset self.cigar1_unrolled
    let ref_e_pos1 : Int := (self.end1 : Int) + computeRevOffset self.cigar1_unrolled
    let ref_p_s_pos1 : Int := (ar.start1 : Int) - computeOffset ar.cigar1_unrolled
    let ref_p_e_pos2 : Int := (ar.end2 : Int) + computeRevOffset ar.cigar2_unrolled
    let st ← whileLoop (fun s => s.ref_pos < ref_s_pos1) ar1 fuel (.init ref_p_s_pos1)
    let st ← whileLoop (fun s => toUnsigned s.ref_pos ≤ (ar.end1 : Int)) j11 fuel st
    let st ← whileLoop (fun s => toUnsigned s.ref_pos < (ar.start2 : Int)) this1 fuel st
    let st := sOffsetStep ar.cigar2_unrolled .c2_pos2 st
    let st ← whileLoop (fun s => s.ref_pos ≤ ref_p_e_pos2 ∧ s.ref_pos ≤ ref_e_pos1) j12 fuel st
    tailPhase fuel ref_p_e_pos2 ref_e_pos1 this1 ar2 st

/-- `AlignmentRecord::mergeAlignmentRecordsMixed(ar)`. With a single-end `ar`
the record is read as paired-end (its mate-2 members are read directly); with
a paired-end `ar` the record is read as single-end. -/
def AlignmentRecord.mergeAlignmentRecordsMixed (T : QualityTables)
    (self ar : AlignmentRecord) : Except MergeError AlignmentRecord :=
  if ar.single_end then
    let ref_s_pos1 : Int := (ar.start1 : Int) - computeOffset ar.cigar1_unrolled
    let ref_p_s_pos1 : Int := (self.start1 : Int) - computeOffset self.cigar1_unrolled
    if ar.end1 < self.start2 then do
      let r ← self.mergeAlignmentRecordsSingle T ar 1 1
      let r := { r with single_end := false }
      if r.end1 < r.start2 then pure r else .error .fault
    else if ar.start1 > self.end1 then do
      let r ← self.mergeAlignmentRecordsSingle T ar 2 1
      if r.end1 < r.start2 then pure r else .error .fault
    else if ref_s_pos1 ≤ ref_p_s_pos1 then
      (mixedLoops T self ar .s3).map (storeMate1 self ar (max ar.end1 self.end2) true)
    else if ref_s_pos1 ≥ ref_p_s_pos1 then
      (mixedLoops T self ar .s4).map (storeMate1 self ar (max ar.end1 self.end2) true)
    else
      pure self
  else
    let ref_s_pos1 : Int := (self.start1 : Int) - computeOffset self.cigar1_unrolled
    let ref_p_s_pos1 : Int := (ar.start1 : Int) - computeOffset ar.cigar1_unrolled
    if self.end1 < ar.start2 then do
      let r ← self.mergeAlignmentRecordsSingle T ar 1 1
      pure { r with
        start2 := ar.start2
        end2 := ar.end2
        single_end := false
        cigar2 := ar.cigar2
        sequence2 := ar.sequence2
        phred_sum2 := ar.phred_sum2
        length_incl_deletions2 := ar.length_incl_deletions2
        length_incl_longdeletions2 := ar.length_incl_longdeletions2
        cigar2_unrolled := ar.cigar2_unrolled }
    else if self.start1 > ar.end1 then do
      let r ← self.mergeAlignmentRecordsSingle T ar 1 2
      pure { r with
        start1 := ar.start1
        end1 := ar.end1
        single_end := false
        cigar1 := ar.cigar1
        sequence1 := ar.sequence1
        phred_sum1 := ar.phred_sum1
        length_incl_deletions1 := ar.length_incl_deletions1
        length_incl_longdeletions1 := ar.length_incl_longdeletions1
        cigar1_unrolled := ar.cigar1_unrolled }
    else if ref_s_pos1 ≤ ref_p_s_pos1 then
      (mixedLoops T self ar .p3).map (storeMate1 self ar (max ar.end2 self.end1) true)
    else if ref_s_pos1 ≥ ref_p_s_pos1 then
      (mixedLoops T self ar .p4).map (storeMate1 self ar (max ar.end2 self.end1) true)
    else
      pure self

/-! ## Interval overlap -/

/-- One round of the constructor loop: merges `al` into the record by the
routine that matches the two layouts, then adds the read ids of `al`. -/
def AlignmentRecord.mergeNext (T : QualityTables) (self al : AlignmentRecord) :
    Except MergeError AlignmentRecord := do
  let r ←
    if self.single_end ∧ al.single_end then self.mergeAlignmentRecordsSingle T al 1 1
    else if ¬ self.single_end ∧ ¬ al.single_end then self.mergeAlignmentRecordsPaired T al
    else self.mergeAlignmentRecordsMixed T al
  pure { r with readNames := r.readNames ∪ al.readNames }

/-- `AlignmentRecord(alignments, clique_id)`: seeds the record from the first
element and merges the others into it in order. Scalar members that the
source leaves uninitialised are 0 until a merge writes them. The last
statement fills `cov_pos` with `coveredPositions()`, so the constructor
completes only if that call does. -/
def AlignmentRecord.fromAlignments (T : QualityTables) (alignments : List AlignmentRecord)
    (clique_id : Nat) : Except MergeError AlignmentRecord :=
  match alignments with
  | al1 :: al2 :: rest => do
    let seed : AlignmentRecord :=
      { name := ""
        start1 := al1.start1
        end1 := al1.end1
        cigar1 := al1.cigar1
        cigar1_unrolled := al1.cigar1_unrolled
        sequence1 := al1.sequence1
        phred_sum1 := 0
        length_incl_deletions1 := 0
        length_incl_longdeletions1 := 0
        start2 := if al1.single_end then 0 else al1.start2
        end2 := if al1.single_end then 0 else al1.end2
        cigar2 := if al1.single_end then [] else al1.cigar2
        cigar2_unrolled := if al1.single_end then [] else al1.cigar2_unrolled
        sequence2 := if al1.single_end then ⟨[], []⟩ else al1.sequence2
        phred_sum2 := 0
        length_incl_deletions2 := 0
        length_incl_longdeletions2 := 0
        single_end := al1.single_end
        readNames := al1.readNames }
    let merged ← (al2 :: rest).foldlM (fun r al => r.mergeNext T al) seed
    let result := { merged with name := "Clique_" ++ toString clique_id }
    let _ ← result.coveredPositions T
    pure result
  | _ => .error .fault

/-! ## Auxiliary definitions for the statements -/

/-- Columns `k .. k+t-1` of a list, with a filler for indices past the end. -/
def cols {α : Type} (a : α) (l : List α) (k t : Nat) : List α :=
  (List.range t).map (fun j => l.getD (k + j) a)

/-- Merged columns of two sources: column `j` is `computeEntry` of the entries
at `k1 + j` of source 1 and `k2 + j` of source 2. -/
def jointCols (T : QualityTables) (bases1 : List Char) (quals1 : List Int)
    (bases2 : List Char) (quals2 : List Int) (k1 k2 t : Nat) : List (Char × Int) :=
  (List.range t).map (fun j =>
    computeEntry T (bases1.getD (k1 + j) 'N') (quals1.getD (k1 + j) 0)
      (bases2.getD (k2 + j) 'N') (quals2.getD (k2 + j) 0))

/-- A single-end record aligned to `[s, e]` without gaps or clips: every column
of its unrolled CIGAR is `M` and it stores one base and one quality per
reference position. -/
def AllMatch (r : AlignmentRecord) (s e : Nat) : Prop :=
  r.single_end = true ∧ r.start1 = s ∧ r.end1 = e ∧ s ≤ e ∧
  r.cigar1_unrolled = List.replicate (e - s + 1) 'M' ∧
  r.sequence1.forward.length = e - s + 1 ∧
  r.sequence1.forward_qualities.length = e - s + 1

/-- The fields of mate 1 that a merge into mate 1 decides: endedness,
interval, compact CIGAR, bases, qualities and Phred sum. -/
def mate1View (r : AlignmentRecord) :
    Bool × Nat × Nat × List CigarOp × List Char × List Int × Int :=
  (r.single_end, r.start1, r.end1, r.cigar1, r.sequence1.forward,
    r.sequence1.forward_qualities, r.phred_sum1)

/-! ## Sample data -/

/-- A table holding the entries that the examples look up: agreement of two
Phred-30 calls (65) and of two Phred-40 calls (85), disagreement of Phred 30
against Phred 20 (10). -/
def sampleTables : QualityTables :=
  { error_probs := fun _ => 0
    error_agreement := fun i j =>
      if i = 63 ∧ j = 63 then 65 else if i = 73 ∧ j = 73 then 85 else 0
    error_disagreement := fun i j => if i = 63 ∧ j = 53 then 10 else 0 }

/-- Read A of the end-to-end example: `[100, 120]`, all `M`, Phred 30. -/
def sampleAlignmentA : BamAlignment :=
  ⟨"A", 99, 120, [⟨'M', 21⟩], List.replicate 21 'A', List.replicate 21 63⟩

/-- Read B of the end-to-end example: `[110, 130]`, all `M`, Phred 30. -/
def sampleAlignmentB : BamAlignment :=
  ⟨"B", 109, 130, [⟨'M', 21⟩], List.replicate 21 'A', List.replicate 21 63⟩

/-- The single-end record of read A. -/
def sampleA : AlignmentRecord :=
  AlignmentRecord.fromAlignment sampleAlignmentA 0

/-- The single-end record of read B. -/
def sampleB : AlignmentRecord :=
  AlignmentRecord.fromAlignment sampleAlignmentB 1

/-- The record that merging `sampleB` into `sampleA` leaves. -/
def sampleMergedAB : AlignmentRecord :=
  match sampleA.mergeAlignmentRecordsSingle sampleTables sampleB 1 1 with
  | .ok r => r
  | .error _ => sampleA

/-- First alignment of a read: `[100, 104]`. -/
def readFirst : BamAlignment :=
  ⟨"read", 99, 104, [⟨'M', 5⟩], List.replicate 5 'A', List.replicate 5 63⟩

/-- Its mate: `[200, 204]`. -/
def readMate : BamAlignment :=
  ⟨"read", 199, 204, [⟨'M', 5⟩], List.replicate 5 'C', List.replicate 5 63⟩

/-- A further alignment of the same read that overlaps the first: `[102, 106]`. -/
def readSupplementary : BamAlignment :=
  ⟨"read", 101, 106, [⟨'M', 5⟩], List.replicate 5 'A', List.replicate 5 63⟩

/-- A further alignment of the same read after all others: `[300, 304]`. -/
def readLate : BamAlignment :=
  ⟨"read", 299, 304, [⟨'M', 5⟩], List.replicate 5 'G', List.replicate 5 63⟩

/-- The record after `readFirst`, `readMate` and `readSupplementary`: the third
alignment overlaps mate 1, so `getMergedDnaSequence` makes the record
single-end again. -/
def collapsedRecord : AlignmentRecord :=
  match ((AlignmentRecord.fromAlignment readFirst 0).pairWith sampleTables readMate).bind
      (fun r => r.pairWith sampleTables readSupplementary) with
  | .ok r => r
  | .error _ => AlignmentRecord.fromAlignment readFirst 0

/-- A one-base mate of `readFirst`: `[200, 200]`. -/
def readShortMate : BamAlignment :=
  ⟨"read", 199, 200, [⟨'M', 1⟩], ['C'], [63]⟩

/-- A further alignment of the same read after all others, with a trailing
soft clip: `4M1S` on `[300, 303]`. -/
def readClippedLate : BamAlignment :=
  ⟨"read", 299, 303, [⟨'M', 4⟩, ⟨'S', 1⟩], List.replicate 5 'G', List.replicate 5 63⟩

/-- The record after `readFirst`, `readShortMate` and `readSupplementary`:
single-end again after the third alignment was merged into mate 1. -/
def staleRecord : AlignmentRecord :=
  match ((AlignmentRecord.fromAlignment readFirst 0).pairWith sampleTables readShortMate).bind
      (fun r => r.pairWith sampleTables readSupplementary) with
  | .ok r => r
  | .error _ => AlignmentRecord.fromAlignment readFirst 0

/-- A paired-end sample: mate 1 on `[100, 104]` with a deletion, mate 2 on
`[200, 202]` with a leading soft clip and a trailing insertion. -/
def samplePaired : AlignmentRecord :=
  { AlignmentRecord.fromAlignment
      ⟨"P", 99, 104, [⟨'M', 2⟩, ⟨'D', 1⟩, ⟨'M', 2⟩], ['A', 'C', 'G', 'T'], [63, 63, 63, 63]⟩ 0 with
    single_end := false
    start2 := 200
    end2 := 202
    cigar2 := [⟨'S', 1⟩, ⟨'M', 3⟩, ⟨'I', 1⟩]
    cigar2_unrolled := ['S', 'M', 'M', 'M', 'I']
    sequence2 := ⟨['T', 'A', 'C', 'G', 'A'], [63, 63, 63, 63, 63]⟩
    phred_sum2 := 150
    length_incl_deletions2 := 5
    length_incl_longdeletions2 := 5 }

/-! ## Further definitions for the statements -/

/-- The property of the three output strings that the merge steps maintain:
the operation string holds only `M`, `I` and `D`, and there is one base and one
quality per emitted `M` or `I`. -/
def EmittedOk (dna : List Char) (qualities : List Int) (nucigar : List Char) : Prop :=
  (∀ c ∈ nucigar, c = 'M' ∨ c = 'I' ∨ c = 'D') ∧ dna.length = qualities.length ∧
    dna.length = nucigar.count 'M' + nucigar.count 'I'

/-- Output strings that some sequence of solo and joint steps produces from
empty strings. The sources, cursors and reference position of every step are
arbitrary. -/
inductive EmittedBy (T : QualityTables) : List Char → List Int → List Char → Prop
  | empty : EmittedBy T [] [] []
  | solo (cigar bases : List Char) (quals : List Int) (st r : SoloState) :
      EmittedBy T st.dna st.qualities st.nucigar →
      noOverlapMergeOn cigar bases quals st = .ok r →
      EmittedBy T r.dna r.qualities r.nucigar
  | joint (cigar1 bases1 : List Char) (quals1 : List Int) (cigar2 bases2 : List Char)
      (quals2 : List Int) (st r : MergeState) :
      EmittedBy T st.dna st.qualities st.nucigar →
      overlapMergeOn T cigar1 bases1 quals1 cigar2 bases2 quals2 st = .ok r →
      EmittedBy T r.dna r.qualities r.nucigar

/-- Number of tags of an unrolled CIGAR that consume a stored base. -/
def storedBases (cigar : List Char) : Nat :=
  cigar.count 'M' + cigar.count 'I' + cigar.count 'S'

/-- The closing assignments of `mergeAlignmentRecordsSingle(ar, i, j)` on the
final locals `fin`, with `ar.getStart2()` and `ar.getEnd2()` read as the
fields. -/
def singleAssign (self ar : AlignmentRecord) (i j : Int) (fin : MergeState) : AlignmentRecord :=
  let sequence : ShortDnaSequence := ⟨fin.dna, fin.qualities⟩
  if i = 1 then
    if j = 1 then
      { self with
        start1 := min self.start1 ar.start1
        end1 := max ar.end1 self.end1
        single_end := true
        cigar1 := createCigar fin.nucigar
        sequence1 := sequence
        phred_sum1 := phred_sum fin.qualities 33
        length_incl_deletions1 := sequence.size
        length_incl_longdeletions1 := sequence.size
        cigar1_unrolled := fin.nucigar }
    else
      { self with
        start2 := min self.start1 ar.start2
        end2 := max self.end1 ar.end2
        cigar2 := createCigar fin.nucigar
        sequence2 := sequence
        phred_sum2 := phred_sum fin.qualities 33
        length_incl_deletions2 := sequence.size
        length_incl_longdeletions2 := sequence.size
        cigar2_unrolled := fin.nucigar }
  else
    { self with
      start2 := min self.start2 (if j = 1 then ar.start1 else ar.start2)
      end2 := max (if j = 1 then ar.end1 else ar.end2) self.end2
      single_end := false
      cigar2 := createCigar fin.nucigar
      sequence2 := sequence
      phred_sum2 := phred_sum fin.qualities 33
      length_incl_deletions2 := sequence.size
      length_incl_longdeletions2 := sequence.size
      cigar2_unrolled := fin.nucigar }

/-- The loops of `mergeAlignmentRecordsSingle(ar, i, j)`: `mergePhases` on the
steps and bounds that the routine passes. -/
def singleLoops (T : QualityTables) (self ar : AlignmentRecord) (i j : Int) :
    Except MergeError MergeState :=
  let cigarThis := if i = 1 then self.cigar1_unrolled else self.cigar2_unrolled
  let cigar := if j = 1 then ar.cigar1_unrolled else ar.cigar2_unrolled
  mergePhases
    (fun st => (self.noOverlapMerge st.solo1 i).map st.setSolo1)
    (fun st => (ar.noOverlapMerge st.solo2 j).map st.setSolo2)
    (fun st => self.overlapMerge T ar st i j)
    (cigarThis.length + cigar.length + 1)
    ((if i = 1 then (self.start1 : Int) else self.start2) - computeOffset cigarThis)
    ((if i = 1 then (self.end1 : Int) else self.end2) + computeRevOffset cigarThis)
    (((if j = 1 then ar.start1 else ar.start2 : Nat) : Int) - computeOffset cigar)
    (((if j = 1 then ar.end1 else ar.end2 : Nat) : Int) + computeRevOffset cigar)

/-- The mate-order predicate: a paired-end record has `start1 ≤ start2`. -/
def MateOrder (r : AlignmentRecord) : Prop :=
  r.single_end = false → r.start1 ≤ r.start2

/-- Each mate of the record has `start ≤ end`. -/
def IntervalsOk (r : AlignmentRecord) : Prop :=
  r.start1 ≤ r.end1 ∧ (r.single_end = false → r.start2 ≤ r.end2)

/-- The single-end record that holds mate 1 of `r` and nothing else. -/
def mate1Single (r : AlignmentRecord) : AlignmentRecord :=
  { name := ""
    start1 := r.start1
    end1 := r.end1
    cigar1 := r.cigar1
    cigar1_unrolled := r.cigar1_unrolled
    sequence1 := r.sequence1
    phred_sum1 := r.phred_sum1
    length_incl_deletions1 := r.length_incl_deletions1
    length_incl_longdeletions1 := r.length_incl_longdeletions1
    start2 := 0
    end2 := 0
    cigar2 := []
    cigar2_unrolled := []
    sequence2 := ⟨[], []⟩
    phred_sum2 := 0
    length_incl_deletions2 := 0
    length_incl_longdeletions2 := 0
    single_end := true
    readNames := ∅ }

/-- The single-end record that holds mate 2 of `r` (as its mate 1) and nothing
else. -/
def mate2Single (r : AlignmentRecord) : AlignmentRecord :=
  { name := ""
    start1 := r.start2
    end1 := r.end2
    cigar1 := r.cigar2
    cigar1_unrolled := r.cigar2_unrolled
    sequence1 := r.sequence2
    phred_sum1 := r.phred_sum2
    length_incl_deletions1 := r.length_incl_deletions2
    length_incl_longdeletions1 := r.length_incl_longdeletions2
    start2 := 0
    end2 := 0
    cigar2 := []
    cigar2_unrolled := []
    sequence2 := ⟨[], []⟩
    phred_sum2 := 0
    length_incl_deletions2 := 0
    length_incl_longdeletions2 := 0
    single_end := true
    readNames := ∅ }

/-- The paired-end record with the name and read ids of `r`, mate 1 taken from
mate 1 of `m1` and mate 2 taken from mate 1 of `m2`. -/
def joinMates (r m1 m2 : AlignmentRecord) : AlignmentRecord :=
  { name := r.name
    start1 := m1.start1
    end1 := m1.end1
    cigar1 := m1.cigar1
    cigar1_unrolled := m1.cigar1_unrolled
    sequence1 := m1.sequence1
    phred_sum1 := m1.phred_sum1
    length_incl_deletions1 := m1.length_incl_deletions1
    length_incl_longdeletions1 := m1.length_incl_longdeletions1
    start2 := m2.start1
    end2 := m2.end1
    cigar2 := m2.cigar1
    cigar2_unrolled := m2.cigar1_unrolled
    sequence2 := m2.sequence1
    phred_sum2 := m2.phred_sum1
    length_incl_deletions2 := m2.length_incl_deletions1
    length_incl_longdeletions2 := m2.length_incl_longdeletions1
    single_end := false
    readNames := r.readNames }

/-- A read on `[100, 104]` with a one-base deletion: `2M1D2M`, Phred 30. -/
def deletionAlignment : BamAlignment :=
  ⟨"D", 99, 104, [⟨'M', 2⟩, ⟨'D', 1⟩, ⟨'M', 2⟩], ['A', 'C', 'G', 'T'], [63, 63, 63, 63]⟩

/-- The single-end record of `deletionAlignment`. -/
def deletionA : AlignmentRecord :=
  AlignmentRecord.fromAlignment deletionAlignment 0

/-- A second read with the same alignment. -/
def deletionB : AlignmentRecord :=
  AlignmentRecord.fromAlignment { deletionAlignment with Name := "E" } 1

/-- A read on `[100, 102]` with two soft-clipped bases in front: `2S3M`,
Phred 30. -/
def clippedAlignment : BamAlignment :=
  ⟨"S", 99, 102, [⟨'S', 2⟩, ⟨'M', 3⟩], ['A', 'A', 'C', 'G', 'T'], [63, 63, 63, 63, 63]⟩

/-- The single-end record of `clippedAlignment`. -/
def clippedA : AlignmentRecord :=
  AlignmentRecord.fromAlignment clippedAlignment 0

/-- A read on `[100, 102]` that ends in an insertion: `3M1I`, Phred 30. -/
def insertionAlignment : BamAlignment :=
  ⟨"I", 99, 102, [⟨'M', 3⟩, ⟨'I', 1⟩], ['A', 'C', 'G', 'T'], [63, 63, 63, 63]⟩

/-- The single-end record of `insertionAlignment`. -/
def insertionA : AlignmentRecord :=
  AlignmentRecord.fromAlignment insertionAlignment 0

/-- The record that the clique constructor builds from `sampleA` and
`sampleB`. -/
def sampleClique : AlignmentRecord :=
  match AlignmentRecord.fromAlignments sampleTables [sampleA, sampleB] 0 with
  | .ok r => r
  | .error _ => sampleA

/-- The states at which a `while (cond) body` loop runs its body. -/
def whileTrace {σ : Type} (cond : σ → Bool) (body : σ → Except MergeError σ) :
    Nat → σ → List σ
  | 0, _ => []
  | fuel + 1, s =>
    if cond s then
      s :: (match body s with
        | .ok r => whileTrace cond body fuel r
        | .error _ => [])
    else []

/-- The states at which the joint loop of `mergePhases` runs its body: the
same four cases, with the first loop run to find where the joint loop
starts. -/
def mergeJointStates (solo1 solo2 joint : MergeState → Except MergeError MergeState)
    (fuel : Nat) (ref_s_pos1 ref_e_pos1 ref_s_pos2 ref_e_pos2 : Int) : List MergeState :=
  if ref_s_pos1 ≤ ref_s_pos2 ∧ ref_e_pos1 ≤ ref_e_pos2 then
    match whileLoop (fun st => st.ref_pos < ref_s_pos2) solo1 fuel ⟨[], [], [], 0, 0, 0, 0, ref_s_pos1⟩ with
    | .ok st1 => whileTrace (fun st => st.ref_pos ≤ ref_e_pos1) joint fuel st1
    | .error _ => []
  else if ref_s_pos1 ≤ ref_s_pos2 ∧ ref_e_pos1 ≥ ref_e_pos2 then
    match whileLoop (fun st => st.ref_pos < ref_s_pos2) solo1 fuel ⟨[], [], [], 0, 0, 0, 0, ref_s_pos1⟩ with
    | .ok st1 => whileTrace (fun st => st.ref_pos ≤ ref_e_pos2) joint fuel st1
    | .error _ => []
  else if ref_s_pos1 ≥ ref_s_pos2 ∧ ref_e_pos1 ≤ ref_e_pos2 then
    match whileLoop (fun st => st.ref_pos < ref_s_pos1) solo2 fuel ⟨[], [], [], 0, 0, 0, 0, ref_s_pos2⟩ with
    | .ok st1 => whileTrace (fun st => st.ref_pos ≤ ref_e_pos1) joint fuel st1
    | .error _ => []
  else if ref_s_pos1 ≥ ref_s_pos2 ∧ ref_e_pos1 ≥ ref_e_pos2 then
    match whileLoop (fun st => st.ref_pos < ref_s_pos1) solo2 fuel ⟨[], [], [], 0, 0, 0, 0, ref_s_pos2⟩ with
    | .ok st1 => whileTrace (fun st => st.ref_pos ≤ ref_e_pos2) joint fuel st1
    | .error _ => []
  else []

/-- The states at which `mergeAlignmentRecordsSingle(ar, 1, 1)` calls
`overlapMerge`: the jointly processed columns of the two records. -/
def jointStates (T : QualityTables) (self ar : AlignmentRecord) : List MergeState :=
  mergeJointStates
    (fun st => (self.noOverlapMerge st.solo1 1).map st.setSolo1)
    (fun st => (ar.noOverlapMerge st.solo2 1).map st.setSolo2)
    (fun st => self.overlapMerge T ar st 1 1)
    (self.cigar1_unrolled.length + ar.cigar1_unrolled.length + 1)
    ((self.start1 : Int) - computeOffset self.cigar1_unrolled)
    ((self.end1 : Int) + computeRevOffset self.cigar1_unrolled)
    ((ar.start1 : Int) - computeOffset ar.cigar1_unrolled)
    ((ar.end1 : Int) + computeRevOffset ar.cigar1_unrolled)

/-- The column at the cursors of `st` is free of ties: when both sources have
`M` or both have `I` there (the cases in which `computeEntry` is called) and
the two bases differ, the two qualities differ. -/
def TieFree (cigar1 bases1 : List Char) (quals1 : List Int) (cigar2 bases2 : List Char)
    (quals2 : List Int) (st : MergeState) : Prop :=
  (cigar1.getD st.c_pos1 'N' = 'M' ∧ cigar2.getD st.c_pos2 'N' = 'M') ∨
      (cigar1.getD st.c_pos1 'N' = 'I' ∧ cigar2.getD st.c_pos2 'N' = 'I') →
    bases1.getD st.q_pos1 'N' ≠ bases2.getD st.q_pos2 'N' →
    quals1.getD st.q_pos1 0 ≠ quals2.getD st.q_pos2 0

/-- No jointly processed column of merging `ar` into `self` has differing
bases of equal quality. -/
def NoTies (T : QualityTables) (self ar : AlignmentRecord) : Prop :=
  ∀ st ∈ jointStates T self ar,
    TieFree self.cigar1_unrolled self.sequence1.forward self.sequence1.forward_qualities
      ar.cigar1_unrolled ar.sequence1.forward ar.sequence1.forward_qualities st

/-- The locals of the two runs with swapped operands correspond: same
operation string and reference position, cursors exchanged, and (under `D`)
the same bases. -/
def SwapRel (D : Prop) (st st' : MergeState) : Prop :=
  st'.nucigar = st.nucigar ∧ st'.c_pos1 = st.c_pos2 ∧ st'.c_pos2 = st.c_pos1 ∧
    st'.q_pos1 = st.q_pos2 ∧ st'.q_pos2 = st.q_pos1 ∧ st'.ref_pos = st.ref_pos ∧
    (D → st'.dna = st.dna)

/-- A read on `[100, 102]`: `3M`, bases `ACG`, Phred 30. -/
def swapAlignmentA : BamAlignment :=
  ⟨"X", 99, 102, [⟨'M', 3⟩], ['A', 'C', 'G'], [63, 63, 63]⟩

/-- A read on `[101, 103]`: `3M`, bases `TGA`, Phred 20; its first base
disagrees with the second base of `swapAlignmentA`. -/
def swapAlignmentB : BamAlignment :=
  ⟨"Y", 100, 103, [⟨'M', 3⟩], ['T', 'G', 'A'], [53, 53, 53]⟩

/-- The single-end record of `swapAlignmentA`. -/
def swapA : AlignmentRecord :=
  AlignmentRecord.fromAlignment swapAlignmentA 0

/-- The single-end record of `swapAlignmentB`. -/
def swapB : AlignmentRecord :=
  AlignmentRecord.fromAlignment swapAlignmentB 1

/-- The record that merging `swapB` into `swapA` leaves. -/
def swapMerged : AlignmentRecord :=
  match swapA.mergeAlignmentRecordsSingle sampleTables swapB 1 1 with
  | .ok r => r
  | .error _ => swapA

/-- The five CIGAR tags that the merge steps handle. -/
def cigarTags : List Char := ['M', 'I', 'D', 'S', 'H']

/-- A read on `[100, 104]` behind two hard-clipped positions: `2H5M`,
Phred 30. -/
def hardClippedAlignment : BamAlignment :=
  ⟨"H", 99, 104, [⟨'H', 2⟩, ⟨'M', 5⟩], ['A', 'C', 'G', 'T', 'A'], [63, 63, 63, 63, 63]⟩

/-- The single-end record of `hardClippedAlignment`. -/
def hardClippedA : AlignmentRecord :=
  AlignmentRecord.fromAlignment hardClippedAlignment 0

/-- The paired-end record of a read with the alignments `readFirst` on
`[100, 104]` and `readMate` on `[200, 204]`, built by `pairWith`. -/
def pairedRead : AlignmentRecord :=
  match (AlignmentRecord.fromAlignment readFirst 0).pairWith sampleTables readMate with
  | .ok r => r
  | .error _ => AlignmentRecord.fromAlignment readFirst 0

/-- A single-end record on `[202, 206]`, overlapping mate 2 of `pairedRead`. -/
def lateSingle : AlignmentRecord :=
  AlignmentRecord.fromAlignment
    ⟨"late", 201, 206, [⟨'M', 5⟩], List.replicate 5 'C', List.replicate 5 63⟩ 1

/-! ## Read frequencies -/

/-- The first loop of `setProbabilities`: `read_usage_ct += r->getReadCount()`
for every record, in `double`. `getReadCount` is declared outside this file
and is a parameter. -/
def readUsageLoop (getReadCount : AlignmentRecord → Nat) :
    List AlignmentRecord → ℝ → ℝ → Prop
  | [], read_usage_ct, out => out = read_usage_ct
  | r :: rest, read_usage_ct, out =>
    ∃ next : ℝ, Rounds (read_usage_ct + (getReadCount r : ℝ)) next ∧
      readUsageLoop getReadCount rest next out

/-- The second loop of `setProbabilities`: assigns `r->probability` and adds
the squared distance to `mean` to `stdev`. `probability` lists the assigned
values in order. A zero `read_usage_ct` gives no finite quotient. -/
def probabilityLoop (getReadCount : AlignmentRecord → Nat) (read_usage_ct mean : ℝ) :
    List AlignmentRecord → ℝ → List ℝ → ℝ → Prop
  | [], stdev, probability, out => probability = [] ∧ out = stdev
  | r :: rest, stdev, probability, out =>
    ∃ p d sq next : ℝ, ∃ ps : List ℝ,
      read_usage_ct ≠ 0 ∧ Rounds ((getReadCount r : ℝ) / read_usage_ct) p ∧
      Rounds (p - mean) d ∧ Rounds (d * d) sq ∧ Rounds (stdev + sq) next ∧
      probability = p :: ps ∧
      probabilityLoop getReadCount read_usage_ct mean rest next ps out

/-- `setProbabilities(reads)`: `result` is a finite value that the function can
return after assigning the values `probability` to the records, every
`double` operation being exact up to the relative error of `Rounds`.
`getReadCount` and the size of the name table behind `readNameMap` are
parameters. `reads.size() - 1` is computed in `size_t` (64 bits) before the
conversion to `double`. With an empty `reads` the quotient `1.0 / reads.size()`
is an infinity that no later statement reads, so `mean` is unconstrained
there. With a zero divisor there is no finite result and the relation holds
of no `result`. -/
def setProbabilities (getReadCount : AlignmentRecord → Nat) (readNameMapSize : Nat)
    (reads : List AlignmentRecord) (probability : List ℝ) (result : ℝ) : Prop :=
  ∃ ct read_usage_ct mean stdev n w prod : ℝ,
    readUsageLoop getReadCount reads 0 ct ∧
    read_usage_ct = (if reads = [] then ct else max ct (readNameMapSize : ℝ)) ∧
    (reads ≠ [] → Rounds (1 / (reads.length : ℝ)) mean) ∧
    probabilityLoop getReadCount read_usage_ct mean reads 0 probability stdev ∧
    Rounds (((reads.length + 2 ^ 64 - 1) % 2 ^ 64 : Nat) : ℝ) n ∧ n ≠ 0 ∧
    Rounds (1 / n) w ∧ Rounds (w * stdev) prod ∧ Rounds (Real.sqrt prod) result

/-! ## The branch cascade, well-formed records and loop measures -/

/-- The four cases of the branch cascade of `mergeAlignmentRecordsSingle` and
`getMergedDnaSequence`, in source order, named after the sketches in the
source comments: source 1 starts first and ends first, source 1 contains
source 2, source 2 contains source 1, source 2 starts first and ends first. -/
inductive OverlapCase where
  | firstBeforeSecond
  | firstContainsSecond
  | secondContainsFirst
  | secondBeforeFirst
  deriving DecidableEq, Repr

/-- The conditions of the cascade on the padded intervals `[s1, e1]` and
`[s2, e2]`; the last case carries the `assert` of the final `else`. -/
def overlapCase (ref_s_pos1 ref_e_pos1 ref_s_pos2 ref_e_pos2 : Int) : Option OverlapCase :=
  if ref_s_pos1 ≤ ref_s_pos2 ∧ ref_e_pos1 ≤ ref_e_pos2 then some .firstBeforeSecond
  else if ref_s_pos1 ≤ ref_s_pos2 ∧ ref_e_pos1 ≥ ref_e_pos2 then some .firstContainsSecond
  else if ref_s_pos1 ≥ ref_s_pos2 ∧ ref_e_pos1 ≤ ref_e_pos2 then some .secondContainsFirst
  else if ref_s_pos1 ≥ ref_s_pos2 ∧ ref_e_pos1 ≥ ref_e_pos2 then some .secondBeforeFirst
  else none

/-- The three loops of one case of the cascade. -/
def casePhases (solo1 solo2 joint : MergeState → Except MergeError MergeState)
    (fuel : Nat) (ref_s_pos1 ref_e_pos1 ref_s_pos2 ref_e_pos2 : Int) :
    OverlapCase → Except MergeError MergeState
  | .firstBeforeSecond => do
    let st0 : MergeState := ⟨[], [], [], 0, 0, 0, 0, ref_s_pos1⟩
    let st1 ← whileLoop (fun st => st.ref_pos < ref_s_pos2) solo1 fuel st0
    let st2 ← whileLoop (fun st => st.ref_pos ≤ ref_e_pos1) joint fuel st1
    whileLoop (fun st => st.ref_pos ≤ ref_e_pos2) solo2 fuel st2
  | .firstContainsSecond => do
    let st0 : MergeState := ⟨[], [], [], 0, 0, 0, 0, ref_s_pos1⟩
    let st1 ← whileLoop (fun st => st.ref_pos < ref_s_pos2) solo1 fuel st0
    let st2 ← whileLoop (fun st => st.ref_pos ≤ ref_e_pos2) joint fuel st1
    whileLoop (fun st => st.ref_pos ≤ ref_e_pos1) solo1 fuel st2
  | .secondContainsFirst => do
    let st0 : MergeState := ⟨[], [], [], 0, 0, 0, 0, ref_s_pos2⟩
    let st1 ← whileLoop (fun st => st.ref_pos < ref_s_pos1) solo2 fuel st0
    let st2 ← whileLoop (fun st => st.ref_pos ≤ ref_e_pos1) joint fuel st1
    whileLoop (fun st => st.ref_pos ≤ ref_e_pos2) solo2 fuel st2
  | .secondBeforeFirst => do
    let st0 : MergeState := ⟨[], [], [], 0, 0, 0, 0, ref_s_pos2⟩
    let st1 ← whileLoop (fun st => st.ref_pos < ref_s_pos1) solo2 fuel st0
    let st2 ← whileLoop (fun st => st.ref_pos ≤ ref_e_pos2) joint fuel st1
    whileLoop (fun st => st.ref_pos ≤ ref_e_pos1) solo1 fuel st2

/-- The paired-end record that reading the two alignments `a` and `b` of one
read leaves: the raw constructor on `a`, then `pairWith(b)`. -/
def pairOf (a b : BamAlignment) (readRef : Int) : AlignmentRecord :=
  match (AlignmentRecord.fromAlignment a readRef).pairWith sampleTables b with
  | .ok r => r
  | .error _ => AlignmentRecord.fromAlignment a readRef

/-- A pair with mates on `[100, 104]` and `[108, 112]`, all `M`, bases `A`,
Phred 30. -/
def overrunThis : AlignmentRecord :=
  pairOf ⟨"t", 99, 104, [⟨'M', 5⟩], List.replicate 5 'A', List.replicate 5 63⟩
    ⟨"t", 107, 112, [⟨'M', 5⟩], List.replicate 5 'A', List.replicate 5 63⟩ 0

/-- A pair whose mate 1 on `[102, 110]` overlaps both mates of `overrunThis`
and whose mate 2 on `[200, 204]` lies behind them; Phred 40. -/
def overrunOther : AlignmentRecord :=
  pairOf ⟨"r", 101, 110, [⟨'M', 9⟩], ['C', 'G', 'T', 'C', 'G', 'T', 'C', 'G', 'T'],
      List.replicate 9 73⟩
    ⟨"r", 199, 204, [⟨'M', 5⟩], List.replicate 5 'G', List.replicate 5 73⟩ 1

/-- A pair with mate 1 on `[100, 109]` and mate 2 on `[200, 204]`, all `M`,
Phred 40. -/
def chainThis : AlignmentRecord :=
  pairOf ⟨"t", 99, 109, [⟨'M', 10⟩], ['A', 'C', 'G', 'T', 'A', 'C', 'G', 'T', 'A', 'C'],
      List.replicate 10 73⟩
    ⟨"t", 199, 204, [⟨'M', 5⟩], List.replicate 5 'A', List.replicate 5 73⟩ 0

/-- A pair with mates on `[102, 104]` and `[106, 111]`, both overlapping mate 1
of `chainThis`; bases `T`, Phred 30. -/
def chainOther : AlignmentRecord :=
  pairOf ⟨"r", 101, 104, [⟨'M', 3⟩], List.replicate 3 'T', List.replicate 3 63⟩
    ⟨"r", 105, 111, [⟨'M', 6⟩], List.replicate 6 'T', List.replicate 6 63⟩ 1

/-- A pair with mates on `[110, 114]` and `[118, 122]`, all `M`, Phred 30. -/
def shiftedThis : AlignmentRecord :=
  pairOf ⟨"t", 109, 114, [⟨'M', 5⟩], List.replicate 5 'A', List.replicate 5 63⟩
    ⟨"t", 117, 122, [⟨'M', 5⟩], List.replicate 5 'A', List.replicate 5 63⟩ 0

/-- A pair with mate 1 on `[100, 104]`, before `shiftedThis`, and mate 2 on
`[112, 120]`, overlapping both mates of `shiftedThis`. -/
def shiftedOther : AlignmentRecord :=
  pairOf ⟨"r", 99, 104, [⟨'M', 5⟩], List.replicate 5 'C', List.replicate 5 63⟩
    ⟨"r", 111, 120, [⟨'M', 9⟩], List.replicate 9 'A', List.replicate 9 63⟩ 1

/-- A pair with mates on `[102, 104]` and `[108, 110]`, all `M`, Phred 30. -/
def innerThis : AlignmentRecord :=
  pairOf ⟨"t", 101, 104, [⟨'M', 3⟩], List.replicate 3 'A', List.replicate 3 63⟩
    ⟨"t", 107, 110, [⟨'M', 3⟩], List.replicate 3 'A', List.replicate 3 63⟩ 0

/-- A pair whose mate 1 on `[100, 112]` covers both mates of `innerThis` and
whose mate 2 on `[200, 205]` has a deletion of length 2 (`2M2D2M`, 4 bases). -/
def outerOther : AlignmentRecord :=
  pairOf ⟨"r", 99, 112, [⟨'M', 13⟩], List.replicate 13 'A', List.replicate 13 63⟩
    ⟨"r", 199, 205, [⟨'M', 2⟩, ⟨'D', 2⟩, ⟨'M', 2⟩], List.replicate 4 'C', List.replicate 4 63⟩ 1

/-- Number of tags of an unrolled CIGAR on which a merge step advances the
reference position. -/
def refTags (cigar : List Char) : Nat :=
  cigar.count 'M' + cigar.count 'D' + cigar.count 'S' + cigar.count 'H'

/-- Number of `M` and `D` tags of an unrolled CIGAR. -/
def mdTags (cigar : List Char) : Nat :=
  cigar.count 'M' + cigar.count 'D'

/-- A source of a merge that is consistent with its padded interval `[s, e]`
and its data: the tags are `M`, `I`, `D`, `S`, `H`, one tag of `M`, `D`, `S`,
`H` per padded reference position, one base and one quality per tag of `M`,
`I`, `S`. -/
def SourceOk (cigar bases : List Char) (quals : List Int) (s e : Int) : Prop :=
  (∀ t ∈ cigar, t ∈ cigarTags) ∧ ((refTags cigar : Nat) : Int) = e - s + 1 ∧
    storedBases cigar = bases.length ∧ storedBases cigar = quals.length

/-- The cursors `(c, q)` of a source with padded start `s` are the ones of
reference position `r`: the tags before `c` cover the positions `s .. r-1` and
consume the bases before `q`. -/
def SrcInv (cigar : List Char) (s : Int) (c q : Nat) (r : Int) : Prop :=
  c ≤ cigar.length ∧ ((refTags (cigar.take c) : Nat) : Int) = r - s ∧
    storedBases (cigar.take c) = q

/-- Padded start of mate 1: `start1 - computeOffset(cigar1_unrolled)`. -/
def paddedStart (r : AlignmentRecord) : Int :=
  (r.start1 : Int) - computeOffset r.cigar1_unrolled

/-- Padded end of mate 1: `end1 + computeRevOffset(cigar1_unrolled)`. -/
def paddedEnd (r : AlignmentRecord) : Int :=
  (r.end1 : Int) + computeRevOffset r.cigar1_unrolled

/-- A single-end record whose CIGAR is consistent with its padded interval and
its data. -/
def Consistent (r : AlignmentRecord) : Prop :=
  r.single_end = true ∧
    SourceOk r.cigar1_unrolled r.sequence1.forward r.sequence1.forward_qualities
      (paddedStart r) (paddedEnd r)

/-- The result is not the loop bound of the embedding: the computation ended
by itself, with a value or with a fault. -/
def NoFuel {α : Type} (x : Except MergeError α) : Prop :=
  x ≠ .error .outOfFuel

/-- Number of CIGAR columns that the four cursors of a paired or mixed merge
have not passed yet. -/
def cursorSlack (self ar : AlignmentRecord) (st : PairedState) : Nat :=
  (self.cigar1_unrolled.length - st.c_c1_pos1) + (self.cigar2_unrolled.length - st.c_c2_pos1) +
    (ar.cigar1_unrolled.length - st.c_c1_pos2) + (ar.cigar2_unrolled.length - st.c_c2_pos2)

/-- A step function of a paired or mixed merge that, whenever it returns,
has moved a CIGAR cursor forward over a column it could read, and that never
reports the loop bound. -/
def Advances (self ar : AlignmentRecord) (body : PairedState → Except MergeError PairedState) :
    Prop :=
  (∀ s r, body s = .ok r → cursorSlack self ar r < cursorSlack self ar s) ∧
    ∀ s, NoFuel (body s)

/-- Mates `[100, 104]` and `[108, 112]` of one read. -/
def gapPair : AlignmentRecord :=
  pairOf ⟨"g", 99, 104, [⟨'M', 5⟩], List.replicate 5 'A', List.replicate 5 63⟩
    ⟨"g", 107, 112, [⟨'M', 5⟩], List.replicate 5 'A', List.replicate 5 63⟩ 0

/-- A single-end read on `[102, 110]`, which reaches into both mates of
`gapPair` and covers the gap between them. -/
def bridgeSingle : AlignmentRecord :=
  AlignmentRecord.fromAlignment
    ⟨"b", 101, 110, [⟨'M', 9⟩], List.replicate 9 'C', List.replicate 9 73⟩ 1

/-- A table holding the entry that the out-of-range example looks up:
disagreement of Phred 92 against Phred 0 (94). -/
def edgeTables : QualityTables :=
  { error_probs := fun _ => 0
    error_agreement := fun _ _ => 0
    error_disagreement := fun i j => if i = 125 ∧ j = 33 then 94 else 0 }

/-- A pair at the start of the reference: mate 1 `2S5M` on `[1, 5]`, whose
padded start is `-1`, and mate 2 `5M` on `[9, 13]`. -/
def edgePair : AlignmentRecord :=
  pairOf ⟨"t", 0, 5, [⟨'S', 2⟩, ⟨'M', 5⟩], List.replicate 7 'A', List.replicate 7 63⟩
    ⟨"t", 8, 13, [⟨'M', 5⟩], List.replicate 5 'A', List.replicate 5 63⟩ 0

/-- A single-end read `2S11M` on `[1, 11]`, which reaches into both mates of
`edgePair`. -/
def edgeSingle : AlignmentRecord :=
  AlignmentRecord.fromAlignment
    ⟨"r", 0, 11, [⟨'S', 2⟩, ⟨'M', 11⟩], List.replicate 13 'C', List.replicate 13 73⟩ 1

/-- The reads of `edgePair` moved 100 positions to the right. -/
def farPair : AlignmentRecord :=
  pairOf ⟨"t", 100, 105, [⟨'S', 2⟩, ⟨'M', 5⟩], List.replicate 7 'A', List.replicate 7 63⟩
    ⟨"t", 108, 113, [⟨'M', 5⟩], List.replicate 5 'A', List.replicate 5 63⟩ 0

/-- The read of `edgeSingle` moved 100 positions to the right. -/
def farSingle : AlignmentRecord :=
  AlignmentRecord.fromAlignment
    ⟨"r", 100, 111, [⟨'S', 2⟩, ⟨'M', 11⟩], List.replicate 13 'C', List.replicate 13 73⟩ 1

/-- Runs of `l` when a run of `n` copies of `c` is already open. -/
def runsFrom : Char → Nat → List Char → List CigarOp
  | c, n, [] => [⟨c, n⟩]
  | c, n, d :: rest =>
    if c = d then runsFrom c (n + 1) rest else ⟨c, n⟩ :: runsFrom d 1 rest

/-- Runs of a tag string. -/
def runs : List Char → List CigarOp
  | [] => []
  | c :: rest => runsFrom c 1 rest

/-- A compact CIGAR is canonical: every run is non-empty and neighbouring
runs carry different tags. -/
def CanonicalCigar (cigar : List CigarOp) : Prop :=
  (∀ op ∈ cigar, 1 ≤ op.Length) ∧ List.Chain' (fun a b => a.type ≠ b.type) cigar

/-! ## Proofs: CIGAR codec -/

theorem unrollInto_append (acc : List Char) (cigar : List CigarOp) :
    unrollInto acc cigar = acc ++ unrollCigar cigar := by
  unfold unrollCigar unrollInto
  induction cigar generalizing acc with
  | nil => simp
  | cons op ops ih =>
    simp only [List.foldl_cons, List.nil_append]
    rw [ih (acc ++ _), ih (List.replicate _ _), List.append_assoc]

theorem unrollCigar_nil : unrollCigar [] = [] := rfl

theorem unrollCigar_cons (op : CigarOp) (ops : List CigarOp) :
    unrollCigar (op :: ops) = List.replicate op.Length op.type ++ unrollCigar ops := by
  show unrollInto [] (op :: ops) = _
  simp only [unrollInto, List.foldl_cons, List.nil_append]
  exact unrollInto_append _ _

theorem unrollCigar_append (a b : List CigarOp) :
    unrollCigar (a ++ b) = unrollCigar a ++ unrollCigar b := by
  induction a with
  | nil => simp [unrollCigar_nil]
  | cons op ops ih => simp [unrollCigar_cons, ih]

theorem unroll_runsFrom (c : Char) (n : Nat) (l : List Char) :
    unrollCigar (runsFrom c n l) = List.replicate n c ++ l := by
  induction l generalizing c n with
  | nil => simp [runsFrom, unrollCigar_cons, unrollCigar_nil]
  | cons d rest ih =>
    unfold runsFrom
    split
    · next h =>
      subst h
      rw [ih, List.replicate_succ']
      simp
    · rw [unrollCigar_cons, ih]
      simp

theorem unroll_runs (l : List Char) : unrollCigar (runs l) = l := by
  cases l with
  | nil => rfl
  | cons c rest => simp [runs, unroll_runsFrom]

theorem runsFrom_length_pos (c : Char) (n : Nat) (l : List Char) (hn : 1 ≤ n) :
    ∀ op ∈ runsFrom c n l, 1 ≤ op.Length := by
  induction l generalizing c n with
  | nil => intro op hop; simp [runsFrom] at hop; subst hop; exact hn
  | cons d rest ih =>
    intro op hop
    unfold runsFrom at hop
    split at hop
    · exact ih c (n + 1) (by omega) op hop
    · rcases List.mem_cons.mp hop with h | h
      · subst h; exact hn
      · exact ih d 1 (le_refl 1) op h

theorem runsFrom_head (c : Char) (n : Nat) (l : List Char) :
    ∃ m ops, runsFrom c n l = ⟨c, m⟩ :: ops := by
  induction l generalizing n with
  | nil => exact ⟨n, [], rfl⟩
  | cons d rest ih =>
    unfold runsFrom
    split
    · exact ih (n + 1)
    · exact ⟨n, _, rfl⟩

theorem runsFrom_chain (c : Char) (n : Nat) (l : List Char) :
    List.Chain' (fun a b => a.type ≠ b.type) (runsFrom c n l) := by
  induction l generalizing c n with
  | nil => simp [runsFrom]
  | cons d rest ih =>
    unfold runsFrom
    split
    · exact ih c (n + 1)
    · next hne =>
      obtain ⟨m, ops, hm⟩ := runsFrom_head d 1 rest
      have := ih d 1
      rw [hm] at this ⊢
      exact List.Chain'.cons hne this

theorem runsFrom_sum (c : Char) (n : Nat) (l : List Char) :
    ((runsFrom c n l).map (fun op => op.Length)).sum = n + l.length := by
  induction l generalizing c n with
  | nil => simp [runsFrom]
  | cons d rest ih =>
    unfold runsFrom
    split
    · rw [ih]; simp; omega
    · simp [ih]; omega

/-- Behaviour of the inner loop of `createCigar` on the suffix `suf` that
starts at `pos`: either the run of `c` reaches the end of the string, or the
loop breaks at the first different tag `d` after pushing the run. -/
theorem createCigarInner_spec (nucigar : List Char) (c : Char) (suf : List Char) :
    ∀ (fuel : Nat) (res : List CigarOp) (counter pos : Nat),
      nucigar.drop pos = suf → pos ≤ nucigar.length → suf.length ≤ fuel →
      let r := createCigarInner nucigar c fuel res counter pos
      (r.2.2 = nucigar.length ∧ r.1 = res ∧ runsFrom c counter suf = [⟨c, r.2.1⟩]) ∨
      (∃ d rest n, nucigar.drop r.2.2 = d :: rest ∧ r.2.1 = 1 ∧ r.1 = res ++ [⟨c, n⟩] ∧
        runsFrom c counter suf = ⟨c, n⟩ :: runsFrom d 1 rest ∧
        r.2.2 < nucigar.length ∧ pos ≤ r.2.2) := by
  induction suf with
  | nil =>
    intro fuel res counter pos hdrop hle _
    have hpos : ¬ pos < nucigar.length := by
      have := congrArg List.length hdrop
      simp at this
      omega
    left
    cases fuel with
    | zero => exact ⟨by simp [createCigarInner]; omega, rfl, rfl⟩
    | succ f =>
      have hr : createCigarInner nucigar c (f + 1) res counter pos = (res, counter, pos) := by
        simp [createCigarInner, hpos]
      rw [hr]
      exact ⟨by show pos = _; omega, rfl, rfl⟩
  | cons d rest ih =>
    intro fuel res counter pos hdrop hle hfuel
    have hlt : pos < nucigar.length := by
      have := congrArg List.length hdrop
      simp at this
      omega
    have hget : nucigar[pos] = d := by
      have h1 := List.drop_eq_getElem_cons hlt
      rw [hdrop] at h1
      exact (List.cons.inj h1).1.symm
    have hrest : nucigar.drop (pos + 1) = rest := by
      have h1 := List.drop_eq_getElem_cons hlt
      rw [hdrop] at h1
      exact (List.cons.inj h1).2.symm
    cases fuel with
    | zero => simp at hfuel
    | succ f =>
      simp only [createCigarInner, dif_pos hlt, hget]
      by_cases hcd : c = d
      · simp only [if_pos hcd]
        have hf : rest.length ≤ f := by simp at hfuel; omega
        rcases ih f res (counter + 1) (pos + 1) hrest (by omega) hf with h | h
        · left
          refine ⟨h.1, h.2.1, ?_⟩
          simp only [runsFrom, if_pos hcd]
          exact h.2.2
        · right
          obtain ⟨d1, rest1, n, h1, h2, h3, h4, h5, h6⟩ := h
          refine ⟨d1, rest1, n, h1, h2, h3, ?_, h5, by omega⟩
          simp only [runsFrom, if_pos hcd]
          exact h4
      · simp only [if_neg hcd]
        right
        refine ⟨d, rest, counter, ?_, ?_, ?_, ?_, ?_, ?_⟩
        · exact hdrop
        · trivial
        · trivial
        · simp [runsFrom, if_neg hcd]
        · exact hlt
        · exact le_refl _

/-- The outer loop of `createCigar`, started at `pos` with `counter = 1`,
appends the runs of the remaining suffix. -/
theorem createCigarOuter_spec (nucigar : List Char) :
    ∀ (fuel : Nat) (res : List CigarOp) (pos : Nat),
      pos ≤ nucigar.length → (nucigar.drop pos).length ≤ fuel →
      createCigarOuter nucigar fuel res 1 pos = res ++ runs (nucigar.drop pos) := by
  intro fuel
  induction fuel with
  | zero =>
    intro res pos _ hfuel
    have : nucigar.drop pos = [] := List.eq_nil_of_length_eq_zero (by omega)
    simp [createCigarOuter, this, runs]
  | succ f ih =>
    intro res pos hle hfuel
    by_cases hlt : pos < nucigar.length
    · have hdrop := List.drop_eq_getElem_cons hlt
      simp only [createCigarOuter, dif_pos hlt]
      rw [hdrop]
      simp only [runs]
      have hlen : (nucigar.drop (pos + 1)).length ≤ nucigar.length := by simp
      have hsuf : (nucigar.drop (pos + 1)).length ≤ f := by
        simp at hfuel ⊢
        omega
      rcases createCigarInner_spec nucigar nucigar[pos] (nucigar.drop (pos + 1))
          nucigar.length res 1 (pos + 1) rfl (by omega) hlen with h | h
      · obtain ⟨h1, h2, h3⟩ := h
        simp only [h1, if_true, h2, h3]
        cases f with
        | zero => simp [createCigarOuter]
        | succ g => simp [createCigarOuter]
      · obtain ⟨d, rest, n, h1, h2, h3, h4, h5, h6⟩ := h
        have hne : ¬ (createCigarInner nucigar nucigar[pos] nucigar.length res 1 (pos + 1)).2.2
            = nucigar.length := by omega
        simp only [if_neg hne, h2, h3, h4]
        rw [ih _ _ (by omega) (by simp; simp at hfuel; omega), h1]
        simp [runs]
    · have : nucigar.drop pos = [] := List.drop_eq_nil_of_le (by omega)
      simp [createCigarOuter, dif_neg hlt, this, runs]

/-- The loops of `createCigar` compute the runs of the tag string. -/
theorem createCigar_eq_runs (u : List Char) : createCigar u = runs u := by
  have := createCigarOuter_spec u u.length [] 0 (Nat.zero_le _) (by simp)
  simpa [createCigar] using this

theorem runs_canonical (u : List Char) : CanonicalCigar (runs u) := by
  cases u with
  | nil => exact ⟨by simp [runs], by simp [runs]⟩
  | cons c rest => exact ⟨runsFrom_length_pos c 1 rest (le_refl 1), runsFrom_chain c 1 rest⟩

theorem runs_sum (u : List Char) : ((runs u).map (fun op => op.Length)).sum = u.length := by
  cases u with
  | nil => rfl
  | cons c rest => simp [runs, runsFrom_sum]; omega

/-- C1: for every unrolled tag sequence `u` (the empty one included), expanding
`createCigar u` op by op, each `{tag, length}` into `length` copies of `tag` as
the raw-alignment constructor does, gives back exactly `u`. -/
theorem createCigar_unroll_roundtrip (u : List Char) :
    unrollCigar (createCigar u) = u := by
  rw [createCigar_eq_runs]
  exact unroll_runs u

/-- C2: for every unrolled tag sequence `u`, `createCigar u` is a canonical
compact CIGAR: every op has length at least 1, no two consecutive ops carry the
same tag, and the op lengths sum to the length of `u`. -/
theorem createCigar_canonical (u : List Char) :
    (∀ op ∈ createCigar u, 1 ≤ op.Length) ∧
    List.Chain' (fun a b => a.type ≠ b.type) (createCigar u) ∧
    ((createCigar u).map (fun op => op.Length)).sum = u.length := by
  rw [createCigar_eq_runs]
  exact ⟨(runs_canonical u).1, (runs_canonical u).2, runs_sum u⟩

/-! ## Proofs: merging two gap-free single-end records -/

theorem whileLoop_iterate {σ : Type} (cond : σ → Bool) (body : σ → Except MergeError σ) :
    ∀ (d fuel : Nat) (f : Nat → σ),
      (∀ t, t < d → cond (f t) = true ∧ body (f t) = .ok (f (t + 1))) →
      cond (f d) = false → d ≤ fuel →
      whileLoop cond body fuel (f 0) = .ok (f d) := by
  intro d
  induction d with
  | zero =>
    intro fuel f _ hend _
    cases fuel <;> simp [whileLoop, hend]
  | succ d ih =>
    intro fuel f hstep hend hfuel
    cases fuel with
    | zero => omega
    | succ fuel =>
      obtain ⟨hc, hb⟩ := hstep 0 (by omega)
      simp only [whileLoop, hc, if_true, hb, Except.bind]
      exact ih fuel (fun t => f (t + 1)) (fun t ht => hstep (t + 1) (by omega)) hend (by omega)

theorem readAt_eq_getD {α : Type} (v : List α) (i : Nat) (a : α) (h : i < v.length) :
    readAt v i = .ok (v.getD i a) := by
  simp [readAt, List.getD, List.getElem?_eq_getElem h]

theorem readAt_replicate {α : Type} (n i : Nat) (a : α) (h : i < n) :
    readAt (List.replicate n a) i = .ok a := by
  simp [readAt, List.getElem?_replicate, h]

theorem cols_succ {α : Type} (a : α) (l : List α) (k t : Nat) :
    cols a l k (t + 1) = cols a l k t ++ [l.getD (k + t) a] := by
  simp [cols, List.range_succ]

/-- One solo step on an `M` column. -/
theorem noOverlapMergeOn_M (n : Nat) (bases : List Char) (quals : List Int)
    (hb : bases.length = n) (hq : quals.length = n) (st : SoloState)
    (hc : st.c_pos < n) (hqp : st.q_pos < n) :
    noOverlapMergeOn (List.replicate n 'M') bases quals st =
      .ok { st with dna := st.dna ++ [bases.getD st.q_pos 'N'],
                    qualities := st.qualities ++ [quals.getD st.q_pos 0],
                    nucigar := st.nucigar ++ ['M'], ref_pos := st.ref_pos + 1,
                    q_pos := st.q_pos + 1, c_pos := st.c_pos + 1 } := by
  simp only [noOverlapMergeOn, readAt_replicate n _ 'M' hc,
    readAt_eq_getD bases _ 'N' (hb ▸ hqp), readAt_eq_getD quals _ 0 (hq ▸ hqp), bind, Except.bind]
  simp [pure, Except.pure]

theorem solo1_loop_allM (n : Nat) (bases : List Char) (quals : List Int)
    (hb : bases.length = n) (hq : quals.length = n)
    (cond : MergeState → Bool) (body : MergeState → Except MergeError MergeState) (b : Int)
    (hcond : ∀ s, cond s = decide (s.ref_pos < b))
    (hbody : ∀ s, body s =
      (noOverlapMergeOn (List.replicate n 'M') bases quals s.solo1).map s.setSolo1)
    (d fuel : Nat) (st : MergeState)
    (hc : st.c_pos1 + d ≤ n) (hqp : st.q_pos1 + d ≤ n) (href : st.ref_pos + d = b)
    (hf : d ≤ fuel) :
    whileLoop cond body fuel st =
      .ok { st with dna := st.dna ++ cols 'N' bases st.q_pos1 d,
                    qualities := st.qualities ++ cols 0 quals st.q_pos1 d,
                    nucigar := st.nucigar ++ List.replicate d 'M',
                    c_pos1 := st.c_pos1 + d, q_pos1 := st.q_pos1 + d,
                    ref_pos := st.ref_pos + d } := by
  have key := whileLoop_iterate cond body d fuel
    (fun t => { st with dna := st.dna ++ cols 'N' bases st.q_pos1 t,
                        qualities := st.qualities ++ cols 0 quals st.q_pos1 t,
                        nucigar := st.nucigar ++ List.replicate t 'M',
                        c_pos1 := st.c_pos1 + t, q_pos1 := st.q_pos1 + t,
                        ref_pos := st.ref_pos + t })
    (by
      intro t ht
      refine ⟨by simp [hcond]; omega, ?_⟩
      rw [hbody, noOverlapMergeOn_M n bases quals hb hq _ (by simp [MergeState.solo1]; omega)
        (by simp [MergeState.solo1]; omega)]
      simp [Except.map, MergeState.setSolo1, MergeState.solo1, cols_succ, List.replicate_succ',
        add_assoc])
    (by simp [hcond]; omega) hf
  simpa [cols] using key

theorem solo2_loop_allM (n : Nat) (bases : List Char) (quals : List Int)
    (hb : bases.length = n) (hq : quals.length = n)
    (cond : MergeState → Bool) (body : MergeState → Except MergeError MergeState) (b : Int)
    (hcond : ∀ s, cond s = decide (s.ref_pos < b))
    (hbody : ∀ s, body s =
      (noOverlapMergeOn (List.replicate n 'M') bases quals s.solo2).map s.setSolo2)
    (d fuel : Nat) (st : MergeState)
    (hc : st.c_pos2 + d ≤ n) (hqp : st.q_pos2 + d ≤ n) (href : st.ref_pos + d = b)
    (hf : d ≤ fuel) :
    whileLoop cond body fuel st =
      .ok { st with dna := st.dna ++ cols 'N' bases st.q_pos2 d,
                    qualities := st.qualities ++ cols 0 quals st.q_pos2 d,
                    nucigar := st.nucigar ++ List.replicate d 'M',
                    c_pos2 := st.c_pos2 + d, q_pos2 := st.q_pos2 + d,
                    ref_pos := st.ref_pos + d } := by
  have key := whileLoop_iterate cond body d fuel
    (fun t => { st with dna := st.dna ++ cols 'N' bases st.q_pos2 t,
                        qualities := st.qualities ++ cols 0 quals st.q_pos2 t,
                        nucigar := st.nucigar ++ List.replicate t 'M',
                        c_pos2 := st.c_pos2 + t, q_pos2 := st.q_pos2 + t,
                        ref_pos := st.ref_pos + t })
    (by
      intro t ht
      refine ⟨by simp [hcond]; omega, ?_⟩
      rw [hbody, noOverlapMergeOn_M n bases quals hb hq _ (by simp [MergeState.solo2]; omega)
        (by simp [MergeState.solo2]; omega)]
      simp [Except.map, MergeState.setSolo2, MergeState.solo2, cols_succ, List.replicate_succ',
        add_assoc])
    (by simp [hcond]; omega) hf
  simpa [cols] using key

theorem jointCols_succ (T : QualityTables) (bases1 : List Char) (quals1 : List Int)
    (bases2 : List Char) (quals2 : List Int) (k1 k2 t : Nat) :
    jointCols T bases1 quals1 bases2 quals2 k1 k2 (t + 1) =
      jointCols T bases1 quals1 bases2 quals2 k1 k2 t ++
        [computeEntry T (bases1.getD (k1 + t) 'N') (quals1.getD (k1 + t) 0)
          (bases2.getD (k2 + t) 'N') (quals2.getD (k2 + t) 0)] := by
  simp [jointCols, List.range_succ]

theorem overlapMergeOn_MM (T : QualityTables) (n1 n2 : Nat)
    (bases1 : List Char) (quals1 : List Int) (bases2 : List Char) (quals2 : List Int)
    (hb1 : bases1.length = n1) (hq1 : quals1.length = n1)
    (hb2 : bases2.length = n2) (hq2 : quals2.length = n2) (st : MergeState)
    (hc1 : st.c_pos1 < n1) (hc2 : st.c_pos2 < n2) (hp1 : st.q_pos1 < n1) (hp2 : st.q_pos2 < n2) :
    overlapMergeOn T (List.replicate n1 'M') bases1 quals1 (List.replicate n2 'M') bases2 quals2 st =
      .ok { st with
        dna := st.dna ++ [(computeEntry T (bases1.getD st.q_pos1 'N') (quals1.getD st.q_pos1 0)
          (bases2.getD st.q_pos2 'N') (quals2.getD st.q_pos2 0)).1],
        qualities := st.qualities ++ [(computeEntry T (bases1.getD st.q_pos1 'N')
          (quals1.getD st.q_pos1 0) (bases2.getD st.q_pos2 'N') (quals2.getD st.q_pos2 0)).2],
        nucigar := st.nucigar ++ ['M'], ref_pos := st.ref_pos + 1,
        q_pos1 := st.q_pos1 + 1, q_pos2 := st.q_pos2 + 1,
        c_pos1 := st.c_pos1 + 1, c_pos2 := st.c_pos2 + 1 } := by
  simp only [overlapMergeOn, readAt_replicate n1 _ 'M' hc1, readAt_replicate n2 _ 'M' hc2,
    readAt_eq_getD bases1 _ 'N' (hb1 ▸ hp1), readAt_eq_getD quals1 _ 0 (hq1 ▸ hp1),
    readAt_eq_getD bases2 _ 'N' (hb2 ▸ hp2), readAt_eq_getD quals2 _ 0 (hq2 ▸ hp2),
    bind, Except.bind]
  simp [pure, Except.pure]

theorem joint_loop_allM (T : QualityTables) (n1 n2 : Nat)
    (bases1 : List Char) (quals1 : List Int) (bases2 : List Char) (quals2 : List Int)
    (hb1 : bases1.length = n1) (hq1 : quals1.length = n1)
    (hb2 : bases2.length = n2) (hq2 : quals2.length = n2)
    (cond : MergeState → Bool) (body : MergeState → Except MergeError MergeState) (b : Int)
    (hcond : ∀ s, cond s = decide (s.ref_pos < b))
    (hbody : ∀ s, body s = overlapMergeOn T (List.replicate n1 'M') bases1 quals1
      (List.replicate n2 'M') bases2 quals2 s)
    (d fuel : Nat) (st : MergeState)
    (hc1 : st.c_pos1 + d ≤ n1) (hp1 : st.q_pos1 + d ≤ n1)
    (hc2 : st.c_pos2 + d ≤ n2) (hp2 : st.q_pos2 + d ≤ n2)
    (href : st.ref_pos + d = b) (hf : d ≤ fuel) :
    whileLoop cond body fuel st =
      .ok { st with
        dna := st.dna ++
          (jointCols T bases1 quals1 bases2 quals2 st.q_pos1 st.q_pos2 d).map Prod.fst,
        qualities := st.qualities ++
          (jointCols T bases1 quals1 bases2 quals2 st.q_pos1 st.q_pos2 d).map Prod.snd,
        nucigar := st.nucigar ++ List.replicate d 'M',
        c_pos1 := st.c_pos1 + d, q_pos1 := st.q_pos1 + d,
        c_pos2 := st.c_pos2 + d, q_pos2 := st.q_pos2 + d,
        ref_pos := st.ref_pos + d } := by
  have key := whileLoop_iterate cond body d fuel
    (fun t => { st with
        dna := st.dna ++
          (jointCols T bases1 quals1 bases2 quals2 st.q_pos1 st.q_pos2 t).map Prod.fst,
        qualities := st.qualities ++
          (jointCols T bases1 quals1 bases2 quals2 st.q_pos1 st.q_pos2 t).map Prod.snd,
        nucigar := st.nucigar ++ List.replicate t 'M',
        c_pos1 := st.c_pos1 + t, q_pos1 := st.q_pos1 + t,
        c_pos2 := st.c_pos2 + t, q_pos2 := st.q_pos2 + t,
        ref_pos := st.ref_pos + t })
    (by
      intro t ht
      refine ⟨by simp [hcond]; omega, ?_⟩
      rw [hbody, overlapMergeOn_MM T n1 n2 bases1 quals1 bases2 quals2 hb1 hq1 hb2 hq2 _
        (by simp; omega) (by simp; omega) (by simp; omega) (by simp; omega)]
      simp [jointCols_succ, List.replicate_succ', add_assoc])
    (by simp [hcond]; omega) hf
  simpa [jointCols] using key

theorem computeOffset_replicate_M (n : Nat) : computeOffset (List.replicate n 'M') = 0 := by
  cases n with
  | zero => rfl
  | succ n => simp [List.replicate_succ, computeOffset]

theorem computeRevOffset_replicate_M (n : Nat) : computeRevOffset (List.replicate n 'M') = 0 := by
  simp [computeRevOffset, computeOffset_replicate_M]

theorem runsFrom_replicate (c : Char) (k m : Nat) :
    runsFrom c k (List.replicate m c) = [⟨c, k + m⟩] := by
  induction m generalizing k with
  | zero => simp [runsFrom]
  | succ m ih => simp [List.replicate_succ, runsFrom, ih]; omega

theorem createCigar_replicate (c : Char) (n : Nat) :
    createCigar (List.replicate (n + 1) c) = [⟨c, n + 1⟩] := by
  rw [createCigar_eq_runs, List.replicate_succ]
  simp [runs, runsFrom_replicate]; omega

theorem mergePhases_allM (T : QualityTables) (A B : AlignmentRecord) (s1 e1 s2 e2 : Nat)
    (hA : AllMatch A s1 e1) (hB : AllMatch B s2 e2)
    (h1 : s1 ≤ s2) (h2 : s2 ≤ e1) (h3 : e1 ≤ e2) :
    mergePhases
      (fun st => (A.noOverlapMerge st.solo1 1).map st.setSolo1)
      (fun st => (B.noOverlapMerge st.solo2 1).map st.setSolo2)
      (fun st => A.overlapMerge T B st 1 1)
      ((e1 - s1 + 1) + (e2 - s2 + 1) + 1) s1 e1 s2 e2 =
    .ok { dna := cols 'N' A.sequence1.forward 0 (s2 - s1) ++
            ((jointCols T A.sequence1.forward A.sequence1.forward_qualities
              B.sequence1.forward B.sequence1.forward_qualities (s2 - s1) 0
              (e1 - s2 + 1)).map Prod.fst ++
            cols 'N' B.sequence1.forward (e1 - s2 + 1) (e2 - e1)),
          qualities := cols 0 A.sequence1.forward_qualities 0 (s2 - s1) ++
            ((jointCols T A.sequence1.forward A.sequence1.forward_qualities
              B.sequence1.forward B.sequence1.forward_qualities (s2 - s1) 0
              (e1 - s2 + 1)).map Prod.snd ++
            cols 0 B.sequence1.forward_qualities (e1 - s2 + 1) (e2 - e1)),
          nucigar := List.replicate (s2 - s1) 'M' ++
            (List.replicate (e1 - s2 + 1) 'M' ++ List.replicate (e2 - e1) 'M'),
          c_pos1 := e1 - s1 + 1, c_pos2 := e2 - s2 + 1,
          q_pos1 := e1 - s1 + 1, q_pos2 := e2 - s2 + 1,
          ref_pos := e2 + 1 } := by
  obtain ⟨_, _, _, hse1, hcA, hbA, hqA⟩ := hA
  obtain ⟨_, _, _, hse2, hcB, hbB, hqB⟩ := hB
  have hcase : ((s1 : Int) ≤ s2 ∧ (e1 : Int) ≤ e2) := ⟨by omega, by omega⟩
  simp only [mergePhases, hcase, and_self, if_true]
  rw [solo1_loop_allM (e1 - s1 + 1) A.sequence1.forward A.sequence1.forward_qualities hbA hqA
    _ _ (s2 : Int) (fun s => rfl)
    (fun s => by simp [AlignmentRecord.noOverlapMerge, hcA]) (s2 - s1) _ _
    (by simp; omega) (by simp; omega) (by simp; omega) (by omega)]
  simp only [bind, Except.bind]
  rw [joint_loop_allM T (e1 - s1 + 1) (e2 - s2 + 1) A.sequence1.forward
    A.sequence1.forward_qualities B.sequence1.forward B.sequence1.forward_qualities
    hbA hqA hbB hqB _ _ ((e1 : Int) + 1) (fun s => by simp [Int.lt_add_one_iff])
    (fun s => by simp [AlignmentRecord.overlapMerge, hcA, hcB, bind, Except.bind, pure, Except.pure])
    (e1 - s2 + 1) _ _
    (by simp; omega) (by simp; omega) (by simp; omega) (by simp; omega) (by simp; omega)
    (by omega)]
  simp only []
  rw [solo2_loop_allM (e2 - s2 + 1) B.sequence1.forward B.sequence1.forward_qualities hbB hqB
    _ _ ((e2 : Int) + 1) (fun s => by simp [Int.lt_add_one_iff])
    (fun s => by simp [AlignmentRecord.noOverlapMerge, hcB]) (e2 - e1) _ _
    (by simp; omega) (by simp; omega) (by simp; omega) (by omega)]
  simp
  refine ⟨?_, ?_, ?_, ?_⟩ <;> omega

theorem cols_length {α : Type} (a : α) (l : List α) (k t : Nat) : (cols a l k t).length = t := by
  simp [cols]

theorem jointCols_length (T : QualityTables) (bases1 : List Char) (quals1 : List Int)
    (bases2 : List Char) (quals2 : List Int) (k1 k2 t : Nat) :
    (jointCols T bases1 quals1 bases2 quals2 k1 k2 t).length = t := by
  simp [jointCols]

theorem getElem?_cols {α : Type} (a : α) (l : List α) (k t j : Nat) (h : j < t) :
    (cols a l k t)[j]? = some (l.getD (k + j) a) := by
  simp [cols, List.getElem?_map, List.getElem?_range h]

theorem getElem?_jointCols (T : QualityTables) (bases1 : List Char) (quals1 : List Int)
    (bases2 : List Char) (quals2 : List Int) (k1 k2 t j : Nat) (h : j < t) :
    (jointCols T bases1 quals1 bases2 quals2 k1 k2 t)[j]? =
      some (computeEntry T (bases1.getD (k1 + j) 'N') (quals1.getD (k1 + j) 0)
        (bases2.getD (k2 + j) 'N') (quals2.getD (k2 + j) 0)) := by
  simp [jointCols, List.getElem?_map, List.getElem?_range h]

theorem getElem?_eq_some_getD {α : Type} (l : List α) (i : Nat) (a : α) (h : i < l.length) :
    l[i]? = some (l.getD i a) := by
  simp [List.getD, List.getElem?_eq_getElem h]

/-- Entry `i` of a three-part list, by the part it falls in. -/
theorem getElem?_append3 {α : Type} (l1 l2 l3 : List α) (i : Nat) :
    (i < l1.length → (l1 ++ (l2 ++ l3))[i]? = l1[i]?) ∧
    (l1.length ≤ i → i < l1.length + l2.length →
      (l1 ++ (l2 ++ l3))[i]? = l2[i - l1.length]?) ∧
    (l1.length + l2.length ≤ i →
      (l1 ++ (l2 ++ l3))[i]? = l3[i - l1.length - l2.length]?) := by
  refine ⟨?_, ?_, ?_⟩
  · intro h
    exact List.getElem?_append_left h
  · intro h1 h2
    rw [List.getElem?_append_right h1, List.getElem?_append_left (by omega)]
  · intro h
    rw [List.getElem?_append_right (by omega), List.getElem?_append_right (by omega)]

/-- C3: for two single-end all-`M` records `A = [s1, e1]` and `B = [s2, e2]` with
`s1 ≤ s2 ≤ e1 ≤ e2`, merging `B` into `A` (`mergeAlignmentRecordsSingle(B,1,1)`)
completes with a single-end record of interval `[s1, e2]` and CIGAR
`(M, e2 - s1 + 1)`; at each reference position of `[s2, e1]` its base and
quality are `computeEntry` of the base and quality of `A` and of `B` there, at
the positions of `[s1, s2)` they are those of `A`, and at the positions of
`(e1, e2]` those of `B`. -/
theorem merge_allMatch_overlap (T : QualityTables) (A B : AlignmentRecord) (s1 e1 s2 e2 : Nat)
    (hA : AllMatch A s1 e1) (hB : AllMatch B s2 e2)
    (h1 : s1 ≤ s2) (h2 : s2 ≤ e1) (h3 : e1 ≤ e2) :
    ∃ R, A.mergeAlignmentRecordsSingle T B 1 1 = .ok R ∧
      R.single_end = true ∧ R.start1 = s1 ∧ R.end1 = e2 ∧
      R.cigar1 = [⟨'M', e2 - s1 + 1⟩] ∧
      (∀ p, s2 ≤ p → p ≤ e1 →
        ∃ a qa b qb,
          A.sequence1.forward[p - s1]? = some a ∧
          A.sequence1.forward_qualities[p - s1]? = some qa ∧
          B.sequence1.forward[p - s2]? = some b ∧
          B.sequence1.forward_qualities[p - s2]? = some qb ∧
          R.sequence1.forward[p - s1]? = some (computeEntry T a qa b qb).1 ∧
          R.sequence1.forward_qualities[p - s1]? = some (computeEntry T a qa b qb).2) ∧
      (∀ p, s1 ≤ p → p < s2 →
        ∃ a qa,
          A.sequence1.forward[p - s1]? = some a ∧
          A.sequence1.forward_qualities[p - s1]? = some qa ∧
          R.sequence1.forward[p - s1]? = some a ∧
          R.sequence1.forward_qualities[p - s1]? = some qa) ∧
      (∀ p, e1 < p → p ≤ e2 →
        ∃ b qb,
          B.sequence1.forward[p - s2]? = some b ∧
          B.sequence1.forward_qualities[p - s2]? = some qb ∧
          R.sequence1.forward[p - s1]? = some b ∧
          R.sequence1.forward_qualities[p - s1]? = some qb) := by
  have hph := mergePhases_allM T A B s1 e1 s2 e2 hA hB h1 h2 h3
  obtain ⟨_, hsA, heA, hse1, hcA, hbA, hqA⟩ := hA
  obtain ⟨_, hsB, heB, hse2, hcB, hbB, hqB⟩ := hB
  simp only [AlignmentRecord.mergeAlignmentRecordsSingle, if_true, hcA, hcB,
    computeOffset_replicate_M, computeRevOffset_replicate_M, List.length_replicate,
    hsA, heA, hsB, heB, sub_zero, add_zero, pure, Except.pure, bind, Except.bind, hph]
  refine ⟨_, rfl, rfl, ?_, ?_, ?_, ?_, ?_, ?_⟩
  · show min s1 s2 = s1
    omega
  · show max e2 e1 = e2
    omega
  · show createCigar _ = _
    rw [← List.replicate_add, ← List.replicate_add]
    have : s2 - s1 + (e1 - s2 + 1 + (e2 - e1)) = (e2 - s1) + 1 := by omega
    rw [this, createCigar_replicate]
  · intro p hp1 hp2
    have hi : s2 - s1 + (p - s2) = p - s1 := by omega
    refine ⟨A.sequence1.forward.getD (p - s1) 'N', A.sequence1.forward_qualities.getD (p - s1) 0,
      B.sequence1.forward.getD (p - s2) 'N', B.sequence1.forward_qualities.getD (p - s2) 0,
      getElem?_eq_some_getD _ _ _ (by omega), getElem?_eq_some_getD _ _ _ (by omega),
      getElem?_eq_some_getD _ _ _ (by omega), getElem?_eq_some_getD _ _ _ (by omega), ?_, ?_⟩
    · show (_ ++ (_ ++ _))[p - s1]? = _
      rw [(getElem?_append3 _ _ _ (p - s1)).2.1 (by simp [cols_length]; omega)
        (by simp [cols_length, jointCols_length]; omega)]
      simp only [cols_length, List.getElem?_map]
      rw [getElem?_jointCols _ _ _ _ _ _ _ _ _ (by omega)]
      have hj : p - s1 - (s2 - s1) = p - s2 := by omega
      simp [hj, hi]
    · show (_ ++ (_ ++ _))[p - s1]? = _
      rw [(getElem?_append3 _ _ _ (p - s1)).2.1 (by simp [cols_length]; omega)
        (by simp [cols_length, jointCols_length]; omega)]
      simp only [cols_length, List.getElem?_map]
      rw [getElem?_jointCols _ _ _ _ _ _ _ _ _ (by omega)]
      have hj : p - s1 - (s2 - s1) = p - s2 := by omega
      simp [hj, hi]
  · intro p hp1 hp2
    refine ⟨A.sequence1.forward.getD (p - s1) 'N', A.sequence1.forward_qualities.getD (p - s1) 0,
      getElem?_eq_some_getD _ _ _ (by omega), getElem?_eq_some_getD _ _ _ (by omega), ?_, ?_⟩
    · show (_ ++ (_ ++ _))[p - s1]? = _
      rw [(getElem?_append3 _ _ _ (p - s1)).1 (by simp [cols_length]; omega),
        getElem?_cols _ _ _ _ _ (by omega)]
      simp
    · show (_ ++ (_ ++ _))[p - s1]? = _
      rw [(getElem?_append3 _ _ _ (p - s1)).1 (by simp [cols_length]; omega),
        getElem?_cols _ _ _ _ _ (by omega)]
      simp
  · intro p hp1 hp2
    have hi : e1 - s2 + 1 + (p - s1 - (s2 - s1) - (e1 - s2 + 1)) = p - s2 := by omega
    refine ⟨B.sequence1.forward.getD (p - s2) 'N', B.sequence1.forward_qualities.getD (p - s2) 0,
      getElem?_eq_some_getD _ _ _ (by omega), getElem?_eq_some_getD _ _ _ (by omega), ?_, ?_⟩
    · show (_ ++ (_ ++ _))[p - s1]? = _
      rw [(getElem?_append3 _ _ _ (p - s1)).2.2
        (by simp [cols_length, jointCols_length]; omega)]
      simp only [cols_length, List.length_map, jointCols_length]
      rw [getElem?_cols _ _ _ _ _ (by omega), hi]
    · show (_ ++ (_ ++ _))[p - s1]? = _
      rw [(getElem?_append3 _ _ _ (p - s1)).2.2
        (by simp [cols_length, jointCols_length]; omega)]
      simp only [cols_length, List.length_map, jointCols_length]
      rw [getElem?_cols _ _ _ _ _ (by omega), hi]

theorem sampleA_allMatch : AllMatch sampleA 100 120 :=
  ⟨rfl, rfl, rfl, by decide, rfl, rfl, rfl⟩

theorem sampleB_allMatch : AllMatch sampleB 110 130 :=
  ⟨rfl, rfl, rfl, by decide, rfl, rfl, rfl⟩

theorem sample_merge_ok :
    sampleA.mergeAlignmentRecordsSingle sampleTables sampleB 1 1 = .ok sampleMergedAB := by
  rfl

/-- Witness of C3 on the end-to-end example: `A = [100, 120]`, `B = [110, 130]`,
all Phred 30. -/
theorem merge_allMatch_overlap_witness :
    AllMatch sampleA 100 120 ∧ AllMatch sampleB 110 130 ∧
    ∃ R, sampleA.mergeAlignmentRecordsSingle sampleTables sampleB 1 1 = .ok R ∧
      R.single_end = true ∧ R.start1 = 100 ∧ R.end1 = 130 ∧ R.cigar1 = [⟨'M', 31⟩] := by
  obtain ⟨R, h, hs, h1, h2, h3, _⟩ :=
    merge_allMatch_overlap sampleTables sampleA sampleB 100 120 110 130
      sampleA_allMatch sampleB_allMatch (by decide) (by decide) (by decide)
  exact ⟨sampleA_allMatch, sampleB_allMatch, R, h, hs, h1, h2, h3⟩

/-! ## Proofs: record-level result of a pairwise merge -/

/-- C4: whenever `mergeAlignmentRecordsSingle(B,1,1)` on `A` completes, the
record is single-end with `start1 = min(A.start1, B.start1)` and
`end1 = max(A.end1, B.end1)`, its compact `cigar1` is `createCigar` of its new
unrolled `cigar1`, and `phred_sum1` is `phred_sum` of the new quality string. -/
theorem mergeSingle_result_fields (T : QualityTables) (A B R : AlignmentRecord)
    (h : A.mergeAlignmentRecordsSingle T B 1 1 = .ok R) :
    R.single_end = true ∧ R.start1 = min A.start1 B.start1 ∧ R.end1 = max A.end1 B.end1 ∧
    R.cigar1 = createCigar R.cigar1_unrolled ∧
    R.phred_sum1 = phred_sum R.sequence1.forward_qualities 33 := by
  simp only [AlignmentRecord.mergeAlignmentRecordsSingle, if_true, bind, Except.bind, pure,
    Except.pure] at h
  split at h
  · simp at h
  · simp at h
    subst h
    simp [max_comm]

/-- Witness of C4: the merge of the two sample records completes. -/
theorem mergeSingle_result_fields_witness :
    sampleA.mergeAlignmentRecordsSingle sampleTables sampleB 1 1 = .ok sampleMergedAB ∧
    sampleMergedAB.single_end = true ∧
    sampleMergedAB.start1 = min sampleA.start1 sampleB.start1 ∧
    sampleMergedAB.end1 = max sampleA.end1 sampleB.end1 ∧
    sampleMergedAB.cigar1 = createCigar sampleMergedAB.cigar1_unrolled ∧
    sampleMergedAB.phred_sum1 = phred_sum sampleMergedAB.sequence1.forward_qualities 33 :=
  ⟨sample_merge_ok,
    mergeSingle_result_fields sampleTables sampleA sampleB sampleMergedAB sample_merge_ok⟩

/-! ## Proofs: `computeEntry` -/

/-- C5: `computeEntry(b1,q1,b2,q2)` returns base `b1` when `b1 == b2`; otherwise
it returns `b1` when `q1 >= q2` (ties favour the first argument) and `b2` when
`q1 < q2`. This holds for all quality codes, in particular for 33..126. -/
theorem computeEntry_base (T : QualityTables) (b1 b2 : Char) (q1 q2 : Int) :
    (b1 = b2 → (computeEntry T b1 q1 b2 q2).1 = b1) ∧
    (b1 ≠ b2 → q1 ≥ q2 → (computeEntry T b1 q1 b2 q2).1 = b1) ∧
    (b1 ≠ b2 → q1 < q2 → (computeEntry T b1 q1 b2 q2).1 = b2) := by
  refine ⟨?_, ?_, ?_⟩
  · intro h; simp [computeEntry, h]
  · intro h hq; simp [computeEntry, h, hq]
  · intro h hq; simp [computeEntry, h, not_le.mpr hq]

/-! ## Proofs: quality model -/

theorem rounds_exact (x : ℝ) : Rounds x x := by
  unfold Rounds
  simp
  positivity

theorem rounds_near (x y M : ℝ) (h : Rounds x y) (hM : |x| ≤ M) :
    x - M / 1000000 ≤ y ∧ y ≤ x + M / 1000000 := by
  unfold Rounds at h
  have h1 : |x| / 2 ^ 20 ≤ M / 1000000 := by
    have : (0:ℝ) ≤ |x| := abs_nonneg x
    have h2 : |x| / 2 ^ 20 ≤ |x| / 1000000 := by
      apply div_le_div_of_nonneg_left this (by norm_num) (by norm_num)
    have h3 : |x| / 1000000 ≤ M / 1000000 := by
      apply div_le_div_of_nonneg_right hM (by norm_num)
    linarith
  have h4 := abs_le.mp (le_trans h h1)
  constructor <;> linarith [h4.1, h4.2]

theorem rounds_pos (x y lo hi : ℝ) (h : Rounds x y) (h0 : 0 ≤ lo) (hlo : lo ≤ x) (hhi : x ≤ hi) :
    lo * (1 - 1 / 1000000) ≤ y ∧ y ≤ hi * (1 + 1 / 1000000) := by
  have hx : |x| ≤ x := by rw [abs_of_nonneg (le_trans h0 hlo)]
  obtain ⟨h1, h2⟩ := rounds_near x y x h hx
  constructor
  · nlinarith
  · nlinarith

theorem log_ten_le : Real.log 10 ≤ 3 := by
  rw [Real.log_le_iff_le_exp (by norm_num)]
  have h1 : (2.7 : ℝ) < Real.exp 1 := by
    have := Real.exp_one_gt_d9
    linarith
  have h2 : Real.exp 3 = Real.exp 1 ^ 3 := by
    rw [← Real.exp_nat_mul]; norm_num
  rw [h2]
  have : (2.7:ℝ)^3 ≤ Real.exp 1 ^ 3 := by
    apply pow_le_pow_left₀ (by norm_num) (le_of_lt h1)
  norm_num at this ⊢
  linarith

theorem log_ten_pos : 0 < Real.log 10 := Real.log_pos (by norm_num)

theorem rpow_ten_near_one (t δ : ℝ) (h : |t| ≤ δ) (hδ : δ ≤ 1 / 12) :
    1 - 3 * δ ≤ (10 : ℝ) ^ t ∧ (10 : ℝ) ^ t ≤ 1 + 4 * δ := by
  have hδ0 : 0 ≤ δ := le_trans (abs_nonneg t) h
  obtain ⟨ht1, ht2⟩ := abs_le.mp h
  rw [Real.rpow_def_of_pos (by norm_num : (0:ℝ) < 10)]
  have hL := log_ten_le
  have hL0 := log_ten_pos
  constructor
  · have := Real.add_one_le_exp (Real.log 10 * t)
    nlinarith
  · have hs : Real.log 10 * t ≤ 3 * δ := by nlinarith
    have h1 : Real.exp (Real.log 10 * t) ≤ Real.exp (3 * δ) := Real.exp_le_exp.mpr hs
    have h2 : Real.exp (3 * δ) ≤ 1 / (1 - 3 * δ) :=
      Real.exp_bound_div_one_sub_of_interval (by linarith) (by linarith)
    have h3 : 1 / (1 - 3 * δ) ≤ 1 + 4 * δ := by
      rw [div_le_iff₀ (by linarith)]
      nlinarith
    linarith

theorem logb_ten_le_of_pow (x : ℝ) (hx : 0 < x) (k : ℕ) (hk : 0 < k) (a : ℤ)
    (h : x ^ k ≤ (10 : ℝ) ^ a) : Real.logb 10 x ≤ (a : ℝ) / k := by
  have h1 : Real.log (x ^ k) ≤ Real.log ((10 : ℝ) ^ a) := Real.log_le_log (by positivity) h
  rw [Real.log_pow, Real.log_zpow] at h1
  have hL := log_ten_pos
  have hk' : (0 : ℝ) < k := by exact_mod_cast hk
  unfold Real.logb
  rw [div_le_div_iff₀ hL hk']
  linarith

theorem le_logb_ten_of_pow (x : ℝ) (k : ℕ) (hk : 0 < k) (a : ℤ)
    (h : (10 : ℝ) ^ a ≤ x ^ k) : (a : ℝ) / k ≤ Real.logb 10 x := by
  have h1 : Real.log ((10 : ℝ) ^ a) ≤ Real.log (x ^ k) := Real.log_le_log (by positivity) h
  rw [Real.log_pow, Real.log_zpow] at h1
  have hL := log_ten_pos
  have hk' : (0 : ℝ) < k := by exact_mod_cast hk
  unfold Real.logb
  rw [div_le_div_iff₀ hk' hL]
  linarith

theorem roundsToInt_unique (m : ℝ) (n N : Int) (h : RoundsToInt m n)
    (h1 : (N : ℝ) - 1 / 2 < m) (h2 : m < (N : ℝ) + 1 / 2) : n = N := by
  obtain ⟨hp, hn⟩ := h
  rcases le_or_lt 0 m with h0 | h0
  · obtain ⟨a, b⟩ := hp h0
    have c1 : (n : ℝ) < (N : ℝ) + 1 := by linarith
    have c2 : (N : ℝ) < (n : ℝ) + 1 := by linarith
    have d1 : n < N + 1 := by exact_mod_cast c1
    have d2 : N < n + 1 := by exact_mod_cast c2
    omega
  · obtain ⟨a, b⟩ := hn h0
    have c1 : (n : ℝ) < (N : ℝ) + 1 := by linarith
    have c2 : (N : ℝ) < (n : ℝ) + 1 := by linarith
    have d1 : n < N + 1 := by exact_mod_cast c1
    have d2 : N < n + 1 := by exact_mod_cast c2
    omega

theorem roundsToInt_of_near (m : ℝ) (N : Int)
    (h1 : (N : ℝ) - 1 / 2 < m) (h2 : m < (N : ℝ) + 1 / 2) : RoundsToInt m N := by
  constructor
  · intro _; constructor <;> linarith
  · intro _; constructor <;> linarith

/-- Bounds on the value that `PhredOf` rounds. -/
theorem phredOf_bounds (post : ℝ) (n : Int) (lo hi : ℝ) (h : PhredOf post n)
    (hlo : lo ≤ Real.logb 10 post) (hhi : Real.logb 10 post ≤ hi)
    (hlo' : -25 ≤ lo) (hhi' : hi ≤ 25) :
    ∃ m : ℝ, RoundsToInt m n ∧ -10 * hi - 1 / 1000 ≤ m ∧ m ≤ -10 * lo + 1 / 1000 := by
  obtain ⟨l, m, hl, hm, hr⟩ := h
  have hx : |Real.logb 10 post| ≤ 25 := abs_le.mpr ⟨by linarith, by linarith⟩
  obtain ⟨l1, l2⟩ := rounds_near _ _ 25 hl hx
  have hl' : |-10 * l| ≤ 251 := by
    rw [abs_le]; constructor <;> linarith
  obtain ⟨m1, m2⟩ := rounds_near _ _ 251 hm hl'
  exact ⟨m, hr, by linarith, by linarith⟩

/-- Bounds on the value of `std::pow(10, (float)-qual/10)`. -/
theorem powProb_bounds (qual : Int) (prob : ℝ) (h : PowProb qual prob)
    (hq1 : -127 ≤ qual) (hq2 : qual ≤ 127) :
    (10 : ℝ) ^ (-(qual : ℝ) / 10) * (1 - 1 / 10000) ≤ prob ∧
    prob ≤ (10 : ℝ) ^ (-(qual : ℝ) / 10) * (1 + 1 / 10000) := by
  obtain ⟨x, hx, hp⟩ := h
  have hq1' : (-127 : ℝ) ≤ qual := by exact_mod_cast hq1
  have hq2' : (qual : ℝ) ≤ 127 := by exact_mod_cast hq2
  have hM : |-(qual : ℝ) / 10| ≤ 13 := by
    rw [abs_le]; constructor <;> linarith
  obtain ⟨x1, x2⟩ := rounds_near _ _ 13 hx hM
  have ht : |x - -(qual : ℝ) / 10| ≤ 13 / 1000000 := by
    rw [abs_le]; constructor <;> linarith
  obtain ⟨t1, t2⟩ := rpow_ten_near_one _ _ ht (by norm_num)
  have hP : (0 : ℝ) < (10 : ℝ) ^ (-(qual : ℝ) / 10) := Real.rpow_pos_of_pos (by norm_num) _
  have hsplit : (10 : ℝ) ^ x = (10 : ℝ) ^ (-(qual : ℝ) / 10) * (10 : ℝ) ^ (x - -(qual : ℝ) / 10) := by
    rw [← Real.rpow_add (by norm_num)]
    congr 1
    ring
  have hE0 : (0 : ℝ) ≤ (10 : ℝ) ^ x := le_of_lt (Real.rpow_pos_of_pos (by norm_num) _)
  obtain ⟨p1, p2⟩ := rounds_pos _ _ _ _ hp hE0 (le_refl _) (le_refl _)
  rw [hsplit] at p1 p2
  constructor
  · have : (10 : ℝ) ^ (-(qual : ℝ) / 10) * (1 - 1 / 10000) ≤
        (10 : ℝ) ^ (-(qual : ℝ) / 10) * (10 : ℝ) ^ (x - -(qual : ℝ) / 10) * (1 - 1 / 1000000) := by
      have : (1 - 1 / 10000 : ℝ) ≤ (10 : ℝ) ^ (x - -(qual : ℝ) / 10) * (1 - 1 / 1000000) := by
        nlinarith
      nlinarith
    linarith
  · have : (10 : ℝ) ^ (-(qual : ℝ) / 10) * (10 : ℝ) ^ (x - -(qual : ℝ) / 10) * (1 + 1 / 1000000) ≤
        (10 : ℝ) ^ (-(qual : ℝ) / 10) * (1 + 1 / 10000) := by
      have : (10 : ℝ) ^ (x - -(qual : ℝ) / 10) * (1 + 1 / 1000000) ≤ (1 + 1 / 10000 : ℝ) := by
        nlinarith
      nlinarith
    linarith

/-- When the exact Phred value of `post` lies well inside the rounding interval
of `N`, `PhredOf post` returns `N` and nothing else. -/
theorem phredOf_eq (post : ℝ) (N : Int) (lo hi : ℝ)
    (hlo : lo ≤ Real.logb 10 post) (hhi : Real.logb 10 post ≤ hi)
    (hlo' : -25 ≤ lo) (hhi' : hi ≤ 25)
    (h1 : (N : ℝ) - 1 / 2 < -10 * hi - 1 / 1000) (h2 : -10 * lo + 1 / 1000 < (N : ℝ) + 1 / 2) :
    PhredOf post N ∧ ∀ n, PhredOf post n → n = N := by
  constructor
  · refine ⟨Real.logb 10 post, -10 * Real.logb 10 post, rounds_exact _, rounds_exact _, ?_⟩
    apply roundsToInt_of_near <;> linarith
  · intro n hn
    obtain ⟨m, hr, m1, m2⟩ := phredOf_bounds post n lo hi hn hlo hhi hlo' hhi'
    exact roundsToInt_unique m n N hr (by linarith) (by linarith)

theorem rpow_ten_neg_four : (10 : ℝ) ^ (-((40 : Int) : ℝ) / 10) = 1 / 10000 := by
  have : (-((40 : Int) : ℝ) / 10) = ((-4 : ℤ) : ℝ) := by norm_num
  rw [this, Real.rpow_intCast]
  norm_num

/-- Bounds on a rounded quotient of two positive rounded values. -/
theorem rounds_div_bounds (num den q nl nh dl dh : ℝ) (h : Rounds (num / den) q)
    (hnl : 0 ≤ nl) (hdl : 0 < dl) (h1 : nl ≤ num) (h2 : num ≤ nh) (h3 : dl ≤ den)
    (h4 : den ≤ dh) :
    nl / dh * (1 - 1 / 1000000) ≤ q ∧ q ≤ nh / dl * (1 + 1 / 1000000) := by
  have hden0 : 0 < den := lt_of_lt_of_le hdl h3
  have hdh : 0 < dh := lt_of_lt_of_le hden0 h4
  have q1 : nl / dh ≤ num / den := by
    apply div_le_div₀ (le_trans hnl h1) h1 hden0 h4
  have q2 : num / den ≤ nh / dl := by
    apply div_le_div₀ (le_trans (le_trans hnl h1) h2) h2 hdl h3
  exact rounds_pos (num / den) q _ _ h (div_nonneg hnl (le_of_lt hdh)) q1 q2

/-- Bounds on a rounded product of two non-negative rounded values. -/
theorem rounds_mul_bounds (a b p al ah bl bh : ℝ) (h : Rounds (a * b) p)
    (hal : 0 ≤ al) (hbl : 0 ≤ bl) (h1 : al ≤ a) (h2 : a ≤ ah) (h3 : bl ≤ b) (h4 : b ≤ bh) :
    al * bl * (1 - 1 / 1000000) ≤ p ∧ p ≤ ah * bh * (1 + 1 / 1000000) := by
  have q1 : al * bl ≤ a * b := mul_le_mul h1 h3 hbl (le_trans hal h1)
  have q2 : a * b ≤ ah * bh := mul_le_mul h2 h4 (le_trans hbl h3) (le_trans (le_trans hal h1) h2)
  exact rounds_pos (a * b) p _ _ h (mul_nonneg hal hbl) q1 q2

/-- The numerator `prob1*prob2/3` and the denominator
`1-prob1-prob2+4*prob1*prob2/3` of `agreement`, for two error probabilities in
`[pl, ph]`. -/
theorem agreement_num_den_bounds (pl ph : ℝ) (prob1 prob2 t1 num u1 u2 v1 v2 v3 den : ℝ)
    (hpl : 0 ≤ pl) (hph : ph ≤ 1)
    (a1 : pl ≤ prob1) (b1 : prob1 ≤ ph) (a2 : pl ≤ prob2) (b2 : prob2 ≤ ph)
    (ht1 : Rounds (prob1 * prob2) t1) (hnum : Rounds (t1 / 3) num)
    (hu1 : Rounds (1 - prob1) u1) (hu2 : Rounds (u1 - prob2) u2)
    (hv1 : Rounds (4 * prob1) v1) (hv2 : Rounds (v1 * prob2) v2) (hv3 : Rounds (v2 / 3) v3)
    (hden : Rounds (u2 + v3) den) :
    (pl * pl / 3 * (1 - 3 / 1000000) ≤ num ∧ num ≤ ph * ph / 3 * (1 + 3 / 1000000)) ∧
    (1 - prob1 - prob2 + 4 * prob1 * prob2 / 3 - 20 / 1000000 ≤ den ∧
      den ≤ 1 - prob1 - prob2 + 4 * prob1 * prob2 / 3 + 20 / 1000000) := by
  have hp1 : 0 ≤ prob1 := le_trans hpl a1
  have hp2 : 0 ≤ prob2 := le_trans hpl a2
  have hp1' : prob1 ≤ 1 := le_trans b1 hph
  have hp2' : prob2 ≤ 1 := le_trans b2 hph
  have hpp : 0 ≤ prob1 * prob2 := mul_nonneg hp1 hp2
  have hpp' : prob1 * prob2 ≤ 1 := by
    calc prob1 * prob2 ≤ 1 * 1 := mul_le_mul hp1' hp2' hp2 (by norm_num)
      _ = 1 := by norm_num
  constructor
  · obtain ⟨t1a, t1b⟩ := rounds_mul_bounds prob1 prob2 t1 pl ph pl ph ht1 hpl hpl a1 b1 a2 b2
    have hll : 0 ≤ pl * pl := mul_nonneg hpl hpl
    have hhh : 0 ≤ ph * ph := mul_nonneg (le_trans hpl (le_trans a1 b1)) (le_trans hpl (le_trans a1 b1))
    obtain ⟨na, nb⟩ := rounds_pos (t1 / 3) num (pl * pl * (1 - 1 / 1000000) / 3)
      (ph * ph * (1 + 1 / 1000000) / 3) hnum (by positivity) (by linarith) (by linarith)
    constructor
    · nlinarith
    · nlinarith
  · obtain ⟨u1a, u1b⟩ := rounds_near (1 - prob1) u1 1 hu1 (by rw [abs_le]; constructor <;> linarith)
    obtain ⟨u2a, u2b⟩ := rounds_near (u1 - prob2) u2 2 hu2
      (by rw [abs_le]; constructor <;> linarith)
    obtain ⟨v1a, v1b⟩ := rounds_near (4 * prob1) v1 4 hv1
      (by rw [abs_le]; constructor <;> linarith)
    have hv1p : |v1 * prob2 - 4 * prob1 * prob2| ≤ 4 / 1000000 := by
      have : v1 * prob2 - 4 * prob1 * prob2 = (v1 - 4 * prob1) * prob2 := by ring
      rw [this, abs_mul, abs_of_nonneg hp2]
      have h5 : |v1 - 4 * prob1| ≤ 4 / 1000000 := by
        rw [abs_le]; constructor <;> linarith
      calc |v1 - 4 * prob1| * prob2 ≤ 4 / 1000000 * 1 :=
            mul_le_mul h5 hp2' hp2 (by norm_num)
        _ = 4 / 1000000 := by norm_num
    obtain ⟨w1, w2⟩ := abs_le.mp hv1p
    obtain ⟨v2a, v2b⟩ := rounds_near (v1 * prob2) v2 5 hv2
      (by rw [abs_le]; constructor <;> linarith)
    obtain ⟨v3a, v3b⟩ := rounds_near (v2 / 3) v3 2 hv3
      (by rw [abs_le]; constructor <;> linarith)
    obtain ⟨da, db⟩ := rounds_near (u2 + v3) den 5 hden
      (by rw [abs_le]; constructor <;> linarith)
    constructor <;> linarith

/-- The posterior that `agreement(40, 40)` computes. -/
theorem agreement_40_40_posterior (prob1 prob2 t1 num u1 u2 v1 v2 v3 den posterior : ℝ)
    (hp1 : PowProb 40 prob1) (hp2 : PowProb 40 prob2)
    (ht1 : Rounds (prob1 * prob2) t1) (hnum : Rounds (t1 / 3) num)
    (hu1 : Rounds (1 - prob1) u1) (hu2 : Rounds (u1 - prob2) u2)
    (hv1 : Rounds (4 * prob1) v1) (hv2 : Rounds (v1 * prob2) v2) (hv3 : Rounds (v2 / 3) v3)
    (hden : Rounds (u2 + v3) den) (hpost : Rounds (num / den) posterior) :
    333 / 100000000000 ≤ posterior ∧ posterior ≤ 334 / 100000000000 := by
  obtain ⟨a1, b1⟩ := powProb_bounds 40 prob1 hp1 (by norm_num) (by norm_num)
  obtain ⟨a2, b2⟩ := powProb_bounds 40 prob2 hp2 (by norm_num) (by norm_num)
  rw [rpow_ten_neg_four] at a1 b1 a2 b2
  have a1' : (9999 / 100000000 : ℝ) ≤ prob1 := by linarith
  have b1' : prob1 ≤ (10001 / 100000000 : ℝ) := by linarith
  have a2' : (9999 / 100000000 : ℝ) ≤ prob2 := by linarith
  have b2' : prob2 ≤ (10001 / 100000000 : ℝ) := by linarith
  obtain ⟨⟨na, nb⟩, ⟨da, db⟩⟩ := agreement_num_den_bounds _ _ prob1 prob2 t1 num u1 u2 v1 v2 v3 den
    (by norm_num) (by norm_num) a1' b1' a2' b2' ht1 hnum hu1 hu2 hv1 hv2 hv3 hden
  have hpp : 0 ≤ prob1 * prob2 := mul_nonneg (by linarith) (by linarith)
  have hpp' : prob1 * prob2 ≤ 1 / 1000000 := by
    calc prob1 * prob2 ≤ (10001 / 100000000) * (10001 / 100000000) :=
          mul_le_mul b1' b2' (by linarith) (by norm_num)
      _ ≤ 1 / 1000000 := by norm_num
  obtain ⟨pa, pb⟩ := rounds_div_bounds num den posterior (3332 / 1000000000000 : ℝ)
    (3335 / 1000000000000 : ℝ) (9997 / 10000 : ℝ) (10001 / 10000 : ℝ) hpost (by norm_num)
    (by norm_num) (by norm_num at na ⊢; linarith) (by norm_num at nb ⊢; linarith)
    (by linarith) (by linarith)
  constructor
  · norm_num at pa ⊢; linarith
  · norm_num at pb ⊢; linarith

theorem agreement_40_40_phred (posterior : ℝ)
    (h1 : 333 / 100000000000 ≤ posterior) (h2 : posterior ≤ 334 / 100000000000) :
    PhredOf posterior 85 ∧ ∀ n, PhredOf posterior n → n = 85 := by
  have hpos : (0 : ℝ) < posterior := by linarith
  have hlo : ((-17 : ℤ) : ℝ) / (2 : ℕ) ≤ Real.logb 10 posterior := by
    apply le_logb_ten_of_pow posterior 2 (by norm_num) (-17)
    have : (333 / 100000000000 : ℝ) ^ 2 ≤ posterior ^ 2 :=
      pow_le_pow_left₀ (by norm_num) h1 2
    have h3 : (10 : ℝ) ^ (-17 : ℤ) ≤ (333 / 100000000000 : ℝ) ^ 2 := by norm_num
    exact le_trans h3 this
  have hhi : Real.logb 10 posterior ≤ ((-423 : ℤ) : ℝ) / (50 : ℕ) := by
    apply logb_ten_le_of_pow posterior hpos 50 (by norm_num) (-423)
    have : posterior ^ 50 ≤ (334 / 100000000000 : ℝ) ^ 50 :=
      pow_le_pow_left₀ (le_of_lt hpos) h2 50
    have h3 : (334 / 100000000000 : ℝ) ^ 50 ≤ (10 : ℝ) ^ (-423 : ℤ) := by norm_num
    exact le_trans this h3
  exact phredOf_eq posterior 85 _ _ hlo hhi (by norm_num) (by norm_num) (by norm_num)
    (by norm_num)

theorem agreement_40_40 : agreement 40 40 85 ∧ ∀ n, agreement 40 40 n → n = 85 := by
  constructor
  · have hp : PowProb 40 ((10 : ℝ) ^ (-((40 : Int) : ℝ) / 10)) :=
      ⟨_, rounds_exact _, rounds_exact _⟩
    set p : ℝ := (10 : ℝ) ^ (-((40 : Int) : ℝ) / 10) with hpdef
    have hb := agreement_40_40_posterior p p (p * p) (p * p / 3) (1 - p) (1 - p - p) (4 * p)
      (4 * p * p) (4 * p * p / 3) (1 - p - p + 4 * p * p / 3)
      ((p * p / 3) / (1 - p - p + 4 * p * p / 3)) hp hp (rounds_exact _) (rounds_exact _)
      (rounds_exact _) (rounds_exact _) (rounds_exact _) (rounds_exact _) (rounds_exact _)
      (rounds_exact _) (rounds_exact _)
    exact ⟨p, p, _, _, _, _, _, _, _, _, _, hp, hp, rounds_exact _, rounds_exact _,
      rounds_exact _, rounds_exact _, rounds_exact _, rounds_exact _, rounds_exact _,
      rounds_exact _, rounds_exact _, (agreement_40_40_phred _ hb.1 hb.2).1⟩
  · rintro n ⟨prob1, prob2, t1, num, u1, u2, v1, v2, v3, den, posterior, hp1, hp2, ht1, hnum,
      hu1, hu2, hv1, hv2, hv3, hden, hpost, hph⟩
    have hb := agreement_40_40_posterior prob1 prob2 t1 num u1 u2 v1 v2 v3 den posterior
      hp1 hp2 ht1 hnum hu1 hu2 hv1 hv2 hv3 hden hpost
    exact (agreement_40_40_phred posterior hb.1 hb.2).2 n hph

theorem rpow_ten_neg_three : (10 : ℝ) ^ (-((30 : Int) : ℝ) / 10) = 1 / 1000 := by
  have : (-((30 : Int) : ℝ) / 10) = ((-3 : ℤ) : ℝ) := by norm_num
  rw [this, Real.rpow_intCast]
  norm_num

theorem rpow_ten_neg_two : (10 : ℝ) ^ (-((20 : Int) : ℝ) / 10) = 1 / 100 := by
  have : (-((20 : Int) : ℝ) / 10) = ((-2 : ℤ) : ℝ) := by norm_num
  rw [this, Real.rpow_intCast]
  norm_num

/-- The numerator `prob1*(1-prob2/3)` of `disagreement(30, 20)`. -/
theorem disagreement_30_20_num (prob1 prob2 a1 a2 num : ℝ)
    (h1 : (9999 / 10000000 : ℝ) ≤ prob1) (h2 : prob1 ≤ (10001 / 10000000 : ℝ))
    (h3 : (9999 / 1000000 : ℝ) ≤ prob2) (h4 : prob2 ≤ (10001 / 1000000 : ℝ))
    (ha1 : Rounds (prob2 / 3) a1) (ha2 : Rounds (1 - a1) a2) (hnum : Rounds (prob1 * a2) num) :
    (9965 / 10000000 : ℝ) ≤ num ∧ num ≤ (9968 / 10000000 : ℝ) := by
  obtain ⟨x1, x2⟩ := rounds_pos (prob2 / 3) a1 (3333 / 1000000 : ℝ) (3334 / 1000000 : ℝ) ha1
    (by norm_num) (by linarith) (by linarith)
  obtain ⟨y1, y2⟩ := rounds_pos (1 - a1) a2 (99666 / 100000 : ℝ) (99667 / 100000 : ℝ) ha2
    (by norm_num) (by linarith) (by linarith)
  obtain ⟨z1, z2⟩ := rounds_mul_bounds prob1 a2 num (9999 / 10000000 : ℝ)
    (10001 / 10000000 : ℝ) (99665 / 100000 : ℝ) (99668 / 100000 : ℝ) hnum (by norm_num)
    (by norm_num) h1 h2 (by linarith) (by linarith)
  constructor
  · norm_num at z1 ⊢; linarith
  · norm_num at z2 ⊢; linarith

/-- The denominator `prob1+prob2-4*prob1*prob2/3` of `disagreement(30, 20)`. -/
theorem disagreement_30_20_den (prob1 prob2 b1 c1 c2 c3 den : ℝ)
    (h1 : (9999 / 10000000 : ℝ) ≤ prob1) (h2 : prob1 ≤ (10001 / 10000000 : ℝ))
    (h3 : (9999 / 1000000 : ℝ) ≤ prob2) (h4 : prob2 ≤ (10001 / 1000000 : ℝ))
    (hb1 : Rounds (prob1 + prob2) b1)
    (hc1 : Rounds (4 * prob1) c1) (hc2 : Rounds (c1 * prob2) c2) (hc3 : Rounds (c2 / 3) c3)
    (hden : Rounds (b1 - c3) den) :
    (10985 / 1000000 : ℝ) ≤ den ∧ den ≤ (10989 / 1000000 : ℝ) := by
  obtain ⟨x1, x2⟩ := rounds_pos (prob1 + prob2) b1 (109989 / 10000000 : ℝ)
    (110011 / 10000000 : ℝ) hb1 (by norm_num) (by linarith) (by linarith)
  obtain ⟨y1, y2⟩ := rounds_pos (4 * prob1) c1 (39996 / 10000000 : ℝ) (40004 / 10000000 : ℝ) hc1
    (by norm_num) (by linarith) (by linarith)
  obtain ⟨z1, z2⟩ := rounds_mul_bounds c1 prob2 c2 (39995 / 10000000 : ℝ)
    (40005 / 10000000 : ℝ) (9999 / 1000000 : ℝ) (10001 / 1000000 : ℝ) hc2 (by norm_num)
    (by norm_num) (by linarith) (by linarith) h3 h4
  obtain ⟨w1, w2⟩ := rounds_pos (c2 / 3) c3 (1333 / 100000000 : ℝ) (1334 / 100000000 : ℝ) hc3
    (by norm_num) (by norm_num at z1 ⊢; linarith) (by norm_num at z2 ⊢; linarith)
  obtain ⟨d1, d2⟩ := rounds_pos (b1 - c3) den (109855 / 10000000 : ℝ) (109885 / 10000000 : ℝ)
    hden (by norm_num) (by norm_num at x1 w2 ⊢; linarith) (by norm_num at x2 w1 ⊢; linarith)
  constructor
  · norm_num at d1 ⊢; linarith
  · norm_num at d2 ⊢; linarith

theorem disagreement_30_20_phred (posterior : ℝ)
    (h1 : 906 / 10000 ≤ posterior) (h2 : posterior ≤ 908 / 10000) :
    PhredOf posterior 10 ∧ ∀ n, PhredOf posterior n → n = 10 := by
  have hpos : (0 : ℝ) < posterior := by linarith
  have hlo : ((-209 : ℤ) : ℝ) / (200 : ℕ) ≤ Real.logb 10 posterior := by
    apply le_logb_ten_of_pow posterior 200 (by norm_num) (-209)
    have : (906 / 10000 : ℝ) ^ 200 ≤ posterior ^ 200 :=
      pow_le_pow_left₀ (by norm_num) h1 200
    have h3 : (10 : ℝ) ^ (-209 : ℤ) ≤ (906 / 10000 : ℝ) ^ 200 := by norm_num
    exact le_trans h3 this
  have hhi : Real.logb 10 posterior ≤ ((-1 : ℤ) : ℝ) / (1 : ℕ) := by
    apply logb_ten_le_of_pow posterior hpos 1 (by norm_num) (-1)
    norm_num
    linarith
  exact phredOf_eq posterior 10 _ _ hlo hhi (by norm_num) (by norm_num) (by norm_num)
    (by norm_num)

/-- The posterior that `disagreement(30, 20)` computes. -/
theorem disagreement_30_20_posterior
    (prob1 prob2 a1 a2 num b1 c1 c2 c3 den posterior : ℝ)
    (hp1 : PowProb 30 prob1) (hp2 : PowProb 20 prob2)
    (ha1 : Rounds (prob2 / 3) a1) (ha2 : Rounds (1 - a1) a2) (hnum : Rounds (prob1 * a2) num)
    (hb1 : Rounds (prob1 + prob2) b1)
    (hc1 : Rounds (4 * prob1) c1) (hc2 : Rounds (c1 * prob2) c2) (hc3 : Rounds (c2 / 3) c3)
    (hden : Rounds (b1 - c3) den) (hpost : Rounds (num / den) posterior) :
    906 / 10000 ≤ posterior ∧ posterior ≤ 908 / 10000 := by
  obtain ⟨a1', b1'⟩ := powProb_bounds 30 prob1 hp1 (by norm_num) (by norm_num)
  obtain ⟨a2', b2'⟩ := powProb_bounds 20 prob2 hp2 (by norm_num) (by norm_num)
  rw [rpow_ten_neg_three] at a1' b1'
  rw [rpow_ten_neg_two] at a2' b2'
  have h1 : (9999 / 10000000 : ℝ) ≤ prob1 := by linarith
  have h2 : prob1 ≤ (10001 / 10000000 : ℝ) := by linarith
  have h3 : (9999 / 1000000 : ℝ) ≤ prob2 := by linarith
  have h4 : prob2 ≤ (10001 / 1000000 : ℝ) := by linarith
  obtain ⟨n1, n2⟩ := disagreement_30_20_num prob1 prob2 a1 a2 num h1 h2 h3 h4 ha1 ha2 hnum
  obtain ⟨d1, d2⟩ := disagreement_30_20_den prob1 prob2 b1 c1 c2 c3 den h1 h2 h3 h4 hb1 hc1 hc2
    hc3 hden
  obtain ⟨pa, pb⟩ := rounds_div_bounds num den posterior _ _ _ _ hpost (by norm_num)
    (by norm_num) n1 n2 d1 d2
  constructor
  · norm_num at pa ⊢; linarith
  · norm_num at pb ⊢; linarith

theorem disagreement_30_20 : disagreement 30 20 10 ∧ ∀ n, disagreement 30 20 n → n = 10 := by
  constructor
  · have hp : PowProb 30 ((10 : ℝ) ^ (-((30 : Int) : ℝ) / 10)) :=
      ⟨_, rounds_exact _, rounds_exact _⟩
    have hq : PowProb 20 ((10 : ℝ) ^ (-((20 : Int) : ℝ) / 10)) :=
      ⟨_, rounds_exact _, rounds_exact _⟩
    set p : ℝ := (10 : ℝ) ^ (-((30 : Int) : ℝ) / 10) with hpdef
    set q : ℝ := (10 : ℝ) ^ (-((20 : Int) : ℝ) / 10) with hqdef
    have hb := disagreement_30_20_posterior p q (q / 3) (1 - q / 3) (p * (1 - q / 3)) (p + q)
      (4 * p) (4 * p * q) (4 * p * q / 3) (p + q - 4 * p * q / 3)
      (p * (1 - q / 3) / (p + q - 4 * p * q / 3)) hp hq (rounds_exact _) (rounds_exact _)
      (rounds_exact _) (rounds_exact _) (rounds_exact _) (rounds_exact _) (rounds_exact _)
      (rounds_exact _) (rounds_exact _)
    exact ⟨p, q, _, _, _, _, _, _, _, _, _, hp, hq, rounds_exact _, rounds_exact _,
      rounds_exact _, rounds_exact _, rounds_exact _, rounds_exact _, rounds_exact _,
      rounds_exact _, rounds_exact _, (disagreement_30_20_phred _ hb.1 hb.2).1⟩
  · rintro n ⟨prob1, prob2, a1, a2, num, b1, c1, c2, c3, den, posterior, hp1, hp2, ha1, ha2,
      hnum, hb1, hc1, hc2, hc3, hden, hpost, hph⟩
    have hb := disagreement_30_20_posterior prob1 prob2 a1 a2 num b1 c1 c2 c3 den posterior
      hp1 hp2 ha1 ha2 hnum hb1 hc1 hc2 hc3 hden hpost
    exact (disagreement_30_20_phred posterior hb.1 hb.2).2 n hph

theorem powProb_zero (prob : ℝ) (h : PowProb 0 prob) :
    1 - 1 / 1000000 ≤ prob ∧ prob ≤ 1 + 1 / 1000000 := by
  obtain ⟨x, hx, hp⟩ := h
  have hx0 : x = 0 := by
    unfold Rounds at hx
    simp at hx
    exact hx
  rw [hx0, Real.rpow_zero] at hp
  have := rounds_near 1 prob 1 hp (by norm_num)
  exact this

/-- The denominator of `agreement(0, 40)`: the terms `1 - prob1 - prob2` and
`4*prob1*prob2/3` cancel to about `prob2/3`. -/
theorem agreement_0_40_den (prob1 prob2 u1 u2 v1 v2 v3 den : ℝ)
    (h1 : 1 - 1 / 1000000 ≤ prob1) (h2 : prob1 ≤ 1 + 1 / 1000000)
    (h3 : (9999 / 100000000 : ℝ) ≤ prob2) (h4 : prob2 ≤ (10001 / 100000000 : ℝ))
    (hu1 : Rounds (1 - prob1) u1) (hu2 : Rounds (u1 - prob2) u2)
    (hv1 : Rounds (4 * prob1) v1) (hv2 : Rounds (v1 * prob2) v2) (hv3 : Rounds (v2 / 3) v3)
    (hden : Rounds (u2 + v3) den) :
    (32 / 1000000 : ℝ) ≤ den ∧ den ≤ (345 / 10000000 : ℝ) := by
  obtain ⟨x1, x2⟩ := rounds_near (1 - prob1) u1 (1 / 1000000) hu1
    (by rw [abs_le]; constructor <;> linarith)
  obtain ⟨y1, y2⟩ := rounds_near (u1 - prob2) u2 (2 / 10000) hu2
    (by rw [abs_le]; constructor <;> linarith)
  obtain ⟨z1, z2⟩ := rounds_pos (4 * prob1) v1 (39999 / 10000 : ℝ) (40001 / 10000 : ℝ) hv1
    (by norm_num) (by linarith) (by linarith)
  obtain ⟨w1, w2⟩ := rounds_mul_bounds v1 prob2 v2 (39998 / 10000 : ℝ) (40002 / 10000 : ℝ)
    (9999 / 100000000 : ℝ) (10001 / 100000000 : ℝ) hv2 (by norm_num) (by norm_num)
    (by linarith) (by linarith) h3 h4
  obtain ⟨s1, s2⟩ := rounds_pos (v2 / 3) v3 (13331 / 100000000 : ℝ) (13336 / 100000000 : ℝ) hv3
    (by norm_num) (by norm_num at w1 ⊢; linarith) (by norm_num at w2 ⊢; linarith)
  obtain ⟨d1, d2⟩ := rounds_pos (u2 + v3) den (321 / 10000000 : ℝ) (3449 / 100000000 : ℝ) hden
    (by norm_num) (by norm_num at s1 ⊢; linarith) (by norm_num at s2 ⊢; linarith)
  constructor
  · norm_num at d1 ⊢; linarith
  · norm_num at d2 ⊢; linarith

/-- The posterior that `agreement(0, 40)` computes is about 1. -/
theorem agreement_0_40_posterior (prob1 prob2 t1 num u1 u2 v1 v2 v3 den posterior : ℝ)
    (hp1 : PowProb 0 prob1) (hp2 : PowProb 40 prob2)
    (ht1 : Rounds (prob1 * prob2) t1) (hnum : Rounds (t1 / 3) num)
    (hu1 : Rounds (1 - prob1) u1) (hu2 : Rounds (u1 - prob2) u2)
    (hv1 : Rounds (4 * prob1) v1) (hv2 : Rounds (v1 * prob2) v2) (hv3 : Rounds (v2 / 3) v3)
    (hden : Rounds (u2 + v3) den) (hpost : Rounds (num / den) posterior) :
    96 / 100 ≤ posterior ∧ posterior ≤ 105 / 100 := by
  obtain ⟨h1, h2⟩ := powProb_zero prob1 hp1
  obtain ⟨a2, b2⟩ := powProb_bounds 40 prob2 hp2 (by norm_num) (by norm_num)
  rw [rpow_ten_neg_four] at a2 b2
  have h3 : (9999 / 100000000 : ℝ) ≤ prob2 := by linarith
  have h4 : prob2 ≤ (10001 / 100000000 : ℝ) := by linarith
  obtain ⟨d1, d2⟩ := agreement_0_40_den prob1 prob2 u1 u2 v1 v2 v3 den h1 h2 h3 h4 hu1 hu2 hv1
    hv2 hv3 hden
  obtain ⟨t1a, t1b⟩ := rounds_mul_bounds prob1 prob2 t1 (9999 / 10000 : ℝ) (10001 / 10000 : ℝ)
    (9999 / 100000000 : ℝ) (10001 / 100000000 : ℝ) ht1 (by norm_num) (by norm_num)
    (by linarith) (by linarith) h3 h4
  obtain ⟨n1, n2⟩ := rounds_pos (t1 / 3) num (3332 / 100000000 : ℝ) (3335 / 100000000 : ℝ) hnum
    (by norm_num) (by norm_num at t1a ⊢; linarith) (by norm_num at t1b ⊢; linarith)
  obtain ⟨pa, pb⟩ := rounds_div_bounds num den posterior (3331 / 100000000 : ℝ)
    (3336 / 100000000 : ℝ) _ _ hpost (by norm_num) (by norm_num)
    (by norm_num at n1 ⊢; linarith) (by norm_num at n2 ⊢; linarith) d1 d2
  constructor
  · norm_num at pa ⊢; linarith
  · norm_num at pb ⊢; linarith

theorem agreement_0_40_phred (posterior : ℝ)
    (h1 : 96 / 100 ≤ posterior) (h2 : posterior ≤ 105 / 100) :
    PhredOf posterior 0 ∧ ∀ n, PhredOf posterior n → n = 0 := by
  have hpos : (0 : ℝ) < posterior := by linarith
  have hlo : ((-1 : ℤ) : ℝ) / (25 : ℕ) ≤ Real.logb 10 posterior := by
    apply le_logb_ten_of_pow posterior 25 (by norm_num) (-1)
    have : (96 / 100 : ℝ) ^ 25 ≤ posterior ^ 25 :=
      pow_le_pow_left₀ (by norm_num) h1 25
    have h3 : (10 : ℝ) ^ (-1 : ℤ) ≤ (96 / 100 : ℝ) ^ 25 := by norm_num
    exact le_trans h3 this
  have hhi : Real.logb 10 posterior ≤ ((1 : ℤ) : ℝ) / (25 : ℕ) := by
    apply logb_ten_le_of_pow posterior hpos 25 (by norm_num) 1
    have : posterior ^ 25 ≤ (105 / 100 : ℝ) ^ 25 :=
      pow_le_pow_left₀ (le_of_lt hpos) h2 25
    have h3 : (105 / 100 : ℝ) ^ 25 ≤ (10 : ℝ) ^ (1 : ℤ) := by norm_num
    exact le_trans this h3
  exact phredOf_eq posterior 0 _ _ hlo hhi (by norm_num) (by norm_num) (by norm_num)
    (by norm_num)

theorem agreement_0_40 : agreement 0 40 0 ∧ ∀ n, agreement 0 40 n → n = 0 := by
  constructor
  · have hp : PowProb 0 ((10 : ℝ) ^ (-((0 : Int) : ℝ) / 10)) :=
      ⟨_, rounds_exact _, rounds_exact _⟩
    have hq : PowProb 40 ((10 : ℝ) ^ (-((40 : Int) : ℝ) / 10)) :=
      ⟨_, rounds_exact _, rounds_exact _⟩
    set p : ℝ := (10 : ℝ) ^ (-((0 : Int) : ℝ) / 10) with hpdef
    set q : ℝ := (10 : ℝ) ^ (-((40 : Int) : ℝ) / 10) with hqdef
    have hb := agreement_0_40_posterior p q (p * q) (p * q / 3) (1 - p) (1 - p - q) (4 * p)
      (4 * p * q) (4 * p * q / 3) (1 - p - q + 4 * p * q / 3)
      ((p * q / 3) / (1 - p - q + 4 * p * q / 3)) hp hq (rounds_exact _) (rounds_exact _)
      (rounds_exact _) (rounds_exact _) (rounds_exact _) (rounds_exact _) (rounds_exact _)
      (rounds_exact _) (rounds_exact _)
    exact ⟨p, q, _, _, _, _, _, _, _, _, _, hp, hq, rounds_exact _, rounds_exact _,
      rounds_exact _, rounds_exact _, rounds_exact _, rounds_exact _, rounds_exact _,
      rounds_exact _, rounds_exact _, (agreement_0_40_phred _ hb.1 hb.2).1⟩
  · rintro n ⟨prob1, prob2, t1, num, u1, u2, v1, v2, v3, den, posterior, hp1, hp2, ht1, hnum,
      hu1, hu2, hv1, hv2, hv3, hden, hpost, hph⟩
    have hb := agreement_0_40_posterior prob1 prob2 t1 num u1 u2 v1 v2 v3 den posterior
      hp1 hp2 ht1 hnum hu1 hu2 hv1 hv2 hv3 hden hpost
    exact (agreement_0_40_phred posterior hb.1 hb.2).2 n hph

/-- The rounded numerator `prob1*prob2/3` of `agreement`. -/
theorem agreement_num_rel (prob1 prob2 t1 num : ℝ) (hp1 : 0 ≤ prob1) (hp2 : 0 ≤ prob2)
    (ht1 : Rounds (prob1 * prob2) t1) (hnum : Rounds (t1 / 3) num) :
    prob1 * prob2 / 3 * (1 - 3 / 1000000) ≤ num ∧ num ≤ prob1 * prob2 / 3 * (1 + 3 / 1000000) := by
  have hpp : 0 ≤ prob1 * prob2 := mul_nonneg hp1 hp2
  obtain ⟨t1a, t1b⟩ := rounds_pos (prob1 * prob2) t1 _ _ ht1 hpp (le_refl _) (le_refl _)
  obtain ⟨na, nb⟩ := rounds_pos (t1 / 3) num (prob1 * prob2 * (1 - 1 / 1000000) / 3)
    (prob1 * prob2 * (1 + 1 / 1000000) / 3) hnum
    (by apply div_nonneg (mul_nonneg hpp (by norm_num)) (by norm_num)) (by linarith) (by linarith)
  constructor
  · nlinarith
  · nlinarith

theorem rpow_ten_neg_fifth_le : (10 : ℝ) ^ (-(2 : ℝ) / 10) ≤ 631 / 1000 := by
  have hy : (0 : ℝ) ≤ (10 : ℝ) ^ (-(2 : ℝ) / 10) := le_of_lt (Real.rpow_pos_of_pos (by norm_num) _)
  have h5 : ((10 : ℝ) ^ (-(2 : ℝ) / 10)) ^ 5 = 1 / 10 := by
    rw [← Real.rpow_natCast, ← Real.rpow_mul (by norm_num)]
    have : (-(2 : ℝ) / 10 * ((5 : ℕ) : ℝ)) = ((-1 : ℤ) : ℝ) := by norm_num
    rw [this, Real.rpow_intCast]
    norm_num
  by_contra hc
  push_neg at hc
  have : (631 / 1000 : ℝ) ^ 5 < ((10 : ℝ) ^ (-(2 : ℝ) / 10)) ^ 5 :=
    pow_lt_pow_left₀ hc (by norm_num) (by norm_num)
  rw [h5] at this
  norm_num at this

/-- Error probabilities of Phred 2 and above are at most 0.631; of Phred 93 and
below at least `10^-10`. -/
theorem rpow_phred_bounds (a : Int) (h1 : 2 ≤ a) (h2 : a ≤ 93) :
    (10 : ℝ) ^ (-10 : ℤ) ≤ (10 : ℝ) ^ (-(a : ℝ) / 10) ∧
    (10 : ℝ) ^ (-(a : ℝ) / 10) ≤ 631 / 1000 := by
  have h1' : (2 : ℝ) ≤ a := by exact_mod_cast h1
  have h2' : (a : ℝ) ≤ 93 := by exact_mod_cast h2
  constructor
  · rw [← Real.rpow_intCast]
    apply Real.rpow_le_rpow_of_exponent_le (by norm_num)
    push_cast
    linarith
  · refine le_trans ?_ rpow_ten_neg_fifth_le
    apply Real.rpow_le_rpow_of_exponent_le (by norm_num)
    linarith

theorem logb_ten_84 : Real.logb 10 (84 / 100) ≤ -(3 / 40) := by
  have := logb_ten_le_of_pow (84 / 100) (by norm_num) 40 (by norm_num) (-3) (by norm_num)
  norm_num at this ⊢
  linarith

/-- The denominator of `agreement` for two error probabilities in
`[0, 0.6311]`: it stays in `[1/4, 101/100]` and dominates `prob2 / 3`. -/
theorem agreement_den_box (prob1 prob2 den : ℝ)
    (a1 : 0 ≤ prob1) (b1 : prob1 ≤ 6311 / 10000) (a2 : 0 ≤ prob2) (b2 : prob2 ≤ 6311 / 10000)
    (da : 1 - prob1 - prob2 + 4 * prob1 * prob2 / 3 - 20 / 1000000 ≤ den)
    (db : den ≤ 1 - prob1 - prob2 + 4 * prob1 * prob2 / 3 + 20 / 1000000) :
    1 / 4 ≤ den ∧ den ≤ 101 / 100 ∧
    prob2 / 3 * (1 + 3 / 1000000) * (1 + 1 / 10000) ≤ 8399 / 10000 * den ∧
    prob1 / 3 * (1 + 3 / 1000000) * (1 + 1 / 10000) ≤ 8399 / 10000 * den := by
  have hz : 4 * prob1 * prob2 / 3 = 4 / 3 * (prob1 * prob2) := by ring
  rw [hz] at da db
  have hz1 : 0 ≤ prob1 * prob2 := mul_nonneg a1 a2
  have hz2 : 0 ≤ 6311 / 10000 * prob1 - prob1 * prob2 := by
    have := mul_nonneg a1 (sub_nonneg.mpr b2)
    linarith
  have hz3 : 0 ≤ 6311 / 10000 * prob2 - prob1 * prob2 := by
    have := mul_nonneg (sub_nonneg.mpr b1) a2
    linarith
  have hz4 : 0 ≤ 6311 / 10000 * (6311 / 10000) - 6311 / 10000 * prob1 - 6311 / 10000 * prob2
      + prob1 * prob2 := by
    have := mul_nonneg (sub_nonneg.mpr b1) (sub_nonneg.mpr b2)
    linarith
  generalize prob1 * prob2 = z at da db hz1 hz2 hz3 hz4
  refine ⟨?_, ?_, ?_, ?_⟩ <;> linarith

/-- Upper bound on the posterior of `agreement` relative to the exact error
probability `P1` of the first call. -/
theorem agreement_posterior_le (P1 prob1 prob2 num den posterior : ℝ)
    (hP : 0 < P1) (hp1 : prob1 ≤ P1 * (1 + 1 / 10000)) (a2 : 0 ≤ prob2)
    (nb : num ≤ prob1 * prob2 / 3 * (1 + 3 / 1000000)) (hnum0 : 0 ≤ num)
    (hden0 : 0 < den)
    (key : prob2 / 3 * (1 + 3 / 1000000) * (1 + 1 / 10000) ≤ 8399 / 10000 * den)
    (hpost : Rounds (num / den) posterior) :
    posterior ≤ 84 / 100 * P1 := by
  have hq : num / den ≤ 8399 / 10000 * P1 := by
    apply (div_le_iff₀ hden0).mpr
    have h1 : prob1 * prob2 ≤ P1 * (1 + 1 / 10000) * prob2 :=
      mul_le_mul_of_nonneg_right hp1 a2
    have h3 : num ≤ P1 * (prob2 / 3 * (1 + 3 / 1000000) * (1 + 1 / 10000)) := by
      calc num ≤ prob1 * prob2 / 3 * (1 + 3 / 1000000) := nb
        _ ≤ P1 * (1 + 1 / 10000) * prob2 / 3 * (1 + 3 / 1000000) := by linarith
        _ = P1 * (prob2 / 3 * (1 + 3 / 1000000) * (1 + 1 / 10000)) := by ring
    have h4 : P1 * (prob2 / 3 * (1 + 3 / 1000000) * (1 + 1 / 10000)) ≤
        P1 * ((8399 / 10000) * den) := mul_le_mul_of_nonneg_left key (le_of_lt hP)
    calc num ≤ P1 * (prob2 / 3 * (1 + 3 / 1000000) * (1 + 1 / 10000)) := h3
      _ ≤ P1 * ((8399 / 10000) * den) := h4
      _ = 8399 / 10000 * P1 * den := by ring
  have hq0 : 0 ≤ num / den := div_nonneg hnum0 (le_of_lt hden0)
  obtain ⟨_, pb⟩ := rounds_pos (num / den) posterior 0 _ hpost (le_refl _) hq0 hq
  have : 8399 / 10000 * P1 * (1 + 1 / 1000000) ≤ 84 / 100 * P1 := by
    have : (8399 / 10000 : ℝ) * (1 + 1 / 1000000) ≤ 84 / 100 := by norm_num
    calc 8399 / 10000 * P1 * (1 + 1 / 1000000) = P1 * (8399 / 10000 * (1 + 1 / 1000000)) := by
          ring
      _ ≤ P1 * (84 / 100) := mul_le_mul_of_nonneg_left this (le_of_lt hP)
      _ = 84 / 100 * P1 := by ring
  linarith

/-- Lower bound on the posterior of `agreement`. -/
theorem agreement_posterior_ge (prob1 prob2 num den posterior : ℝ)
    (a1 : (9 / 10) * (10 : ℝ) ^ (-10 : ℤ) ≤ prob1)
    (a2 : (9 / 10) * (10 : ℝ) ^ (-10 : ℤ) ≤ prob2)
    (na : prob1 * prob2 / 3 * (1 - 3 / 1000000) ≤ num)
    (hden0 : 0 < den) (hden_hi : den ≤ 101 / 100)
    (hpost : Rounds (num / den) posterior) :
    (10 : ℝ) ^ (-21 : ℤ) ≤ posterior := by
  have hlow : (0 : ℝ) < (9 / 10) * (10 : ℝ) ^ (-10 : ℤ) := by norm_num
  have h5 : ((9 / 10) * (10 : ℝ) ^ (-10 : ℤ)) * ((9 / 10) * (10 : ℝ) ^ (-10 : ℤ)) ≤
      prob1 * prob2 := mul_le_mul a1 a2 (le_of_lt hlow) (le_trans (le_of_lt hlow) a1)
  have h6 : (2 : ℝ) * (10 : ℝ) ^ (-21 : ℤ) ≤ num / den := by
    apply (le_div_iff₀ hden0).mpr
    have h7 : (2 : ℝ) * (10 : ℝ) ^ (-21 : ℤ) * den ≤ 2 * (10 : ℝ) ^ (-21 : ℤ) * (101 / 100) :=
      mul_le_mul_of_nonneg_left hden_hi (by norm_num)
    norm_num at h5 h7 na ⊢
    linarith
  obtain ⟨pa, _⟩ := rounds_pos (num / den) posterior _ (num / den) hpost (by norm_num) h6
    (le_refl _)
  norm_num at pa ⊢
  linarith

/-- For two calls of Phred 2 to 93, every value that `agreement` can return is
above both input Phred values. -/
theorem agreement_gt_inputs (a b n : Int) (ha : 2 ≤ a) (ha' : a ≤ 93) (hb : 2 ≤ b)
    (hb' : b ≤ 93) (h : agreement a b n) : a + 1 ≤ n ∧ b + 1 ≤ n := by
  obtain ⟨prob1, prob2, t1, num, u1, u2, v1, v2, v3, den, posterior, hp1, hp2, ht1, hnum,
    hu1, hu2, hv1, hv2, hv3, hden, hpost, hph⟩ := h
  obtain ⟨pa1, pb1⟩ := powProb_bounds a prob1 hp1 (by omega) (by omega)
  obtain ⟨pa2, pb2⟩ := powProb_bounds b prob2 hp2 (by omega) (by omega)
  obtain ⟨ra1, rb1⟩ := rpow_phred_bounds a ha ha'
  obtain ⟨ra2, rb2⟩ := rpow_phred_bounds b hb hb'
  have hP1 : (0 : ℝ) < (10 : ℝ) ^ (-(a : ℝ) / 10) := Real.rpow_pos_of_pos (by norm_num) _
  have hP2 : (0 : ℝ) < (10 : ℝ) ^ (-(b : ℝ) / 10) := Real.rpow_pos_of_pos (by norm_num) _
  have a1 : (9 / 10) * (10 : ℝ) ^ (-10 : ℤ) ≤ prob1 := by
    norm_num at ra1 pa1 ⊢; linarith
  have a2 : (9 / 10) * (10 : ℝ) ^ (-10 : ℤ) ≤ prob2 := by
    norm_num at ra2 pa2 ⊢; linarith
  have b1 : prob1 ≤ 6311 / 10000 := by linarith
  have b2 : prob2 ≤ 6311 / 10000 := by linarith
  have hlow : (0 : ℝ) < (9 / 10) * (10 : ℝ) ^ (-10 : ℤ) := by norm_num
  have p1pos : 0 ≤ prob1 := le_trans (le_of_lt hlow) a1
  have p2pos : 0 ≤ prob2 := le_trans (le_of_lt hlow) a2
  obtain ⟨na, nb⟩ := agreement_num_rel prob1 prob2 t1 num p1pos p2pos ht1 hnum
  obtain ⟨_, ⟨da, db⟩⟩ := agreement_num_den_bounds 0 1 prob1 prob2 t1 num u1 u2 v1 v2 v3 den
    (le_refl _) (le_refl _) p1pos (by linarith) p2pos (by linarith)
    ht1 hnum hu1 hu2 hv1 hv2 hv3 hden
  obtain ⟨dlo, dhi, key2, key1⟩ := agreement_den_box prob1 prob2 den p1pos b1 p2pos b2 da db
  have hden0 : 0 < den := by linarith
  have hnum0 : 0 ≤ num := by
    have : 0 ≤ prob1 * prob2 / 3 * (1 - 3 / 1000000) := by positivity
    linarith
  have hle1 := agreement_posterior_le _ prob1 prob2 num den posterior hP1 pb1 p2pos nb
    hnum0 hden0 key2 hpost
  have nb' : num ≤ prob2 * prob1 / 3 * (1 + 3 / 1000000) := by
    rw [mul_comm prob2 prob1]; exact nb
  have hle2 := agreement_posterior_le _ prob2 prob1 num den posterior hP2 pb2 p1pos nb'
    hnum0 hden0 key1 hpost
  have hge := agreement_posterior_ge prob1 prob2 num den posterior a1 a2 na hden0 dhi hpost
  have hpos : 0 < posterior := lt_of_lt_of_le (by norm_num) hge
  have hlo : ((-21 : ℤ) : ℝ) / (1 : ℕ) ≤ Real.logb 10 posterior := by
    apply le_logb_ten_of_pow posterior 1 (by norm_num) (-21)
    simpa using hge
  have hup : ∀ (c : Int) (_ : posterior ≤ 84 / 100 * (10 : ℝ) ^ (-(c : ℝ) / 10)),
      Real.logb 10 posterior ≤ -(3 / 40) - (c : ℝ) / 10 := by
    intro c hc
    have hPc : (0 : ℝ) < (10 : ℝ) ^ (-(c : ℝ) / 10) := Real.rpow_pos_of_pos (by norm_num) _
    have h1 : Real.logb 10 posterior ≤ Real.logb 10 (84 / 100 * (10 : ℝ) ^ (-(c : ℝ) / 10)) :=
      Real.logb_le_logb_of_le (by norm_num) hpos hc
    rw [Real.logb_mul (by norm_num) (ne_of_gt hPc),
      Real.logb_rpow (by norm_num) (by norm_num)] at h1
    have := logb_ten_84
    linarith
  have hfin : ∀ (c : Int) (_ : 2 ≤ c) (_ : c ≤ 93)
      (_ : Real.logb 10 posterior ≤ -(3 / 40) - (c : ℝ) / 10), c + 1 ≤ n := by
    intro c hc1 hc2 hc
    have hc1' : (2 : ℝ) ≤ c := by exact_mod_cast hc1
    have hc2' : (c : ℝ) ≤ 93 := by exact_mod_cast hc2
    obtain ⟨m, hr, m1, _⟩ := phredOf_bounds posterior n _ _ hph hlo hc (by norm_num)
      (by linarith)
    have hm0 : 0 ≤ m := by linarith
    obtain ⟨_, r2⟩ := hr.1 hm0
    have : (c : ℝ) < (n : ℝ) := by linarith
    have : c < n := by exact_mod_cast this
    omega
  exact ⟨hfin a ha ha' (hup a hle1), hfin b hb hb' (hup b hle2)⟩

theorem toChar_id (x : Int) (h1 : -128 ≤ x) (h2 : x < 128) : toChar x = x := by
  unfold toChar
  omega

/-- C7: `agreement` applied to Phred 40 and Phred 40 returns 85 and nothing
else, so with the table entry that `compute_error_agreement` stores at
`[73][73]`, `computeEntry` on equal bases with both quality bytes 73 returns
that base with quality byte 118. -/
theorem computeEntry_agreement_phred40 (T : QualityTables) (b : Char)
    (hT : agreement (73 - 33) (73 - 33) (T.error_agreement 73 73)) :
    T.error_agreement 73 73 = 85 ∧ computeEntry T b 73 b 73 = (b, 118) := by
  have h85 : T.error_agreement 73 73 = 85 := agreement_40_40.2 _ hT
  refine ⟨h85, ?_⟩
  simp only [computeEntry, if_true, h85]
  rfl

/-- Witness of C7: 85 is a value `agreement(40, 40)` returns, and the sample
table holds it. -/
theorem computeEntry_agreement_phred40_witness :
    agreement (73 - 33) (73 - 33) (sampleTables.error_agreement 73 73) ∧
    sampleTables.error_agreement 73 73 = 85 ∧
    computeEntry sampleTables 'A' 73 'A' 73 = ('A', 118) :=
  ⟨agreement_40_40.1, computeEntry_agreement_phred40 sampleTables 'A' agreement_40_40.1⟩

/-- C8: `disagreement` applied to the higher Phred 30 and the lower Phred 20
returns 10 and nothing else, so with the table entry that
`compute_error_disagreement` stores at `[63][53]`, `computeEntry` on differing
bases with quality bytes 63 and 53 returns the first base with quality byte
43. -/
theorem computeEntry_disagreement_phred30_20 (T : QualityTables) (b1 b2 : Char)
    (hne : b1 ≠ b2)
    (hT : disagreement (63 - 33) (53 - 33) (T.error_disagreement 63 53)) :
    T.error_disagreement 63 53 = 10 ∧ computeEntry T b1 63 b2 53 = (b1, 43) := by
  have h10 : T.error_disagreement 63 53 = 10 := disagreement_30_20.2 _ hT
  refine ⟨h10, ?_⟩
  simp only [computeEntry, if_neg hne, h10]
  rfl

/-- Witness of C8: 10 is a value `disagreement(30, 20)` returns, and the sample
table holds it. -/
theorem computeEntry_disagreement_phred30_20_witness :
    'A' ≠ 'C' ∧
    disagreement (63 - 33) (53 - 33) (sampleTables.error_disagreement 63 53) ∧
    sampleTables.error_disagreement 63 53 = 10 ∧
    computeEntry sampleTables 'A' 63 'C' 53 = ('A', 43) :=
  ⟨by decide, disagreement_30_20.1,
    computeEntry_disagreement_phred30_20 sampleTables 'A' 'C' (by decide) disagreement_30_20.1⟩

/-- C6 (counterexample): with quality bytes 33 (Phred 0) and 73 (Phred 40) on
equal bases, 0 is the only value `agreement(0, 40)` returns, the sample table
holds it at `[33][73]`, and `computeEntry` returns quality byte 33, which is
below `max(33, 73) = 73`. -/
theorem computeEntry_agreement_below_max :
    (∀ n, agreement (33 - 33) (73 - 33) n → n = 0) ∧
    agreement (33 - 33) (73 - 33) (sampleTables.error_agreement 33 73) ∧
    (computeEntry sampleTables 'A' 33 'A' 73).2 = 33 ∧
    (computeEntry sampleTables 'A' 33 'A' 73).2 < max 33 73 :=
  ⟨agreement_0_40.2, agreement_0_40.1, rfl, by decide⟩

/-- C6 (amended): for every base `b` and all quality bytes `q1, q2` in 35..126
(Phred 2 and above), with the table entry that `compute_error_agreement` stores
at `[q1][q2]`, the quality byte returned by `computeEntry(b,q1,b,q2)` is at
least `max(q1, q2)`. -/
theorem computeEntry_agreement_ge_max (T : QualityTables) (b : Char) (q1 q2 : Int)
    (h1 : 35 ≤ q1) (h1' : q1 ≤ 126) (h2 : 35 ≤ q2) (h2' : q2 ≤ 126)
    (hT : agreement (q1 - 33) (q2 - 33) (T.error_agreement q1 q2)) :
    max q1 q2 ≤ (computeEntry T b q1 b q2).2 := by
  obtain ⟨g1, g2⟩ := agreement_gt_inputs (q1 - 33) (q2 - 33) _ (by omega) (by omega) (by omega)
    (by omega) hT
  simp only [computeEntry, if_true]
  rw [toChar_id _ (by omega) (by omega)]
  omega

/-- Witness of C6 (amended): two Phred-40 calls. -/
theorem computeEntry_agreement_ge_max_witness :
    agreement (73 - 33) (73 - 33) (sampleTables.error_agreement 73 73) ∧
    max 73 73 ≤ (computeEntry sampleTables 'A' 73 'A' 73).2 :=
  ⟨agreement_40_40.1,
    computeEntry_agreement_ge_max sampleTables 'A' 73 73 (by decide) (by decide) (by decide)
      (by decide) agreement_40_40.1⟩

/-! ## Proofs: interval overlap and covered positions -/

theorem coveredPositionsLoop_spec (T : QualityTables) (sequence : ShortDnaSequence) (read : Int) :
    ∀ (cigar : List Char) (r : Int) (q : Nat) (acc l : List mapValue),
      coveredPositionsLoop T sequence read cigar r q acc = .ok l →
      ∃ l1, l = acc ++ l1 ∧ l1.length = cigar.count 'M' ∧
        (∀ e ∈ l1, e.read = read ∧ r ≤ e.ref ∧
          e.ref < r + ((cigar.count 'M' : Nat) + (cigar.count 'D' : Nat) : Nat) ∧ (q : Int) ≤ e.pos) ∧
        l1.Pairwise (fun a b => a.ref < b.ref ∧ a.pos < b.pos) := by
  intro cigar
  induction cigar with
  | nil =>
    intro r q acc l h
    simp only [coveredPositionsLoop, Except.ok.injEq] at h
    exact ⟨[], by simp [h], by simp, by simp, List.Pairwise.nil⟩
  | cons c rest ih =>
    intro r q acc l h
    rw [coveredPositionsLoop] at h
    by_cases hM : c = 'M'
    · subst hM
      simp only [if_true] at h
      cases hb : readAt sequence.forward q with
      | error e => rw [hb] at h; cases h
      | ok b =>
        cases hq : readAt sequence.forward_qualities q with
        | error e => rw [hb, hq] at h; cases h
        | ok qual =>
          rw [hb, hq] at h
          obtain ⟨l1, hl, hlen, hall, hpw⟩ := ih _ _ _ _ h
          refine ⟨⟨r, b, qual, T.error_probs qual, q, read⟩ :: l1, ?_, ?_, ?_, ?_⟩
          · simp [hl]
          · simp [hlen]
          · intro e he
            rcases List.mem_cons.mp he with rfl | he
            · refine ⟨rfl, le_refl _, ?_, le_refl _⟩
              simp only [List.count_cons_self]
              have : (0 : Int) ≤ ((List.count 'D' ('M' :: rest) : Nat) : Int) := Int.natCast_nonneg _
              push_cast
              have h0 : (0 : Int) ≤ ((List.count 'M' rest : Nat) : Int) := Int.natCast_nonneg _
              linarith
            · obtain ⟨h1, h2, h3, h4⟩ := hall e he
              refine ⟨h1, by linarith, ?_, by push_cast at h4; linarith⟩
              have hd : List.count 'D' ('M' :: rest) = List.count 'D' rest :=
                List.count_cons_of_ne (by decide) rest
              simp only [List.count_cons_self, hd]
              push_cast at h3 ⊢
              linarith
          · refine List.Pairwise.cons ?_ hpw
            intro e he
            obtain ⟨_, h2, _, h4⟩ := hall e he
            constructor
            · show r < e.ref
              linarith
            · show (q : Int) < e.pos
              push_cast at h4; linarith
    · simp only [hM, if_false] at h
      have hcM : List.count 'M' (c :: rest) = List.count 'M' rest :=
        List.count_cons_of_ne (fun hh => hM hh.symm) rest
      by_cases hD : c = 'D'
      · subst hD
        simp only [if_true] at h
        obtain ⟨l1, hl, hlen, hall, hpw⟩ := ih _ _ _ _ h
        refine ⟨l1, hl, by rw [hcM]; exact hlen, ?_, hpw⟩
        intro e he
        obtain ⟨h1, h2, h3, h4⟩ := hall e he
        refine ⟨h1, by linarith, ?_, h4⟩
        simp only [hcM, List.count_cons_self]
        push_cast at h3 ⊢
        linarith
      · simp only [hD, if_false] at h
        have hcD : List.count 'D' (c :: rest) = List.count 'D' rest :=
          List.count_cons_of_ne (fun hh => hD hh.symm) rest
        by_cases hS : c = 'S' ∨ c = 'I'
        · simp only [hS, if_true] at h
          obtain ⟨l1, hl, hlen, hall, hpw⟩ := ih _ _ _ _ h
          refine ⟨l1, hl, by rw [hcM]; exact hlen, ?_, hpw⟩
          intro e he
          obtain ⟨h1, h2, h3, h4⟩ := hall e he
          refine ⟨h1, h2, by rw [hcM, hcD]; exact h3, by push_cast at h4; linarith⟩
        · simp only [hS, if_false] at h
          obtain ⟨l1, hl, hlen, hall, hpw⟩ := ih _ _ _ _ h
          refine ⟨l1, hl, by rw [hcM]; exact hlen, ?_, hpw⟩
          intro e he
          obtain ⟨h1, h2, h3, h4⟩ := hall e he
          exact ⟨h1, h2, by rw [hcM, hcD]; exact h3, h4⟩

theorem coveredPositionsLoop_returns (T : QualityTables) (sequence : ShortDnaSequence)
    (read : Int) :
    ∀ (cigar : List Char) (r : Int) (q : Nat) (acc : List mapValue),
      q + (cigar.count 'M' + cigar.count 'I' + cigar.count 'S') ≤ sequence.forward.length →
      q + (cigar.count 'M' + cigar.count 'I' + cigar.count 'S') ≤
        sequence.forward_qualities.length →
      ∃ l, coveredPositionsLoop T sequence read cigar r q acc = .ok l := by
  intro cigar
  induction cigar with
  | nil => intro r q acc _ _; exact ⟨acc, rfl⟩
  | cons c rest ih =>
    intro r q acc h1 h2
    rw [coveredPositionsLoop]
    by_cases hM : c = 'M'
    · subst hM
      simp only [List.count_cons_self, List.count_cons_of_ne (show 'I' ≠ 'M' by decide),
        List.count_cons_of_ne (show 'S' ≠ 'M' by decide)] at h1 h2
      have hb : readAt sequence.forward q = .ok (sequence.forward.getD q 'N') :=
        readAt_eq_getD _ _ _ (by omega)
      have hq : readAt sequence.forward_qualities q = .ok (sequence.forward_qualities.getD q 0) :=
        readAt_eq_getD _ _ _ (by omega)
      simp only [if_true, hb, hq]
      exact ih _ _ _ (by omega) (by omega)
    · have hcM : List.count 'M' (c :: rest) = List.count 'M' rest :=
        List.count_cons_of_ne (fun hh => hM hh.symm) rest
      simp only [hM, if_false]
      by_cases hD : c = 'D'
      · subst hD
        simp only [hcM, List.count_cons_of_ne (show 'I' ≠ 'D' by decide),
          List.count_cons_of_ne (show 'S' ≠ 'D' by decide)] at h1 h2
        simp only [if_true]
        exact ih _ _ _ h1 h2
      · simp only [hD, if_false]
        by_cases hS : c = 'S' ∨ c = 'I'
        · simp only [hS, if_true]
          apply ih
          · rcases hS with rfl | rfl
            · simp only [hcM, List.count_cons_self,
                List.count_cons_of_ne (show 'I' ≠ 'S' by decide)] at h1
              omega
            · simp only [hcM, List.count_cons_self,
                List.count_cons_of_ne (show 'S' ≠ 'I' by decide)] at h1
              omega
          · rcases hS with rfl | rfl
            · simp only [hcM, List.count_cons_self,
                List.count_cons_of_ne (show 'I' ≠ 'S' by decide)] at h2
              omega
            · simp only [hcM, List.count_cons_self,
                List.count_cons_of_ne (show 'S' ≠ 'I' by decide)] at h2
              omega
        · simp only [hS, if_false]
          have hI : List.count 'I' (c :: rest) = List.count 'I' rest :=
            List.count_cons_of_ne (fun hh => hS (Or.inr hh.symm)) rest
          have hSS : List.count 'S' (c :: rest) = List.count 'S' rest :=
            List.count_cons_of_ne (fun hh => hS (Or.inl hh.symm)) rest
          rw [hcM, hI, hSS] at h1 h2
          exact ih _ _ _ h1 h2

theorem coveredPositions_split (T : QualityTables) (r : AlignmentRecord) (l : List mapValue)
    (h : r.coveredPositions T = .ok l) :
    ∃ l1 l2, l = l1 ++ l2 ∧
      coveredPositionsLoop T r.sequence1 0 r.cigar1_unrolled r.start1 0 [] = .ok l1 ∧
      (r.single_end = true → l2 = []) ∧
      (r.single_end = false → r.start1 ≤ r.start2 ∧
        coveredPositionsLoop T r.sequence2 1 r.cigar2_unrolled r.start2 0 l1 = .ok (l1 ++ l2)) := by
  unfold AlignmentRecord.coveredPositions at h
  cases h1 : coveredPositionsLoop T r.sequence1 0 r.cigar1_unrolled r.start1 0 [] with
  | error e => rw [h1] at h; cases h
  | ok l1 =>
    rw [h1] at h
    simp only [bind, Except.bind] at h
    cases hs : r.single_end with
    | true =>
      simp only [hs, not_true_eq_false, if_false] at h
      cases h
      exact ⟨l, [], by simp, rfl, fun _ => rfl, fun hh => by cases hh⟩
    | false =>
      simp only [hs, Bool.false_eq_true, not_false_eq_true, if_true] at h
      by_cases hle : r.start1 ≤ r.start2
      · simp only [hle, if_true] at h
        obtain ⟨l2, hl, -⟩ := coveredPositionsLoop_spec T _ _ _ _ _ _ _ h
        exact ⟨l1, l2, hl, rfl, (fun hh => by cases hh), fun _ => ⟨hle, hl ▸ h⟩⟩
      · simp only [hle, if_false] at h
        cases h

/-- C14: the number of entries of `coveredPositions()` is the number of `M`
tags of mate 1 plus, for a paired-end record, the number of `M` tags of mate
2; the entries of mate 1 carry read index 0 and come first, those of mate 2
carry read index 1. The call returns whenever each stored sequence holds the
bases that its CIGAR consumes and a paired-end record has `start1 ≤ start2`. -/
theorem coveredPositions_count (T : QualityTables) (r : AlignmentRecord) :
    (∀ l, r.coveredPositions T = .ok l →
      l.length = r.cigar1_unrolled.count 'M' +
        (if r.single_end then 0 else r.cigar2_unrolled.count 'M') ∧
      ∃ l1 l2, l = l1 ++ l2 ∧ l1.length = r.cigar1_unrolled.count 'M' ∧
        (∀ e ∈ l1, e.read = 0) ∧ (∀ e ∈ l2, e.read = 1)) ∧
    (r.cigar1_unrolled.count 'M' + r.cigar1_unrolled.count 'I' + r.cigar1_unrolled.count 'S' ≤
        r.sequence1.forward.length →
      r.cigar1_unrolled.count 'M' + r.cigar1_unrolled.count 'I' + r.cigar1_unrolled.count 'S' ≤
        r.sequence1.forward_qualities.length →
      (r.single_end = false → r.start1 ≤ r.start2 ∧
        r.cigar2_unrolled.count 'M' + r.cigar2_unrolled.count 'I' +
            r.cigar2_unrolled.count 'S' ≤ r.sequence2.forward.length ∧
        r.cigar2_unrolled.count 'M' + r.cigar2_unrolled.count 'I' +
            r.cigar2_unrolled.count 'S' ≤ r.sequence2.forward_qualities.length) →
      ∃ l, r.coveredPositions T = .ok l) := by
  constructor
  · intro l h
    obtain ⟨l1, l2, hl, h1, hs, hp⟩ := coveredPositions_split T r l h
    obtain ⟨m1, hm1, hlen1, hall1, -⟩ := coveredPositionsLoop_spec T _ _ _ _ _ _ _ h1
    simp only [List.nil_append] at hm1
    subst hm1
    cases hse : r.single_end with
    | true =>
      have := hs hse
      subst this
      simp only [List.append_nil] at hl
      subst hl
      refine ⟨by simp [hlen1], l, [], by simp, hlen1, fun e he => (hall1 e he).1, by simp⟩
    | false =>
      obtain ⟨-, h2⟩ := hp hse
      obtain ⟨m2, hm2, hlen2, hall2, -⟩ := coveredPositionsLoop_spec T _ _ _ _ _ _ _ h2
      have : l2 = m2 := List.append_cancel_left hm2
      subst this
      subst hl
      refine ⟨by simp [hlen1, hlen2], l1, l2, rfl, hlen1, fun e he => (hall1 e he).1,
        fun e he => (hall2 e he).1⟩
  · intro f1 f2 hp
    obtain ⟨l1, h1⟩ := coveredPositionsLoop_returns T r.sequence1 0 r.cigar1_unrolled r.start1 0 []
      (by omega) (by omega)
    unfold AlignmentRecord.coveredPositions
    rw [h1]
    simp only [bind, Except.bind]
    cases hse : r.single_end with
    | true => exact ⟨l1, rfl⟩
    | false =>
      obtain ⟨hle, g1, g2⟩ := hp hse
      obtain ⟨l2, h2⟩ := coveredPositionsLoop_returns T r.sequence2 1 r.cigar2_unrolled
        r.start2 0 l1 (by omega) (by omega)
      exact ⟨l2, by simp [hle, h2]⟩

/-- C15: when each mate's count of `M` and `D` tags equals `end - start + 1`,
every entry of `coveredPositions()` with read index 0 has its reference
position in `[start1, end1]`, every entry with read index 1 in `[start2,
end2]`, and within each mate the reference positions and the query offsets
are strictly increasing. -/
theorem coveredPositions_bounds (T : QualityTables) (r : AlignmentRecord) (l : List mapValue)
    (h : r.coveredPositions T = .ok l)
    (h1 : ((r.cigar1_unrolled.count 'M' + r.cigar1_unrolled.count 'D' : Nat) : Int) =
      (r.end1 : Int) - r.start1 + 1)
    (h2 : r.single_end = false →
      ((r.cigar2_unrolled.count 'M' + r.cigar2_unrolled.count 'D' : Nat) : Int) =
        (r.end2 : Int) - r.start2 + 1) :
    (∀ e ∈ l, e.read = 0 → (r.start1 : Int) ≤ e.ref ∧ e.ref ≤ r.end1) ∧
    (∀ e ∈ l, e.read = 1 → (r.start2 : Int) ≤ e.ref ∧ e.ref ≤ r.end2) ∧
    (l.filter (fun e => e.read = 0)).Pairwise (fun a b => a.ref < b.ref ∧ a.pos < b.pos) ∧
    (l.filter (fun e => e.read = 1)).Pairwise (fun a b => a.ref < b.ref ∧ a.pos < b.pos) := by
  obtain ⟨l1, l2, hl, g1, hs, hp⟩ := coveredPositions_split T r l h
  obtain ⟨m1, hm1, -, hall1, hpw1⟩ := coveredPositionsLoop_spec T _ _ _ _ _ _ _ g1
  simp only [List.nil_append] at hm1
  subst hm1
  have hf1 : l1.filter (fun e => e.read = 0) = l1 :=
    List.filter_eq_self.mpr (fun e he => by simp [(hall1 e he).1])
  have hf1' : l1.filter (fun e => e.read = 1) = [] :=
    List.filter_eq_nil_iff.mpr (fun e he => by simp [(hall1 e he).1])
  have hb1 : ∀ e ∈ l1, (r.start1 : Int) ≤ e.ref ∧ e.ref ≤ r.end1 := by
    intro e he
    obtain ⟨-, a, b, -⟩ := hall1 e he
    rw [h1] at b
    exact ⟨a, by linarith⟩
  cases hse : r.single_end with
  | true =>
    have := hs hse
    subst this
    simp only [List.append_nil] at hl
    subst hl
    refine ⟨fun e he _ => hb1 e he, fun e he h1 => ?_, by rw [hf1]; exact hpw1,
      by rw [hf1']; exact List.Pairwise.nil⟩
    rw [(hall1 e he).1] at h1
    cases h1
  | false =>
    obtain ⟨-, g2⟩ := hp hse
    obtain ⟨m2, hm2, -, hall2, hpw2⟩ := coveredPositionsLoop_spec T _ _ _ _ _ _ _ g2
    have : l2 = m2 := List.append_cancel_left hm2
    subst this
    subst hl
    have hf2 : l2.filter (fun e => e.read = 1) = l2 :=
      List.filter_eq_self.mpr (fun e he => by simp [(hall2 e he).1])
    have hf2' : l2.filter (fun e => e.read = 0) = [] :=
      List.filter_eq_nil_iff.mpr (fun e he => by simp [(hall2 e he).1])
    have hb2 : ∀ e ∈ l2, (r.start2 : Int) ≤ e.ref ∧ e.ref ≤ r.end2 := by
      intro e he
      obtain ⟨-, a, b, -⟩ := hall2 e he
      rw [h2 hse] at b
      exact ⟨a, by linarith⟩
    refine ⟨fun e he h0 => ?_, fun e he h1 => ?_, ?_, ?_⟩
    · rcases List.mem_append.mp he with he | he
      · exact hb1 e he
      · rw [(hall2 e he).1] at h0; cases h0
    · rcases List.mem_append.mp he with he | he
      · rw [(hall1 e he).1] at h1; cases h1
      · exact hb2 e he
    · rw [List.filter_append, hf1, hf2', List.append_nil]; exact hpw1
    · rw [List.filter_append, hf1', hf2, List.nil_append]; exact hpw2

theorem coveredPositions_bounds_witness :
    ∃ l, samplePaired.coveredPositions sampleTables = .ok l ∧ l.length = 7 ∧
      (∀ e ∈ l, e.read = 0 → ((100 : Nat) : Int) ≤ e.ref ∧ e.ref ≤ (104 : Nat)) ∧
      (∀ e ∈ l, e.read = 1 → ((200 : Nat) : Int) ≤ e.ref ∧ e.ref ≤ (202 : Nat)) :=
  ⟨_, rfl, rfl,
    (coveredPositions_bounds sampleTables samplePaired _ rfl (by decide) (fun _ => by decide)).1,
    (coveredPositions_bounds sampleTables samplePaired _ rfl (by decide) (fun _ => by decide)).2.1⟩

theorem coveredPositions_count_witness :
    ∃ l, samplePaired.coveredPositions sampleTables = .ok l ∧ l.length = 4 + 3 :=
  ⟨_, rfl, ((coveredPositions_count sampleTables samplePaired).1 _ rfl).1⟩

/-! ## Proofs: structure of the merge routines -/

theorem bind_eq_ok {α β : Type} (x : Except MergeError α) (f : α → Except MergeError β) (b : β)
    (h : x >>= f = .ok b) : ∃ a, x = .ok a ∧ f a = .ok b := by
  cases x with
  | error e => cases h
  | ok a => exact ⟨a, rfl, h⟩

theorem map_eq_ok {α β : Type} (x : Except MergeError α) (f : α → β) (b : β)
    (h : x.map f = .ok b) : ∃ a, x = .ok a ∧ f a = b := by
  cases x with
  | error e => cases h
  | ok a =>
    simp only [Except.map, Except.ok.injEq] at h
    exact ⟨a, rfl, h⟩

theorem mergeSingle_eq (T : QualityTables) (self ar : AlignmentRecord) (i j : Int) :
    self.mergeAlignmentRecordsSingle T ar i j =
      if j ≠ 1 ∧ ar.single_end = true then .error .fault
      else (singleLoops T self ar i j).map (singleAssign self ar i j) := by
  unfold AlignmentRecord.mergeAlignmentRecordsSingle singleLoops
  by_cases hj : j = 1
  · subst hj
    simp only [if_true, ne_eq, not_true_eq_false, false_and, if_false, pure_bind]
    cases mergePhases _ _ _ _ _ _ _ _ with
    | error e => rfl
    | ok fin =>
      simp only [bind, Except.bind, Except.map, singleAssign, if_true]
      split_ifs <;> rfl
  · cases hs : ar.single_end with
    | true =>
      simp only [hj, if_false, AlignmentRecord.getStart2, hs, if_true, ne_eq, not_false_eq_true,
        and_self]
      rfl
    | false =>
      simp only [hj, if_false, AlignmentRecord.getStart2, AlignmentRecord.getEnd2, hs, ne_eq,
        not_false_eq_true, true_and, Bool.false_eq_true, pure_bind]
      show (Except.ok ar.start2 >>= fun arStart => Except.ok ar.end2 >>= _) = _
      simp only [bind, Except.bind]
      cases mergePhases _ _ _ _ _ _ _ _ with
      | error e => rfl
      | ok fin =>
        simp only [Except.map, singleAssign, hj, if_false]
        split_ifs <;> rfl

theorem whileLoop_preserves {σ : Type} (P : σ → Prop) (cond : σ → Bool)
    (body : σ → Except MergeError σ) (hbody : ∀ s r, P s → body s = .ok r → P r) :
    ∀ (fuel : Nat) (s r : σ), P s → whileLoop cond body fuel s = .ok r → P r := by
  intro fuel
  induction fuel with
  | zero =>
    intro s r hs h
    simp only [whileLoop] at h
    split_ifs at h
    cases h
    exact hs
  | succ n ih =>
    intro s r hs h
    simp only [whileLoop] at h
    split_ifs at h
    · cases hb : body s with
      | error e => rw [hb] at h; cases h
      | ok s1 =>
        rw [hb] at h
        exact ih s1 r (hbody s s1 hs hb) h
    · cases h
      exact hs

theorem emittedOk_nil : EmittedOk [] [] [] :=
  ⟨fun c hc => (by cases hc), rfl, rfl⟩

theorem emittedOk_push (dna : List Char) (qualities : List Int) (nucigar : List Char)
    (h : EmittedOk dna qualities nucigar) (b : Char) (q : Int) (c : Char)
    (hc : c = 'M' ∨ c = 'I') :
    EmittedOk (dna ++ [b]) (qualities ++ [q]) (nucigar ++ [c]) := by
  obtain ⟨h1, h2, h3⟩ := h
  refine ⟨?_, by simp [h2], ?_⟩
  · intro x hx
    rcases List.mem_append.mp hx with hx | hx
    · exact h1 x hx
    · rw [List.mem_singleton] at hx
      rcases hc with rfl | rfl
      · exact Or.inl hx
      · exact Or.inr (Or.inl hx)
  · rcases hc with rfl | rfl
    · simp [List.count_append, h3]; omega
    · simp [List.count_append, h3]; omega

theorem emittedOk_del (dna : List Char) (qualities : List Int) (nucigar : List Char)
    (h : EmittedOk dna qualities nucigar) :
    EmittedOk dna qualities (nucigar ++ ['D']) := by
  obtain ⟨h1, h2, h3⟩ := h
  refine ⟨?_, h2, ?_⟩
  · intro x hx
    rcases List.mem_append.mp hx with hx | hx
    · exact h1 x hx
    · rw [List.mem_singleton] at hx
      exact Or.inr (Or.inr hx)
  · simp [List.count_append, h3]

theorem noOverlapMergeOn_emitted (cigar bases : List Char) (quals : List Int) (st r : SoloState)
    (h : EmittedOk st.dna st.qualities st.nucigar)
    (hr : noOverlapMergeOn cigar bases quals st = .ok r) :
    EmittedOk r.dna r.qualities r.nucigar := by
  unfold noOverlapMergeOn at hr
  obtain ⟨c, -, hr⟩ := bind_eq_ok _ _ _ hr
  split_ifs at hr with h1 h2 h3 h4 h5
  · cases hr; exact h
  · obtain ⟨b, -, hr⟩ := bind_eq_ok _ _ _ hr
    obtain ⟨q, -, hr⟩ := bind_eq_ok _ _ _ hr
    cases hr
    exact emittedOk_push _ _ _ h b q 'I' (Or.inr rfl)
  · cases hr; exact emittedOk_del _ _ _ h
  · cases hr; exact h
  · obtain ⟨b, -, hr⟩ := bind_eq_ok _ _ _ hr
    obtain ⟨q, -, hr⟩ := bind_eq_ok _ _ _ hr
    cases hr
    exact emittedOk_push _ _ _ h b q c (Or.inl h5)

theorem overlapMergeOn_emitted (T : QualityTables) (cigar1 bases1 : List Char)
    (quals1 : List Int) (cigar2 bases2 : List Char) (quals2 : List Int) (st r : MergeState)
    (h : EmittedOk st.dna st.qualities st.nucigar)
    (hr : overlapMergeOn T cigar1 bases1 quals1 cigar2 bases2 quals2 st = .ok r) :
    EmittedOk r.dna r.qualities r.nucigar := by
  unfold overlapMergeOn at hr
  obtain ⟨c1, -, hr⟩ := bind_eq_ok _ _ _ hr
  obtain ⟨c2, -, hr⟩ := bind_eq_ok _ _ _ hr
  by_cases hB1 : (c1 = 'M' ∧ c2 = 'M') ∨ (c1 = 'S' ∧ c2 = 'S') ∨ (c1 = 'I' ∧ c2 = 'I')
  · rw [if_pos hB1] at hr
    dsimp only at hr
    by_cases hS : c1 ≠ 'S'
    · rw [if_pos hS] at hr
      obtain ⟨b1, -, hr⟩ := bind_eq_ok _ _ _ hr
      obtain ⟨q1, -, hr⟩ := bind_eq_ok _ _ _ hr
      obtain ⟨b2, -, hr⟩ := bind_eq_ok _ _ _ hr
      obtain ⟨q2, -, hr⟩ := bind_eq_ok _ _ _ hr
      simp only [pure_bind] at hr
      cases hr
      refine emittedOk_push _ _ _ h _ _ c1 ?_
      rcases hB1 with ⟨a, -⟩ | ⟨a, -⟩ | ⟨a, -⟩
      · exact Or.inl a
      · exact absurd a hS
      · exact Or.inr a
    · rw [if_neg hS] at hr
      simp only [pure_bind] at hr
      cases hr
      exact h
  · rw [if_neg hB1] at hr
    split_ifs at hr
    all_goals
      first
      | (cases hr
         first
         | exact h
         | exact emittedOk_del _ _ _ h)
      | (obtain ⟨b, -, hr⟩ := bind_eq_ok _ _ _ hr
         obtain ⟨q, -, hr⟩ := bind_eq_ok _ _ _ hr
         cases hr
         first
         | exact emittedOk_push _ _ _ h b q 'M' (Or.inl rfl)
         | exact emittedOk_push _ _ _ h b q 'I' (Or.inr rfl))

theorem emittedBy_ok (T : QualityTables) (dna : List Char) (qualities : List Int)
    (nucigar : List Char) (h : EmittedBy T dna qualities nucigar) :
    EmittedOk dna qualities nucigar := by
  induction h with
  | empty => exact emittedOk_nil
  | solo cigar bases quals st r _ hr ih => exact noOverlapMergeOn_emitted _ _ _ _ _ ih hr
  | joint c1 b1 q1 c2 b2 q2 st r _ hr ih => exact overlapMergeOn_emitted _ _ _ _ _ _ _ _ _ ih hr

theorem noOverlapMerge_emitted (self : AlignmentRecord) (i : Int) (st r : SoloState)
    (h : EmittedOk st.dna st.qualities st.nucigar) (hr : self.noOverlapMerge st i = .ok r) :
    EmittedOk r.dna r.qualities r.nucigar := by
  unfold AlignmentRecord.noOverlapMerge at hr
  split_ifs at hr
  · exact noOverlapMergeOn_emitted _ _ _ _ _ h hr
  · exact noOverlapMergeOn_emitted _ _ _ _ _ h hr

theorem overlapMerge_emitted (T : QualityTables) (self ar : AlignmentRecord) (i j : Int)
    (st r : MergeState) (h : EmittedOk st.dna st.qualities st.nucigar)
    (hr : self.overlapMerge T ar st i j = .ok r) :
    EmittedOk r.dna r.qualities r.nucigar := by
  unfold AlignmentRecord.overlapMerge at hr
  dsimp only at hr
  split_ifs at hr
  all_goals
    first
    | (simp only [pure_bind] at hr
       exact overlapMergeOn_emitted _ _ _ _ _ _ _ _ _ h hr)
    | (obtain ⟨s2, -, hr⟩ := bind_eq_ok _ _ _ hr
       exact overlapMergeOn_emitted _ _ _ _ _ _ _ _ _ h hr)

theorem mergePhases_preserves (P : MergeState → Prop)
    (solo1 solo2 joint : MergeState → Except MergeError MergeState)
    (h1 : ∀ s r, P s → solo1 s = .ok r → P r) (h2 : ∀ s r, P s → solo2 s = .ok r → P r)
    (hj : ∀ s r, P s → joint s = .ok r → P r)
    (h0 : ∀ ref : Int, P ⟨[], [], [], 0, 0, 0, 0, ref⟩)
    (fuel : Nat) (a b c d : Int) (fin : MergeState)
    (h : mergePhases solo1 solo2 joint fuel a b c d = .ok fin) : P fin := by
  unfold mergePhases at h
  split_ifs at h
  all_goals
    first
    | cases h
    | (obtain ⟨s1, e1, h⟩ := bind_eq_ok _ _ _ h
       obtain ⟨s2, e2, h⟩ := bind_eq_ok _ _ _ h
       have p1 := whileLoop_preserves P _ _ (by assumption) _ _ _ (h0 _) e1
       have p2 := whileLoop_preserves P _ _ (by assumption) _ _ _ p1 e2
       exact whileLoop_preserves P _ _ (by assumption) _ _ _ p2 h)

theorem singleLoops_emitted (T : QualityTables) (self ar : AlignmentRecord) (i j : Int)
    (fin : MergeState) (h : singleLoops T self ar i j = .ok fin) :
    EmittedOk fin.dna fin.qualities fin.nucigar := by
  unfold singleLoops at h
  refine mergePhases_preserves (fun st => EmittedOk st.dna st.qualities st.nucigar)
    _ _ _ ?_ ?_ ?_ (fun _ => emittedOk_nil) _ _ _ _ _ _ h
  · intro s r hs hr
    obtain ⟨x, hx, rfl⟩ := map_eq_ok _ _ _ hr
    exact noOverlapMerge_emitted self i _ x hs hx
  · intro s r hs hr
    obtain ⟨x, hx, rfl⟩ := map_eq_ok _ _ _ hr
    exact noOverlapMerge_emitted ar j _ x hs hx
  · intro s r hs hr
    exact overlapMerge_emitted T self ar i j s r hs hr

theorem soloStep_emitted (rec : AlignmentRecord) (i : Int) (k : Cursor) (st r : PairedState)
    (h : EmittedOk st.dna st.qualities st.nucigar) (hr : soloStep rec i k st = .ok r) :
    EmittedOk r.dna r.qualities r.nucigar := by
  unfold soloStep at hr
  obtain ⟨x, hx, rfl⟩ := map_eq_ok _ _ _ hr
  exact noOverlapMerge_emitted rec i _ x h hx

theorem jointStep_emitted (T : QualityTables) (self ar : AlignmentRecord) (i j : Int)
    (kc1 kc2 kq1 kq2 : Cursor) (st r : PairedState)
    (h : EmittedOk st.dna st.qualities st.nucigar)
    (hr : jointStep T self ar i j kc1 kc2 kq1 kq2 st = .ok r) :
    EmittedOk r.dna r.qualities r.nucigar := by
  unfold jointStep at hr
  obtain ⟨x, hx, rfl⟩ := map_eq_ok _ _ _ hr
  exact overlapMerge_emitted T self ar i j _ x h hx

theorem sOffsetStep_emitted (cigar : List Char) (k : Cursor) (st : PairedState)
    (h : EmittedOk st.dna st.qualities st.nucigar) :
    EmittedOk (sOffsetStep cigar k st).dna (sOffsetStep cigar k st).qualities
      (sOffsetStep cigar k st).nucigar := by
  cases k <;> exact h

theorem tailPhase_preserves (P : PairedState → Prop) (fuel : Nat) (x y : Int)
    (a b : PairedState → Except MergeError PairedState)
    (ha : ∀ s r, P s → a s = .ok r → P r) (hb : ∀ s r, P s → b s = .ok r → P r)
    (st r : PairedState) (h : P st) (hr : tailPhase fuel x y a b st = .ok r) : P r := by
  unfold tailPhase at hr
  split_ifs at hr
  · exact whileLoop_preserves P _ _ ha _ _ _ h hr
  · exact whileLoop_preserves P _ _ hb _ _ _ h hr
  · cases hr; exact h

theorem bind_preserves {α β : Type} (P : α → Prop) (Q : β → Prop) (x : Except MergeError α)
    (f : α → Except MergeError β)
    (hx : ∀ a, x = .ok a → P a) (hf : ∀ a, P a → ∀ r, f a = .ok r → Q r) :
    ∀ r, x >>= f = .ok r → Q r := by
  intro r h
  obtain ⟨a, ha, hr⟩ := bind_eq_ok _ _ _ h
  exact hf a (hx a ha) r hr

theorem loop_emitted (cond : PairedState → Bool)
    (body : PairedState → Except MergeError PairedState)
    (hbody : ∀ s r, EmittedOk s.dna s.qualities s.nucigar → body s = .ok r →
      EmittedOk r.dna r.qualities r.nucigar)
    (fuel : Nat) (s : PairedState) (hs : EmittedOk s.dna s.qualities s.nucigar) :
    ∀ r, whileLoop cond body fuel s = .ok r → EmittedOk r.dna r.qualities r.nucigar :=
  fun r h => whileLoop_preserves (fun st => EmittedOk st.dna st.qualities st.nucigar)
    cond body hbody fuel s r hs h

theorem tail_emitted (fuel : Nat) (x y : Int)
    (a b : PairedState → Except MergeError PairedState)
    (ha : ∀ s r, EmittedOk s.dna s.qualities s.nucigar → a s = .ok r →
      EmittedOk r.dna r.qualities r.nucigar)
    (hb : ∀ s r, EmittedOk s.dna s.qualities s.nucigar → b s = .ok r →
      EmittedOk r.dna r.qualities r.nucigar)
    (s : PairedState) (hs : EmittedOk s.dna s.qualities s.nucigar) :
    ∀ r, tailPhase fuel x y a b s = .ok r → EmittedOk r.dna r.qualities r.nucigar :=
  fun r h => tailPhase_preserves (fun st => EmittedOk st.dna st.qualities st.nucigar)
    fuel x y a b ha hb s r hs h

theorem pairedLoops_emitted (T : QualityTables) (self ar : AlignmentRecord) (b : PairedBranch) :
    ∀ r, pairedLoops T self ar b = .ok r → EmittedOk r.dna r.qualities r.nucigar := by
  cases b <;> simp only [pairedLoops]
  all_goals
    repeat
      first
      | exact tail_emitted _ _ _ _ _ (soloStep_emitted _ _ _) (soloStep_emitted _ _ _) _
          (by assumption)
      | (refine bind_preserves (fun st => EmittedOk st.dna st.qualities st.nucigar) _ _ _
            (loop_emitted _ _
              (by first | exact soloStep_emitted _ _ _ | exact jointStep_emitted _ _ _ _ _ _ _ _ _)
              _ _
              (by first | assumption | exact emittedOk_nil)) ?_
         intro a ha)

theorem mixedLoops_emitted (T : QualityTables) (self ar : AlignmentRecord) (b : MixedBranch) :
    ∀ r, mixedLoops T self ar b = .ok r → EmittedOk r.dna r.qualities r.nucigar := by
  cases b <;> simp only [mixedLoops]
  all_goals
    repeat
      first
      | exact tail_emitted _ _ _ _ _ (soloStep_emitted _ _ _) (soloStep_emitted _ _ _) _
          (by assumption)
      | (refine bind_preserves (fun st => EmittedOk st.dna st.qualities st.nucigar) _ _ _
            (loop_emitted _ _
              (by first | exact soloStep_emitted _ _ _ | exact jointStep_emitted _ _ _ _ _ _ _ _ _)
              _ _
              (by first | assumption | exact emittedOk_nil)) ?_
         intro a ha)

theorem mergeSingle_ok (T : QualityTables) (self ar R : AlignmentRecord) (i j : Int)
    (h : self.mergeAlignmentRecordsSingle T ar i j = .ok R) :
    ∃ fin, singleLoops T self ar i j = .ok fin ∧ R = singleAssign self ar i j fin ∧
      (j ≠ 1 → ar.single_end = false) := by
  rw [mergeSingle_eq] at h
  split_ifs at h with hc
  obtain ⟨fin, hfin, rfl⟩ := map_eq_ok _ _ _ h
  refine ⟨fin, hfin, rfl, fun hj => ?_⟩
  cases hs : ar.single_end with
  | false => rfl
  | true => exact absurd ⟨hj, hs⟩ hc

theorem singleAssign_readNames (self ar : AlignmentRecord) (i j : Int) (fin : MergeState) :
    (singleAssign self ar i j fin).readNames = self.readNames := by
  unfold singleAssign
  split_ifs <;> rfl

theorem mergeSingle_readNames (T : QualityTables) (self ar R : AlignmentRecord) (i j : Int)
    (h : self.mergeAlignmentRecordsSingle T ar i j = .ok R) : R.readNames = self.readNames := by
  obtain ⟨fin, -, rfl, -⟩ := mergeSingle_ok T self ar R i j h
  exact singleAssign_readNames self ar i j fin

theorem mergePaired_ok (T : QualityTables) (self ar R : AlignmentRecord)
    (h : self.mergeAlignmentRecordsPaired T ar = .ok R) :
    ar.single_end = false ∧
    ((self.end1 < ar.start2 ∧ self.start2 > ar.end1) ∧
        (∃ r1, self.mergeAlignmentRecordsSingle T ar 1 1 = .ok r1 ∧
          r1.mergeAlignmentRecordsSingle T ar 2 2 = .ok R) ∨
      ¬ (self.end1 < ar.start2 ∧ self.start2 > ar.end1) ∧
        ((∃ b st, pairedBranch self ar = some b ∧ pairedLoops T self ar b = .ok st ∧
            R = pairedAssign self ar b st) ∨
          (pairedBranch self ar = none ∧ R = self))) := by
  unfold AlignmentRecord.mergeAlignmentRecordsPaired at h
  cases hs : ar.single_end with
  | true => simp only [hs, if_true] at h; cases h
  | false =>
    simp only [hs, Bool.false_eq_true, if_false] at h
    refine ⟨rfl, ?_⟩
    by_cases hc : self.end1 < ar.start2 ∧ self.start2 > ar.end1
    · rw [if_pos hc] at h
      obtain ⟨r1, h1, h2⟩ := bind_eq_ok _ _ _ h
      exact Or.inl ⟨hc, r1, h1, h2⟩
    · rw [if_neg hc] at h
      refine Or.inr ⟨hc, ?_⟩
      cases hb : pairedBranch self ar with
      | none =>
        rw [hb] at h
        cases h
        exact Or.inr ⟨rfl, rfl⟩
      | some b =>
        rw [hb] at h
        obtain ⟨st, hst, rfl⟩ := map_eq_ok _ _ _ h
        exact Or.inl ⟨b, st, rfl, hst, rfl⟩

theorem pairedAssign_readNames (self ar : AlignmentRecord) (b : PairedBranch) (st : PairedState) :
    (pairedAssign self ar b st).readNames = self.readNames := by
  cases b <;> rfl

theorem mergePaired_readNames (T : QualityTables) (self ar R : AlignmentRecord)
    (h : self.mergeAlignmentRecordsPaired T ar = .ok R) : R.readNames = self.readNames := by
  obtain ⟨-, ⟨-, r1, h1, h2⟩ | ⟨-, ⟨b, st, -, -, rfl⟩ | ⟨-, rfl⟩⟩⟩ := mergePaired_ok T self ar R h
  · rw [mergeSingle_readNames T r1 ar R 2 2 h2, mergeSingle_readNames T self ar r1 1 1 h1]
  · exact pairedAssign_readNames self ar b st
  · rfl

theorem mergeMixed_ok (T : QualityTables) (self ar R : AlignmentRecord)
    (h : self.mergeAlignmentRecordsMixed T ar = .ok R) :
    (∃ r i j, self.mergeAlignmentRecordsSingle T ar i j = .ok r ∧ R.readNames = r.readNames ∧
        R.single_end = false ∧
        ((ar.single_end = true ∧ i = 1 ∧ j = 1 ∧ ar.end1 < self.start2 ∧ R.end1 < R.start2 ∧
            R.start1 = r.start1 ∧ R.start2 = r.start2) ∨
          (ar.single_end = true ∧ i = 2 ∧ j = 1 ∧ ar.start1 > self.end1 ∧ R = r) ∨
          (ar.single_end = false ∧ i = 1 ∧ j = 1 ∧ self.end1 < ar.start2 ∧
            R.start1 = r.start1 ∧ R.start2 = ar.start2) ∨
          (ar.single_end = false ∧ i = 1 ∧ j = 2 ∧ self.start1 > ar.end1 ∧
            R.start1 = ar.start1 ∧ R.start2 = r.start2))) ∨
      (∃ b st e, mixedLoops T self ar b = .ok st ∧ R = storeMate1 self ar e true st) ∨
      R = self := by
  unfold AlignmentRecord.mergeAlignmentRecordsMixed at h
  cases hs : ar.single_end with
  | true =>
    simp only [hs, if_true] at h
    split_ifs at h with c1 c2 c3 c4
    · obtain ⟨r, hr, h⟩ := bind_eq_ok _ _ _ h
      dsimp only at h
      split_ifs at h with c5
      cases h
      exact Or.inl ⟨r, 1, 1, hr, rfl, rfl, Or.inl ⟨rfl, rfl, rfl, c1, c5, rfl, rfl⟩⟩
    · obtain ⟨r, hr, h⟩ := bind_eq_ok _ _ _ h
      split_ifs at h with c5
      cases h
      obtain ⟨fin, -, hR, -⟩ := mergeSingle_ok T self ar R 2 1 hr
      refine Or.inl ⟨R, 2, 1, hr, rfl, ?_, Or.inr (Or.inl ⟨rfl, rfl, rfl, c2, rfl⟩)⟩
      rw [hR]; rfl
    · obtain ⟨st, hst, rfl⟩ := map_eq_ok _ _ _ h
      exact Or.inr (Or.inl ⟨_, st, _, hst, rfl⟩)
    · obtain ⟨st, hst, rfl⟩ := map_eq_ok _ _ _ h
      exact Or.inr (Or.inl ⟨_, st, _, hst, rfl⟩)
    · cases h
      exact Or.inr (Or.inr rfl)
  | false =>
    simp only [hs, Bool.false_eq_true, if_false] at h
    split_ifs at h with c1 c2 c3 c4
    · obtain ⟨r, hr, h⟩ := bind_eq_ok _ _ _ h
      cases h
      exact Or.inl ⟨r, 1, 1, hr, rfl, rfl, Or.inr (Or.inr (Or.inl ⟨rfl, rfl, rfl, c1, rfl, rfl⟩))⟩
    · obtain ⟨r, hr, h⟩ := bind_eq_ok _ _ _ h
      cases h
      exact Or.inl ⟨r, 1, 2, hr, rfl, rfl, Or.inr (Or.inr (Or.inr ⟨rfl, rfl, rfl, c2, rfl, rfl⟩))⟩
    · obtain ⟨st, hst, rfl⟩ := map_eq_ok _ _ _ h
      exact Or.inr (Or.inl ⟨_, st, _, hst, rfl⟩)
    · obtain ⟨st, hst, rfl⟩ := map_eq_ok _ _ _ h
      exact Or.inr (Or.inl ⟨_, st, _, hst, rfl⟩)
    · cases h
      exact Or.inr (Or.inr rfl)

theorem mergeMixed_readNames (T : QualityTables) (self ar R : AlignmentRecord)
    (h : self.mergeAlignmentRecordsMixed T ar = .ok R) : R.readNames = self.readNames := by
  obtain ⟨r, i, j, hr, hn, -⟩ | ⟨b, st, e, -, rfl⟩ | rfl := mergeMixed_ok T self ar R h
  · rw [hn, mergeSingle_readNames T self ar r i j hr]
  · rfl
  · rfl

theorem mergeNext_readNames (T : QualityTables) (self al R : AlignmentRecord)
    (h : self.mergeNext T al = .ok R) : R.readNames = self.readNames ∪ al.readNames := by
  unfold AlignmentRecord.mergeNext at h
  dsimp only at h
  split_ifs at h
  all_goals
    obtain ⟨r, hr, h⟩ := bind_eq_ok _ _ _ h
    cases h
    show r.readNames ∪ al.readNames = _
    congr 1
    first
    | exact mergeSingle_readNames T self al r 1 1 hr
    | exact mergePaired_readNames T self al r hr
    | exact mergeMixed_readNames T self al r hr

theorem foldlM_mergeNext_readNames (T : QualityTables) :
    ∀ (l : List AlignmentRecord) (seed R : AlignmentRecord),
      l.foldlM (fun r al => r.mergeNext T al) seed = .ok R →
      ∀ x, x ∈ R.readNames ↔ x ∈ seed.readNames ∨ ∃ a ∈ l, x ∈ a.readNames := by
  intro l
  induction l with
  | nil =>
    intro seed R h x
    simp only [List.foldlM, pure, Except.pure, Except.ok.injEq] at h
    subst h
    simp
  | cons al rest ih =>
    intro seed R h x
    simp only [List.foldlM] at h
    obtain ⟨r, hr, h⟩ := bind_eq_ok _ _ _ h
    rw [ih r R h x, mergeNext_readNames T seed al r hr, Finset.mem_union]
    simp only [List.mem_cons, exists_eq_or_imp]
    tauto

theorem fromAlignments_ok (T : QualityTables) (alignments : List AlignmentRecord)
    (clique_id : Nat) (R : AlignmentRecord)
    (h : AlignmentRecord.fromAlignments T alignments clique_id = .ok R) :
    ∃ al1 al2 rest merged, alignments = al1 :: al2 :: rest ∧
      (al2 :: rest).foldlM (fun r al => r.mergeNext T al)
        ({ name := ""
           start1 := al1.start1
           end1 := al1.end1
           cigar1 := al1.cigar1
           cigar1_unrolled := al1.cigar1_unrolled
           sequence1 := al1.sequence1
           phred_sum1 := 0
           length_incl_deletions1 := 0
           length_incl_longdeletions1 := 0
           start2 := if al1.single_end then 0 else al1.start2
           end2 := if al1.single_end then 0 else al1.end2
           cigar2 := if al1.single_end then [] else al1.cigar2
           cigar2_unrolled := if al1.single_end then [] else al1.cigar2_unrolled
           sequence2 := if al1.single_end then ⟨[], []⟩ else al1.sequence2
           phred_sum2 := 0
           length_incl_deletions2 := 0
           length_incl_longdeletions2 := 0
           single_end := al1.single_end
           readNames := al1.readNames } : AlignmentRecord) = .ok merged ∧
      R = { merged with name := "Clique_" ++ toString clique_id } ∧
      ∃ cov, R.coveredPositions T = .ok cov := by
  unfold AlignmentRecord.fromAlignments at h
  match alignments, h with
  | al1 :: al2 :: rest, h =>
    dsimp only at h
    obtain ⟨merged, hm, h⟩ := bind_eq_ok _ _ _ h
    obtain ⟨cov, hc, h⟩ := bind_eq_ok _ _ _ h
    cases h
    exact ⟨al1, al2, rest, merged, rfl, hm, rfl, cov, hc⟩

/-- C12: when the clique constructor completes on a list of records, the
`readNames` set of the result is the union of the `readNames` sets of the
input records (and the list has at least two elements). -/
theorem fromAlignments_readNames (T : QualityTables) (alignments : List AlignmentRecord)
    (clique_id : Nat) (R : AlignmentRecord)
    (h : AlignmentRecord.fromAlignments T alignments clique_id = .ok R) :
    2 ≤ alignments.length ∧ ∀ x, x ∈ R.readNames ↔ ∃ a ∈ alignments, x ∈ a.readNames := by
  obtain ⟨al1, al2, rest, merged, rfl, hm, rfl, -⟩ := fromAlignments_ok T alignments clique_id R h
  refine ⟨by simp, fun x => ?_⟩
  show x ∈ merged.readNames ↔ _
  rw [foldlM_mergeNext_readNames T _ _ _ hm x]
  simp only [List.mem_cons, exists_eq_or_imp]

theorem emittedOk_storedBases (dna : List Char) (qualities : List Int) (nucigar : List Char)
    (h : EmittedOk dna qualities nucigar) :
    'S' ∉ nucigar ∧ 'H' ∉ nucigar ∧ dna.length = storedBases nucigar ∧
      qualities.length = storedBases nucigar := by
  obtain ⟨h1, h2, h3⟩ := h
  have hS : 'S' ∉ nucigar := fun hm => by
    rcases h1 _ hm with h | h | h <;> exact absurd h (by decide)
  have hH : 'H' ∉ nucigar := fun hm => by
    rcases h1 _ hm with h | h | h <;> exact absurd h (by decide)
  have hc : nucigar.count 'S' = 0 := List.count_eq_zero_of_not_mem hS
  refine ⟨hS, hH, ?_, ?_⟩
  · unfold storedBases; omega
  · unfold storedBases; omega

/-- C20: every output that solo and joint steps build from empty strings
holds only `M`, `I` and `D` tags (no `S`, no `H`), with one base and one
quality per emitted `M` or `I`; hence the mate that `mergeAlignmentRecordsSingle`,
`mergeAlignmentRecordsPaired` or `mergeAlignmentRecordsMixed` stores its merged
strings in has as many bases (and qualities) as its unrolled CIGAR has `M`, `I`
and `S` tags. -/
theorem merge_steps_emit_MID (T : QualityTables) :
    (∀ dna qualities nucigar, EmittedBy T dna qualities nucigar →
      (∀ c ∈ nucigar, c = 'M' ∨ c = 'I' ∨ c = 'D') ∧ 'S' ∉ nucigar ∧ 'H' ∉ nucigar ∧
        dna.length = qualities.length ∧
        dna.length = nucigar.count 'M' + nucigar.count 'I') ∧
    (∀ (self ar R : AlignmentRecord) (i j : Int),
      self.mergeAlignmentRecordsSingle T ar i j = .ok R →
      (i = 1 ∧ j = 1 → R.sequence1.size = storedBases R.cigar1_unrolled ∧
        R.sequence1.forward_qualities.length = storedBases R.cigar1_unrolled) ∧
      (¬ (i = 1 ∧ j = 1) → R.sequence2.size = storedBases R.cigar2_unrolled ∧
        R.sequence2.forward_qualities.length = storedBases R.cigar2_unrolled)) ∧
    (∀ (self ar : AlignmentRecord) (b : PairedBranch) (st : PairedState),
      pairedLoops T self ar b = .ok st →
      (b = .b4 ∨ b = .b5 ∨ b = .b10 ∨ b = .b11 →
        (pairedAssign self ar b st).sequence2.size =
            storedBases (pairedAssign self ar b st).cigar2_unrolled ∧
          (pairedAssign self ar b st).sequence2.forward_qualities.length =
            storedBases (pairedAssign self ar b st).cigar2_unrolled) ∧
      (¬ (b = .b4 ∨ b = .b5 ∨ b = .b10 ∨ b = .b11) →
        (pairedAssign self ar b st).sequence1.size =
            storedBases (pairedAssign self ar b st).cigar1_unrolled ∧
          (pairedAssign self ar b st).sequence1.forward_qualities.length =
            storedBases (pairedAssign self ar b st).cigar1_unrolled)) ∧
    (∀ (self ar : AlignmentRecord) (b : MixedBranch) (st : PairedState) (e : Nat) (s : Bool),
      mixedLoops T self ar b = .ok st →
      (storeMate1 self ar e s st).sequence1.size =
          storedBases (storeMate1 self ar e s st).cigar1_unrolled ∧
        (storeMate1 self ar e s st).sequence1.forward_qualities.length =
          storedBases (storeMate1 self ar e s st).cigar1_unrolled) := by
  refine ⟨?_, ?_, ?_, ?_⟩
  · intro dna qualities nucigar h
    have h1 := emittedBy_ok T dna qualities nucigar h
    have h2 := emittedOk_storedBases _ _ _ h1
    exact ⟨h1.1, h2.1, h2.2.1, h1.2.1, h1.2.2⟩
  · intro self ar R i j h
    obtain ⟨fin, hfin, rfl, -⟩ := mergeSingle_ok T self ar R i j h
    have h2 := emittedOk_storedBases _ _ _ (singleLoops_emitted T self ar i j fin hfin)
    constructor
    · rintro ⟨rfl, rfl⟩
      exact ⟨h2.2.2.1, h2.2.2.2⟩
    · intro hij
      by_cases hi : i = 1
      · have hj : j ≠ 1 := fun hj => hij ⟨hi, hj⟩
        simp only [singleAssign, hi, hj, if_true, if_false]
        exact ⟨h2.2.2.1, h2.2.2.2⟩
      · simp only [singleAssign, hi, if_false]
        exact ⟨h2.2.2.1, h2.2.2.2⟩
  · intro self ar b st h
    have h2 := emittedOk_storedBases _ _ _ (pairedLoops_emitted T self ar b st h)
    constructor
    · intro hb
      cases b <;> first | exact ⟨h2.2.2.1, h2.2.2.2⟩ | (exfalso; revert hb; decide)
    · intro hb
      cases b <;> first | exact ⟨h2.2.2.1, h2.2.2.2⟩ | (exfalso; revert hb; decide)
  · intro self ar b st e s h
    have h2 := emittedOk_storedBases _ _ _ (mixedLoops_emitted T self ar b st h)
    exact ⟨h2.2.2.1, h2.2.2.2⟩

/-! ## Proofs: `pairWith` -/

theorem cigarLoop_fst (cigar : List CigarOp) (u : List Char) (a b : Int) :
    (cigarLoop cigar u a b).1 = unrollInto u cigar := by
  unfold cigarLoop unrollInto
  induction cigar generalizing u a b with
  | nil => rfl
  | cons op ops ih => simp only [List.foldl_cons]; exact ih _ _ _

theorem noOverlapMergeAlignment_eq (a : BamAlignment) (cig : List Char) (st : SoloState) :
    noOverlapMergeAlignment a cig st = noOverlapMergeOn cig a.QueryBases a.Qualities st := rfl

theorem overlapMergeAlignment_eq (T : QualityTables) (self : AlignmentRecord) (a : BamAlignment)
    (cig : List Char) (st : MergeState) :
    self.overlapMergeAlignment T a cig st =
      overlapMergeOn T self.cigar1_unrolled self.sequence1.forward
        self.sequence1.forward_qualities cig a.QueryBases a.Qualities st := rfl

theorem coveredPositions_returns (T : QualityTables) (r : AlignmentRecord)
    (h1 : storedBases r.cigar1_unrolled ≤ r.sequence1.forward.length)
    (h2 : storedBases r.cigar1_unrolled ≤ r.sequence1.forward_qualities.length)
    (h3 : r.single_end = false → r.start1 ≤ r.start2 ∧
      storedBases r.cigar2_unrolled ≤ r.sequence2.forward.length ∧
      storedBases r.cigar2_unrolled ≤ r.sequence2.forward_qualities.length) :
    ∃ cov, r.coveredPositions T = .ok cov := by
  obtain ⟨l1, hl1⟩ := coveredPositionsLoop_returns T r.sequence1 0 r.cigar1_unrolled r.start1 0 []
    (by unfold storedBases at h1; omega) (by unfold storedBases at h2; omega)
  unfold AlignmentRecord.coveredPositions
  cases hs : r.single_end with
  | true =>
    refine ⟨l1, ?_⟩
    simp only [hl1, bind, Except.bind, Bool.not_eq_true, Bool.true_eq_false, if_false,
      not_true_eq_false]
    rfl
  | false =>
    obtain ⟨a, b, c⟩ := h3 hs
    obtain ⟨l2, hl2⟩ := coveredPositionsLoop_returns T r.sequence2 1 r.cigar2_unrolled r.start2 0
      l1 (by unfold storedBases at b; omega) (by unfold storedBases at c; omega)
    refine ⟨l2, ?_⟩
    simp only [hl1, bind, Except.bind, Bool.false_eq_true, not_false_eq_true, if_true, a, hl2]

theorem mergeSingle_covered (T : QualityTables) (self ar m : AlignmentRecord)
    (h : self.mergeAlignmentRecordsSingle T ar 1 1 = .ok m) :
    ∃ cov, m.coveredPositions T = .ok cov := by
  obtain ⟨fin, hfin, rfl, -⟩ := mergeSingle_ok T self ar m 1 1 h
  obtain ⟨-, -, hd, hq⟩ := emittedOk_storedBases _ _ _ (singleLoops_emitted T self ar 1 1 fin hfin)
  refine coveredPositions_returns T _ ?_ ?_ (fun hs => by cases hs)
  · show storedBases fin.nucigar ≤ fin.dna.length
    omega
  · show storedBases fin.nucigar ≤ fin.qualities.length
    omega

theorem getMergedDnaSequence_eq_merge (T : QualityTables) (R : AlignmentRecord)
    (a : BamAlignment) (readRef : Int) :
    R.getMergedDnaSequence T a =
      R.mergeAlignmentRecordsSingle T (AlignmentRecord.fromAlignment a readRef) 1 1 := by
  have core : R.getMergedDnaSequence T a =
      (R.mergeAlignmentRecordsSingle T (AlignmentRecord.fromAlignment a readRef) 1 1 >>=
        fun m => m.coveredPositions T >>= fun _ => pure m) := by
    have e1 : unrollInto [] a.CigarData =
        (AlignmentRecord.fromAlignment a readRef).cigar1_unrolled := by
      simp [AlignmentRecord.fromAlignment, cigarLoop_fst]
    have e2 : a.Position + 1 = (AlignmentRecord.fromAlignment a readRef).start1 := rfl
    have e2i : (a.Position : Int) + 1 =
        ((AlignmentRecord.fromAlignment a readRef).start1 : Int) := by
      simp [AlignmentRecord.fromAlignment]
    have e3 : a.EndPosition = (AlignmentRecord.fromAlignment a readRef).end1 := rfl
    have e4 : a.QueryBases = (AlignmentRecord.fromAlignment a readRef).sequence1.forward := rfl
    have e5 : a.Qualities =
        (AlignmentRecord.fromAlignment a readRef).sequence1.forward_qualities := rfl
    generalize AlignmentRecord.fromAlignment a readRef = ar at e1 e2 e2i e3 e4 e5 ⊢
    have hsolo2 : (fun st : MergeState =>
        (noOverlapMergeAlignment a ar.cigar1_unrolled st.solo2).map st.setSolo2) =
        (fun st : MergeState => (ar.noOverlapMerge st.solo2 1).map st.setSolo2) := by
      funext st
      simp [AlignmentRecord.noOverlapMerge, noOverlapMergeAlignment_eq, e4, e5]
    have hjoint : (fun st : MergeState => R.overlapMergeAlignment T a ar.cigar1_unrolled st) =
        (fun st : MergeState => R.overlapMerge T ar st 1 1) := by
      funext st
      simp [AlignmentRecord.overlapMerge, overlapMergeAlignment_eq, bind, Except.bind, pure,
        Except.pure, e4, e5]
    simp only [AlignmentRecord.getMergedDnaSequence, AlignmentRecord.mergeAlignmentRecordsSingle,
      mergePhases, e1, e2, e2i, e3, hsolo2, hjoint, if_true, pure_bind]
    split_ifs <;> simp only [bind_assoc, pure_bind]
  rw [core]
  cases hm : R.mergeAlignmentRecordsSingle T (AlignmentRecord.fromAlignment a readRef) 1 1 with
  | error e => rfl
  | ok m =>
    obtain ⟨cov, hcov⟩ := mergeSingle_covered T R _ m hm
    simp only [bind, Except.bind, hcov]
    rfl

/-- C10: for a record `R` and a raw alignment `a` with `a.start <= R.end1` and
`a.end >= R.start1`, `pairWith(a)` gives the same endedness, interval, CIGAR,
bases, qualities and Phred sum as `mergeAlignmentRecordsSingle` of the
single-end record built from `a` into `R`, faults exactly when that merge
faults, and leaves the record single-end. -/
theorem pairWith_overlap_refines_merge (T : QualityTables) (R : AlignmentRecord)
    (a : BamAlignment) (readRef : Int)
    (h1 : a.Position + 1 ≤ R.end1) (h2 : R.start1 ≤ a.EndPosition) :
    (R.pairWith T a).map mate1View =
      (R.mergeAlignmentRecordsSingle T (AlignmentRecord.fromAlignment a readRef) 1 1).map
        mate1View ∧
    ∀ R', R.pairWith T a = .ok R' → R'.single_end = true := by
  have hp : R.pairWith T a =
      R.mergeAlignmentRecordsSingle T (AlignmentRecord.fromAlignment a readRef) 1 1 := by
    have c1 : ¬ (a.Position + 1 > R.end1) := by omega
    have c2 : ¬ (a.EndPosition < R.start1) := by omega
    simp only [AlignmentRecord.pairWith, c1, c2, if_false]
    exact getMergedDnaSequence_eq_merge T R a readRef
  refine ⟨by rw [hp], ?_⟩
  intro R' hR'
  rw [hp] at hR'
  simp only [AlignmentRecord.mergeAlignmentRecordsSingle, if_true, bind, Except.bind, pure,
    Except.pure] at hR'
  split at hR'
  · simp at hR'
  · simp at hR'
    subst hR'
    rfl

/-- Witness of C10: read B of the end-to-end example paired with the record of
read A. -/
theorem pairWith_overlap_refines_merge_witness :
    sampleAlignmentB.Position + 1 ≤ sampleA.end1 ∧
    sampleA.start1 ≤ sampleAlignmentB.EndPosition ∧
    (sampleA.pairWith sampleTables sampleAlignmentB).map mate1View =
      (sampleA.mergeAlignmentRecordsSingle sampleTables
        (AlignmentRecord.fromAlignment sampleAlignmentB 1) 1 1).map mate1View ∧
    (sampleA.pairWith sampleTables sampleAlignmentB).map mate1View =
      .ok (true, 100, 130, [⟨'M', 31⟩], List.replicate 31 'A',
        List.replicate 10 63 ++ List.replicate 11 98 ++ List.replicate 10 63, 1315) :=
  ⟨by decide, by decide,
    (pairWith_overlap_refines_merge sampleTables sampleA sampleAlignmentB 1
      (by decide) (by decide)).1, rfl⟩

theorem pairWith_after (T : QualityTables) (R R' : AlignmentRecord) (a : BamAlignment)
    (h : R.end1 < a.Position + 1) (hR' : R.pairWith T a = .ok R') :
    R' =
      { R with
        single_end := false
        start2 := a.Position + 1
        end2 := a.EndPosition
        cigar2 := a.CigarData
        sequence2 := ⟨a.QueryBases, a.Qualities⟩
        phred_sum2 := phred_sum a.Qualities 33
        cigar2_unrolled := unrollInto R.cigar2_unrolled a.CigarData
        length_incl_deletions2 :=
          (cigarLoop a.CigarData R.cigar2_unrolled
            (ShortDnaSequence.size ⟨a.QueryBases, a.Qualities⟩)
            (ShortDnaSequence.size ⟨a.QueryBases, a.Qualities⟩)).2.1
        length_incl_longdeletions2 :=
          (cigarLoop a.CigarData R.cigar2_unrolled
            (ShortDnaSequence.size ⟨a.QueryBases, a.Qualities⟩)
            (ShortDnaSequence.size ⟨a.QueryBases, a.Qualities⟩)).2.2 } ∧
    ∃ cov, R'.coveredPositions T = .ok cov := by
  simp only [AlignmentRecord.pairWith, gt_iff_lt, h, if_true] at hR'
  obtain ⟨cov, hc, hR'⟩ := bind_eq_ok _ _ _ hR'
  cases hR'
  rw [cigarLoop_fst] at hc ⊢
  exact ⟨rfl, cov, hc⟩

theorem pairWith_before (T : QualityTables) (R R' : AlignmentRecord) (a : BamAlignment)
    (h1 : ¬ R.end1 < a.Position + 1) (h : a.EndPosition < R.start1)
    (hR' : R.pairWith T a = .ok R') :
    R' =
      { R with
        single_end := false
        start2 := R.start1
        end2 := R.end1
        cigar2 := R.cigar1
        sequence2 := R.sequence1
        phred_sum2 := R.phred_sum1
        cigar2_unrolled := R.cigar1_unrolled
        length_incl_deletions2 := R.length_incl_deletions1
        length_incl_longdeletions2 := R.length_incl_longdeletions1
        start1 := a.Position + 1
        end1 := a.EndPosition
        cigar1 := a.CigarData
        sequence1 := ⟨a.QueryBases, a.Qualities⟩
        phred_sum1 := phred_sum a.Qualities 33
        cigar1_unrolled := unrollInto [] a.CigarData
        length_incl_deletions1 :=
          (cigarLoop a.CigarData [] (ShortDnaSequence.size ⟨a.QueryBases, a.Qualities⟩)
            (ShortDnaSequence.size ⟨a.QueryBases, a.Qualities⟩)).2.1
        length_incl_longdeletions1 :=
          (cigarLoop a.CigarData [] (ShortDnaSequence.size ⟨a.QueryBases, a.Qualities⟩)
            (ShortDnaSequence.size ⟨a.QueryBases, a.Qualities⟩)).2.2 } ∧
    ∃ cov, R'.coveredPositions T = .ok cov := by
  simp only [AlignmentRecord.pairWith, gt_iff_lt, h1, h, if_true, if_false] at hR'
  obtain ⟨cov, hc, hR'⟩ := bind_eq_ok _ _ _ hR'
  cases hR'
  rw [cigarLoop_fst] at hc ⊢
  exact ⟨rfl, cov, hc⟩

/-- C9 (as stated, refuted): the record `staleRecord` is what `readFirst`,
`readShortMate` and the overlapping `readSupplementary` leave: it is
single-end again and still holds the unrolled CIGAR `M` of the dropped mate.
`readClippedLate` (`4M1S`) lies after it; `pairWith(readClippedLate)` makes the
record paired-end with mate-2 CIGAR `4M1S`, but its unrolled mate-2 CIGAR is
`MMMMMS`, six tags where `readClippedLate` has five. With the longer stale
vector of `collapsedRecord` and `readLate` (`5M`) the closing
`coveredPositions()` reads past the five bases of mate 2. -/
theorem pairWith_stale_mate2_unrolled :
    ((AlignmentRecord.fromAlignment readFirst 0).pairWith sampleTables readShortMate).bind
      (fun r => r.pairWith sampleTables readSupplementary) = .ok staleRecord ∧
    staleRecord.single_end = true ∧ staleRecord.cigar2_unrolled = ['M'] ∧
    staleRecord.end1 < readClippedLate.Position + 1 ∧
    unrollCigar readClippedLate.CigarData = ['M', 'M', 'M', 'M', 'S'] ∧
    (∃ r, staleRecord.pairWith sampleTables readClippedLate = .ok r ∧ r.single_end = false ∧
      r.cigar2 = readClippedLate.CigarData ∧
      r.cigar2_unrolled = ['M', 'M', 'M', 'M', 'M', 'S']) ∧
    collapsedRecord.single_end = true ∧ collapsedRecord.end1 < readLate.Position + 1 ∧
    collapsedRecord.pairWith sampleTables readLate = .error .fault :=
  ⟨rfl, rfl, rfl, by decide, rfl, ⟨_, rfl, rfl, rfl, rfl⟩, rfl, by decide, rfl⟩

/-- C9 (amended): let `R` be a record and `a` a raw alignment, both with
`start ≤ end`. If `a` lies after mate 1 (`a.start > R.end1`) and the mate-2
unrolled CIGAR of `R` is empty, as the raw constructor leaves it, then every
record that `pairWith(a)` leaves is paired-end with mate 1 unchanged and mate 2
equal to `a` (interval, CIGAR, unrolled CIGAR, sequence, Phred sum). If `a`
lies before mate 1 (`a.end < R.start1`), every record that `pairWith(a)` leaves
is paired-end with mate 1 equal to `a` and mate 2 equal to the old mate 1. In
both cases `end1 < start2` holds afterwards, and the call returns whenever
each of the two mates has a base and a quality for every `M`, `I` and `S` tag
of its CIGAR. -/
theorem pairWith_disjoint_fresh (T : QualityTables) (R : AlignmentRecord) (a : BamAlignment)
    (hR : R.start1 ≤ R.end1) (ha : a.Position ≤ a.EndPosition) :
    (R.cigar2_unrolled = [] → R.end1 < a.Position + 1 →
      ∀ R', R.pairWith T a = .ok R' → R'.single_end = false ∧
        R'.start1 = R.start1 ∧ R'.end1 = R.end1 ∧ R'.cigar1 = R.cigar1 ∧
        R'.cigar1_unrolled = R.cigar1_unrolled ∧ R'.sequence1 = R.sequence1 ∧
        R'.phred_sum1 = R.phred_sum1 ∧
        R'.start2 = a.Position + 1 ∧ R'.end2 = a.EndPosition ∧ R'.cigar2 = a.CigarData ∧
        R'.cigar2_unrolled = unrollCigar a.CigarData ∧
        R'.sequence2 = ⟨a.QueryBases, a.Qualities⟩ ∧
        R'.phred_sum2 = phred_sum a.Qualities 33 ∧ R'.end1 < R'.start2) ∧
    (a.EndPosition < R.start1 →
      ∀ R', R.pairWith T a = .ok R' → R'.single_end = false ∧
        R'.start1 = a.Position + 1 ∧ R'.end1 = a.EndPosition ∧ R'.cigar1 = a.CigarData ∧
        R'.cigar1_unrolled = unrollCigar a.CigarData ∧
        R'.sequence1 = ⟨a.QueryBases, a.Qualities⟩ ∧
        R'.phred_sum1 = phred_sum a.Qualities 33 ∧
        R'.start2 = R.start1 ∧ R'.end2 = R.end1 ∧ R'.cigar2 = R.cigar1 ∧
        R'.cigar2_unrolled = R.cigar1_unrolled ∧ R'.sequence2 = R.sequence1 ∧
        R'.phred_sum2 = R.phred_sum1 ∧ R'.end1 < R'.start2) ∧
    ((R.end1 < a.Position + 1 ∧ R.cigar2_unrolled = []) ∨ a.EndPosition < R.start1 →
      storedBases R.cigar1_unrolled ≤ R.sequence1.forward.length →
      storedBases R.cigar1_unrolled ≤ R.sequence1.forward_qualities.length →
      storedBases (unrollCigar a.CigarData) ≤ a.QueryBases.length →
      storedBases (unrollCigar a.CigarData) ≤ a.Qualities.length →
      ∃ R', R.pairWith T a = .ok R') := by
  refine ⟨?_, ?_, ?_⟩
  · intro hfresh h R' hR'
    obtain ⟨rfl, -⟩ := pairWith_after T R R' a h hR'
    refine ⟨rfl, rfl, rfl, rfl, rfl, rfl, rfl, rfl, rfl, rfl, ?_, rfl, rfl, h⟩
    show unrollInto R.cigar2_unrolled a.CigarData = unrollCigar a.CigarData
    rw [hfresh]
    rfl
  · intro h R' hR'
    obtain ⟨rfl, -⟩ := pairWith_before T R R' a (by omega) h hR'
    exact ⟨rfl, rfl, rfl, rfl, rfl, rfl, rfl, rfl, rfl, rfl, rfl, rfl, rfl, h⟩
  · intro hd b1 b2 b3 b4
    by_cases h : R.end1 < a.Position + 1
    · have hfresh : R.cigar2_unrolled = [] := by
        rcases hd with hd | hd
        · exact hd.2
        · omega
      simp only [AlignmentRecord.pairWith, gt_iff_lt, h, if_true, cigarLoop_fst, hfresh]
      obtain ⟨cov, hcov⟩ := coveredPositions_returns T
        { R with
          single_end := false
          start2 := a.Position + 1
          end2 := a.EndPosition
          cigar2 := a.CigarData
          sequence2 := ⟨a.QueryBases, a.Qualities⟩
          phred_sum2 := phred_sum a.Qualities 33
          cigar2_unrolled := unrollInto [] a.CigarData
          length_incl_deletions2 :=
            (cigarLoop a.CigarData [] (ShortDnaSequence.size ⟨a.QueryBases, a.Qualities⟩)
              (ShortDnaSequence.size ⟨a.QueryBases, a.Qualities⟩)).2.1
          length_incl_longdeletions2 :=
            (cigarLoop a.CigarData [] (ShortDnaSequence.size ⟨a.QueryBases, a.Qualities⟩)
              (ShortDnaSequence.size ⟨a.QueryBases, a.Qualities⟩)).2.2 }
        b1 b2 (fun _ => ⟨show R.start1 ≤ a.Position + 1 by omega, b3, b4⟩)
      exact ⟨_, by rw [hcov]; rfl⟩
    · have h2 : a.EndPosition < R.start1 := by
        rcases hd with hd | hd
        · exact absurd hd.1 h
        · exact hd
      simp only [AlignmentRecord.pairWith, gt_iff_lt, h, h2, if_true, if_false, cigarLoop_fst]
      obtain ⟨cov, hcov⟩ := coveredPositions_returns T
        { R with
          single_end := false
          start2 := R.start1
          end2 := R.end1
          cigar2 := R.cigar1
          sequence2 := R.sequence1
          phred_sum2 := R.phred_sum1
          cigar2_unrolled := R.cigar1_unrolled
          length_incl_deletions2 := R.length_incl_deletions1
          length_incl_longdeletions2 := R.length_incl_longdeletions1
          start1 := a.Position + 1
          end1 := a.EndPosition
          cigar1 := a.CigarData
          sequence1 := ⟨a.QueryBases, a.Qualities⟩
          phred_sum1 := phred_sum a.Qualities 33
          cigar1_unrolled := unrollInto [] a.CigarData
          length_incl_deletions1 :=
            (cigarLoop a.CigarData [] (ShortDnaSequence.size ⟨a.QueryBases, a.Qualities⟩)
              (ShortDnaSequence.size ⟨a.QueryBases, a.Qualities⟩)).2.1
          length_incl_longdeletions1 :=
            (cigarLoop a.CigarData [] (ShortDnaSequence.size ⟨a.QueryBases, a.Qualities⟩)
              (ShortDnaSequence.size ⟨a.QueryBases, a.Qualities⟩)).2.2 }
        b3 b4 (fun _ => ⟨show a.Position + 1 ≤ R.start1 by omega, b1, b2⟩)
      exact ⟨_, by rw [hcov]; rfl⟩

theorem pairWith_disjoint_fresh_witness :
    (AlignmentRecord.fromAlignment readFirst 0).start1 ≤
      (AlignmentRecord.fromAlignment readFirst 0).end1 ∧
    readMate.Position ≤ readMate.EndPosition ∧
    (AlignmentRecord.fromAlignment readFirst 0).cigar2_unrolled = [] ∧
    (AlignmentRecord.fromAlignment readFirst 0).end1 < readMate.Position + 1 ∧
    ∃ R', (AlignmentRecord.fromAlignment readFirst 0).pairWith sampleTables readMate = .ok R' :=
  ⟨by decide, by decide, rfl, by decide,
    (pairWith_disjoint_fresh sampleTables (AlignmentRecord.fromAlignment readFirst 0) readMate
      (by decide) (by decide)).2.2 (Or.inl ⟨by decide, rfl⟩) (by decide) (by decide)
      (by decide) (by decide)⟩

/-! ## Proofs: mate order -/

theorem ite_some_cases {α : Type} (c : Prop) [Decidable c] (x : α) (y : Option α) (b : α)
    (h : (if c then some x else y) = some b) : (c ∧ x = b) ∨ (¬ c ∧ y = some b) := by
  by_cases hc : c
  · rw [if_pos hc] at h
    exact Or.inl ⟨hc, Option.some.inj h⟩
  · rw [if_neg hc] at h
    exact Or.inr ⟨hc, h⟩

theorem pairedBranch_gap (self ar : AlignmentRecord) (b : PairedBranch)
    (h : pairedBranch self ar = some b) (hb : b = .b4 ∨ b = .b5) : self.end1 < ar.start1 := by
  unfold pairedBranch at h
  dsimp only at h
  iterate 12
    rcases ite_some_cases _ _ _ _ h with ⟨c, rfl⟩ | ⟨-, h⟩
    · first
      | exact c.2.1
      | exact absurd hb (by decide)
  cases h

theorem mergePaired_mateOrder (T : QualityTables) (self ar R : AlignmentRecord)
    (h : self.mergeAlignmentRecordsPaired T ar = .ok R)
    (hp : self.single_end = false) (i1 : MateOrder self) (i2 : MateOrder ar)
    (w1 : IntervalsOk self) : MateOrder R := by
  obtain ⟨hs, ⟨-, r1, h1, h2⟩ | ⟨-, ⟨b, st, hb, -, rfl⟩ | ⟨-, rfl⟩⟩⟩ := mergePaired_ok T self ar R h
  · obtain ⟨f1, -, rfl, -⟩ := mergeSingle_ok T self ar r1 1 1 h1
    obtain ⟨f2, -, rfl, -⟩ := mergeSingle_ok T _ ar R 2 2 h2
    intro _
    have a1 := i1 hp
    have a2 := i2 hs
    show min self.start1 ar.start1 ≤ min self.start2 ar.start2
    exact min_le_min a1 a2
  · have a1 := i1 hp
    have a2 := i2 hs
    have a3 := w1.1
    intro hse
    cases b
    case b4 =>
      have := pairedBranch_gap self ar _ hb (Or.inl rfl)
      show self.start1 ≤ min self.start2 ar.start1
      exact le_min a1 (by omega)
    case b5 =>
      have := pairedBranch_gap self ar _ hb (Or.inr rfl)
      show self.start1 ≤ min self.start2 ar.start1
      exact le_min a1 (by omega)
    case b3 => exact le_trans (min_le_right _ _) a2
    case b9 => exact le_trans (min_le_right _ _) a2
    case b7 => exact le_trans (min_le_left _ _) a1
    case b13 => exact le_trans (min_le_left _ _) a1
    case b10 => exact le_min (le_refl _) a2
    case b11 => exact le_min (le_refl _) a2
    all_goals cases hse
  · exact i1

theorem mergeMixed_mateOrder (T : QualityTables) (self ar R : AlignmentRecord)
    (h : self.mergeAlignmentRecordsMixed T ar = .ok R)
    (hm : self.single_end = !ar.single_end) (i1 : MateOrder self) (i2 : MateOrder ar)
    (w1 : IntervalsOk self) (w2 : IntervalsOk ar) : MateOrder R := by
  obtain ⟨r, i, j, hr, -, -, hc⟩ | ⟨b, st, e, -, rfl⟩ | rfl := mergeMixed_ok T self ar R h
  · obtain ⟨fin, -, rfl, -⟩ := mergeSingle_ok T self ar r i j hr
    intro _
    rcases hc with ⟨hs, rfl, rfl, -, -, e1, e2⟩ | ⟨hs, rfl, rfl, c, rfl⟩ |
      ⟨hs, rfl, rfl, -, e1, e2⟩ | ⟨hs, rfl, rfl, c, e1, e2⟩
    · rw [e1, e2]
      have a1 := i1 (by rw [hm, hs]; rfl)
      exact le_trans (min_le_left _ _) a1
    · have a1 := i1 (by rw [hm, hs]; rfl)
      have a3 := w1.1
      show self.start1 ≤ min self.start2 ar.start1
      exact le_min a1 (by omega)
    · rw [e1, e2]
      exact le_trans (min_le_right _ _) (i2 hs)
    · rw [e1, e2]
      have a2 := i2 hs
      have a3 := w2.1
      show ar.start1 ≤ min self.start1 ar.start2
      exact le_min (by omega) a2
  · intro hse; cases hse
  · exact i1

theorem pairWith_mateOrder (T : QualityTables) (self R : AlignmentRecord) (a : BamAlignment)
    (h : self.pairWith T a = .ok R) (w1 : self.start1 ≤ self.end1)
    (wa : a.Position + 1 ≤ a.EndPosition) : MateOrder R := by
  by_cases c1 : self.end1 < a.Position + 1
  · obtain ⟨rfl, -⟩ := pairWith_after T self R a c1 h
    intro _
    show self.start1 ≤ a.Position + 1
    omega
  by_cases c2 : a.EndPosition < self.start1
  · obtain ⟨rfl, -⟩ := pairWith_before T self R a c1 c2 h
    intro _
    show a.Position + 1 ≤ self.start1
    omega
  · simp only [AlignmentRecord.pairWith, gt_iff_lt, c1, c2, if_false] at h
    rw [getMergedDnaSequence_eq_merge T self a 0] at h
    obtain ⟨fin, -, rfl, -⟩ := mergeSingle_ok T self _ R 1 1 h
    intro hse
    cases hse

theorem coveredPositions_of_mateOrder (T : QualityTables) (r : AlignmentRecord)
    (h : MateOrder r) :
    r.coveredPositions T =
      (coveredPositionsLoop T r.sequence1 0 r.cigar1_unrolled r.start1 0 []).bind
        (fun l1 => if r.single_end then .ok l1
          else coveredPositionsLoop T r.sequence2 1 r.cigar2_unrolled r.start2 0 l1) := by
  unfold AlignmentRecord.coveredPositions
  cases hs : r.single_end with
  | true => rfl
  | false =>
    have := h hs
    simp only [this, if_true]
    rfl

/-- C18: the predicate "paired-end implies `start1 ≤ start2`" holds after
construction from a raw alignment and after `pairWith`, and every
`mergeAlignmentRecordsSingle(ar, 1, 1)`, `mergeAlignmentRecordsPaired(ar)` or
`mergeAlignmentRecordsMixed(ar)` that completes on operands that satisfy it
and have `start ≤ end` for each mate gives a record that satisfies it; on a
record that satisfies it the assertion of `coveredPositions()` does not fail,
so `coveredPositions()` is the two CIGAR walks. -/
theorem mateOrder_invariant (T : QualityTables) :
    (∀ (a : BamAlignment) (readRef : Int), MateOrder (AlignmentRecord.fromAlignment a readRef)) ∧
    (∀ (self R : AlignmentRecord) (a : BamAlignment), self.pairWith T a = .ok R →
      self.start1 ≤ self.end1 → a.Position + 1 ≤ a.EndPosition → MateOrder R) ∧
    (∀ (self ar R : AlignmentRecord), self.mergeAlignmentRecordsSingle T ar 1 1 = .ok R →
      MateOrder R) ∧
    (∀ (self ar R : AlignmentRecord), self.mergeAlignmentRecordsPaired T ar = .ok R →
      self.single_end = false → MateOrder self → MateOrder ar → IntervalsOk self →
      IntervalsOk ar → MateOrder R) ∧
    (∀ (self ar R : AlignmentRecord), self.mergeAlignmentRecordsMixed T ar = .ok R →
      self.single_end = (!ar.single_end) → MateOrder self → MateOrder ar → IntervalsOk self →
      IntervalsOk ar → MateOrder R) ∧
    (∀ r : AlignmentRecord, MateOrder r →
      r.coveredPositions T =
        (coveredPositionsLoop T r.sequence1 0 r.cigar1_unrolled r.start1 0 []).bind
          (fun l1 => if r.single_end then .ok l1
            else coveredPositionsLoop T r.sequence2 1 r.cigar2_unrolled r.start2 0 l1)) := by
  refine ⟨?_, ?_, ?_, ?_, ?_, ?_⟩
  · intro a readRef hse
    cases hse
  · intro self R a h w1 wa
    exact pairWith_mateOrder T self R a h w1 wa
  · intro self ar R h
    obtain ⟨fin, -, rfl, -⟩ := mergeSingle_ok T self ar R 1 1 h
    intro hse
    cases hse
  · intro self ar R h hp i1 i2 w1 _
    exact mergePaired_mateOrder T self ar R h hp i1 i2 w1
  · intro self ar R h hm i1 i2 w1 w2
    exact mergeMixed_mateOrder T self ar R h hm i1 i2 w1 w2
  · intro r h
    exact coveredPositions_of_mateOrder T r h

/-! ## Proofs: paired merge of separated mates -/

theorem singleLoops_mate1 (T : QualityTables) (self ar : AlignmentRecord) :
    singleLoops T self ar 1 1 = singleLoops T (mate1Single self) (mate1Single ar) 1 1 := by
  have h1 : (fun st : MergeState => (self.noOverlapMerge st.solo1 1).map st.setSolo1) =
      (fun st : MergeState => ((mate1Single self).noOverlapMerge st.solo1 1).map st.setSolo1) := rfl
  have h2 : (fun st : MergeState => (ar.noOverlapMerge st.solo2 1).map st.setSolo2) =
      (fun st : MergeState => ((mate1Single ar).noOverlapMerge st.solo2 1).map st.setSolo2) := rfl
  have h3 : (fun st : MergeState => self.overlapMerge T ar st 1 1) =
      (fun st : MergeState => (mate1Single self).overlapMerge T (mate1Single ar) st 1 1) := rfl
  unfold singleLoops
  rw [h1, h2, h3]
  rfl

theorem singleLoops_mate2 (T : QualityTables) (self ar : AlignmentRecord)
    (h : ar.single_end = false) :
    singleLoops T self ar 2 2 = singleLoops T (mate2Single self) (mate2Single ar) 1 1 := by
  have h1 : (fun st : MergeState => (self.noOverlapMerge st.solo1 2).map st.setSolo1) =
      (fun st : MergeState => ((mate2Single self).noOverlapMerge st.solo1 1).map st.setSolo1) := rfl
  have h2 : (fun st : MergeState => (ar.noOverlapMerge st.solo2 2).map st.setSolo2) =
      (fun st : MergeState => ((mate2Single ar).noOverlapMerge st.solo2 1).map st.setSolo2) := rfl
  have h3 : (fun st : MergeState => self.overlapMerge T ar st 2 2) =
      (fun st : MergeState => (mate2Single self).overlapMerge T (mate2Single ar) st 1 1) := by
    funext st
    simp only [AlignmentRecord.overlapMerge, AlignmentRecord.getSequence2, h]
    rfl
  unfold singleLoops
  rw [h1, h2, h3]
  rfl

/-- C17: for records `A` and `R` with `R` paired-end, `A.end1 < R.start2` and
`A.start2 > R.end1`, `mergeAlignmentRecordsPaired(R)` on `A` is the pairwise
merge of mate 1 of `A` with mate 1 of `R`, followed by the pairwise merge of
mate 2 of `A` with mate 2 of `R`: it completes exactly when both do, the result
is paired-end, its mate 1 is the merged mates 1 and its mate 2 the merged
mates 2, so neither merged mate depends on the other mates. -/
theorem mergePaired_separated (T : QualityTables) (A R : AlignmentRecord)
    (hR : R.single_end = false) (h1 : A.end1 < R.start2) (h2 : A.start2 > R.end1) :
    A.mergeAlignmentRecordsPaired T R =
      ((mate1Single A).mergeAlignmentRecordsSingle T (mate1Single R) 1 1).bind (fun m1 =>
        ((mate2Single A).mergeAlignmentRecordsSingle T (mate2Single R) 1 1).bind (fun m2 =>
          .ok (joinMates A m1 m2))) := by
  unfold AlignmentRecord.mergeAlignmentRecordsPaired
  simp only [hR, Bool.false_eq_true, if_false, h1, h2, gt_iff_lt, and_self, if_true]
  rw [mergeSingle_eq, mergeSingle_eq, mergeSingle_eq, singleLoops_mate1 T A R]
  simp only [ne_eq, not_true_eq_false, false_and, if_false]
  cases singleLoops T (mate1Single A) (mate1Single R) 1 1 with
  | error e => rfl
  | ok fin1 =>
    simp only [Except.map, bind, Except.bind]
    rw [mergeSingle_eq, singleLoops_mate2 T _ R hR]
    simp only [hR, Bool.false_eq_true, and_false, if_false]
    have e : mate2Single (singleAssign A R 1 1 fin1) = mate2Single A := rfl
    rw [e]
    cases singleLoops T (mate2Single A) (mate2Single R) 1 1 with
    | error e => rfl
    | ok fin2 => rfl

/-! ## Proofs: evaluated examples -/

/-- C19: the raw record of a `2M1D2M` read has `length_incl_deletions1 = 5` (4
bases plus the deleted position), but the record that the clique constructor
merges from two such reads has the CIGAR `2M1D2M`, 4 bases and
`length_incl_deletions1 = 4`: the merge stores the sequence length and does not
add the `D` run. -/
theorem merge_length_incl_deletions_without_D :
    deletionA.length_incl_deletions1 = 5 ∧
      (AlignmentRecord.fromAlignments sampleTables [deletionA, deletionB] 0).map
          (fun r => (r.cigar1, r.sequence1.size, r.length_incl_deletions1)) =
        .ok ([⟨'M', 2⟩, ⟨'D', 1⟩, ⟨'M', 2⟩], 4, 4) := by
  constructor
  · rfl
  · rfl

theorem fromAlignments_sample : AlignmentRecord.fromAlignments sampleTables [sampleA, sampleB] 0 =
    .ok sampleClique := by
  rfl

theorem fromAlignments_readNames_witness :
    2 ≤ [sampleA, sampleB].length ∧
      ∀ x, x ∈ sampleClique.readNames ↔ ∃ a ∈ [sampleA, sampleB], x ∈ a.readNames :=
  fromAlignments_readNames sampleTables [sampleA, sampleB] 0 sampleClique fromAlignments_sample

theorem mergePaired_separated_witness :
    (samplePaired.end1 < samplePaired.start2 ∧ samplePaired.start2 > samplePaired.end1) ∧
      (samplePaired.mergeAlignmentRecordsPaired sampleTables samplePaired).map
          (fun r => (r.single_end, r.start1, r.end1, r.sequence1.forward, r.start2, r.end2,
            r.sequence2.forward)) =
        .ok (false, 100, 104, ['A', 'C', 'G', 'T'], 200, 202, ['A', 'C', 'G']) := by
  refine ⟨by decide, ?_⟩
  rw [mergePaired_separated sampleTables samplePaired samplePaired rfl (by decide) (by decide)]
  rfl

/-! ## Proofs: auxiliary lemmas on lists and loops -/

theorem count_take_le (u : List Char) (c : Char) (t : Nat) :
    (u.take t).count c ≤ u.count c := by
  conv_rhs => rw [← List.take_append_drop t u]
  rw [List.count_append]
  omega

theorem whileLoop_done {σ : Type} (cond : σ → Bool) (body : σ → Except MergeError σ)
    (fuel : Nat) (s : σ) (h : cond s = false) : whileLoop cond body fuel s = .ok s := by
  cases fuel <;> simp [whileLoop, h]

/-! ## Proofs: swapping the operands of a pairwise merge -/

theorem readAt_ok_getD {α : Type} (v : List α) (i : Nat) (a d : α) (h : readAt v i = .ok a) :
    v.getD i d = a := by
  unfold readAt at h
  cases hv : v[i]? with
  | none => rw [hv] at h; cases h
  | some b =>
    rw [hv] at h
    cases h
    simp [List.getD_eq_getElem?_getD, hv]

theorem computeEntry_fst_comm (T : QualityTables) (b1 b2 : Char) (q1 q2 : Int)
    (h : b1 ≠ b2 → q1 ≠ q2) :
    (computeEntry T b2 q2 b1 q1).1 = (computeEntry T b1 q1 b2 q2).1 := by
  unfold computeEntry
  by_cases hb : b1 = b2
  · subst hb
    simp
  · have hq := h hb
    have hb' : ¬ b2 = b1 := fun e => hb e.symm
    simp only [hb, hb', if_false]
    by_cases h12 : q1 ≥ q2
    · have : ¬ q2 ≥ q1 := by omega
      simp [h12, this]
    · have : q2 ≥ q1 := by omega
      simp [h12, this]

theorem noOverlapMergeOn_rel (D : Prop) (cigar bases : List Char) (quals : List Int)
    (x x' y : SoloState)
    (hn : x'.nucigar = x.nucigar) (hc : x'.c_pos = x.c_pos) (hq : x'.q_pos = x.q_pos)
    (hr : x'.ref_pos = x.ref_pos) (hd : D → x'.dna = x.dna)
    (h : noOverlapMergeOn cigar bases quals x = .ok y) :
    ∃ y', noOverlapMergeOn cigar bases quals x' = .ok y' ∧ y'.nucigar = y.nucigar ∧
      y'.c_pos = y.c_pos ∧ y'.q_pos = y.q_pos ∧ y'.ref_pos = y.ref_pos ∧ (D → y'.dna = y.dna) := by
  unfold noOverlapMergeOn at h ⊢
  obtain ⟨c, hcr, h⟩ := bind_eq_ok _ _ _ h
  rw [hc, hcr]
  simp only [bind, Except.bind]
  split_ifs at h ⊢
  all_goals
    first
    | (cases h
       exact ⟨_, rfl, by simp [hn], by simp [hc], by simp [hq], by simp [hr], hd⟩)
    | (obtain ⟨b, hb, h⟩ := bind_eq_ok _ _ _ h
       obtain ⟨q, hqq, h⟩ := bind_eq_ok _ _ _ h
       cases h
       rw [hq, hb, hqq]
       exact ⟨_, rfl, by simp [hn], by simp [hc], by simp [hq], by simp [hr],
         fun d => by simp [hd d]⟩)

theorem ok_bind {α β : Type} (a : α) (f : α → Except MergeError β) :
    (Except.ok a >>= f) = f a := rfl

theorem overlapMergeOn_swap_B2 (T : QualityTables) (D : Prop) (cigar1 bases1 : List Char)
    (quals1 : List Int) (cigar2 bases2 : List Char) (quals2 : List Int) (st st' r : MergeState)
    (c1 c2 : Char) (hrel : SwapRel D st st')
    (e1 : readAt cigar1 st.c_pos1 = .ok c1) (e2 : readAt cigar2 st.c_pos2 = .ok c2)
    (hB2 : (c1 = 'D' ∧ c2 = 'D') ∨ (c1 = 'H' ∧ c2 = 'H') ∨ (c1 = 'D' ∧ c2 = 'H') ∨
      (c1 = 'H' ∧ c2 = 'D') ∨ (c1 = 'D' ∧ c2 = 'S') ∨ (c1 = 'S' ∧ c2 = 'D'))
    (h : overlapMergeOn T cigar1 bases1 quals1 cigar2 bases2 quals2 st = .ok r) :
    ∃ r', overlapMergeOn T cigar2 bases2 quals2 cigar1 bases1 quals1 st' = .ok r' ∧
      SwapRel D r r' := by
  obtain ⟨hn, hc1, hc2, hq1, hq2, hr, hd⟩ := hrel
  unfold overlapMergeOn at h ⊢
  rw [e1, e2, ok_bind, ok_bind] at h
  rw [hc1, hc2, e2, e1, ok_bind, ok_bind]
  rcases hB2 with ⟨rfl, rfl⟩ | ⟨rfl, rfl⟩ | ⟨rfl, rfl⟩ | ⟨rfl, rfl⟩ | ⟨rfl, rfl⟩ | ⟨rfl, rfl⟩
  all_goals
    simp only [Char.reduceEq, and_self, and_false, false_and, and_true, true_and, or_self, or_false,
      false_or, or_true, true_or, if_true, if_false, ne_eq, not_true_eq_false, not_false_eq_true] at h ⊢
    cases h
    refine ⟨_, rfl, ?_⟩
    refine ⟨?_, ?_, ?_, ?_, ?_, ?_, ?_⟩
    · simp [hn]
    · simp [hc1]
    · simp [hc2]
    · simp [hq1]
    · simp [hq2]
    · simp [hr]
    · exact hd

theorem overlapMergeOn_swap_B3 (T : QualityTables) (D : Prop) (cigar1 bases1 : List Char)
    (quals1 : List Int) (cigar2 bases2 : List Char) (quals2 : List Int) (st st' r : MergeState)
    (c1 c2 : Char) (hrel : SwapRel D st st')
    (e1 : readAt cigar1 st.c_pos1 = .ok c1) (e2 : readAt cigar2 st.c_pos2 = .ok c2)
    (hB3 : (c1 = 'M' ∧ (c2 = 'D' ∨ c2 = 'H' ∨ c2 = 'S')) ∨
      ((c1 = 'D' ∨ c1 = 'H' ∨ c1 = 'S') ∧ c2 = 'M') ∨ (c1 = 'S' ∧ c2 = 'H') ∨
      (c1 = 'H' ∧ c2 = 'S'))
    (h : overlapMergeOn T cigar1 bases1 quals1 cigar2 bases2 quals2 st = .ok r) :
    ∃ r', overlapMergeOn T cigar2 bases2 quals2 cigar1 bases1 quals1 st' = .ok r' ∧
      SwapRel D r r' := by
  obtain ⟨hn, hc1, hc2, hq1, hq2, hr, hd⟩ := hrel
  unfold overlapMergeOn at h ⊢
  rw [e1, e2, ok_bind, ok_bind] at h
  rw [hc1, hc2, e2, e1, ok_bind, ok_bind]
  rcases hB3 with ⟨rfl, rfl | rfl | rfl⟩ | ⟨rfl | rfl | rfl, rfl⟩ | ⟨rfl, rfl⟩ | ⟨rfl, rfl⟩
  all_goals
    simp only [Char.reduceEq, and_self, and_false, false_and, and_true, true_and, or_self, or_false,
      false_or, or_true, true_or, if_true, if_false, ne_eq, not_true_eq_false, not_false_eq_true] at h ⊢
    first
    | (cases h
       refine ⟨_, rfl, ?_⟩
       refine ⟨?_, ?_, ?_, ?_, ?_, ?_, ?_⟩
       · simp [hn]
       · simp [hc1]
       · simp [hc2]
       · simp [hq1]
       · simp [hq2]
       · simp [hr]
       · exact hd)
    | (obtain ⟨b, eb, h⟩ := bind_eq_ok _ _ _ h
       obtain ⟨q, eq, h⟩ := bind_eq_ok _ _ _ h
       cases h
       simp only [hq1, hq2, eb, eq, ok_bind]
       refine ⟨_, rfl, ?_⟩
       refine ⟨?_, ?_, ?_, ?_, ?_, ?_, ?_⟩
       · simp [hn]
       · simp [hc1]
       · simp [hc2]
       · simp [hq1]
       · simp [hq2]
       · simp [hr]
       · intro d; simp [hd d])

theorem overlapMergeOn_swap_B4 (T : QualityTables) (D : Prop) (cigar1 bases1 : List Char)
    (quals1 : List Int) (cigar2 bases2 : List Char) (quals2 : List Int) (st st' r : MergeState)
    (c1 c2 : Char) (hrel : SwapRel D st st')
    (e1 : readAt cigar1 st.c_pos1 = .ok c1) (e2 : readAt cigar2 st.c_pos2 = .ok c2)
    (hB1 : ¬ ((c1 = 'M' ∧ c2 = 'M') ∨ (c1 = 'S' ∧ c2 = 'S') ∨ (c1 = 'I' ∧ c2 = 'I')))
    (hB2 : ¬ ((c1 = 'D' ∧ c2 = 'D') ∨ (c1 = 'H' ∧ c2 = 'H') ∨ (c1 = 'D' ∧ c2 = 'H') ∨
      (c1 = 'H' ∧ c2 = 'D') ∨ (c1 = 'D' ∧ c2 = 'S') ∨ (c1 = 'S' ∧ c2 = 'D')))
    (hB3 : ¬ ((c1 = 'M' ∧ (c2 = 'D' ∨ c2 = 'H' ∨ c2 = 'S')) ∨
      ((c1 = 'D' ∨ c1 = 'H' ∨ c1 = 'S') ∧ c2 = 'M') ∨ (c1 = 'S' ∧ c2 = 'H') ∨
      (c1 = 'H' ∧ c2 = 'S')))
    (hB4 : c1 = 'I' ∨ c2 = 'I')
    (h : overlapMergeOn T cigar1 bases1 quals1 cigar2 bases2 quals2 st = .ok r) :
    ∃ r', overlapMergeOn T cigar2 bases2 quals2 cigar1 bases1 quals1 st' = .ok r' ∧
      SwapRel D r r' := by
  obtain ⟨hn, hc1, hc2, hq1, hq2, hr, hd⟩ := hrel
  unfold overlapMergeOn at h ⊢
  rw [e1, e2, ok_bind, ok_bind] at h
  rw [hc1, hc2, e2, e1, ok_bind, ok_bind]
  rw [if_neg hB1, if_neg hB2, if_neg hB3, if_pos hB4] at h
  by_cases hI : c1 = 'I'
  · subst hI
    have hc2I : ¬ c2 = 'I' := fun e => hB1 (Or.inr (Or.inr ⟨rfl, e⟩))
    simp only [Char.reduceEq, and_self, and_false, false_and, and_true, true_and, or_self,
      or_false, false_or, or_true, true_or, if_true, if_false, hc2I] at h ⊢
    obtain ⟨b, eb, h⟩ := bind_eq_ok _ _ _ h
    obtain ⟨q, eq, h⟩ := bind_eq_ok _ _ _ h
    cases h
    simp only [hq1, hq2, eb, eq, ok_bind]
    refine ⟨_, rfl, ?_⟩
    refine ⟨?_, ?_, ?_, ?_, ?_, ?_, ?_⟩
    · simp [hn]
    · simp [hc1]
    · simp [hc2]
    · simp [hq1]
    · simp [hq2]
    · simp [hr]
    · intro d; simp [hd d]
  · have hI2 : c2 = 'I' := hB4.resolve_left hI
    subst hI2
    simp only [Char.reduceEq, and_self, and_false, false_and, and_true, true_and, or_self,
      or_false, false_or, or_true, true_or, if_true, if_false, hI] at h ⊢
    obtain ⟨b, eb, h⟩ := bind_eq_ok _ _ _ h
    obtain ⟨q, eq, h⟩ := bind_eq_ok _ _ _ h
    cases h
    simp only [hq1, hq2, eb, eq, ok_bind]
    refine ⟨_, rfl, ?_⟩
    refine ⟨?_, ?_, ?_, ?_, ?_, ?_, ?_⟩
    · simp [hn]
    · simp [hc1]
    · simp [hc2]
    · simp [hq1]
    · simp [hq2]
    · simp [hr]
    · intro d; simp [hd d]

theorem overlapMergeOn_swap_B1 (T : QualityTables) (D : Prop) (cigar1 bases1 : List Char)
    (quals1 : List Int) (cigar2 bases2 : List Char) (quals2 : List Int) (st st' r : MergeState)
    (c1 c2 : Char) (hrel : SwapRel D st st')
    (hsym : D → TieFree cigar1 bases1 quals1 cigar2 bases2 quals2 st)
    (e1 : readAt cigar1 st.c_pos1 = .ok c1) (e2 : readAt cigar2 st.c_pos2 = .ok c2)
    (hB1 : (c1 = 'M' ∧ c2 = 'M') ∨ (c1 = 'S' ∧ c2 = 'S') ∨ (c1 = 'I' ∧ c2 = 'I'))
    (h : overlapMergeOn T cigar1 bases1 quals1 cigar2 bases2 quals2 st = .ok r) :
    ∃ r', overlapMergeOn T cigar2 bases2 quals2 cigar1 bases1 quals1 st' = .ok r' ∧
      SwapRel D r r' := by
  obtain ⟨hn, hc1, hc2, hq1, hq2, hr, hd⟩ := hrel
  have g1 := readAt_ok_getD _ _ _ 'N' e1
  have g2 := readAt_ok_getD _ _ _ 'N' e2
  unfold overlapMergeOn at h ⊢
  rw [e1, e2, ok_bind, ok_bind] at h
  rw [hc1, hc2, e2, e1, ok_bind, ok_bind]
  have hcc : c2 = c1 := by
    rcases hB1 with ⟨a, b⟩ | ⟨a, b⟩ | ⟨a, b⟩ <;> rw [a, b]
  subst hcc
  have hB1' : (c2 = 'M' ∧ c2 = 'M') ∨ (c2 = 'S' ∧ c2 = 'S') ∨ (c2 = 'I' ∧ c2 = 'I') := hB1
  rw [if_pos hB1] at h
  rw [if_pos hB1']
  dsimp only at h ⊢
  by_cases hS : c2 ≠ 'S'
  · rw [if_pos hS] at h
    rw [if_pos hS]
    obtain ⟨b1, eb1, h⟩ := bind_eq_ok _ _ _ h
    obtain ⟨q1, eq1, h⟩ := bind_eq_ok _ _ _ h
    obtain ⟨b2, eb2, h⟩ := bind_eq_ok _ _ _ h
    obtain ⟨q2, eq2, h⟩ := bind_eq_ok _ _ _ h
    simp only [pure_bind] at h
    cases h
    rw [hq1, hq2, eb1, eq1, eb2, eq2]
    simp only [ok_bind, pure_bind]
    refine ⟨_, rfl, ?_, ?_, ?_, ?_, ?_, ?_, ?_⟩
    · simp [hn]
    · simp [hc1]
    · simp [hc2]
    · simp [hq1]
    · simp [hq2]
    · simp [hr]
    · intro d
      have hMI : (c2 = 'M' ∧ c2 = 'M') ∨ (c2 = 'I' ∧ c2 = 'I') := by
        rcases hB1 with a | ⟨a, -⟩ | a
        · exact Or.inl a
        · exact absurd a hS
        · exact Or.inr a
      have ht := hsym d
      unfold TieFree at ht
      rw [g1, g2, readAt_ok_getD _ _ _ 'N' eb1, readAt_ok_getD _ _ _ 'N' eb2,
        readAt_ok_getD _ _ _ 0 eq1, readAt_ok_getD _ _ _ 0 eq2] at ht
      simp [hd d, computeEntry_fst_comm T b1 b2 q1 q2 (ht hMI)]
  · rw [if_neg hS] at h
    rw [if_neg hS]
    simp only [pure_bind] at h
    cases h
    simp only [pure_bind]
    refine ⟨_, rfl, ?_, ?_, ?_, ?_, ?_, ?_, ?_⟩
    · simp [hn]
    · simp [hc1]
    · simp [hc2]
    · simp [hq1]
    · simp [hq2]
    · simp [hr]
    · intro d; simp [hd d]

theorem overlapMergeOn_swap (T : QualityTables) (D : Prop) (cigar1 bases1 : List Char)
    (quals1 : List Int) (cigar2 bases2 : List Char) (quals2 : List Int) (st st' r : MergeState)
    (hrel : SwapRel D st st')
    (hsym : D → TieFree cigar1 bases1 quals1 cigar2 bases2 quals2 st)
    (h : overlapMergeOn T cigar1 bases1 quals1 cigar2 bases2 quals2 st = .ok r) :
    ∃ r', overlapMergeOn T cigar2 bases2 quals2 cigar1 bases1 quals1 st' = .ok r' ∧
      SwapRel D r r' := by
  have h0 := h
  unfold overlapMergeOn at h0
  obtain ⟨c1, e1, h0⟩ := bind_eq_ok _ _ _ h0
  obtain ⟨c2, e2, h0⟩ := bind_eq_ok _ _ _ h0
  by_cases hB1 : (c1 = 'M' ∧ c2 = 'M') ∨ (c1 = 'S' ∧ c2 = 'S') ∨ (c1 = 'I' ∧ c2 = 'I')
  · exact overlapMergeOn_swap_B1 T D _ _ _ _ _ _ st st' r c1 c2 hrel hsym e1 e2 hB1 h
  by_cases hB2 : (c1 = 'D' ∧ c2 = 'D') ∨ (c1 = 'H' ∧ c2 = 'H') ∨ (c1 = 'D' ∧ c2 = 'H') ∨
      (c1 = 'H' ∧ c2 = 'D') ∨ (c1 = 'D' ∧ c2 = 'S') ∨ (c1 = 'S' ∧ c2 = 'D')
  · exact overlapMergeOn_swap_B2 T D _ _ _ _ _ _ st st' r c1 c2 hrel e1 e2 hB2 h
  by_cases hB3 : (c1 = 'M' ∧ (c2 = 'D' ∨ c2 = 'H' ∨ c2 = 'S')) ∨
      ((c1 = 'D' ∨ c1 = 'H' ∨ c1 = 'S') ∧ c2 = 'M') ∨ (c1 = 'S' ∧ c2 = 'H') ∨
      (c1 = 'H' ∧ c2 = 'S')
  · exact overlapMergeOn_swap_B3 T D _ _ _ _ _ _ st st' r c1 c2 hrel e1 e2 hB3 h
  by_cases hB4 : c1 = 'I' ∨ c2 = 'I'
  · exact overlapMergeOn_swap_B4 T D _ _ _ _ _ _ st st' r c1 c2 hrel e1 e2 hB1 hB2 hB3 hB4 h
  rw [if_neg hB1, if_neg hB2, if_neg hB3, if_neg hB4] at h0
  cases h0

theorem overlapMerge_swap (T : QualityTables) (D : Prop) (A B : AlignmentRecord)
    (st st' r : MergeState) (hrel : SwapRel D st st')
    (hsym : D → TieFree A.cigar1_unrolled A.sequence1.forward A.sequence1.forward_qualities
      B.cigar1_unrolled B.sequence1.forward B.sequence1.forward_qualities st)
    (h : A.overlapMerge T B st 1 1 = .ok r) :
    ∃ r', B.overlapMerge T A st' 1 1 = .ok r' ∧ SwapRel D r r' :=
  overlapMergeOn_swap T D _ _ _ _ _ _ st st' r hrel hsym h

theorem solo1_swap (D : Prop) (A : AlignmentRecord) (st st' r : MergeState)
    (hrel : SwapRel D st st') (h : (A.noOverlapMerge st.solo1 1).map st.setSolo1 = .ok r) :
    ∃ r', (A.noOverlapMerge st'.solo2 1).map st'.setSolo2 = .ok r' ∧ SwapRel D r r' := by
  obtain ⟨hn, hc1, hc2, hq1, hq2, hr, hd⟩ := hrel
  obtain ⟨y, hy, rfl⟩ := map_eq_ok _ _ _ h
  obtain ⟨y', hy', a, b, c, d, e⟩ := noOverlapMergeOn_rel D _ _ _ st.solo1 st'.solo2 y
    hn hc2 hq2 hr hd hy
  refine ⟨st'.setSolo2 y', ?_, a, hc1, b, hq1, c, d, e⟩
  show (noOverlapMergeOn _ _ _ st'.solo2).map st'.setSolo2 = _
  rw [hy']
  rfl

theorem solo2_swap (D : Prop) (B : AlignmentRecord) (st st' r : MergeState)
    (hrel : SwapRel D st st') (h : (B.noOverlapMerge st.solo2 1).map st.setSolo2 = .ok r) :
    ∃ r', (B.noOverlapMerge st'.solo1 1).map st'.setSolo1 = .ok r' ∧ SwapRel D r r' := by
  obtain ⟨hn, hc1, hc2, hq1, hq2, hr, hd⟩ := hrel
  obtain ⟨y, hy, rfl⟩ := map_eq_ok _ _ _ h
  obtain ⟨y', hy', a, b, c, d, e⟩ := noOverlapMergeOn_rel D _ _ _ st.solo2 st'.solo1 y
    hn hc1 hq1 hr hd hy
  refine ⟨st'.setSolo1 y', ?_, a, b, hc2, c, hq2, d, e⟩
  show (noOverlapMergeOn _ _ _ st'.solo1).map st'.setSolo1 = _
  rw [hy']
  rfl

theorem whileLoop_exit {σ : Type} (cond : σ → Bool) (body : σ → Except MergeError σ) :
    ∀ (fuel : Nat) (s r : σ), whileLoop cond body fuel s = .ok r → cond r = false := by
  intro fuel
  induction fuel with
  | zero =>
    intro s r h
    simp only [whileLoop] at h
    split_ifs at h with hc
    cases h
    simpa using hc
  | succ n ih =>
    intro s r h
    simp only [whileLoop] at h
    split_ifs at h with hc
    · cases hb : body s with
      | error e => rw [hb] at h; cases h
      | ok s1 =>
        rw [hb] at h
        exact ih s1 r h
    · cases h
      simpa using hc

theorem whileLoop_swap (Rel : MergeState → MergeState → Prop) (P : MergeState → Prop)
    (c : MergeState → Bool) (b b' : MergeState → Except MergeError MergeState)
    (hc : ∀ x x', Rel x x' → c x = c x')
    (hb : ∀ x x' y, Rel x x' → P x → b x = .ok y → ∃ y', b' x' = .ok y' ∧ Rel y y') :
    ∀ (fuel : Nat) (s s' r : MergeState), Rel s s' → (∀ x ∈ whileTrace c b fuel s, P x) →
      whileLoop c b fuel s = .ok r → ∃ r', whileLoop c b' fuel s' = .ok r' ∧ Rel r r' := by
  intro fuel
  induction fuel with
  | zero =>
    intro s s' r hrel _ h
    simp only [whileLoop] at h ⊢
    rw [← hc s s' hrel]
    split_ifs at h ⊢
    cases h
    exact ⟨s', rfl, hrel⟩
  | succ n ih =>
    intro s s' r hrel htr h
    simp only [whileLoop] at h ⊢
    rw [← hc s s' hrel]
    by_cases hcs : c s = true
    · rw [if_pos hcs] at h ⊢
      cases hbs : b s with
      | error e => rw [hbs] at h; cases h
      | ok s1 =>
        rw [hbs] at h
        have hP : P s := htr s (by simp [whileTrace, hcs])
        obtain ⟨s1', hb1, hrel1⟩ := hb s s' s1 hrel hP hbs
        rw [hb1]
        refine ih s1 s1' r hrel1 (fun x hx => htr x ?_) h
        simp only [whileTrace, hcs, if_true, hbs]
        exact List.mem_cons_of_mem _ hx
    · rw [if_neg hcs] at h ⊢
      cases h
      exact ⟨s', rfl, hrel⟩

theorem whileLoop_swap_or_idle (Rel : MergeState → MergeState → Prop)
    (c : MergeState → Bool) (b b' : MergeState → Except MergeError MergeState)
    (hc : ∀ x x', Rel x x' → c x = c x') (fuel : Nat) (s s' r : MergeState)
    (hb : (∀ x x' y, Rel x x' → b x = .ok y → ∃ y', b' x' = .ok y' ∧ Rel y y') ∨ c s = false)
    (hrel : Rel s s') (h : whileLoop c b fuel s = .ok r) :
    ∃ r', whileLoop c b' fuel s' = .ok r' ∧ Rel r r' := by
  rcases hb with hb | hidle
  · exact whileLoop_swap Rel (fun _ => True) c b b' hc (fun x x' y hr _ hy => hb x x' y hr hy)
      fuel s s' r hrel (fun _ _ => trivial) h
  · rw [whileLoop_done c b fuel s hidle] at h
    cases h
    exact ⟨s', whileLoop_done c b' fuel s' (by rw [← hc s s' hrel]; exact hidle), hrel⟩

theorem three_loops_swap (Rel : MergeState → MergeState → Prop) (P : MergeState → Prop)
    (c1 c2 c3 : MergeState → Bool)
    (X X' J J' Y Y' : MergeState → Except MergeError MergeState) (fuel : Nat)
    (st0 st0' fin : MergeState) (h0 : Rel st0 st0')
    (hX : (∀ x x' y, Rel x x' → X x = .ok y → ∃ y', X' x' = .ok y' ∧ Rel y y') ∨ c1 st0 = false)
    (hJ : ∀ x x' y, Rel x x' → P x → J x = .ok y → ∃ y', J' x' = .ok y' ∧ Rel y y')
    (hY : (∀ x x' y, Rel x x' → Y x = .ok y → ∃ y', Y' x' = .ok y' ∧ Rel y y') ∨
      ∀ x, c2 x = false → c3 x = false)
    (hc1 : ∀ x x', Rel x x' → c1 x = c1 x') (hc2 : ∀ x x', Rel x x' → c2 x = c2 x')
    (hc3 : ∀ x x', Rel x x' → c3 x = c3 x')
    (htr : ∀ st1, whileLoop c1 X fuel st0 = .ok st1 → ∀ x ∈ whileTrace c2 J fuel st1, P x)
    (h : (whileLoop c1 X fuel st0 >>= fun st1 => whileLoop c2 J fuel st1 >>= fun st2 =>
      whileLoop c3 Y fuel st2) = .ok fin) :
    ∃ fin', (whileLoop c1 X' fuel st0' >>= fun st1 => whileLoop c2 J' fuel st1 >>= fun st2 =>
      whileLoop c3 Y' fuel st2) = .ok fin' ∧ Rel fin fin' := by
  obtain ⟨st1, h1, h⟩ := bind_eq_ok _ _ _ h
  obtain ⟨st2, h2, h3⟩ := bind_eq_ok _ _ _ h
  obtain ⟨st1', k1, r1⟩ := whileLoop_swap_or_idle Rel c1 X X' hc1 fuel st0 st0' st1 hX h0 h1
  obtain ⟨st2', k2, r2⟩ := whileLoop_swap Rel P c2 J J' hc2 hJ fuel st1 st1' st2 r1
    (htr st1 h1) h2
  have hY' : (∀ x x' y, Rel x x' → Y x = .ok y → ∃ y', Y' x' = .ok y' ∧ Rel y y') ∨
      c3 st2 = false := by
    rcases hY with hY | hY
    · exact Or.inl hY
    · exact Or.inr (hY st2 (whileLoop_exit c2 J fuel st1 st2 h2))
  obtain ⟨fin', k3, r3⟩ := whileLoop_swap_or_idle Rel c3 Y Y' hc3 fuel st2 st2' fin hY' r2 h3
  exact ⟨fin', by rw [k1, ok_bind, k2, ok_bind, k3], r3⟩

theorem mergePhases_swap (D : Prop) (P : MergeState → Prop)
    (soloA soloB joint soloA' soloB' joint' : MergeState → Except MergeError MergeState)
    (fuel : Nat) (s1 e1 s2 e2 : Int)
    (hA : ∀ x x' y, SwapRel D x x' → soloA x = .ok y → ∃ y', soloA' x' = .ok y' ∧ SwapRel D y y')
    (hB : ∀ x x' y, SwapRel D x x' → soloB x = .ok y → ∃ y', soloB' x' = .ok y' ∧ SwapRel D y y')
    (hJ : ∀ x x' y, SwapRel D x x' → P x → joint x = .ok y →
      ∃ y', joint' x' = .ok y' ∧ SwapRel D y y')
    (htr : ∀ x ∈ mergeJointStates soloA soloB joint fuel s1 e1 s2 e2, P x) (fin : MergeState)
    (h : mergePhases soloA soloB joint fuel s1 e1 s2 e2 = .ok fin) :
    ∃ fin', mergePhases soloB' soloA' joint' fuel s2 e2 s1 e1 = .ok fin' ∧ SwapRel D fin fin' := by
  have h0 : ∀ ref : Int, SwapRel D ⟨[], [], [], 0, 0, 0, 0, ref⟩ ⟨[], [], [], 0, 0, 0, 0, ref⟩ :=
    fun _ => ⟨rfl, rfl, rfl, rfl, rfl, rfl, fun _ => rfl⟩
  rcases lt_trichotomy s1 s2 with hs | hs | hs <;> rcases lt_trichotomy e1 e2 with he | he | he
  · simp only [mergePhases, mergeJointStates, ge_iff_le, le_refl, and_self, and_true, true_and, and_false, false_and, if_true, if_false, hs.le, not_le.mpr hs, he.le, not_le.mpr he] at h htr ⊢
    refine three_loops_swap (SwapRel D) P _ _ _ _ _ _ _ _ _ fuel _ _ fin (h0 _) ?_ hJ ?_
      (fun x x' hr => by rw [hr.2.2.2.2.2.1]) (fun x x' hr => by rw [hr.2.2.2.2.2.1])
      (fun x x' hr => by rw [hr.2.2.2.2.2.1])
      (fun st1 h1 x hx => htr x (by rw [h1]; exact hx)) h
    · exact Or.inl hA
    · exact Or.inl hB
  · subst he
    simp only [mergePhases, mergeJointStates, ge_iff_le, le_refl, and_self, and_true, true_and, and_false, false_and, if_true, if_false, hs.le, not_le.mpr hs] at h htr ⊢
    refine three_loops_swap (SwapRel D) P _ _ _ _ _ _ _ _ _ fuel _ _ fin (h0 _) ?_ hJ ?_
      (fun x x' hr => by rw [hr.2.2.2.2.2.1]) (fun x x' hr => by rw [hr.2.2.2.2.2.1])
      (fun x x' hr => by rw [hr.2.2.2.2.2.1])
      (fun st1 h1 x hx => htr x (by rw [h1]; exact hx)) h
    · exact Or.inl hA
    · exact Or.inr (fun x hx => hx)
  · simp only [mergePhases, mergeJointStates, ge_iff_le, le_refl, and_self, and_true, true_and, and_false, false_and, if_true, if_false, hs.le, not_le.mpr hs, he.le, not_le.mpr he] at h htr ⊢
    refine three_loops_swap (SwapRel D) P _ _ _ _ _ _ _ _ _ fuel _ _ fin (h0 _) ?_ hJ ?_
      (fun x x' hr => by rw [hr.2.2.2.2.2.1]) (fun x x' hr => by rw [hr.2.2.2.2.2.1])
      (fun x x' hr => by rw [hr.2.2.2.2.2.1])
      (fun st1 h1 x hx => htr x (by rw [h1]; exact hx)) h
    · exact Or.inl hA
    · exact Or.inl hA
  · subst hs
    simp only [mergePhases, mergeJointStates, ge_iff_le, le_refl, and_self, and_true, true_and, and_false, false_and, if_true, if_false, he.le, not_le.mpr he] at h htr ⊢
    refine three_loops_swap (SwapRel D) P _ _ _ _ _ _ _ _ _ fuel _ _ fin (h0 _) ?_ hJ ?_
      (fun x x' hr => by rw [hr.2.2.2.2.2.1]) (fun x x' hr => by rw [hr.2.2.2.2.2.1])
      (fun x x' hr => by rw [hr.2.2.2.2.2.1])
      (fun st1 h1 x hx => htr x (by rw [h1]; exact hx)) h
    · exact Or.inr (by simp)
    · exact Or.inl hB
  · subst hs
    subst he
    simp only [mergePhases, mergeJointStates, ge_iff_le, le_refl, and_self, and_true, true_and, and_false, false_and, if_true, if_false] at h htr ⊢
    refine three_loops_swap (SwapRel D) P _ _ _ _ _ _ _ _ _ fuel _ _ fin (h0 _) ?_ hJ ?_
      (fun x x' hr => by rw [hr.2.2.2.2.2.1]) (fun x x' hr => by rw [hr.2.2.2.2.2.1])
      (fun x x' hr => by rw [hr.2.2.2.2.2.1])
      (fun st1 h1 x hx => htr x (by rw [h1]; exact hx)) h
    · exact Or.inr (by simp)
    · exact Or.inr (fun x hx => hx)
  · subst hs
    simp only [mergePhases, mergeJointStates, ge_iff_le, le_refl, and_self, and_true, true_and, and_false, false_and, if_true, if_false, he.le, not_le.mpr he] at h htr ⊢
    refine three_loops_swap (SwapRel D) P _ _ _ _ _ _ _ _ _ fuel _ _ fin (h0 _) ?_ hJ ?_
      (fun x x' hr => by rw [hr.2.2.2.2.2.1]) (fun x x' hr => by rw [hr.2.2.2.2.2.1])
      (fun x x' hr => by rw [hr.2.2.2.2.2.1])
      (fun st1 h1 x hx => htr x (by rw [h1]; exact hx)) h
    · exact Or.inr (by simp)
    · exact Or.inl hA
  · simp only [mergePhases, mergeJointStates, ge_iff_le, le_refl, and_self, and_true, true_and, and_false, false_and, if_true, if_false, hs.le, not_le.mpr hs, he.le, not_le.mpr he] at h htr ⊢
    refine three_loops_swap (SwapRel D) P _ _ _ _ _ _ _ _ _ fuel _ _ fin (h0 _) ?_ hJ ?_
      (fun x x' hr => by rw [hr.2.2.2.2.2.1]) (fun x x' hr => by rw [hr.2.2.2.2.2.1])
      (fun x x' hr => by rw [hr.2.2.2.2.2.1])
      (fun st1 h1 x hx => htr x (by rw [h1]; exact hx)) h
    · exact Or.inl hB
    · exact Or.inl hB
  · subst he
    simp only [mergePhases, mergeJointStates, ge_iff_le, le_refl, and_self, and_true, true_and, and_false, false_and, if_true, if_false, hs.le, not_le.mpr hs] at h htr ⊢
    refine three_loops_swap (SwapRel D) P _ _ _ _ _ _ _ _ _ fuel _ _ fin (h0 _) ?_ hJ ?_
      (fun x x' hr => by rw [hr.2.2.2.2.2.1]) (fun x x' hr => by rw [hr.2.2.2.2.2.1])
      (fun x x' hr => by rw [hr.2.2.2.2.2.1])
      (fun st1 h1 x hx => htr x (by rw [h1]; exact hx)) h
    · exact Or.inl hB
    · exact Or.inr (fun x hx => hx)
  · simp only [mergePhases, mergeJointStates, ge_iff_le, le_refl, and_self, and_true, true_and, and_false, false_and, if_true, if_false, hs.le, not_le.mpr hs, he.le, not_le.mpr he] at h htr ⊢
    refine three_loops_swap (SwapRel D) P _ _ _ _ _ _ _ _ _ fuel _ _ fin (h0 _) ?_ hJ ?_
      (fun x x' hr => by rw [hr.2.2.2.2.2.1]) (fun x x' hr => by rw [hr.2.2.2.2.2.1])
      (fun x x' hr => by rw [hr.2.2.2.2.2.1])
      (fun st1 h1 x hx => htr x (by rw [h1]; exact hx)) h
    · exact Or.inl hB
    · exact Or.inl hA

/-- C16: when merging `B` into `A` by `mergeAlignmentRecordsSingle(B, 1, 1)`
completes, merging `A` into `B` completes as well and gives the same merged
interval, the same compact and unrolled CIGAR and, when no jointly processed
column has differing bases of equal quality, the same merged bases. -/
theorem mergeSingle_swap (T : QualityTables) (A B R : AlignmentRecord)
    (h : A.mergeAlignmentRecordsSingle T B 1 1 = .ok R) :
    ∃ R', B.mergeAlignmentRecordsSingle T A 1 1 = .ok R' ∧
      R'.start1 = R.start1 ∧ R'.end1 = R.end1 ∧ R'.cigar1 = R.cigar1 ∧
      R'.cigar1_unrolled = R.cigar1_unrolled ∧
      (NoTies T A B → R'.sequence1.forward = R.sequence1.forward) := by
  obtain ⟨fin, hfin, rfl, -⟩ := mergeSingle_ok T A B R 1 1 h
  unfold singleLoops at hfin
  simp only [if_true] at hfin
  obtain ⟨fin', hfin', hrel⟩ := mergePhases_swap (NoTies T A B)
    (fun st => NoTies T A B →
      TieFree A.cigar1_unrolled A.sequence1.forward A.sequence1.forward_qualities
        B.cigar1_unrolled B.sequence1.forward B.sequence1.forward_qualities st)
    (fun st => (A.noOverlapMerge st.solo1 1).map st.setSolo1)
    (fun st => (B.noOverlapMerge st.solo2 1).map st.setSolo2)
    (fun st => A.overlapMerge T B st 1 1)
    (fun st => (A.noOverlapMerge st.solo2 1).map st.setSolo2)
    (fun st => (B.noOverlapMerge st.solo1 1).map st.setSolo1)
    (fun st => B.overlapMerge T A st 1 1)
    _ _ _ _ _
    (fun x x' y hr hy => solo1_swap _ A x x' y hr hy)
    (fun x x' y hr hy => solo2_swap _ B x x' y hr hy)
    (fun x x' y hr hp hy => overlapMerge_swap T _ A B x x' y hr hp hy)
    (fun x hx d => d x hx) fin hfin
  have hswap : singleLoops T B A 1 1 = .ok fin' := by
    unfold singleLoops
    simp only [if_true]
    rw [Nat.add_comm B.cigar1_unrolled.length A.cigar1_unrolled.length]
    exact hfin'
  refine ⟨singleAssign B A 1 1 fin', ?_, ?_, ?_, ?_, ?_, ?_⟩
  · rw [mergeSingle_eq]
    simp only [ne_eq, not_true_eq_false, false_and, if_false, hswap, Except.map]
  · exact min_comm _ _
  · exact max_comm _ _
  · show createCigar fin'.nucigar = createCigar fin.nucigar
    rw [hrel.1]
  · exact hrel.1
  · intro d
    exact hrel.2.2.2.2.2.2 d

theorem swap_sample_noTies : NoTies sampleTables swapA swapB := by
  unfold NoTies TieFree
  decide

theorem mergeSingle_swap_witness :
    NoTies sampleTables swapA swapB ∧ (jointStates sampleTables swapA swapB).length = 2 ∧
      swapMerged.sequence1.forward = ['A', 'C', 'G', 'A'] ∧
      ∃ R', swapB.mergeAlignmentRecordsSingle sampleTables swapA 1 1 = .ok R' ∧
        R'.start1 = swapMerged.start1 ∧ R'.end1 = swapMerged.end1 ∧
        R'.cigar1 = swapMerged.cigar1 ∧ R'.cigar1_unrolled = swapMerged.cigar1_unrolled ∧
        (NoTies sampleTables swapA swapB →
          R'.sequence1.forward = swapMerged.sequence1.forward) :=
  ⟨swap_sample_noTies, rfl, rfl, mergeSingle_swap sampleTables swapA swapB swapMerged rfl⟩

theorem mateOrder_invariant_witness :
    ∃ R, samplePaired.mergeAlignmentRecordsPaired sampleTables samplePaired = .ok R ∧
      R.single_end = false ∧ MateOrder R :=
  ⟨_, rfl, rfl,
    (mateOrder_invariant sampleTables).2.2.2.1 samplePaired samplePaired _ rfl rfl
      (fun _ => by decide) (fun _ => by decide) ⟨by decide, fun _ => by decide⟩
      ⟨by decide, fun _ => by decide⟩⟩

/-! ## Proofs: the raw constructor and the seed of the clique constructor -/

theorem phred_sum_foldl (phred : List Int) (phred_base acc : Int) :
    phred.foldl (fun result q => result + (q - phred_base)) acc =
      acc + (phred.sum - phred_base * phred.length) := by
  induction phred generalizing acc with
  | nil => simp
  | cons q qs ih =>
    simp only [List.foldl_cons, ih, List.sum_cons, List.length_cons]
    push_cast
    ring

theorem phred_sum_eq (phred : List Int) (phred_base : Int) :
    phred_sum phred phred_base = phred.sum - phred_base * phred.length := by
  unfold phred_sum
  rw [phred_sum_foldl]
  ring

theorem unrollInto_eq (cigar : List CigarOp) (u : List Char) :
    unrollInto u cigar = u ++ cigar.flatMap (fun op => List.replicate op.Length op.type) := by
  unfold unrollInto
  induction cigar generalizing u with
  | nil => simp
  | cons op ops ih => simp only [List.foldl_cons, ih, List.flatMap_cons, List.append_assoc]

theorem cigarLoop_snd (cigar : List CigarOp) (u : List Char) (a b : Int) :
    (cigarLoop cigar u a b).2.1 =
      a + ((cigar.filter (fun op => op.type = 'D')).map (fun op => (op.Length : Int))).sum ∧
    (cigarLoop cigar u a b).2.2 =
      b + ((cigar.filter (fun op => op.type = 'D' ∧ op.Length > 1)).map
        (fun op => (op.Length : Int))).sum := by
  unfold cigarLoop
  induction cigar generalizing u a b with
  | nil => simp
  | cons op ops ih =>
    simp only [List.foldl_cons]
    obtain ⟨e1, e2⟩ := ih (u ++ List.replicate op.Length op.type)
      (if op.type = 'D' then a + op.Length else a)
      (if op.type = 'D' ∧ op.Length > 1 then b + op.Length else b)
    rw [e1, e2]
    constructor
    · by_cases h : op.type = 'D'
      · simp [List.filter_cons, h, add_assoc]
      · simp [List.filter_cons, h]
    · by_cases h : op.type = 'D' ∧ op.Length > 1
      · simp [List.filter_cons, h, add_assoc]
      · simp only [if_neg h]
        rw [List.filter_cons_of_neg (by simpa using h)]

/-- C23: the single-end record constructed from a raw alignment has
`start1 = Position + 1`, an unrolled CIGAR that is the op-by-op expansion of
the compact CIGAR, a Phred sum equal to the sum of the quality codepoints minus
33 times their number, `length_incl_deletions1` equal to the sequence length
plus the lengths of all `D` operations, and `length_incl_longdeletions1` equal
to the sequence length plus the lengths of the `D` operations longer than 1. -/
theorem fromAlignment_fields (alignment : BamAlignment) (readRef : Int) :
    (AlignmentRecord.fromAlignment alignment readRef).single_end = true ∧
    (AlignmentRecord.fromAlignment alignment readRef).start1 = alignment.Position + 1 ∧
    (AlignmentRecord.fromAlignment alignment readRef).cigar1 = alignment.CigarData ∧
    (AlignmentRecord.fromAlignment alignment readRef).cigar1_unrolled =
      alignment.CigarData.flatMap (fun op => List.replicate op.Length op.type) ∧
    (AlignmentRecord.fromAlignment alignment readRef).phred_sum1 =
      alignment.Qualities.sum - 33 * alignment.Qualities.length ∧
    (AlignmentRecord.fromAlignment alignment readRef).length_incl_deletions1 =
      (AlignmentRecord.fromAlignment alignment readRef).sequence1.size +
        ((alignment.CigarData.filter (fun op => op.type = 'D')).map
          (fun op => (op.Length : Int))).sum ∧
    (AlignmentRecord.fromAlignment alignment readRef).length_incl_longdeletions1 =
      (AlignmentRecord.fromAlignment alignment readRef).sequence1.size +
        ((alignment.CigarData.filter (fun op => op.type = 'D' ∧ op.Length > 1)).map
          (fun op => (op.Length : Int))).sum := by
  refine ⟨rfl, rfl, rfl, ?_, ?_, ?_, ?_⟩
  · show (cigarLoop alignment.CigarData [] _ _).1 = _
    rw [cigarLoop_fst, unrollInto_eq, List.nil_append]
  · exact phred_sum_eq _ _
  · exact (cigarLoop_snd alignment.CigarData [] _ _).1
  · exact (cigarLoop_snd alignment.CigarData [] _ _).2

theorem fromAlignments_phred_sum_unread (T : QualityTables) (al1 al2 : AlignmentRecord)
    (rest : List AlignmentRecord) (clique_id : Nat) (x y : Int) :
    AlignmentRecord.fromAlignments T
        ({ al1 with phred_sum1 := x, phred_sum2 := y } :: al2 :: rest) clique_id =
      AlignmentRecord.fromAlignments T (al1 :: al2 :: rest) clique_id := rfl

theorem fromAlignments_seeded_phred_sum :
    ∃ r, AlignmentRecord.fromAlignments sampleTables [pairedRead, lateSingle] 0 = .ok r ∧
      r.single_end = false ∧
      r.sequence1 = pairedRead.sequence1 ∧
      r.sequence1.forward_qualities = [63, 63, 63, 63, 63] ∧
      pairedRead.phred_sum1 = 150 ∧
      r.phred_sum1 = 0 ∧
      r.phred_sum2 = phred_sum r.sequence2.forward_qualities 33 ∧
      ∀ x y, AlignmentRecord.fromAlignments sampleTables
        [{ pairedRead with phred_sum1 := x, phred_sum2 := y }, lateSingle] 0 = .ok r := by
  refine ⟨_, rfl, ?_, ?_, ?_, ?_, ?_, ?_, ?_⟩
  · decide
  · decide
  · decide
  · decide
  · decide
  · decide
  · intro x y
    exact (fromAlignments_phred_sum_unread _ _ _ _ _ x y).trans rfl

/-! ## Proofs: `setProbabilities` on an empty collection -/

theorem rounds_self (x : ℝ) : Rounds x x := by
  unfold Rounds
  simp only [sub_self, abs_zero]
  positivity

theorem rounds_zero (y : ℝ) (h : Rounds 0 y) : y = 0 := by
  unfold Rounds at h
  simp only [sub_zero, abs_zero, zero_div] at h
  exact abs_eq_zero.mp (le_antisymm h (abs_nonneg y))

theorem setProbabilities_nil_returns (getReadCount : AlignmentRecord → Nat)
    (readNameMapSize : Nat) : setProbabilities getReadCount readNameMapSize [] [] 0 := by
  refine ⟨0, 0, 0, 0, ((2 ^ 64 - 1 : Nat) : ℝ), 1 / ((2 ^ 64 - 1 : Nat) : ℝ), 0, rfl, ?_,
    fun h => absurd rfl h, ⟨rfl, rfl⟩, ?_, ?_, rounds_self _, ?_, ?_⟩
  · simp
  · exact rounds_self _
  · norm_num
  · rw [mul_zero]
    exact rounds_self _
  · rw [Real.sqrt_zero]
    exact rounds_self _

theorem setProbabilities_nil_unique (getReadCount : AlignmentRecord → Nat)
    (readNameMapSize : Nat) (probability : List ℝ) (result : ℝ)
    (h : setProbabilities getReadCount readNameMapSize [] probability result) :
    probability = [] ∧ result = 0 := by
  obtain ⟨ct, u, mean, stdev, n, w, prod, -, -, -, hp, -, -, -, h1, h2⟩ := h
  obtain ⟨e1, e2⟩ := hp
  subst e2
  rw [mul_zero] at h1
  have e3 := rounds_zero _ h1
  subst e3
  rw [Real.sqrt_zero] at h2
  exact ⟨e1, rounds_zero _ h2⟩

/-- C22 (as stated, refuted): on an empty collection `setProbabilities`
returns the number 0 and assigns no probability. -/
theorem setProbabilities_empty_returns_zero :
    setProbabilities (fun r => r.readNames.card) 0 [] [] 0 :=
  setProbabilities_nil_returns _ _

/-- C22 (amended): `setProbabilities` invoked on an empty collection of
records signals no error: it assigns no probability and returns 0, and 0 is
the only value it can return. -/
theorem setProbabilities_empty (getReadCount : AlignmentRecord → Nat) (readNameMapSize : Nat) :
    setProbabilities getReadCount readNameMapSize [] [] 0 ∧
    ∀ probability result,
      setProbabilities getReadCount readNameMapSize [] probability result →
        probability = [] ∧ result = 0 :=
  ⟨setProbabilities_nil_returns _ _, setProbabilities_nil_unique _ _⟩

theorem setProbabilities_empty_witness :
    setProbabilities (fun r => r.readNames.card) 7 [] [] 0 ∧ (([] : List ℝ) = [] ∧ (0 : ℝ) = 0) :=
  ⟨(setProbabilities_empty (fun r => r.readNames.card) 7).1,
    (setProbabilities_empty (fun r => r.readNames.card) 7).2 [] 0
      (setProbabilities_nil_returns _ _)⟩

/-! ## Proofs: solo steps -/

theorem noOverlapMergeOn_H (cigar bases : List Char) (quals : List Int) (st : SoloState)
    (h : readAt cigar st.c_pos = .ok 'H') :
    noOverlapMergeOn cigar bases quals st =
      .ok { st with ref_pos := st.ref_pos + 1, c_pos := st.c_pos + 1 } := by
  unfold noOverlapMergeOn
  rw [h]
  rfl

/-- C24 (as stated, refuted): the first solo step on the hard-clipped sample
record starts at cursors `(0, 0)` and reference position 98 on the tag `H`; it
emits nothing and leaves the query offset at 0, but the reference position
moves to 99. -/
theorem noOverlapMerge_H_moves_reference :
    hardClippedA.cigar1_unrolled = ['H', 'H', 'M', 'M', 'M', 'M', 'M'] ∧
    hardClippedA.noOverlapMerge ⟨[], [], [], 0, 0, 98⟩ 1 = .ok ⟨[], [], [], 1, 0, 99⟩ ∧
    noOverlapMergeAlignment hardClippedAlignment hardClippedA.cigar1_unrolled
      ⟨[], [], [], 0, 0, 98⟩ = .ok ⟨[], [], [], 1, 0, 99⟩ := by
  refine ⟨rfl, rfl, rfl⟩

/-- C24 (amended): a solo step whose current tag is `H` emits nothing and
advances the cigar cursor and the reference position by one; the query offset
is unchanged. This holds for the record overload (mate `i`) and for the
overload on a raw alignment. -/
theorem noOverlapMerge_H (self : AlignmentRecord) (i : Int) (a : BamAlignment) (u : List Char)
    (st : SoloState) :
    (readAt (if i = 1 then self.cigar1_unrolled else self.cigar2_unrolled) st.c_pos = .ok 'H' →
      self.noOverlapMerge st i =
        .ok { dna := st.dna, qualities := st.qualities, nucigar := st.nucigar,
              c_pos := st.c_pos + 1, q_pos := st.q_pos, ref_pos := st.ref_pos + 1 }) ∧
    (readAt u st.c_pos = .ok 'H' →
      noOverlapMergeAlignment a u st =
        .ok { dna := st.dna, qualities := st.qualities, nucigar := st.nucigar,
              c_pos := st.c_pos + 1, q_pos := st.q_pos, ref_pos := st.ref_pos + 1 }) := by
  constructor
  · intro h
    unfold AlignmentRecord.noOverlapMerge
    by_cases hi : i = 1
    · rw [if_pos hi] at h ⊢
      exact noOverlapMergeOn_H _ _ _ _ h
    · rw [if_neg hi] at h ⊢
      exact noOverlapMergeOn_H _ _ _ _ h
  · intro h
    exact noOverlapMergeOn_H _ _ _ _ h

theorem noOverlapMerge_H_witness :
    readAt hardClippedA.cigar1_unrolled 0 = .ok 'H' ∧
    hardClippedA.noOverlapMerge ⟨[], [], [], 0, 0, 98⟩ 1 =
      .ok { dna := [], qualities := [], nucigar := [], c_pos := 0 + 1, q_pos := 0,
            ref_pos := 98 + 1 } :=
  ⟨rfl, (noOverlapMerge_H hardClippedA 1 hardClippedAlignment [] ⟨[], [], [], 0, 0, 98⟩).1 rfl⟩

/-- C25: a solo step of mate `i` at cursors `(c, q, r)` whose current tag is
`t`: on `I` it appends `(base[q], quality[q], I)` and moves to `(c+1, q+1, r)`;
on `D` it appends only `D` to the operation string and moves to `(c+1, q, r+1)`;
on `S` it appends nothing and moves to `(c+1, q+1, r+1)`; on `M` it appends
`(base[q], quality[q], M)` and moves to `(c+1, q+1, r+1)`; on a tag outside
`M, I, D, S, H` it aborts. -/
theorem noOverlapMerge_step (self : AlignmentRecord) (i : Int) (st : SoloState) (t : Char)
    (ht : readAt (if i = 1 then self.cigar1_unrolled else self.cigar2_unrolled) st.c_pos = .ok t) :
    (t = 'I' → ∀ b q,
      readAt (if i = 1 then self.sequence1 else self.sequence2).forward st.q_pos = .ok b →
      readAt (if i = 1 then self.sequence1 else self.sequence2).forward_qualities st.q_pos = .ok q →
      self.noOverlapMerge st i =
        .ok { dna := st.dna ++ [b], qualities := st.qualities ++ [q],
              nucigar := st.nucigar ++ ['I'],
              c_pos := st.c_pos + 1, q_pos := st.q_pos + 1, ref_pos := st.ref_pos }) ∧
    (t = 'D' →
      self.noOverlapMerge st i =
        .ok { dna := st.dna, qualities := st.qualities, nucigar := st.nucigar ++ ['D'],
              c_pos := st.c_pos + 1, q_pos := st.q_pos, ref_pos := st.ref_pos + 1 }) ∧
    (t = 'S' →
      self.noOverlapMerge st i =
        .ok { dna := st.dna, qualities := st.qualities, nucigar := st.nucigar,
              c_pos := st.c_pos + 1, q_pos := st.q_pos + 1, ref_pos := st.ref_pos + 1 }) ∧
    (t = 'M' → ∀ b q,
      readAt (if i = 1 then self.sequence1 else self.sequence2).forward st.q_pos = .ok b →
      readAt (if i = 1 then self.sequence1 else self.sequence2).forward_qualities st.q_pos = .ok q →
      self.noOverlapMerge st i =
        .ok { dna := st.dna ++ [b], qualities := st.qualities ++ [q],
              nucigar := st.nucigar ++ ['M'],
              c_pos := st.c_pos + 1, q_pos := st.q_pos + 1, ref_pos := st.ref_pos + 1 }) ∧
    (t ∉ cigarTags → self.noOverlapMerge st i = .error .fault) := by
  unfold AlignmentRecord.noOverlapMerge
  by_cases hi : i = 1
  · simp only [if_pos hi] at ht ⊢
    refine ⟨?_, ?_, ?_, ?_, ?_⟩
    · rintro rfl b q hb hq
      simp [noOverlapMergeOn, ht, hb, hq, bind, Except.bind, pure, Except.pure]
    · rintro rfl
      simp [noOverlapMergeOn, ht, bind, Except.bind, pure, Except.pure]
    · rintro rfl
      simp [noOverlapMergeOn, ht, bind, Except.bind, pure, Except.pure]
    · rintro rfl b q hb hq
      simp [noOverlapMergeOn, ht, hb, hq, bind, Except.bind, pure, Except.pure]
    · intro hn
      simp only [cigarTags, List.mem_cons, List.mem_singleton, List.not_mem_nil, or_false,
        not_or] at hn
      simp [noOverlapMergeOn, ht, hn, bind, Except.bind]
  · simp only [if_neg hi] at ht ⊢
    refine ⟨?_, ?_, ?_, ?_, ?_⟩
    · rintro rfl b q hb hq
      simp [noOverlapMergeOn, ht, hb, hq, bind, Except.bind, pure, Except.pure]
    · rintro rfl
      simp [noOverlapMergeOn, ht, bind, Except.bind, pure, Except.pure]
    · rintro rfl
      simp [noOverlapMergeOn, ht, bind, Except.bind, pure, Except.pure]
    · rintro rfl b q hb hq
      simp [noOverlapMergeOn, ht, hb, hq, bind, Except.bind, pure, Except.pure]
    · intro hn
      simp only [cigarTags, List.mem_cons, List.mem_singleton, List.not_mem_nil, or_false,
        not_or] at hn
      simp [noOverlapMergeOn, ht, hn, bind, Except.bind]

theorem noOverlapMerge_step_witness :
    readAt sampleA.cigar1_unrolled 0 = .ok 'M' ∧
    sampleA.noOverlapMerge ⟨[], [], [], 0, 0, 100⟩ 1 =
      .ok { dna := [] ++ ['A'], qualities := [] ++ [63], nucigar := [] ++ ['M'],
            c_pos := 0 + 1, q_pos := 0 + 1, ref_pos := 100 + 1 } :=
  ⟨rfl, (noOverlapMerge_step sampleA 1 ⟨[], [], [], 0, 0, 100⟩ 'M' rfl).2.2.2.1 rfl 'A' 63
    rfl rfl⟩

/-! ## Proofs: joint steps -/

/-- C26: a joint step on two equal tags `t`: for `M` and `I` it appends the
base and the quality that `computeEntry` returns on the two current
base/quality pairs, with the tag `t`; for `S` it appends nothing. The
reference position advances by one for `M` and `S` and stays for `I`; both
query cursors and both cigar cursors advance by one. -/
theorem overlapMerge_equal_tags (T : QualityTables) (cigar1 bases1 : List Char)
    (quals1 : List Int) (cigar2 bases2 : List Char) (quals2 : List Int) (st : MergeState)
    (t : Char) (h1 : readAt cigar1 st.c_pos1 = .ok t) (h2 : readAt cigar2 st.c_pos2 = .ok t) :
    (t = 'M' ∨ t = 'I' → ∀ b1 q1 b2 q2,
      readAt bases1 st.q_pos1 = .ok b1 → readAt quals1 st.q_pos1 = .ok q1 →
      readAt bases2 st.q_pos2 = .ok b2 → readAt quals2 st.q_pos2 = .ok q2 →
      overlapMergeOn T cigar1 bases1 quals1 cigar2 bases2 quals2 st =
        .ok { dna := st.dna ++ [(computeEntry T b1 q1 b2 q2).1],
              qualities := st.qualities ++ [(computeEntry T b1 q1 b2 q2).2],
              nucigar := st.nucigar ++ [t],
              c_pos1 := st.c_pos1 + 1, c_pos2 := st.c_pos2 + 1,
              q_pos1 := st.q_pos1 + 1, q_pos2 := st.q_pos2 + 1,
              ref_pos := if t = 'M' then st.ref_pos + 1 else st.ref_pos }) ∧
    (t = 'S' →
      overlapMergeOn T cigar1 bases1 quals1 cigar2 bases2 quals2 st =
        .ok { dna := st.dna, qualities := st.qualities, nucigar := st.nucigar,
              c_pos1 := st.c_pos1 + 1, c_pos2 := st.c_pos2 + 1,
              q_pos1 := st.q_pos1 + 1, q_pos2 := st.q_pos2 + 1,
              ref_pos := st.ref_pos + 1 }) := by
  refine ⟨?_, ?_⟩
  · rintro (rfl | rfl) b1 q1 b2 q2 hb1 hq1 hb2 hq2
    · simp [overlapMergeOn, h1, h2, hb1, hq1, hb2, hq2, bind, Except.bind, pure, Except.pure]
    · simp [overlapMergeOn, h1, h2, hb1, hq1, hb2, hq2, bind, Except.bind, pure, Except.pure]
  · rintro rfl
    simp [overlapMergeOn, h1, h2, bind, Except.bind, pure, Except.pure]

theorem overlapMerge_equal_tags_witness :
    overlapMergeOn sampleTables ['M'] ['A'] [63] ['M'] ['A'] [63] ⟨[], [], [], 0, 0, 0, 0, 100⟩ =
      .ok { dna := [] ++ [(computeEntry sampleTables 'A' 63 'A' 63).1],
            qualities := [] ++ [(computeEntry sampleTables 'A' 63 'A' 63).2],
            nucigar := [] ++ ['M'],
            c_pos1 := 0 + 1, c_pos2 := 0 + 1, q_pos1 := 0 + 1, q_pos2 := 0 + 1,
            ref_pos := if 'M' = 'M' then 100 + 1 else 100 } :=
  (overlapMerge_equal_tags sampleTables ['M'] ['A'] [63] ['M'] ['A'] [63]
    ⟨[], [], [], 0, 0, 0, 0, 100⟩ 'M' rfl rfl).1 (Or.inl rfl) 'A' 63 'A' 63 rfl rfl rfl rfl

/-- C27: a joint step on two tags of `M, D, S, H` that are not both `M` and not
both `S`. If one side is `M` (the other is then `D`, `H` or `S`) it appends the
base and quality of the `M` side with the tag `M`; otherwise it appends no base
and appends `D` to the operation string exactly when one of the tags is `D`.
In all these cases the reference position advances by one and the query cursor
of a side advances by one exactly when the tag of that side is `M` or `S`. -/
theorem overlapMerge_mixed_tags (T : QualityTables) (cigar1 bases1 : List Char)
    (quals1 : List Int) (cigar2 bases2 : List Char) (quals2 : List Int) (st : MergeState)
    (c1 c2 : Char) (h1 : readAt cigar1 st.c_pos1 = .ok c1) (h2 : readAt cigar2 st.c_pos2 = .ok c2)
    (hc1 : c1 ∈ ['M', 'D', 'S', 'H']) (hc2 : c2 ∈ ['M', 'D', 'S', 'H'])
    (hne : ¬ (c1 = c2 ∧ (c1 = 'M' ∨ c1 = 'S'))) :
    (c1 = 'M' → ∀ b q, readAt bases1 st.q_pos1 = .ok b → readAt quals1 st.q_pos1 = .ok q →
      ∃ r, overlapMergeOn T cigar1 bases1 quals1 cigar2 bases2 quals2 st = .ok r ∧
        r.dna = st.dna ++ [b] ∧ r.qualities = st.qualities ++ [q] ∧
        r.nucigar = st.nucigar ++ ['M'] ∧ r.ref_pos = st.ref_pos + 1 ∧
        r.q_pos1 = st.q_pos1 + 1 ∧
        r.q_pos2 = (if c2 = 'M' ∨ c2 = 'S' then st.q_pos2 + 1 else st.q_pos2)) ∧
    (c2 = 'M' → ∀ b q, readAt bases2 st.q_pos2 = .ok b → readAt quals2 st.q_pos2 = .ok q →
      ∃ r, overlapMergeOn T cigar1 bases1 quals1 cigar2 bases2 quals2 st = .ok r ∧
        r.dna = st.dna ++ [b] ∧ r.qualities = st.qualities ++ [q] ∧
        r.nucigar = st.nucigar ++ ['M'] ∧ r.ref_pos = st.ref_pos + 1 ∧
        r.q_pos1 = (if c1 = 'M' ∨ c1 = 'S' then st.q_pos1 + 1 else st.q_pos1) ∧
        r.q_pos2 = st.q_pos2 + 1) ∧
    (c1 ≠ 'M' → c2 ≠ 'M' →
      ∃ r, overlapMergeOn T cigar1 bases1 quals1 cigar2 bases2 quals2 st = .ok r ∧
        r.dna = st.dna ∧ r.qualities = st.qualities ∧
        r.nucigar = (if c1 = 'D' ∨ c2 = 'D' then st.nucigar ++ ['D'] else st.nucigar) ∧
        r.ref_pos = st.ref_pos + 1 ∧
        r.q_pos1 = (if c1 = 'M' ∨ c1 = 'S' then st.q_pos1 + 1 else st.q_pos1) ∧
        r.q_pos2 = (if c2 = 'M' ∨ c2 = 'S' then st.q_pos2 + 1 else st.q_pos2)) := by
  simp only [List.mem_cons, List.mem_singleton, List.not_mem_nil, or_false] at hc1 hc2
  refine ⟨?_, ?_, ?_⟩
  · rintro rfl b q hb hq
    rcases hc2 with rfl | rfl | rfl | rfl
    · exact absurd ⟨rfl, Or.inl rfl⟩ hne
    · simp [overlapMergeOn, h1, h2, hb, hq, bind, Except.bind, pure, Except.pure]
    · simp [overlapMergeOn, h1, h2, hb, hq, bind, Except.bind, pure, Except.pure]
    · simp [overlapMergeOn, h1, h2, hb, hq, bind, Except.bind, pure, Except.pure]
  · rintro rfl b q hb hq
    rcases hc1 with rfl | rfl | rfl | rfl
    · exact absurd ⟨rfl, Or.inl rfl⟩ hne
    · simp [overlapMergeOn, h1, h2, hb, hq, bind, Except.bind, pure, Except.pure]
    · simp [overlapMergeOn, h1, h2, hb, hq, bind, Except.bind, pure, Except.pure]
    · simp [overlapMergeOn, h1, h2, hb, hq, bind, Except.bind, pure, Except.pure]
  · intro n1 n2
    rcases hc1 with rfl | rfl | rfl | rfl
    · exact absurd rfl n1
    · rcases hc2 with rfl | rfl | rfl | rfl
      · exact absurd rfl n2
      · simp [overlapMergeOn, h1, h2, bind, Except.bind, pure, Except.pure]
      · simp [overlapMergeOn, h1, h2, bind, Except.bind, pure, Except.pure]
      · simp [overlapMergeOn, h1, h2, bind, Except.bind, pure, Except.pure]
    · rcases hc2 with rfl | rfl | rfl | rfl
      · exact absurd rfl n2
      · simp [overlapMergeOn, h1, h2, bind, Except.bind, pure, Except.pure]
      · exact absurd ⟨rfl, Or.inr rfl⟩ hne
      · simp [overlapMergeOn, h1, h2, bind, Except.bind, pure, Except.pure]
    · rcases hc2 with rfl | rfl | rfl | rfl
      · exact absurd rfl n2
      · simp [overlapMergeOn, h1, h2, bind, Except.bind, pure, Except.pure]
      · simp [overlapMergeOn, h1, h2, bind, Except.bind, pure, Except.pure]
      · simp [overlapMergeOn, h1, h2, bind, Except.bind, pure, Except.pure]

theorem overlapMerge_mixed_tags_witness :
    ∃ r, overlapMergeOn sampleTables ['M'] ['A'] [63] ['S'] ['C'] [63]
        ⟨[], [], [], 0, 0, 0, 0, 100⟩ = .ok r ∧
      r.dna = [] ++ ['A'] ∧ r.qualities = [] ++ [63] ∧ r.nucigar = [] ++ ['M'] ∧
      r.ref_pos = 100 + 1 ∧ r.q_pos1 = 0 + 1 ∧
      r.q_pos2 = (if ('S' : Char) = 'M' ∨ ('S' : Char) = 'S' then 0 + 1 else 0) :=
  (overlapMerge_mixed_tags sampleTables ['M'] ['A'] [63] ['S'] ['C'] [63]
    ⟨[], [], [], 0, 0, 0, 0, 100⟩ 'M' 'S' rfl rfl (by decide) (by decide) (by decide)).1
    rfl 'A' 63 rfl rfl

/-- C28: a joint step on two tags of `M, I, D, S, H` of which exactly one is
`I` appends the current base and quality of the side whose tag is `I`, with
the tag `I`; the reference position is unchanged; the query cursor of that
side advances by one and the query cursor of the other side is unchanged. -/
theorem overlapMerge_one_insertion (T : QualityTables) (cigar1 bases1 : List Char)
    (quals1 : List Int) (cigar2 bases2 : List Char) (quals2 : List Int) (st : MergeState)
    (c1 c2 : Char) (h1 : readAt cigar1 st.c_pos1 = .ok c1) (h2 : readAt cigar2 st.c_pos2 = .ok c2)
    (hc1 : c1 ∈ cigarTags) (hc2 : c2 ∈ cigarTags) :
    (c1 = 'I' → c2 ≠ 'I' → ∀ b q,
      readAt bases1 st.q_pos1 = .ok b → readAt quals1 st.q_pos1 = .ok q →
      ∃ r, overlapMergeOn T cigar1 bases1 quals1 cigar2 bases2 quals2 st = .ok r ∧
        r.dna = st.dna ++ [b] ∧ r.qualities = st.qualities ++ [q] ∧
        r.nucigar = st.nucigar ++ ['I'] ∧ r.ref_pos = st.ref_pos ∧
        r.q_pos1 = st.q_pos1 + 1 ∧ r.q_pos2 = st.q_pos2) ∧
    (c1 ≠ 'I' → c2 = 'I' → ∀ b q,
      readAt bases2 st.q_pos2 = .ok b → readAt quals2 st.q_pos2 = .ok q →
      ∃ r, overlapMergeOn T cigar1 bases1 quals1 cigar2 bases2 quals2 st = .ok r ∧
        r.dna = st.dna ++ [b] ∧ r.qualities = st.qualities ++ [q] ∧
        r.nucigar = st.nucigar ++ ['I'] ∧ r.ref_pos = st.ref_pos ∧
        r.q_pos1 = st.q_pos1 ∧ r.q_pos2 = st.q_pos2 + 1) := by
  simp only [cigarTags, List.mem_cons, List.mem_singleton, List.not_mem_nil, or_false] at hc1 hc2
  refine ⟨?_, ?_⟩
  · rintro rfl hn b q hb hq
    rcases hc2 with rfl | rfl | rfl | rfl | rfl
    · simp [overlapMergeOn, h1, h2, hb, hq, bind, Except.bind, pure, Except.pure]
    · exact absurd rfl hn
    · simp [overlapMergeOn, h1, h2, hb, hq, bind, Except.bind, pure, Except.pure]
    · simp [overlapMergeOn, h1, h2, hb, hq, bind, Except.bind, pure, Except.pure]
    · simp [overlapMergeOn, h1, h2, hb, hq, bind, Except.bind, pure, Except.pure]
  · rintro hn rfl b q hb hq
    rcases hc1 with rfl | rfl | rfl | rfl | rfl
    · simp [overlapMergeOn, h1, h2, hb, hq, bind, Except.bind, pure, Except.pure]
    · exact absurd rfl hn
    · simp [overlapMergeOn, h1, h2, hb, hq, bind, Except.bind, pure, Except.pure]
    · simp [overlapMergeOn, h1, h2, hb, hq, bind, Except.bind, pure, Except.pure]
    · simp [overlapMergeOn, h1, h2, hb, hq, bind, Except.bind, pure, Except.pure]

theorem overlapMerge_one_insertion_witness :
    ∃ r, overlapMergeOn sampleTables ['I'] ['A'] [63] ['M'] ['C'] [63]
        ⟨[], [], [], 0, 0, 0, 0, 100⟩ = .ok r ∧
      r.dna = [] ++ ['A'] ∧ r.qualities = [] ++ [63] ∧ r.nucigar = [] ++ ['I'] ∧
      r.ref_pos = 100 ∧ r.q_pos1 = 0 + 1 ∧ r.q_pos2 = 0 :=
  (overlapMerge_one_insertion sampleTables ['I'] ['A'] [63] ['M'] ['C'] [63]
    ⟨[], [], [], 0, 0, 0, 0, 100⟩ 'I' 'M' rfl rfl (by decide) (by decide)).1
    rfl (by decide) 'A' 63 rfl rfl

/-- C29 (as stated, refuted): a joint step on the tags `I` and `M` returns, and
the cigar cursor of the second source is still 0. -/
theorem overlapMerge_insertion_keeps_other_cursor :
    overlapMergeOn sampleTables ['I'] ['A'] [63] ['M'] ['C'] [63] ⟨[], [], [], 0, 0, 0, 0, 100⟩ =
      .ok ⟨['A'], [63], ['I'], 1, 0, 1, 0, 100⟩ := by
  rfl

/-- C29 (amended): in every non-fatal branch of a joint step other than the
one-sided insertion branch, both cigar cursors advance by exactly one; in the
one-sided insertion branch (exactly one of the two tags is `I`) the cigar
cursor of the side whose tag is `I` advances by one and the cigar cursor of
the other side is unchanged. -/
theorem overlapMerge_cigar_cursors (T : QualityTables) (cigar1 bases1 : List Char)
    (quals1 : List Int) (cigar2 bases2 : List Char) (quals2 : List Int) (st r : MergeState)
    (c1 c2 : Char) (h1 : readAt cigar1 st.c_pos1 = .ok c1) (h2 : readAt cigar2 st.c_pos2 = .ok c2)
    (h : overlapMergeOn T cigar1 bases1 quals1 cigar2 bases2 quals2 st = .ok r) :
    ((c1 = 'I' ↔ c2 = 'I') → r.c_pos1 = st.c_pos1 + 1 ∧ r.c_pos2 = st.c_pos2 + 1) ∧
    (c1 = 'I' → c2 ≠ 'I' → r.c_pos1 = st.c_pos1 + 1 ∧ r.c_pos2 = st.c_pos2) ∧
    (c1 ≠ 'I' → c2 = 'I' → r.c_pos1 = st.c_pos1 ∧ r.c_pos2 = st.c_pos2 + 1) := by
  unfold overlapMergeOn at h
  rw [h1, h2] at h
  simp only [ok_bind] at h
  by_cases hB1 : (c1 = 'M' ∧ c2 = 'M') ∨ (c1 = 'S' ∧ c2 = 'S') ∨ (c1 = 'I' ∧ c2 = 'I')
  · rw [if_pos hB1] at h
    have hc : r.c_pos1 = st.c_pos1 + 1 ∧ r.c_pos2 = st.c_pos2 + 1 := by
      by_cases hS : c1 ≠ 'S'
      · rw [if_pos hS] at h
        obtain ⟨b1, -, h⟩ := bind_eq_ok _ _ _ h
        obtain ⟨q1, -, h⟩ := bind_eq_ok _ _ _ h
        obtain ⟨b2, -, h⟩ := bind_eq_ok _ _ _ h
        obtain ⟨q2, -, h⟩ := bind_eq_ok _ _ _ h
        simp only [pure_bind] at h
        cases h
        exact ⟨rfl, rfl⟩
      · rw [if_neg hS] at h
        simp only [pure_bind] at h
        cases h
        exact ⟨rfl, rfl⟩
    refine ⟨fun _ => hc, fun a b => ?_, fun a b => ?_⟩
    · rcases hB1 with ⟨x, -⟩ | ⟨x, -⟩ | ⟨-, y⟩
      · rw [a] at x; cases x
      · rw [a] at x; cases x
      · exact absurd y b
    · rcases hB1 with ⟨-, y⟩ | ⟨-, y⟩ | ⟨x, -⟩
      · rw [b] at y; cases y
      · rw [b] at y; cases y
      · exact absurd x a
  · rw [if_neg hB1] at h
    by_cases hI : c1 = 'I' ∨ c2 = 'I'
    · by_cases i1 : c1 = 'I'
      · subst i1
        have i2 : c2 ≠ 'I' := fun e => hB1 (Or.inr (Or.inr ⟨rfl, e⟩))
        simp only [Char.reduceEq, false_and, and_false, or_false, false_or, true_or,
          if_true, if_false, false_or] at h
        obtain ⟨b, -, h⟩ := bind_eq_ok _ _ _ h
        obtain ⟨q, -, h⟩ := bind_eq_ok _ _ _ h
        cases h
        exact ⟨fun e => absurd (e.1 rfl) i2, fun _ _ => ⟨rfl, rfl⟩, fun a _ => absurd rfl a⟩
      · have i2 : c2 = 'I' := hI.resolve_left i1
        subst i2
        simp only [Char.reduceEq, false_and, and_false, or_false, false_or, or_true,
          if_true, if_false, i1] at h
        obtain ⟨b, -, h⟩ := bind_eq_ok _ _ _ h
        obtain ⟨q, -, h⟩ := bind_eq_ok _ _ _ h
        cases h
        exact ⟨fun e => absurd (e.2 rfl) i1, fun a _ => absurd a i1, fun _ _ => ⟨rfl, rfl⟩⟩
    · have i1 : c1 ≠ 'I' := fun e => hI (Or.inl e)
      have i2 : c2 ≠ 'I' := fun e => hI (Or.inr e)
      have hc : r.c_pos1 = st.c_pos1 + 1 ∧ r.c_pos2 = st.c_pos2 + 1 := by
        split_ifs at h
        all_goals
          first
          | (cases h
             exact ⟨rfl, rfl⟩)
          | (obtain ⟨b, -, h⟩ := bind_eq_ok _ _ _ h
             obtain ⟨q, -, h⟩ := bind_eq_ok _ _ _ h
             cases h
             exact ⟨rfl, rfl⟩)
      exact ⟨fun _ => hc, fun a _ => absurd a i1, fun _ b => absurd b i2⟩

theorem overlapMerge_cigar_cursors_witness :
    overlapMergeOn sampleTables ['I'] ['A'] [63] ['M'] ['C'] [63] ⟨[], [], [], 0, 0, 0, 0, 100⟩ =
      .ok ⟨['A'], [63], ['I'], 1, 0, 1, 0, 100⟩ ∧
    (MergeState.mk ['A'] [63] ['I'] 1 0 1 0 100).c_pos1 = 0 + 1 ∧
    (MergeState.mk ['A'] [63] ['I'] 1 0 1 0 100).c_pos2 = 0 :=
  ⟨rfl,
    (overlapMerge_cigar_cursors sampleTables ['I'] ['A'] [63] ['M'] ['C'] [63]
      ⟨[], [], [], 0, 0, 0, 0, 100⟩ ⟨['A'], [63], ['I'], 1, 0, 1, 0, 100⟩ 'I' 'M'
      rfl rfl rfl).2.1 rfl (by decide)⟩

/-- C30: for every pair of tags of `M, I, D, S, H` a joint step takes one of
its four handled branches and returns: when the current base and quality of
every side whose tag is `M` or `I` can be read, the result is a state, so the
fatal fallback needs a tag outside the five tags. -/
theorem overlapMerge_alphabet_total (T : QualityTables) (cigar1 bases1 : List Char)
    (quals1 : List Int) (cigar2 bases2 : List Char) (quals2 : List Int) (st : MergeState)
    (c1 c2 : Char) (h1 : readAt cigar1 st.c_pos1 = .ok c1) (h2 : readAt cigar2 st.c_pos2 = .ok c2)
    (hc1 : c1 ∈ cigarTags) (hc2 : c2 ∈ cigarTags)
    (hr1 : c1 = 'M' ∨ c1 = 'I' → st.q_pos1 < bases1.length ∧ st.q_pos1 < quals1.length)
    (hr2 : c2 = 'M' ∨ c2 = 'I' → st.q_pos2 < bases2.length ∧ st.q_pos2 < quals2.length) :
    ∃ r, overlapMergeOn T cigar1 bases1 quals1 cigar2 bases2 quals2 st = .ok r := by
  simp only [cigarTags, List.mem_cons, List.mem_singleton, List.not_mem_nil, or_false] at hc1 hc2
  rcases hc1 with rfl | rfl | rfl | rfl | rfl <;> rcases hc2 with rfl | rfl | rfl | rfl | rfl <;>
    simp only [Char.reduceEq, or_true, true_or, or_false, false_or, true_implies,
      false_implies] at hr1 hr2 <;>
    first
    | (obtain ⟨a1, a2⟩ := hr1
       obtain ⟨a3, a4⟩ := hr2
       simp [overlapMergeOn, h1, h2, readAt_eq_getD _ _ 'N' a1, readAt_eq_getD _ _ 0 a2,
         readAt_eq_getD _ _ 'N' a3, readAt_eq_getD _ _ 0 a4, bind, Except.bind, pure, Except.pure])
    | (obtain ⟨a1, a2⟩ := hr1
       simp [overlapMergeOn, h1, h2, readAt_eq_getD _ _ 'N' a1, readAt_eq_getD _ _ 0 a2,
         bind, Except.bind, pure, Except.pure])
    | (obtain ⟨a3, a4⟩ := hr2
       simp [overlapMergeOn, h1, h2, readAt_eq_getD _ _ 'N' a3, readAt_eq_getD _ _ 0 a4,
         bind, Except.bind, pure, Except.pure])
    | simp [overlapMergeOn, h1, h2, bind, Except.bind, pure, Except.pure]

theorem overlapMerge_alphabet_total_witness :
    ∃ r, overlapMergeOn sampleTables ['I'] ['A'] [63] ['D'] [] []
        ⟨[], [], [], 0, 0, 0, 0, 100⟩ = .ok r :=
  overlapMerge_alphabet_total sampleTables ['I'] ['A'] [63] ['D'] [] []
    ⟨[], [], [], 0, 0, 0, 0, 100⟩ 'I' 'D' rfl rfl (by decide) (by decide)
    (fun _ => ⟨by decide, by decide⟩) (by decide)

/-! ## Proofs: the case cascade and the disjoint branches of the mixed merge -/

theorem mergePhases_eq_case (solo1 solo2 joint : MergeState → Except MergeError MergeState)
    (fuel : Nat) (s1 e1 s2 e2 : Int) :
    mergePhases solo1 solo2 joint fuel s1 e1 s2 e2 =
      match overlapCase s1 e1 s2 e2 with
      | some c => casePhases solo1 solo2 joint fuel s1 e1 s2 e2 c
      | none => .error .fault := by
  unfold mergePhases overlapCase
  split_ifs <;> rfl

theorem trailing_loop_idle (cond : MergeState → Bool)
    (body1 body2 body3 : MergeState → Except MergeError MergeState) (fuel : Nat)
    (st : MergeState) :
    (whileLoop cond body1 fuel st >>= fun st2 => whileLoop cond body2 fuel st2) =
      (whileLoop cond body1 fuel st >>= fun st2 => whileLoop cond body3 fuel st2) := by
  cases h : whileLoop cond body1 fuel st with
  | error e => rfl
  | ok st2 =>
    have hc := whileLoop_exit cond body1 fuel st st2 h
    show whileLoop cond body2 fuel st2 = whileLoop cond body3 fuel st2
    rw [whileLoop_done cond body2 fuel st2 hc, whileLoop_done cond body3 fuel st2 hc]

/-- C31 (as stated, refuted): the padded intervals `[100, 120]` and
`[100, 130]` have equal starts and take the first branch of the cascade, the
one for "first source starts first and ends first". -/
theorem overlapCase_equal_start_first_branch :
    overlapCase 100 120 100 130 = some .firstBeforeSecond := by
  decide

/-- C31 (amended): a boundary-equal input (`s1 = s2` or `e1 = e2`) takes the
first branch of the cascade that matches: the branch "first source starts
first and ends first" exactly when `s1 ≤ s2` and `e1 ≤ e2`, otherwise one of
the two "contains" branches, and never the last branch. In the first branch
the loops run on such an input give the same result as the loops of a
"contains" branch: those of "second contains first" when `s1 = s2` (the leading
solo loop is empty in both), those of "first contains second" when `e1 = e2`
(the trailing solo loop is empty in both). -/
theorem overlapCase_boundary_equal
    (solo1 solo2 joint : MergeState → Except MergeError MergeState) (fuel : Nat)
    (s1 e1 s2 e2 : Int) (h : s1 = s2 ∨ e1 = e2) :
    (overlapCase s1 e1 s2 e2 = some .firstBeforeSecond ↔ s1 ≤ s2 ∧ e1 ≤ e2) ∧
    (¬ (s1 ≤ s2 ∧ e1 ≤ e2) →
      overlapCase s1 e1 s2 e2 = some .firstContainsSecond ∨
      overlapCase s1 e1 s2 e2 = some .secondContainsFirst) ∧
    (s1 = s2 → e1 ≤ e2 →
      casePhases solo1 solo2 joint fuel s1 e1 s2 e2 .firstBeforeSecond =
        casePhases solo1 solo2 joint fuel s1 e1 s2 e2 .secondContainsFirst) ∧
    (e1 = e2 → s1 ≤ s2 →
      casePhases solo1 solo2 joint fuel s1 e1 s2 e2 .firstBeforeSecond =
        casePhases solo1 solo2 joint fuel s1 e1 s2 e2 .firstContainsSecond) := by
  refine ⟨?_, ?_, ?_, ?_⟩
  · unfold overlapCase
    split_ifs with c1 c2 c3 c4
    · simp [c1]
    · simp [c1]
    · simp [c1]
    · simp [c1]
    · simp [c1]
  · intro hn
    unfold overlapCase
    rw [if_neg hn]
    by_cases c2 : s1 ≤ s2 ∧ e1 ≥ e2
    · rw [if_pos c2]
      exact Or.inl rfl
    · rw [if_neg c2]
      have c3 : s1 ≥ s2 ∧ e1 ≤ e2 := by
        rcases h with h | h <;> constructor <;> omega
      rw [if_pos c3]
      exact Or.inr rfl
  · rintro rfl he
    simp only [casePhases]
    have d1 : ∀ body, whileLoop (fun st : MergeState => decide (st.ref_pos < s1)) body fuel
        ⟨[], [], [], 0, 0, 0, 0, s1⟩ = .ok ⟨[], [], [], 0, 0, 0, 0, s1⟩ :=
      fun body => whileLoop_done _ body fuel _ (by simp)
    simp only [d1]
  · rintro rfl hs
    simp only [casePhases]
    cases whileLoop (fun st : MergeState => decide (st.ref_pos < s2)) solo1 fuel
        ⟨[], [], [], 0, 0, 0, 0, s1⟩ with
    | error e => rfl
    | ok st1 => exact trailing_loop_idle _ joint solo2 solo1 fuel st1

theorem overlapCase_boundary_equal_witness :
    (overlapCase 100 120 100 130 = some .firstBeforeSecond ↔
      (100 : Int) ≤ 100 ∧ (120 : Int) ≤ 130) :=
  (overlapCase_boundary_equal (fun st => .ok st) (fun st => .ok st) (fun st => .ok st) 0
    100 120 100 130 (Or.inl rfl)).1

/-- C40: for a record `T` with `T.end1 < T.start2` and a single-end record `R`,
the two disjoint-side branches of `mergeAlignmentRecordsMixed(R)` complete
whenever their inner `mergeAlignmentRecordsSingle` does, and leave the record
paired-end with `end1 < start2`: the branch for `R.end1 < T.start2` (inner
merge into mate 1) and the branch for `R.start1 > T.end1` (inner merge into
mate 2). -/
theorem mergeMixed_disjoint_sides (T : QualityTables) (self ar r0 : AlignmentRecord)
    (hs : ar.single_end = true) (hT : self.end1 < self.start2) :
    (ar.end1 < self.start2 → self.mergeAlignmentRecordsSingle T ar 1 1 = .ok r0 →
      ∃ r, self.mergeAlignmentRecordsMixed T ar = .ok r ∧ r.single_end = false ∧
        r.end1 < r.start2) ∧
    (¬ ar.end1 < self.start2 → ar.start1 > self.end1 →
      self.mergeAlignmentRecordsSingle T ar 2 1 = .ok r0 →
      ∃ r, self.mergeAlignmentRecordsMixed T ar = .ok r ∧ r.single_end = false ∧
        r.end1 < r.start2) := by
  constructor
  · intro c1 h
    obtain ⟨fin, -, rfl, -⟩ := mergeSingle_ok T self ar r0 1 1 h
    have e : (singleAssign self ar 1 1 fin).end1 < (singleAssign self ar 1 1 fin).start2 := by
      show max ar.end1 self.end1 < self.start2
      exact max_lt c1 hT
    refine ⟨{ singleAssign self ar 1 1 fin with single_end := false }, ?_, rfl, e⟩
    unfold AlignmentRecord.mergeAlignmentRecordsMixed
    simp only [hs, if_true, c1, h]
    show (if (singleAssign self ar 1 1 fin).end1 < (singleAssign self ar 1 1 fin).start2 then _
      else _) = _
    rw [if_pos e]
    rfl
  · intro c1 c2 h
    obtain ⟨fin, -, rfl, -⟩ := mergeSingle_ok T self ar r0 2 1 h
    have e : (singleAssign self ar 2 1 fin).end1 < (singleAssign self ar 2 1 fin).start2 := by
      show self.end1 < min self.start2 ar.start1
      exact lt_min hT c2
    refine ⟨singleAssign self ar 2 1 fin, ?_, rfl, e⟩
    unfold AlignmentRecord.mergeAlignmentRecordsMixed
    simp only [hs, if_true, c1, if_false, c2, h]
    show (if (singleAssign self ar 2 1 fin).end1 < (singleAssign self ar 2 1 fin).start2 then _
      else _) = _
    rw [if_pos e]
    rfl

/-! ## Proofs: branches of the paired merge on sample pairs -/

/-- C32 (the code at the failing input): `overrunThis` and `overrunOther` are
in the configuration of the third branch, and the padded start of mate 1 of
`overrunOther` is 102. The leading solo loop of that branch runs while the
reference position is `≤ 102`: it leaves mate 1 of the record at column 3 and
the reference position at 103, so the first joint step pairs column 3 of the
record (reference position 103) with column 0 of the other mate (reference
position 102). At the end of the branch the cursor of the other mate 1 is 8
of 9 columns, and the merged mate 1 holds the bases of the other mate 1 one
position to the right. -/
theorem mergePaired_leading_solo_overruns :
    pairedBranch overrunThis overrunOther = some .b3 ∧
    (overrunOther.start1 : Int) - computeOffset overrunOther.cigar1_unrolled = 102 ∧
    whileLoop (fun s => s.ref_pos ≤ 102) (soloStep overrunThis 1 .c1_pos1) 25
        (PairedState.init 100) =
      .ok { PairedState.init 103 with
            dna := ['A', 'A', 'A'], qualities := [63, 63, 63], nucigar := ['M', 'M', 'M'],
            q_c1_pos1 := 3, c_c1_pos1 := 3 } ∧
    (∃ st, pairedLoops sampleTables overrunThis overrunOther .b3 = .ok st ∧
      st.c_c1_pos2 = 8 ∧ overrunOther.cigar1_unrolled.length = 9) ∧
    ∃ r, overrunThis.mergeAlignmentRecordsPaired sampleTables overrunOther = .ok r ∧
      r.start1 = 100 ∧ r.end1 = 112 ∧
      r.sequence1.forward =
        ['A', 'A', 'A', 'C', 'G', 'T', 'C', 'G', 'T', 'C', 'G', 'A', 'A'] := by
  refine ⟨by decide, by decide, rfl, ⟨_, rfl, by decide, by decide⟩, _, rfl, ?_⟩
  decide

/-- C33 (the code at the failing input): `chainThis` and `chainOther` are in
the configuration of the seventh branch. Mate 1 of the record takes part in
the first three loops, which leave its query cursor `q_c1_pos1` at 6; the
joint loop with mate 2 of the other record is called with the query cursor
`q_c2_pos1` of the record's mate 2 instead, which is still 0. At the end of
the branch `q_c1_pos1` is still 6, `q_c2_pos1` is 4 although mate 2 of the
record took no part (`c_c2_pos1 = 0`), and the merged columns 106..109 hold the
bases 0..3 of mate 1 (`ACGT`) where its bases 6..9 are `GTAC`. -/
theorem mergePaired_joint_reads_stale_cursor :
    pairedBranch chainThis chainOther = some .b7 ∧
    chainThis.sequence1.forward = ['A', 'C', 'G', 'T', 'A', 'C', 'G', 'T', 'A', 'C'] ∧
    (∃ st, pairedLoops sampleTables chainThis chainOther .b7 = .ok st ∧
      st.q_c1_pos1 = 6 ∧ st.q_c2_pos1 = 4 ∧ st.c_c1_pos1 = 10 ∧ st.c_c2_pos1 = 0) ∧
    ∃ r, chainThis.mergeAlignmentRecordsPaired sampleTables chainOther = .ok r ∧
      r.start1 = 100 ∧ r.end1 = 111 ∧
      r.sequence1.forward = ['A', 'C', 'G', 'T', 'A', 'C', 'A', 'C', 'G', 'T', 'T', 'T'] := by
  refine ⟨by decide, by decide, ⟨_, rfl, by decide, by decide, by decide, by decide⟩, _, rfl, ?_⟩
  decide

/-- C34 (the code at the failing input): `shiftedThis` lies after mate 1 of
`shiftedOther` and both of its mates overlap mate 2 of `shiftedOther` (tenth
branch). The result takes mate 1 from `shiftedOther`, and its mate 2 starts at
100, the start of that mate 1, where the merged mates start at
`min(110, 112) = 110`. -/
theorem mergePaired_start2_after_overwrite :
    pairedBranch shiftedThis shiftedOther = some .b10 ∧
    shiftedThis.start1 = 110 ∧ shiftedOther.start1 = 100 ∧ shiftedOther.start2 = 112 ∧
    ∃ r, shiftedThis.mergeAlignmentRecordsPaired sampleTables shiftedOther = .ok r ∧
      r.single_end = false ∧ r.start1 = 100 ∧ r.end1 = 104 ∧
      r.start2 = 100 ∧ r.end2 = 122 := by
  refine ⟨by decide, by decide, by decide, by decide, _, rfl, ?_⟩
  decide

/-- C35 (the code at the failing input): both mates of `innerThis` are merged
with mate 1 of `outerOther`, whose mate 2 lies behind (ninth branch). Mate 2 of
`outerOther` has `length_incl_deletions2 = length_incl_longdeletions2 = 6`; the
result has its interval, CIGAR, sequence and Phred sum, but
`length_incl_deletions2 = 4`, `length_incl_longdeletions2 = 3` (the value of
`innerThis`), and `length_incl_longdeletions1 = 4` where the merged mate 1 has
13 bases. -/
theorem mergePaired_copied_mate_lengths :
    pairedBranch innerThis outerOther = some .b9 ∧
    innerThis.end2 < outerOther.start2 ∧
    outerOther.length_incl_deletions2 = 6 ∧ outerOther.length_incl_longdeletions2 = 6 ∧
    innerThis.length_incl_longdeletions2 = 3 ∧
    ∃ r, innerThis.mergeAlignmentRecordsPaired sampleTables outerOther = .ok r ∧
      r.start2 = outerOther.start2 ∧ r.end2 = outerOther.end2 ∧ r.cigar2 = outerOther.cigar2 ∧
      r.cigar2_unrolled = outerOther.cigar2_unrolled ∧ r.sequence2 = outerOther.sequence2 ∧
      r.phred_sum2 = outerOther.phred_sum2 ∧
      r.length_incl_deletions2 = 4 ∧ r.length_incl_longdeletions2 = 3 ∧
      r.sequence1.size = 13 ∧ r.length_incl_deletions1 = 13 ∧
      r.length_incl_longdeletions1 = 4 := by
  refine ⟨by decide, by decide, by decide, by decide, by decide, _, rfl, ?_⟩
  decide

/-! ## Proofs: the single merge returns and covers its interval -/

theorem count_snoc (l : List Char) (a t : Char) :
    (l ++ [t]).count a = l.count a + (if t = a then 1 else 0) := by
  rw [List.count_append, List.count_singleton]
  simp only [beq_iff_eq]

theorem take_succ_of_readAt (cigar : List Char) (c : Nat) (t : Char)
    (h : readAt cigar c = .ok t) :
    c < cigar.length ∧ t ∈ cigar ∧ cigar.take (c + 1) = cigar.take c ++ [t] := by
  unfold readAt at h
  cases hv : cigar[c]? with
  | none => rw [hv] at h; cases h
  | some b =>
    rw [hv] at h
    cases h
    obtain ⟨hlt, hb⟩ := List.getElem?_eq_some_iff.mp hv
    refine ⟨hlt, ?_, ?_⟩
    · rw [← hb]; exact List.getElem_mem hlt
    · rw [List.take_succ, hv]
      rfl

theorem refTags_snoc (l : List Char) (t : Char) :
    refTags (l ++ [t]) =
      refTags l + (if t = 'M' ∨ t = 'D' ∨ t = 'S' ∨ t = 'H' then 1 else 0) := by
  simp only [refTags, count_snoc]
  by_cases h1 : t = 'M'
  · subst h1; simp; omega
  by_cases h2 : t = 'D'
  · subst h2; simp; omega
  by_cases h3 : t = 'S'
  · subst h3; simp; omega
  by_cases h4 : t = 'H'
  · subst h4; simp; omega
  simp [h1, h2, h3, h4]

theorem mdTags_snoc (l : List Char) (t : Char) :
    mdTags (l ++ [t]) = mdTags l + (if t = 'M' ∨ t = 'D' then 1 else 0) := by
  simp only [mdTags, count_snoc]
  by_cases h1 : t = 'M'
  · subst h1; simp; omega
  by_cases h2 : t = 'D'
  · subst h2; simp; omega
  simp [h1, h2]

theorem storedBases_snoc (l : List Char) (t : Char) :
    storedBases (l ++ [t]) = storedBases l + (if t = 'M' ∨ t = 'I' ∨ t = 'S' then 1 else 0) := by
  simp only [storedBases, count_snoc]
  by_cases h1 : t = 'M'
  · subst h1; simp; omega
  by_cases h2 : t = 'I'
  · subst h2; simp; omega
  by_cases h3 : t = 'S'
  · subst h3; simp; omega
  simp [h1, h2, h3]

theorem storedBases_take_le (l : List Char) (c : Nat) :
    storedBases (l.take c) ≤ storedBases l := by
  have a := count_take_le l 'M' c
  have b := count_take_le l 'I' c
  have d := count_take_le l 'S' c
  unfold storedBases
  omega

theorem noOverlapMergeOn_facts (cigar bases : List Char) (quals : List Int) (st r : SoloState)
    (t : Char) (ht : readAt cigar st.c_pos = .ok t)
    (h : noOverlapMergeOn cigar bases quals st = .ok r) :
    r.c_pos = st.c_pos + 1 ∧
    r.q_pos = st.q_pos + (if t = 'M' ∨ t = 'I' ∨ t = 'S' then 1 else 0) ∧
    r.ref_pos = st.ref_pos + (if t = 'M' ∨ t = 'D' ∨ t = 'S' ∨ t = 'H' then 1 else 0) ∧
    mdTags r.nucigar = mdTags st.nucigar + (if t = 'M' ∨ t = 'D' then 1 else 0) := by
  unfold noOverlapMergeOn at h
  rw [ht] at h
  simp only [ok_bind] at h
  by_cases hH : t = 'H'
  · subst hH
    simp only [if_true, pure, Except.pure, Except.ok.injEq] at h
    subst h
    simp
  rw [if_neg hH] at h
  by_cases hI : t = 'I'
  · subst hI
    rw [if_pos rfl] at h
    obtain ⟨b, -, h⟩ := bind_eq_ok _ _ _ h
    obtain ⟨q, -, h⟩ := bind_eq_ok _ _ _ h
    cases h
    simp [mdTags_snoc]
  rw [if_neg hI] at h
  by_cases hD : t = 'D'
  · subst hD
    simp only [if_true, pure, Except.pure, Except.ok.injEq] at h
    subst h
    simp [mdTags_snoc]
  rw [if_neg hD] at h
  by_cases hS : t = 'S'
  · subst hS
    simp only [if_true, pure, Except.pure, Except.ok.injEq] at h
    subst h
    simp
  rw [if_neg hS] at h
  by_cases hM : t = 'M'
  · subst hM
    rw [if_pos rfl] at h
    obtain ⟨b, -, h⟩ := bind_eq_ok _ _ _ h
    obtain ⟨q, -, h⟩ := bind_eq_ok _ _ _ h
    cases h
    simp [mdTags_snoc]
  rw [if_neg hM] at h
  cases h

theorem noOverlapMergeOn_returns (cigar bases : List Char) (quals : List Int) (st : SoloState)
    (t : Char) (ht : readAt cigar st.c_pos = .ok t) (hc : t ∈ cigarTags)
    (hr : t = 'M' ∨ t = 'I' → st.q_pos < bases.length ∧ st.q_pos < quals.length) :
    ∃ r, noOverlapMergeOn cigar bases quals st = .ok r := by
  simp only [cigarTags, List.mem_cons, List.mem_singleton, List.not_mem_nil, or_false] at hc
  rcases hc with rfl | rfl | rfl | rfl | rfl
  · obtain ⟨a1, a2⟩ := hr (Or.inl rfl)
    simp [noOverlapMergeOn, ht, readAt_eq_getD _ _ 'N' a1, readAt_eq_getD _ _ 0 a2,
      bind, Except.bind, pure, Except.pure]
  · obtain ⟨a1, a2⟩ := hr (Or.inr rfl)
    simp [noOverlapMergeOn, ht, readAt_eq_getD _ _ 'N' a1, readAt_eq_getD _ _ 0 a2,
      bind, Except.bind, pure, Except.pure]
  · simp [noOverlapMergeOn, ht, bind, Except.bind, pure, Except.pure]
  · simp [noOverlapMergeOn, ht, bind, Except.bind, pure, Except.pure]
  · simp [noOverlapMergeOn, ht, bind, Except.bind, pure, Except.pure]

theorem noOverlapMergeOn_total (cigar bases : List Char) (quals : List Int) (st : SoloState)
    (htags : ∀ t ∈ cigar, t ∈ cigarTags)
    (hb : storedBases cigar = bases.length) (hq : storedBases cigar = quals.length)
    (hsb : storedBases (cigar.take st.c_pos) = st.q_pos)
    (hact : refTags (cigar.take st.c_pos) < refTags cigar) :
    ∃ r, noOverlapMergeOn cigar bases quals st = .ok r ∧ r.c_pos = st.c_pos + 1 ∧
      r.c_pos ≤ cigar.length ∧ storedBases (cigar.take r.c_pos) = r.q_pos ∧
      r.ref_pos + refTags (cigar.take st.c_pos) = st.ref_pos + refTags (cigar.take r.c_pos) ∧
      st.ref_pos ≤ r.ref_pos ∧ r.ref_pos ≤ st.ref_pos + 1 ∧
      mdTags r.nucigar + mdTags (cigar.take st.c_pos) =
        mdTags st.nucigar + mdTags (cigar.take r.c_pos) := by
  have hlt : st.c_pos < cigar.length := by
    by_contra hn
    rw [List.take_of_length_le (by omega)] at hact
    omega
  have ht := readAt_eq_getD cigar st.c_pos 'N' hlt
  obtain ⟨-, hmem, htk⟩ := take_succ_of_readAt cigar st.c_pos _ ht
  have hle := storedBases_take_le cigar (st.c_pos + 1)
  generalize cigar.getD st.c_pos 'N' = t at ht hmem htk
  rw [htk, storedBases_snoc] at hle
  obtain ⟨r, hr⟩ := noOverlapMergeOn_returns cigar bases quals st t ht (htags t hmem) (by
    intro hmi
    have : (if t = 'M' ∨ t = 'I' ∨ t = 'S' then 1 else 0) = 1 := by
      rcases hmi with rfl | rfl <;> simp
    omega)
  obtain ⟨f1, f2, f3, f4⟩ := noOverlapMergeOn_facts cigar bases quals st r t ht hr
  refine ⟨r, hr, f1, by omega, ?_, ?_, ?_, ?_, ?_⟩
  · rw [f1, htk, storedBases_snoc, f2, hsb]
  · rw [f1, htk, refTags_snoc, f3]
    push_cast
    ring
  · rw [f3]
    split_ifs <;> omega
  · rw [f3]
    split_ifs <;> omega
  · rw [f1, htk, mdTags_snoc, f4]
    omega

theorem overlapMergeOn_facts (T : QualityTables) (cigar1 bases1 : List Char)
    (quals1 : List Int) (cigar2 bases2 : List Char) (quals2 : List Int) (st r : MergeState)
    (t1 t2 : Char) (h1 : readAt cigar1 st.c_pos1 = .ok t1) (h2 : readAt cigar2 st.c_pos2 = .ok t2)
    (hc1 : t1 ∈ cigarTags) (hc2 : t2 ∈ cigarTags)
    (h : overlapMergeOn T cigar1 bases1 quals1 cigar2 bases2 quals2 st = .ok r) :
    r.c_pos1 = st.c_pos1 + (if t1 = 'I' ∨ t2 ≠ 'I' then 1 else 0) ∧
    r.c_pos2 = st.c_pos2 + (if t2 = 'I' ∨ t1 ≠ 'I' then 1 else 0) ∧
    r.q_pos1 = st.q_pos1 +
      (if (t1 = 'I' ∨ t2 ≠ 'I') ∧ (t1 = 'M' ∨ t1 = 'I' ∨ t1 = 'S') then 1 else 0) ∧
    r.q_pos2 = st.q_pos2 +
      (if (t2 = 'I' ∨ t1 ≠ 'I') ∧ (t2 = 'M' ∨ t2 = 'I' ∨ t2 = 'S') then 1 else 0) ∧
    r.ref_pos = st.ref_pos + (if t1 ≠ 'I' ∧ t2 ≠ 'I' then 1 else 0) ∧
    mdTags r.nucigar = mdTags st.nucigar +
      (if t1 ≠ 'I' ∧ t2 ≠ 'I' ∧ (t1 = 'M' ∨ t1 = 'D' ∨ t2 = 'M' ∨ t2 = 'D') then 1 else 0) := by
  simp only [cigarTags, List.mem_cons, List.mem_singleton, List.not_mem_nil, or_false] at hc1 hc2
  unfold overlapMergeOn at h
  rw [h1, h2] at h
  simp only [ok_bind] at h
  rcases hc1 with rfl | rfl | rfl | rfl | rfl <;> rcases hc2 with rfl | rfl | rfl | rfl | rfl <;>
    simp only [Char.reduceEq, ne_eq, and_self, and_false, false_and, or_false, false_or, or_true,
      true_or, if_true, if_false, not_true_eq_false, not_false_eq_true, and_true, true_and,
      or_self] at h <;>
    first
    | (cases h
       simp [mdTags_snoc])
    | (obtain ⟨b1, -, h⟩ := bind_eq_ok _ _ _ h
       obtain ⟨q1, -, h⟩ := bind_eq_ok _ _ _ h
       obtain ⟨b2, -, h⟩ := bind_eq_ok _ _ _ h
       obtain ⟨q2, -, h⟩ := bind_eq_ok _ _ _ h
       simp only [pure_bind] at h
       cases h
       simp [mdTags_snoc])
    | (obtain ⟨b, -, h⟩ := bind_eq_ok _ _ _ h
       obtain ⟨q, -, h⟩ := bind_eq_ok _ _ _ h
       cases h
       simp [mdTags_snoc])

theorem overlapMergeOn_returns (T : QualityTables) (cigar1 bases1 : List Char)
    (quals1 : List Int) (cigar2 bases2 : List Char) (quals2 : List Int) (st : MergeState)
    (c1 c2 : Char) (h1 : readAt cigar1 st.c_pos1 = .ok c1) (h2 : readAt cigar2 st.c_pos2 = .ok c2)
    (hc1 : c1 ∈ cigarTags) (hc2 : c2 ∈ cigarTags)
    (hr1 : c1 = 'M' ∨ c1 = 'I' → st.q_pos1 < bases1.length ∧ st.q_pos1 < quals1.length)
    (hr2 : c2 = 'M' ∨ c2 = 'I' → st.q_pos2 < bases2.length ∧ st.q_pos2 < quals2.length) :
    ∃ r, overlapMergeOn T cigar1 bases1 quals1 cigar2 bases2 quals2 st = .ok r := by
  simp only [cigarTags, List.mem_cons, List.mem_singleton, List.not_mem_nil, or_false] at hc1 hc2
  rcases hc1 with rfl | rfl | rfl | rfl | rfl <;> rcases hc2 with rfl | rfl | rfl | rfl | rfl <;>
    simp only [Char.reduceEq, or_true, true_or, or_false, false_or, true_implies,
      false_implies] at hr1 hr2 <;>
    first
    | (obtain ⟨a1, a2⟩ := hr1
       obtain ⟨a3, a4⟩ := hr2
       simp [overlapMergeOn, h1, h2, readAt_eq_getD _ _ 'N' a1, readAt_eq_getD _ _ 0 a2,
         readAt_eq_getD _ _ 'N' a3, readAt_eq_getD _ _ 0 a4, bind, Except.bind, pure, Except.pure])
    | (obtain ⟨a1, a2⟩ := hr1
       simp [overlapMergeOn, h1, h2, readAt_eq_getD _ _ 'N' a1, readAt_eq_getD _ _ 0 a2,
         bind, Except.bind, pure, Except.pure])
    | (obtain ⟨a3, a4⟩ := hr2
       simp [overlapMergeOn, h1, h2, readAt_eq_getD _ _ 'N' a3, readAt_eq_getD _ _ 0 a4,
         bind, Except.bind, pure, Except.pure])
    | simp [overlapMergeOn, h1, h2, bind, Except.bind, pure, Except.pure]

theorem read_in_range (cigar : List Char) (c q len : Nat) (t : Char)
    (htk : cigar.take (c + 1) = cigar.take c ++ [t])
    (hsb : storedBases (cigar.take c) = q) (hlen : storedBases cigar = len)
    (hmi : t = 'M' ∨ t = 'I') : q < len := by
  have hle := storedBases_take_le cigar (c + 1)
  rw [htk, storedBases_snoc] at hle
  have : (if t = 'M' ∨ t = 'I' ∨ t = 'S' then 1 else 0) = 1 := by
    rcases hmi with rfl | rfl <;> simp
  omega

theorem overlapMergeOn_total (T : QualityTables) (cigar1 bases1 : List Char)
    (quals1 : List Int) (cigar2 bases2 : List Char) (quals2 : List Int) (st : MergeState)
    (htags1 : ∀ t ∈ cigar1, t ∈ cigarTags) (htags2 : ∀ t ∈ cigar2, t ∈ cigarTags)
    (hb1 : storedBases cigar1 = bases1.length) (hq1 : storedBases cigar1 = quals1.length)
    (hb2 : storedBases cigar2 = bases2.length) (hq2 : storedBases cigar2 = quals2.length)
    (hsb1 : storedBases (cigar1.take st.c_pos1) = st.q_pos1)
    (hsb2 : storedBases (cigar2.take st.c_pos2) = st.q_pos2)
    (hact1 : refTags (cigar1.take st.c_pos1) < refTags cigar1)
    (hact2 : refTags (cigar2.take st.c_pos2) < refTags cigar2) :
    ∃ r, overlapMergeOn T cigar1 bases1 quals1 cigar2 bases2 quals2 st = .ok r ∧
      st.c_pos1 ≤ r.c_pos1 ∧ r.c_pos1 ≤ cigar1.length ∧
      st.c_pos2 ≤ r.c_pos2 ∧ r.c_pos2 ≤ cigar2.length ∧
      st.c_pos1 + st.c_pos2 < r.c_pos1 + r.c_pos2 ∧
      storedBases (cigar1.take r.c_pos1) = r.q_pos1 ∧
      storedBases (cigar2.take r.c_pos2) = r.q_pos2 ∧
      r.ref_pos + refTags (cigar1.take st.c_pos1) = st.ref_pos + refTags (cigar1.take r.c_pos1) ∧
      r.ref_pos + refTags (cigar2.take st.c_pos2) = st.ref_pos + refTags (cigar2.take r.c_pos2) ∧
      st.ref_pos ≤ r.ref_pos ∧ r.ref_pos ≤ st.ref_pos + 1 ∧
      mdTags r.nucigar = mdTags st.nucigar +
        max (mdTags (cigar1.take r.c_pos1) - mdTags (cigar1.take st.c_pos1))
          (mdTags (cigar2.take r.c_pos2) - mdTags (cigar2.take st.c_pos2)) := by
  have hlt1 : st.c_pos1 < cigar1.length := by
    by_contra hn
    rw [List.take_of_length_le (by omega)] at hact1
    omega
  have hlt2 : st.c_pos2 < cigar2.length := by
    by_contra hn
    rw [List.take_of_length_le (by omega)] at hact2
    omega
  have ht1 := readAt_eq_getD cigar1 st.c_pos1 'N' hlt1
  have ht2 := readAt_eq_getD cigar2 st.c_pos2 'N' hlt2
  obtain ⟨-, hmem1, htk1⟩ := take_succ_of_readAt cigar1 st.c_pos1 _ ht1
  obtain ⟨-, hmem2, htk2⟩ := take_succ_of_readAt cigar2 st.c_pos2 _ ht2
  generalize cigar1.getD st.c_pos1 'N' = t1 at ht1 hmem1 htk1
  generalize cigar2.getD st.c_pos2 'N' = t2 at ht2 hmem2 htk2
  have hc1 := htags1 t1 hmem1
  have hc2 := htags2 t2 hmem2
  obtain ⟨r, hr⟩ := overlapMergeOn_returns T cigar1 bases1 quals1 cigar2 bases2 quals2 st t1 t2
    ht1 ht2 hc1 hc2
    (fun hmi => ⟨read_in_range cigar1 _ _ _ t1 htk1 hsb1 hb1 hmi,
      read_in_range cigar1 _ _ _ t1 htk1 hsb1 hq1 hmi⟩)
    (fun hmi => ⟨read_in_range cigar2 _ _ _ t2 htk2 hsb2 hb2 hmi,
      read_in_range cigar2 _ _ _ t2 htk2 hsb2 hq2 hmi⟩)
  obtain ⟨f1, f2, f3, f4, f5, f6⟩ := overlapMergeOn_facts T cigar1 bases1 quals1 cigar2 bases2
    quals2 st r t1 t2 ht1 ht2 hc1 hc2 hr
  refine ⟨r, hr, ?_⟩
  simp only [cigarTags, List.mem_cons, List.mem_singleton, List.not_mem_nil, or_false] at hc1 hc2
  rcases hc1 with rfl | rfl | rfl | rfl | rfl <;> rcases hc2 with rfl | rfl | rfl | rfl | rfl <;>
    simp only [Char.reduceEq, ne_eq, and_self, and_false, false_and, or_false, false_or, or_true,
      true_or, if_true, if_false, not_true_eq_false, not_false_eq_true, and_true, true_and,
      or_self, add_zero] at f1 f2 f3 f4 f5 f6 <;>
    rw [f1, f2, f3, f4, f5, f6] <;>
    simp [htk1, htk2, refTags_snoc, mdTags_snoc, storedBases_snoc, hsb1, hsb2] <;>
    omega

theorem whileLoop_total {σ : Type} (cond : σ → Bool) (body : σ → Except MergeError σ)
    (P : σ → Prop) (μ : σ → Nat)
    (hstep : ∀ s, P s → cond s = true → ∃ r, body s = .ok r ∧ P r ∧ μ r < μ s) :
    ∀ (fuel : Nat) (s : σ), P s → μ s < fuel →
      ∃ r, whileLoop cond body fuel s = .ok r ∧ P r ∧ cond r = false := by
  intro fuel
  induction fuel with
  | zero => intro s _ h; omega
  | succ n ih =>
    intro s hs hμ
    cases hc : cond s with
    | false => exact ⟨s, by simp [whileLoop, hc], hs, hc⟩
    | true =>
      obtain ⟨r, hr, hP, hlt⟩ := hstep s hs hc
      obtain ⟨r2, h2, hP2, hc2⟩ := ih r hP (by omega)
      refine ⟨r2, ?_, hP2, hc2⟩
      simp only [whileLoop, hc, if_true, hr]
      exact h2

theorem solo1_loop_total (cigar1 bases1 : List Char) (quals1 : List Int) (s1 e1 : Int)
    (hok : SourceOk cigar1 bases1 quals1 s1 e1)
    (cond : MergeState → Bool) (hcond : ∀ st, cond st = true → st.ref_pos ≤ e1)
    (Q : MergeState → Prop)
    (hQ : ∀ st r : MergeState, Q st → cond st = true →
      SrcInv cigar1 s1 st.c_pos1 st.q_pos1 st.ref_pos →
      SrcInv cigar1 s1 r.c_pos1 r.q_pos1 r.ref_pos →
      r.c_pos1 = st.c_pos1 + 1 → r.c_pos2 = st.c_pos2 → r.q_pos2 = st.q_pos2 →
      st.ref_pos ≤ r.ref_pos → r.ref_pos ≤ st.ref_pos + 1 →
      mdTags r.nucigar + mdTags (cigar1.take st.c_pos1) =
        mdTags st.nucigar + mdTags (cigar1.take r.c_pos1) → Q r)
    (fuel : Nat) (st : MergeState) (hinv : SrcInv cigar1 s1 st.c_pos1 st.q_pos1 st.ref_pos)
    (hq : Q st) (hfuel : cigar1.length < fuel) :
    ∃ r, whileLoop cond
        (fun st => (noOverlapMergeOn cigar1 bases1 quals1 st.solo1).map st.setSolo1) fuel st =
          .ok r ∧
      SrcInv cigar1 s1 r.c_pos1 r.q_pos1 r.ref_pos ∧ Q r ∧ cond r = false := by
  obtain ⟨htags, href, hb, hqq⟩ := hok
  have := whileLoop_total cond
    (fun st => (noOverlapMergeOn cigar1 bases1 quals1 st.solo1).map st.setSolo1)
    (fun st => SrcInv cigar1 s1 st.c_pos1 st.q_pos1 st.ref_pos ∧ Q st)
    (fun st => cigar1.length - st.c_pos1) (by
      rintro s ⟨⟨i1, i2, i3⟩, hQs⟩ hc
      have hr := hcond s hc
      obtain ⟨r, hr1, g1, g2, g3, g4, g5, g6, g7⟩ :=
        noOverlapMergeOn_total cigar1 bases1 quals1 s.solo1 htags hb hqq i3 (by
          show refTags (cigar1.take s.c_pos1) < refTags cigar1
          omega)
      have hinv2 : SrcInv cigar1 s1 r.c_pos r.q_pos r.ref_pos := by
        refine ⟨g2, ?_, g3⟩
        have : r.ref_pos + refTags (cigar1.take s.c_pos1) =
            s.ref_pos + refTags (cigar1.take r.c_pos) := g4
        omega
      refine ⟨s.setSolo1 r, ?_, ⟨hinv2, ?_⟩, ?_⟩
      · simp only [hr1, Except.map]
      · exact hQ s (s.setSolo1 r) hQs hc ⟨i1, i2, i3⟩ hinv2 g1 rfl rfl g5 g6 g7
      · show cigar1.length - r.c_pos < cigar1.length - s.c_pos1
        have : r.c_pos = s.c_pos1 + 1 := g1
        omega) fuel st ⟨hinv, hq⟩ (by
      show cigar1.length - st.c_pos1 < fuel
      omega)
  obtain ⟨r, h1, ⟨h2, h3⟩, h4⟩ := this
  exact ⟨r, h1, h2, h3, h4⟩

theorem solo2_loop_total (cigar2 bases2 : List Char) (quals2 : List Int) (s2 e2 : Int)
    (hok : SourceOk cigar2 bases2 quals2 s2 e2)
    (cond : MergeState → Bool) (hcond : ∀ st, cond st = true → st.ref_pos ≤ e2)
    (Q : MergeState → Prop)
    (hQ : ∀ st r : MergeState, Q st → cond st = true →
      SrcInv cigar2 s2 st.c_pos2 st.q_pos2 st.ref_pos →
      SrcInv cigar2 s2 r.c_pos2 r.q_pos2 r.ref_pos →
      r.c_pos2 = st.c_pos2 + 1 → r.c_pos1 = st.c_pos1 → r.q_pos1 = st.q_pos1 →
      st.ref_pos ≤ r.ref_pos → r.ref_pos ≤ st.ref_pos + 1 →
      mdTags r.nucigar + mdTags (cigar2.take st.c_pos2) =
        mdTags st.nucigar + mdTags (cigar2.take r.c_pos2) → Q r)
    (fuel : Nat) (st : MergeState) (hinv : SrcInv cigar2 s2 st.c_pos2 st.q_pos2 st.ref_pos)
    (hq : Q st) (hfuel : cigar2.length < fuel) :
    ∃ r, whileLoop cond
        (fun st => (noOverlapMergeOn cigar2 bases2 quals2 st.solo2).map st.setSolo2) fuel st =
          .ok r ∧
      SrcInv cigar2 s2 r.c_pos2 r.q_pos2 r.ref_pos ∧ Q r ∧ cond r = false := by
  obtain ⟨htags, href, hb, hqq⟩ := hok
  have := whileLoop_total cond
    (fun st => (noOverlapMergeOn cigar2 bases2 quals2 st.solo2).map st.setSolo2)
    (fun st => SrcInv cigar2 s2 st.c_pos2 st.q_pos2 st.ref_pos ∧ Q st)
    (fun st => cigar2.length - st.c_pos2) (by
      rintro s ⟨⟨i1, i2, i3⟩, hQs⟩ hc
      have hr := hcond s hc
      obtain ⟨r, hr1, g1, g2, g3, g4, g5, g6, g7⟩ :=
        noOverlapMergeOn_total cigar2 bases2 quals2 s.solo2 htags hb hqq i3 (by
          show refTags (cigar2.take s.c_pos2) < refTags cigar2
          omega)
      have hinv2 : SrcInv cigar2 s2 r.c_pos r.q_pos r.ref_pos := by
        refine ⟨g2, ?_, g3⟩
        have : r.ref_pos + refTags (cigar2.take s.c_pos2) =
            s.ref_pos + refTags (cigar2.take r.c_pos) := g4
        omega
      refine ⟨s.setSolo2 r, ?_, ⟨hinv2, ?_⟩, ?_⟩
      · simp only [hr1, Except.map]
      · exact hQ s (s.setSolo2 r) hQs hc ⟨i1, i2, i3⟩ hinv2 g1 rfl rfl g5 g6 g7
      · show cigar2.length - r.c_pos < cigar2.length - s.c_pos2
        have : r.c_pos = s.c_pos2 + 1 := g1
        omega) fuel st ⟨hinv, hq⟩ (by
      show cigar2.length - st.c_pos2 < fuel
      omega)
  obtain ⟨r, h1, ⟨h2, h3⟩, h4⟩ := this
  exact ⟨r, h1, h2, h3, h4⟩

theorem joint_loop_total (T : QualityTables) (cigar1 bases1 : List Char) (quals1 : List Int)
    (s1 e1 : Int) (cigar2 bases2 : List Char) (quals2 : List Int) (s2 e2 : Int)
    (hok1 : SourceOk cigar1 bases1 quals1 s1 e1) (hok2 : SourceOk cigar2 bases2 quals2 s2 e2)
    (cond : MergeState → Bool)
    (hcond : ∀ st, cond st = true → st.ref_pos ≤ e1 ∧ st.ref_pos ≤ e2)
    (Q : MergeState → Prop)
    (hQ : ∀ st r : MergeState, Q st → cond st = true →
      SrcInv cigar1 s1 st.c_pos1 st.q_pos1 st.ref_pos →
      SrcInv cigar2 s2 st.c_pos2 st.q_pos2 st.ref_pos →
      SrcInv cigar1 s1 r.c_pos1 r.q_pos1 r.ref_pos →
      SrcInv cigar2 s2 r.c_pos2 r.q_pos2 r.ref_pos →
      st.c_pos1 ≤ r.c_pos1 → st.c_pos2 ≤ r.c_pos2 →
      st.ref_pos ≤ r.ref_pos → r.ref_pos ≤ st.ref_pos + 1 →
      mdTags r.nucigar = mdTags st.nucigar +
        max (mdTags (cigar1.take r.c_pos1) - mdTags (cigar1.take st.c_pos1))
          (mdTags (cigar2.take r.c_pos2) - mdTags (cigar2.take st.c_pos2)) → Q r)
    (fuel : Nat) (st : MergeState)
    (hinv1 : SrcInv cigar1 s1 st.c_pos1 st.q_pos1 st.ref_pos)
    (hinv2 : SrcInv cigar2 s2 st.c_pos2 st.q_pos2 st.ref_pos)
    (hq : Q st) (hfuel : cigar1.length + cigar2.length < fuel) :
    ∃ r, whileLoop cond (overlapMergeOn T cigar1 bases1 quals1 cigar2 bases2 quals2) fuel st =
          .ok r ∧
      SrcInv cigar1 s1 r.c_pos1 r.q_pos1 r.ref_pos ∧
      SrcInv cigar2 s2 r.c_pos2 r.q_pos2 r.ref_pos ∧ Q r ∧ cond r = false := by
  obtain ⟨htags1, href1, hb1, hq1⟩ := hok1
  obtain ⟨htags2, href2, hb2, hq2⟩ := hok2
  have := whileLoop_total cond (overlapMergeOn T cigar1 bases1 quals1 cigar2 bases2 quals2)
    (fun st => SrcInv cigar1 s1 st.c_pos1 st.q_pos1 st.ref_pos ∧
      SrcInv cigar2 s2 st.c_pos2 st.q_pos2 st.ref_pos ∧ Q st)
    (fun st => (cigar1.length - st.c_pos1) + (cigar2.length - st.c_pos2)) (by
      rintro s ⟨⟨i1, i2, i3⟩, ⟨j1, j2, j3⟩, hQs⟩ hc
      obtain ⟨hr1, hr2⟩ := hcond s hc
      obtain ⟨r, hr, g1, g2, g3, g4, g5, g6, g7, g8, g9, g10, g11, g12⟩ :=
        overlapMergeOn_total T cigar1 bases1 quals1 cigar2 bases2 quals2 s htags1 htags2 hb1 hq1
          hb2 hq2 i3 j3 (by omega) (by omega)
      have n1 : SrcInv cigar1 s1 r.c_pos1 r.q_pos1 r.ref_pos := ⟨g2, by omega, g6⟩
      have n2 : SrcInv cigar2 s2 r.c_pos2 r.q_pos2 r.ref_pos := ⟨g4, by omega, g7⟩
      refine ⟨r, hr, ⟨n1, n2, ?_⟩, ?_⟩
      · exact hQ s r hQs hc ⟨i1, i2, i3⟩ ⟨j1, j2, j3⟩ n1 n2 g1 g3 g10 g11 g12
      · show (cigar1.length - r.c_pos1) + (cigar2.length - r.c_pos2) <
          (cigar1.length - s.c_pos1) + (cigar2.length - s.c_pos2)
        omega) fuel st ⟨hinv1, hinv2, hq⟩ (by
      show (cigar1.length - st.c_pos1) + (cigar2.length - st.c_pos2) < fuel
      omega)
  obtain ⟨r, h1, ⟨h2, h3, h4⟩, h5⟩ := this
  exact ⟨r, h1, h2, h3, h4, h5⟩

theorem srcInv_start (cigar : List Char) (s : Int) : SrcInv cigar s 0 0 s :=
  ⟨Nat.zero_le _, by simp [refTags], by simp [storedBases]⟩

theorem mergePhases_total (T : QualityTables) (cigar1 bases1 : List Char) (quals1 : List Int)
    (s1 e1 : Int) (cigar2 bases2 : List Char) (quals2 : List Int) (s2 e2 : Int)
    (hok1 : SourceOk cigar1 bases1 quals1 s1 e1) (hok2 : SourceOk cigar2 bases2 quals2 s2 e2)
    (hr1 : s2 ≤ e1 + 1) (hr2 : s1 ≤ e2 + 1)
    (E : Nat → Int → Prop) (hE0 : E 0 (min s1 s2))
    (hE1 : ∀ (n n' c : Nat) (r r' : Int), E n r → c < cigar1.length →
      ((refTags (cigar1.take c) : Nat) : Int) = r - s1 →
      ((refTags (cigar1.take (c + 1)) : Nat) : Int) = r' - s1 → r ≤ r' → r' ≤ r + 1 →
      n' + mdTags (cigar1.take c) = n + mdTags (cigar1.take (c + 1)) →
      (r < s2 ∨ e2 < r) → E n' r')
    (hE2 : ∀ (n n' c : Nat) (r r' : Int), E n r → c < cigar2.length →
      ((refTags (cigar2.take c) : Nat) : Int) = r - s2 →
      ((refTags (cigar2.take (c + 1)) : Nat) : Int) = r' - s2 → r ≤ r' → r' ≤ r + 1 →
      n' + mdTags (cigar2.take c) = n + mdTags (cigar2.take (c + 1)) →
      (r < s1 ∨ e1 < r) → E n' r')
    (hEJ : ∀ (n n' c1 c1' c2 c2' : Nat) (r r' : Int), E n r →
      c1 ≤ c1' → c1' ≤ cigar1.length → c2 ≤ c2' → c2' ≤ cigar2.length →
      ((refTags (cigar1.take c1) : Nat) : Int) = r - s1 →
      ((refTags (cigar1.take c1') : Nat) : Int) = r' - s1 →
      ((refTags (cigar2.take c2) : Nat) : Int) = r - s2 →
      ((refTags (cigar2.take c2') : Nat) : Int) = r' - s2 → r ≤ r' → r' ≤ r + 1 →
      n' = n + max (mdTags (cigar1.take c1') - mdTags (cigar1.take c1))
        (mdTags (cigar2.take c2') - mdTags (cigar2.take c2)) → E n' r')
    (fuel : Nat) (hfuel : cigar1.length + cigar2.length < fuel) :
    ∃ fin, mergePhases
        (fun st => (noOverlapMergeOn cigar1 bases1 quals1 st.solo1).map st.setSolo1)
        (fun st => (noOverlapMergeOn cigar2 bases2 quals2 st.solo2).map st.setSolo2)
        (overlapMergeOn T cigar1 bases1 quals1 cigar2 bases2 quals2)
        fuel s1 e1 s2 e2 = .ok fin ∧
      E (mdTags fin.nucigar) fin.ref_pos ∧ e1 < fin.ref_pos ∧ e2 < fin.ref_pos := by
  have q1 : ∀ st r : MergeState, E (mdTags st.nucigar) st.ref_pos →
      SrcInv cigar1 s1 st.c_pos1 st.q_pos1 st.ref_pos →
      SrcInv cigar1 s1 r.c_pos1 r.q_pos1 r.ref_pos →
      r.c_pos1 = st.c_pos1 + 1 → st.ref_pos ≤ r.ref_pos → r.ref_pos ≤ st.ref_pos + 1 →
      mdTags r.nucigar + mdTags (cigar1.take st.c_pos1) =
        mdTags st.nucigar + mdTags (cigar1.take r.c_pos1) →
      (st.ref_pos < s2 ∨ e2 < st.ref_pos) → E (mdTags r.nucigar) r.ref_pos := by
    intro st r hE i j hc a b hm hp
    rw [hc] at j hm
    exact hE1 _ _ st.c_pos1 _ _ hE (by have := j.1; omega) i.2.1 j.2.1 a b hm hp
  have q2 : ∀ st r : MergeState, E (mdTags st.nucigar) st.ref_pos →
      SrcInv cigar2 s2 st.c_pos2 st.q_pos2 st.ref_pos →
      SrcInv cigar2 s2 r.c_pos2 r.q_pos2 r.ref_pos →
      r.c_pos2 = st.c_pos2 + 1 → st.ref_pos ≤ r.ref_pos → r.ref_pos ≤ st.ref_pos + 1 →
      mdTags r.nucigar + mdTags (cigar2.take st.c_pos2) =
        mdTags st.nucigar + mdTags (cigar2.take r.c_pos2) →
      (st.ref_pos < s1 ∨ e1 < st.ref_pos) → E (mdTags r.nucigar) r.ref_pos := by
    intro st r hE i j hc a b hm hp
    rw [hc] at j hm
    exact hE2 _ _ st.c_pos2 _ _ hE (by have := j.1; omega) i.2.1 j.2.1 a b hm hp
  have jl : ∀ (bound : Int), bound ≤ e1 → bound ≤ e2 → ∀ st : MergeState,
      SrcInv cigar1 s1 st.c_pos1 st.q_pos1 st.ref_pos →
      SrcInv cigar2 s2 st.c_pos2 st.q_pos2 st.ref_pos → E (mdTags st.nucigar) st.ref_pos →
      ∃ r, whileLoop (fun st : MergeState => decide (st.ref_pos ≤ bound))
          (overlapMergeOn T cigar1 bases1 quals1 cigar2 bases2 quals2) fuel st = .ok r ∧
        SrcInv cigar1 s1 r.c_pos1 r.q_pos1 r.ref_pos ∧
        SrcInv cigar2 s2 r.c_pos2 r.q_pos2 r.ref_pos ∧ E (mdTags r.nucigar) r.ref_pos ∧
        bound < r.ref_pos := by
    intro bound b1 b2 st i1 i2 hE
    obtain ⟨r, h, a, b, c, d⟩ := joint_loop_total T cigar1 bases1 quals1 s1 e1 cigar2 bases2
      quals2 s2 e2 hok1 hok2 (fun st : MergeState => decide (st.ref_pos ≤ bound))
      (fun st hc => by
        have : st.ref_pos ≤ bound := of_decide_eq_true hc
        constructor <;> omega)
      (fun st => E (mdTags st.nucigar) st.ref_pos)
      (fun st r hq _ i j i' j' m1 m2 m3 m4 m5 =>
        hEJ _ _ _ _ _ _ _ _ hq m1 i'.1 m2 j'.1 i.2.1 i'.2.1 j.2.1 j'.2.1 m3 m4 m5)
      fuel st i1 i2 hE hfuel
    have : ¬ r.ref_pos ≤ bound := of_decide_eq_false d
    exact ⟨r, h, a, b, c, by omega⟩
  have t1 : ∀ st : MergeState, SrcInv cigar1 s1 st.c_pos1 st.q_pos1 st.ref_pos →
      e2 < st.ref_pos → E (mdTags st.nucigar) st.ref_pos →
      ∃ r, whileLoop (fun st : MergeState => decide (st.ref_pos ≤ e1))
          (fun st => (noOverlapMergeOn cigar1 bases1 quals1 st.solo1).map st.setSolo1)
          fuel st = .ok r ∧ E (mdTags r.nucigar) r.ref_pos ∧ e1 < r.ref_pos ∧
        e2 < r.ref_pos := by
    intro st i1 hgt hE
    obtain ⟨r, h, -, ⟨b1, b2⟩, d⟩ := solo1_loop_total cigar1 bases1 quals1 s1 e1 hok1
      (fun st : MergeState => decide (st.ref_pos ≤ e1)) (fun st hc => of_decide_eq_true hc)
      (fun st => e2 < st.ref_pos ∧ E (mdTags st.nucigar) st.ref_pos)
      (fun st r hq _ i j hc _ _ m1 m2 m3 =>
        ⟨by have := hq.1; omega, q1 st r hq.2 i j hc m1 m2 m3 (Or.inr hq.1)⟩)
      fuel st i1 ⟨hgt, hE⟩ (by omega)
    have : ¬ r.ref_pos ≤ e1 := of_decide_eq_false d
    exact ⟨r, h, b2, by omega, b1⟩
  have t2 : ∀ st : MergeState, SrcInv cigar2 s2 st.c_pos2 st.q_pos2 st.ref_pos →
      e1 < st.ref_pos → E (mdTags st.nucigar) st.ref_pos →
      ∃ r, whileLoop (fun st : MergeState => decide (st.ref_pos ≤ e2))
          (fun st => (noOverlapMergeOn cigar2 bases2 quals2 st.solo2).map st.setSolo2)
          fuel st = .ok r ∧ E (mdTags r.nucigar) r.ref_pos ∧ e1 < r.ref_pos ∧
        e2 < r.ref_pos := by
    intro st i2 hgt hE
    obtain ⟨r, h, -, ⟨b1, b2⟩, d⟩ := solo2_loop_total cigar2 bases2 quals2 s2 e2 hok2
      (fun st : MergeState => decide (st.ref_pos ≤ e2)) (fun st hc => of_decide_eq_true hc)
      (fun st => e1 < st.ref_pos ∧ E (mdTags st.nucigar) st.ref_pos)
      (fun st r hq _ i j hc _ _ m1 m2 m3 =>
        ⟨by have := hq.1; omega, q2 st r hq.2 i j hc m1 m2 m3 (Or.inr hq.1)⟩)
      fuel st i2 ⟨hgt, hE⟩ (by omega)
    have : ¬ r.ref_pos ≤ e2 := of_decide_eq_false d
    exact ⟨r, h, b2, b1, by omega⟩
  have l1 : s1 ≤ s2 →
      ∃ r, whileLoop (fun st : MergeState => decide (st.ref_pos < s2))
          (fun st => (noOverlapMergeOn cigar1 bases1 quals1 st.solo1).map st.setSolo1)
          fuel ⟨[], [], [], 0, 0, 0, 0, s1⟩ = .ok r ∧
        SrcInv cigar1 s1 r.c_pos1 r.q_pos1 r.ref_pos ∧
        SrcInv cigar2 s2 r.c_pos2 r.q_pos2 r.ref_pos ∧ E (mdTags r.nucigar) r.ref_pos := by
    intro hs
    obtain ⟨r, h, a, ⟨z1, z2, z3, z4⟩, d⟩ := solo1_loop_total cigar1 bases1 quals1 s1 e1 hok1
      (fun st : MergeState => decide (st.ref_pos < s2))
      (fun st hc => by
        have : st.ref_pos < s2 := of_decide_eq_true hc
        omega)
      (fun st => st.c_pos2 = 0 ∧ st.q_pos2 = 0 ∧ st.ref_pos ≤ s2 ∧
        E (mdTags st.nucigar) st.ref_pos)
      (fun st r hq hc i j hcp c2 q2' m1 m2 m3 => by
        have hlt : st.ref_pos < s2 := of_decide_eq_true hc
        exact ⟨by rw [c2, hq.1], by rw [q2', hq.2.1], by omega,
          q1 st r hq.2.2.2 i j hcp m1 m2 m3 (Or.inl hlt)⟩)
      fuel ⟨[], [], [], 0, 0, 0, 0, s1⟩ (srcInv_start cigar1 s1)
      ⟨rfl, rfl, hs, by rw [min_eq_left hs] at hE0; exact hE0⟩ (by omega)
    have hn : ¬ r.ref_pos < s2 := of_decide_eq_false d
    have he : r.ref_pos = s2 := by omega
    refine ⟨r, h, a, ?_, z4⟩
    rw [z1, z2, he]
    exact srcInv_start cigar2 s2
  have l2 : s2 ≤ s1 →
      ∃ r, whileLoop (fun st : MergeState => decide (st.ref_pos < s1))
          (fun st => (noOverlapMergeOn cigar2 bases2 quals2 st.solo2).map st.setSolo2)
          fuel ⟨[], [], [], 0, 0, 0, 0, s2⟩ = .ok r ∧
        SrcInv cigar1 s1 r.c_pos1 r.q_pos1 r.ref_pos ∧
        SrcInv cigar2 s2 r.c_pos2 r.q_pos2 r.ref_pos ∧ E (mdTags r.nucigar) r.ref_pos := by
    intro hs
    obtain ⟨r, h, a, ⟨z1, z2, z3, z4⟩, d⟩ := solo2_loop_total cigar2 bases2 quals2 s2 e2 hok2
      (fun st : MergeState => decide (st.ref_pos < s1))
      (fun st hc => by
        have : st.ref_pos < s1 := of_decide_eq_true hc
        omega)
      (fun st => st.c_pos1 = 0 ∧ st.q_pos1 = 0 ∧ st.ref_pos ≤ s1 ∧
        E (mdTags st.nucigar) st.ref_pos)
      (fun st r hq hc i j hcp c2 q2' m1 m2 m3 => by
        have hlt : st.ref_pos < s1 := of_decide_eq_true hc
        exact ⟨by rw [c2, hq.1], by rw [q2', hq.2.1], by omega,
          q2 st r hq.2.2.2 i j hcp m1 m2 m3 (Or.inl hlt)⟩)
      fuel ⟨[], [], [], 0, 0, 0, 0, s2⟩ (srcInv_start cigar2 s2)
      ⟨rfl, rfl, hs, by rw [min_eq_right hs] at hE0; exact hE0⟩ (by omega)
    have hn : ¬ r.ref_pos < s1 := of_decide_eq_false d
    have he : r.ref_pos = s1 := by omega
    refine ⟨r, h, ?_, a, z4⟩
    rw [z1, z2, he]
    exact srcInv_start cigar1 s1
  unfold mergePhases
  by_cases c1 : s1 ≤ s2 ∧ e1 ≤ e2
  · rw [if_pos c1]
    obtain ⟨st1, h1, i1, i2, hE⟩ := l1 c1.1
    obtain ⟨st2, h2, -, j2, hE2', hgt⟩ := jl e1 (le_refl _) c1.2 st1 i1 i2 hE
    obtain ⟨st3, h3, g⟩ := t2 st2 j2 hgt hE2'
    refine ⟨st3, ?_, g⟩
    simp only [h1, ok_bind, h2, h3]
  rw [if_neg c1]
  by_cases c2 : s1 ≤ s2 ∧ e1 ≥ e2
  · rw [if_pos c2]
    obtain ⟨st1, h1, i1, i2, hE⟩ := l1 c2.1
    obtain ⟨st2, h2, j1, -, hE2', hgt⟩ := jl e2 c2.2 (le_refl _) st1 i1 i2 hE
    obtain ⟨st3, h3, g⟩ := t1 st2 j1 hgt hE2'
    refine ⟨st3, ?_, g⟩
    simp only [h1, ok_bind, h2, h3]
  rw [if_neg c2]
  by_cases c3 : s1 ≥ s2 ∧ e1 ≤ e2
  · rw [if_pos c3]
    obtain ⟨st1, h1, i1, i2, hE⟩ := l2 c3.1
    obtain ⟨st2, h2, -, j2, hE2', hgt⟩ := jl e1 (le_refl _) c3.2 st1 i1 i2 hE
    obtain ⟨st3, h3, g⟩ := t2 st2 j2 hgt hE2'
    refine ⟨st3, ?_, g⟩
    simp only [h1, ok_bind, h2, h3]
  rw [if_neg c3]
  have c4 : s1 ≥ s2 ∧ e1 ≥ e2 := by
    constructor <;> omega
  rw [if_pos c4]
  obtain ⟨st1, h1, i1, i2, hE⟩ := l2 c4.1
  obtain ⟨st2, h2, j1, -, hE2', hgt⟩ := jl e2 c4.2 (le_refl _) st1 i1 i2 hE
  obtain ⟨st3, h3, g⟩ := t1 st2 j1 hgt hE2'
  refine ⟨st3, ?_, g⟩
  simp only [h1, ok_bind, h2, h3]

theorem singleLoops_on (T : QualityTables) (A B : AlignmentRecord) :
    singleLoops T A B 1 1 =
      mergePhases
        (fun st => (noOverlapMergeOn A.cigar1_unrolled A.sequence1.forward
          A.sequence1.forward_qualities st.solo1).map st.setSolo1)
        (fun st => (noOverlapMergeOn B.cigar1_unrolled B.sequence1.forward
          B.sequence1.forward_qualities st.solo2).map st.setSolo2)
        (overlapMergeOn T A.cigar1_unrolled A.sequence1.forward A.sequence1.forward_qualities
          B.cigar1_unrolled B.sequence1.forward B.sequence1.forward_qualities)
        (A.cigar1_unrolled.length + B.cigar1_unrolled.length + 1)
        (paddedStart A) (paddedEnd A) (paddedStart B) (paddedEnd B) := rfl

theorem singleLoops_total (T : QualityTables) (A B : AlignmentRecord)
    (hA : Consistent A) (hB : Consistent B)
    (h1 : paddedStart B ≤ paddedEnd A + 1) (h2 : paddedStart A ≤ paddedEnd B + 1)
    (E : Nat → Int → Prop) (hE0 : E 0 (min (paddedStart A) (paddedStart B)))
    (hE1 : ∀ (n n' c : Nat) (r r' : Int), E n r → c < A.cigar1_unrolled.length →
      ((refTags (A.cigar1_unrolled.take c) : Nat) : Int) = r - paddedStart A →
      ((refTags (A.cigar1_unrolled.take (c + 1)) : Nat) : Int) = r' - paddedStart A →
      r ≤ r' → r' ≤ r + 1 →
      n' + mdTags (A.cigar1_unrolled.take c) = n + mdTags (A.cigar1_unrolled.take (c + 1)) →
      (r < paddedStart B ∨ paddedEnd B < r) → E n' r')
    (hE2 : ∀ (n n' c : Nat) (r r' : Int), E n r → c < B.cigar1_unrolled.length →
      ((refTags (B.cigar1_unrolled.take c) : Nat) : Int) = r - paddedStart B →
      ((refTags (B.cigar1_unrolled.take (c + 1)) : Nat) : Int) = r' - paddedStart B →
      r ≤ r' → r' ≤ r + 1 →
      n' + mdTags (B.cigar1_unrolled.take c) = n + mdTags (B.cigar1_unrolled.take (c + 1)) →
      (r < paddedStart A ∨ paddedEnd A < r) → E n' r')
    (hEJ : ∀ (n n' c1 c1' c2 c2' : Nat) (r r' : Int), E n r →
      c1 ≤ c1' → c1' ≤ A.cigar1_unrolled.length → c2 ≤ c2' → c2' ≤ B.cigar1_unrolled.length →
      ((refTags (A.cigar1_unrolled.take c1) : Nat) : Int) = r - paddedStart A →
      ((refTags (A.cigar1_unrolled.take c1') : Nat) : Int) = r' - paddedStart A →
      ((refTags (B.cigar1_unrolled.take c2) : Nat) : Int) = r - paddedStart B →
      ((refTags (B.cigar1_unrolled.take c2') : Nat) : Int) = r' - paddedStart B →
      r ≤ r' → r' ≤ r + 1 →
      n' = n + max (mdTags (A.cigar1_unrolled.take c1') - mdTags (A.cigar1_unrolled.take c1))
        (mdTags (B.cigar1_unrolled.take c2') - mdTags (B.cigar1_unrolled.take c2)) → E n' r') :
    ∃ fin, A.mergeAlignmentRecordsSingle T B 1 1 = .ok (singleAssign A B 1 1 fin) ∧
      E (mdTags fin.nucigar) fin.ref_pos ∧ paddedEnd A < fin.ref_pos ∧
      paddedEnd B < fin.ref_pos := by
  obtain ⟨fin, hfin, g⟩ := mergePhases_total T A.cigar1_unrolled A.sequence1.forward
    A.sequence1.forward_qualities (paddedStart A) (paddedEnd A) B.cigar1_unrolled
    B.sequence1.forward B.sequence1.forward_qualities (paddedStart B) (paddedEnd B)
    hA.2 hB.2 h1 h2 E hE0 hE1 hE2 hEJ
    (A.cigar1_unrolled.length + B.cigar1_unrolled.length + 1) (by omega)
  refine ⟨fin, ?_, g⟩
  rw [mergeSingle_eq, singleLoops_on, hfin]
  simp [Except.map]

/-- C37: for two single-end records whose mate-1 CIGARs hold only the tags
`M`, `I`, `D`, `S`, `H` and are consistent with their data (one tag of `M`,
`D`, `S`, `H` per position of the padded interval, one base and one quality
per tag of `M`, `I`, `S`) and whose padded intervals overlap or are adjacent,
`mergeAlignmentRecordsSingle(ar, 1, 1)` returns a record: every loop ends
within its bound, no read of a CIGAR, base or quality is out of range, and
neither the fatal branch of a step nor the assertion of the cascade is
reached. -/
theorem mergeSingle_total (T : QualityTables) (A B : AlignmentRecord)
    (hA : Consistent A) (hB : Consistent B)
    (h1 : paddedStart B ≤ paddedEnd A + 1) (h2 : paddedStart A ≤ paddedEnd B + 1) :
    ∃ R, A.mergeAlignmentRecordsSingle T B 1 1 = .ok R := by
  obtain ⟨fin, h, -⟩ := singleLoops_total T A B hA hB h1 h2 (fun _ _ => True) trivial
    (fun _ _ _ _ _ _ _ _ _ _ _ _ _ => trivial) (fun _ _ _ _ _ _ _ _ _ _ _ _ _ => trivial)
    (fun _ _ _ _ _ _ _ _ _ _ _ _ _ _ _ _ _ _ _ _ => trivial)
  exact ⟨_, h⟩

theorem clippedA_consistent : Consistent clippedA :=
  ⟨rfl, by decide, by decide, by decide, by decide⟩

theorem insertionA_consistent : Consistent insertionA :=
  ⟨rfl, by decide, by decide, by decide, by decide⟩

theorem mergeSingle_total_witness :
    Consistent clippedA ∧ Consistent insertionA ∧
    ∃ R, clippedA.mergeAlignmentRecordsSingle sampleTables insertionA 1 1 = .ok R :=
  ⟨clippedA_consistent, insertionA_consistent,
    mergeSingle_total sampleTables clippedA insertionA clippedA_consistent insertionA_consistent
      (by decide) (by decide)⟩

theorem noFuel_ok {α : Type} (a : α) : NoFuel (Except.ok a : Except MergeError α) := by
  intro h; cases h

theorem noFuel_pure {α : Type} (a : α) : NoFuel (pure a : Except MergeError α) := by
  intro h; cases h

theorem noFuel_fault {α : Type} : NoFuel (Except.error .fault : Except MergeError α) := by
  intro h; cases h

theorem noFuel_readAt {α : Type} (v : List α) (i : Nat) : NoFuel (readAt v i) := by
  unfold readAt
  split
  · exact noFuel_ok _
  · exact noFuel_fault

theorem noFuel_bind {α β : Type} (x : Except MergeError α) (f : α → Except MergeError β)
    (hx : NoFuel x) (hf : ∀ a, x = .ok a → NoFuel (f a)) : NoFuel (x >>= f) := by
  cases x with
  | error e =>
    intro h
    apply hx
    cases e
    · cases h
    · rfl
  | ok a => exact hf a rfl

theorem noFuel_map {α β : Type} (x : Except MergeError α) (f : α → β) (hx : NoFuel x) :
    NoFuel (x.map f) := by
  cases x with
  | error e =>
    intro h
    apply hx
    cases e
    · cases h
    · rfl
  | ok a => exact noFuel_ok _

theorem noOverlapMergeOn_noFuel (cigar bases : List Char) (quals : List Int) (st : SoloState) :
    NoFuel (noOverlapMergeOn cigar bases quals st) := by
  unfold noOverlapMergeOn
  refine noFuel_bind _ _ (noFuel_readAt _ _) (fun c _ => ?_)
  split_ifs
  all_goals
    first
    | exact noFuel_pure _
    | exact noFuel_fault
    | exact noFuel_bind _ _ (noFuel_readAt _ _) (fun _ _ =>
        noFuel_bind _ _ (noFuel_readAt _ _) (fun _ _ => noFuel_pure _))

theorem overlapMergeOn_noFuel (T : QualityTables) (cigar1 bases1 : List Char)
    (quals1 : List Int) (cigar2 bases2 : List Char) (quals2 : List Int) (st : MergeState) :
    NoFuel (overlapMergeOn T cigar1 bases1 quals1 cigar2 bases2 quals2 st) := by
  unfold overlapMergeOn
  refine noFuel_bind _ _ (noFuel_readAt _ _) (fun c1 _ => ?_)
  refine noFuel_bind _ _ (noFuel_readAt _ _) (fun c2 _ => ?_)
  by_cases hB1 : (c1 = 'M' ∧ c2 = 'M') ∨ (c1 = 'S' ∧ c2 = 'S') ∨ (c1 = 'I' ∧ c2 = 'I')
  · rw [if_pos hB1]
    dsimp only
    split_ifs
    all_goals
      repeat
        first
        | exact noFuel_pure _
        | exact noFuel_readAt _ _
        | refine noFuel_bind _ _ ?_ (fun _ _ => ?_)
  · rw [if_neg hB1]
    split_ifs
    all_goals
      first
      | exact noFuel_pure _
      | exact noFuel_fault
      | exact noFuel_bind _ _ (noFuel_readAt _ _) (fun _ _ =>
          noFuel_bind _ _ (noFuel_readAt _ _) (fun _ _ => noFuel_pure _))

theorem noOverlapMergeOn_cursor (cigar bases : List Char) (quals : List Int) (st r : SoloState)
    (h : noOverlapMergeOn cigar bases quals st = .ok r) :
    st.c_pos < cigar.length ∧ r.c_pos = st.c_pos + 1 := by
  have h' := h
  unfold noOverlapMergeOn at h'
  obtain ⟨t, ht, -⟩ := bind_eq_ok _ _ _ h'
  exact ⟨(take_succ_of_readAt cigar st.c_pos t ht).1,
    (noOverlapMergeOn_facts cigar bases quals st r t ht h).1⟩

theorem overlapMergeOn_cursor (T : QualityTables) (cigar1 bases1 : List Char)
    (quals1 : List Int) (cigar2 bases2 : List Char) (quals2 : List Int) (st r : MergeState)
    (h : overlapMergeOn T cigar1 bases1 quals1 cigar2 bases2 quals2 st = .ok r) :
    st.c_pos1 < cigar1.length ∧ st.c_pos2 < cigar2.length ∧
    ((r.c_pos1 = st.c_pos1 + 1 ∧ r.c_pos2 = st.c_pos2 + 1) ∨
      (r.c_pos1 = st.c_pos1 + 1 ∧ r.c_pos2 = st.c_pos2) ∨
      (r.c_pos1 = st.c_pos1 ∧ r.c_pos2 = st.c_pos2 + 1)) := by
  unfold overlapMergeOn at h
  obtain ⟨c1, e1, h⟩ := bind_eq_ok _ _ _ h
  obtain ⟨c2, e2, h⟩ := bind_eq_ok _ _ _ h
  refine ⟨(take_succ_of_readAt cigar1 _ c1 e1).1, (take_succ_of_readAt cigar2 _ c2 e2).1, ?_⟩
  by_cases hB1 : (c1 = 'M' ∧ c2 = 'M') ∨ (c1 = 'S' ∧ c2 = 'S') ∨ (c1 = 'I' ∧ c2 = 'I')
  · rw [if_pos hB1] at h
    dsimp only at h
    by_cases hS : c1 ≠ 'S'
    · rw [if_pos hS] at h
      obtain ⟨b1, -, h⟩ := bind_eq_ok _ _ _ h
      obtain ⟨q1, -, h⟩ := bind_eq_ok _ _ _ h
      obtain ⟨b2, -, h⟩ := bind_eq_ok _ _ _ h
      obtain ⟨q2, -, h⟩ := bind_eq_ok _ _ _ h
      simp only [pure_bind] at h
      cases h
      exact Or.inl ⟨rfl, rfl⟩
    · rw [if_neg hS] at h
      simp only [pure_bind] at h
      cases h
      exact Or.inl ⟨rfl, rfl⟩
  · rw [if_neg hB1] at h
    split_ifs at h
    all_goals
      first
      | (cases h
         exact Or.inl ⟨rfl, rfl⟩)
      | (obtain ⟨b, -, h⟩ := bind_eq_ok _ _ _ h
         obtain ⟨q, -, h⟩ := bind_eq_ok _ _ _ h
         cases h
         first
         | exact Or.inl ⟨rfl, rfl⟩
         | exact Or.inr (Or.inl ⟨rfl, rfl⟩)
         | exact Or.inr (Or.inr ⟨rfl, rfl⟩))

theorem whileLoop_noFuel {σ : Type} (cond : σ → Bool) (body : σ → Except MergeError σ)
    (μ : σ → Nat) (hstep : ∀ s r, body s = .ok r → μ r < μ s) (herr : ∀ s, NoFuel (body s)) :
    ∀ (fuel : Nat) (s : σ), μ s < fuel → NoFuel (whileLoop cond body fuel s) := by
  intro fuel
  induction fuel with
  | zero => intro s h; omega
  | succ n ih =>
    intro s hμ
    cases hc : cond s with
    | false =>
      simp only [whileLoop, hc, Bool.false_eq_true, if_false]
      exact noFuel_ok _
    | true =>
      simp only [whileLoop, hc, if_true]
      cases hb : body s with
      | error e =>
        have := herr s
        rw [hb] at this
        exact this
      | ok r1 =>
        have hlt := hstep s r1 hb
        exact ih r1 (by omega)

theorem noOverlapMerge_noFuel (rec : AlignmentRecord) (st : SoloState) (i : Int) :
    NoFuel (rec.noOverlapMerge st i) := by
  unfold AlignmentRecord.noOverlapMerge
  split_ifs <;> exact noOverlapMergeOn_noFuel _ _ _ _

theorem overlapMerge_noFuel (T : QualityTables) (self ar : AlignmentRecord) (st : MergeState)
    (i j : Int) : NoFuel (self.overlapMerge T ar st i j) := by
  unfold AlignmentRecord.overlapMerge
  dsimp only
  split_ifs
  all_goals
    refine noFuel_bind _ _ ?_ (fun _ _ => overlapMergeOn_noFuel _ _ _ _ _ _ _ _)
    first
    | exact noFuel_pure _
    | (unfold AlignmentRecord.getSequence2
       split_ifs
       · exact noFuel_fault
       · exact noFuel_ok _)

theorem soloStep_noFuel (rec : AlignmentRecord) (i : Int) (k : Cursor) (st : PairedState) :
    NoFuel (soloStep rec i k st) :=
  noFuel_map _ _ (noOverlapMerge_noFuel _ _ _)

theorem jointStep_noFuel (T : QualityTables) (self ar : AlignmentRecord) (i j : Int)
    (kc1 kc2 kq1 kq2 : Cursor) (st : PairedState) :
    NoFuel (jointStep T self ar i j kc1 kc2 kq1 kq2 st) :=
  noFuel_map _ _ (overlapMerge_noFuel _ _ _ _ _ _)

theorem soloStep_this1_advances (self ar : AlignmentRecord) :
    Advances self ar (soloStep self 1 .c1_pos1) := by
  refine ⟨fun s r h => ?_, soloStep_noFuel _ _ _⟩
  unfold soloStep at h
  obtain ⟨x, hx, rfl⟩ := map_eq_ok _ _ _ h
  simp only [AlignmentRecord.noOverlapMerge, if_true] at hx
  obtain ⟨a, b⟩ := noOverlapMergeOn_cursor _ _ _ _ _ hx
  simp only [cursorSlack, PairedState.setC, PairedState.setQ, PairedState.getC] at a b ⊢
  omega

theorem soloStep_this2_advances (self ar : AlignmentRecord) :
    Advances self ar (soloStep self 2 .c2_pos1) := by
  refine ⟨fun s r h => ?_, soloStep_noFuel _ _ _⟩
  unfold soloStep at h
  obtain ⟨x, hx, rfl⟩ := map_eq_ok _ _ _ h
  simp only [AlignmentRecord.noOverlapMerge, show ¬ ((2 : Int) = 1) by decide, if_false] at hx
  obtain ⟨a, b⟩ := noOverlapMergeOn_cursor _ _ _ _ _ hx
  simp only [cursorSlack, PairedState.setC, PairedState.setQ, PairedState.getC] at a b ⊢
  omega

theorem soloStep_ar1_advances (self ar : AlignmentRecord) :
    Advances self ar (soloStep ar 1 .c1_pos2) := by
  refine ⟨fun s r h => ?_, soloStep_noFuel _ _ _⟩
  unfold soloStep at h
  obtain ⟨x, hx, rfl⟩ := map_eq_ok _ _ _ h
  simp only [AlignmentRecord.noOverlapMerge, if_true] at hx
  obtain ⟨a, b⟩ := noOverlapMergeOn_cursor _ _ _ _ _ hx
  simp only [cursorSlack, PairedState.setC, PairedState.setQ, PairedState.getC] at a b ⊢
  omega

theorem soloStep_ar2_advances (self ar : AlignmentRecord) :
    Advances self ar (soloStep ar 2 .c2_pos2) := by
  refine ⟨fun s r h => ?_, soloStep_noFuel _ _ _⟩
  unfold soloStep at h
  obtain ⟨x, hx, rfl⟩ := map_eq_ok _ _ _ h
  simp only [AlignmentRecord.noOverlapMerge, show ¬ ((2 : Int) = 1) by decide, if_false] at hx
  obtain ⟨a, b⟩ := noOverlapMergeOn_cursor _ _ _ _ _ hx
  simp only [cursorSlack, PairedState.setC, PairedState.setQ, PairedState.getC] at a b ⊢
  omega

theorem overlapMerge_cursor (T : QualityTables) (self ar : AlignmentRecord) (st r : MergeState)
    (i j : Int) (h : self.overlapMerge T ar st i j = .ok r) :
    st.c_pos1 < (if i = 1 then self.cigar1_unrolled else self.cigar2_unrolled).length ∧
    st.c_pos2 < (if j = 1 then ar.cigar1_unrolled else ar.cigar2_unrolled).length ∧
    ((r.c_pos1 = st.c_pos1 + 1 ∧ r.c_pos2 = st.c_pos2 + 1) ∨
      (r.c_pos1 = st.c_pos1 + 1 ∧ r.c_pos2 = st.c_pos2) ∨
      (r.c_pos1 = st.c_pos1 ∧ r.c_pos2 = st.c_pos2 + 1)) := by
  unfold AlignmentRecord.overlapMerge at h
  dsimp only at h
  split_ifs at h ⊢
  all_goals
    obtain ⟨s2, -, h⟩ := bind_eq_ok _ _ _ h
    exact overlapMergeOn_cursor _ _ _ _ _ _ _ _ _ h

theorem jointStep_11_advances (T : QualityTables) (self ar : AlignmentRecord) :
    Advances self ar (jointStep T self ar 1 1 .c1_pos1 .c1_pos2 .c1_pos1 .c1_pos2) := by
  refine ⟨fun s r h => ?_, jointStep_noFuel _ _ _ _ _ _ _ _ _⟩
  unfold jointStep at h
  obtain ⟨x, hx, rfl⟩ := map_eq_ok _ _ _ h
  obtain ⟨a, b, c⟩ := overlapMerge_cursor _ _ _ _ _ _ _ hx
  simp only [if_true, cursorSlack, PairedState.setC, PairedState.setQ, PairedState.getC]
    at a b c ⊢
  omega

theorem jointStep_21_advances (T : QualityTables) (self ar : AlignmentRecord) :
    Advances self ar (jointStep T self ar 2 1 .c2_pos1 .c1_pos2 .c2_pos1 .c1_pos2) := by
  refine ⟨fun s r h => ?_, jointStep_noFuel _ _ _ _ _ _ _ _ _⟩
  unfold jointStep at h
  obtain ⟨x, hx, rfl⟩ := map_eq_ok _ _ _ h
  obtain ⟨a, b, c⟩ := overlapMerge_cursor _ _ _ _ _ _ _ hx
  simp only [show ¬ ((2 : Int) = 1) by decide, if_false, if_true, cursorSlack,
    PairedState.setC, PairedState.setQ, PairedState.getC] at a b c ⊢
  omega

theorem jointStep_12_advances (T : QualityTables) (self ar : AlignmentRecord) :
    Advances self ar (jointStep T self ar 1 2 .c1_pos1 .c2_pos2 .c1_pos1 .c2_pos2) := by
  refine ⟨fun s r h => ?_, jointStep_noFuel _ _ _ _ _ _ _ _ _⟩
  unfold jointStep at h
  obtain ⟨x, hx, rfl⟩ := map_eq_ok _ _ _ h
  obtain ⟨a, b, c⟩ := overlapMerge_cursor _ _ _ _ _ _ _ hx
  simp only [show ¬ ((2 : Int) = 1) by decide, if_false, if_true, cursorSlack,
    PairedState.setC, PairedState.setQ, PairedState.getC] at a b c ⊢
  omega

theorem advances_loop (self ar : AlignmentRecord)
    (body : PairedState → Except MergeError PairedState) (hb : Advances self ar body)
    (cond : PairedState → Bool) (st : PairedState) :
    NoFuel (whileLoop cond body
      (self.cigar1_unrolled.length + self.cigar2_unrolled.length +
        ar.cigar1_unrolled.length + ar.cigar2_unrolled.length + 1) st) := by
  refine whileLoop_noFuel cond body (cursorSlack self ar) hb.1 hb.2 _ st ?_
  unfold cursorSlack
  omega

theorem advances_tail (self ar : AlignmentRecord)
    (a b : PairedState → Except MergeError PairedState) (ha : Advances self ar a)
    (hb : Advances self ar b) (x y : Int) (st : PairedState) :
    NoFuel (tailPhase
      (self.cigar1_unrolled.length + self.cigar2_unrolled.length +
        ar.cigar1_unrolled.length + ar.cigar2_unrolled.length + 1) x y a b st) := by
  unfold tailPhase
  split_ifs
  · exact advances_loop self ar a ha _ st
  · exact advances_loop self ar b hb _ st
  · exact noFuel_pure _

theorem mixedLoops_noFuel (T : QualityTables) (self ar : AlignmentRecord) (b : MixedBranch) :
    NoFuel (mixedLoops T self ar b) := by
  have t1 := soloStep_this1_advances self ar
  have t2 := soloStep_this2_advances self ar
  have a1 := soloStep_ar1_advances self ar
  have a2 := soloStep_ar2_advances self ar
  have j11 := jointStep_11_advances T self ar
  have j21 := jointStep_21_advances T self ar
  have j12 := jointStep_12_advances T self ar
  cases b
  · exact noFuel_bind _ _ (advances_loop self ar _ a1 _ _) (fun _ _ =>
      noFuel_bind _ _ (advances_loop self ar _ j11 _ _) (fun _ _ =>
        noFuel_bind _ _ (advances_loop self ar _ a1 _ _) (fun _ _ =>
          noFuel_bind _ _ (advances_loop self ar _ j21 _ _) (fun _ _ =>
            advances_tail self ar _ _ a1 t2 _ _ _))))
  · exact noFuel_bind _ _ (advances_loop self ar _ t1 _ _) (fun _ _ =>
      noFuel_bind _ _ (advances_loop self ar _ j11 _ _) (fun _ _ =>
        noFuel_bind _ _ (advances_loop self ar _ a1 _ _) (fun _ _ =>
          noFuel_bind _ _ (advances_loop self ar _ j21 _ _) (fun _ _ =>
            advances_tail self ar _ _ a1 t2 _ _ _))))
  · exact noFuel_bind _ _ (advances_loop self ar _ t1 _ _) (fun _ _ =>
      noFuel_bind _ _ (advances_loop self ar _ j11 _ _) (fun _ _ =>
        noFuel_bind _ _ (advances_loop self ar _ t1 _ _) (fun _ _ =>
          noFuel_bind _ _ (advances_loop self ar _ j12 _ _) (fun _ _ =>
            advances_tail self ar _ _ t1 a2 _ _ _))))
  · exact noFuel_bind _ _ (advances_loop self ar _ a1 _ _) (fun _ _ =>
      noFuel_bind _ _ (advances_loop self ar _ j11 _ _) (fun _ _ =>
        noFuel_bind _ _ (advances_loop self ar _ t1 _ _) (fun _ _ =>
          noFuel_bind _ _ (advances_loop self ar _ j12 _ _) (fun _ _ =>
            advances_tail self ar _ _ t1 a2 _ _ _))))

/-- When a paired-end record is merged with a single-end record `ar` that starts
no later than the end of mate 1 and ends no earlier than the start of mate 2,
`mergeAlignmentRecordsMixed` takes one of its two loop branches, its loops end
by themselves, and every record it returns is single-end with
`start1 = min(start1, ar.start1)`, `end1 = max(ar.end1, end2)` and a compact
CIGAR that is `createCigar` of the merged unrolled CIGAR. -/
theorem mergeMixed_spanning_single (T : QualityTables) (self ar : AlignmentRecord)
    (hs : ar.single_end = true) (h1 : ar.start1 ≤ self.end1) (h2 : ar.end1 ≥ self.start2) :
    (∃ b, (b = MixedBranch.s3 ∨ b = MixedBranch.s4) ∧
      self.mergeAlignmentRecordsMixed T ar =
        (mixedLoops T self ar b).map (storeMate1 self ar (max ar.end1 self.end2) true)) ∧
    NoFuel (self.mergeAlignmentRecordsMixed T ar) ∧
    ∀ r, self.mergeAlignmentRecordsMixed T ar = .ok r →
      r.single_end = true ∧ r.start1 = min self.start1 ar.start1 ∧
      r.end1 = max ar.end1 self.end2 ∧ r.cigar1 = createCigar r.cigar1_unrolled := by
  have hb : ∃ b, (b = MixedBranch.s3 ∨ b = MixedBranch.s4) ∧
      self.mergeAlignmentRecordsMixed T ar =
        (mixedLoops T self ar b).map (storeMate1 self ar (max ar.end1 self.end2) true) := by
    unfold AlignmentRecord.mergeAlignmentRecordsMixed
    rw [if_pos hs]
    dsimp only
    rw [if_neg (by omega), if_neg (by omega)]
    by_cases hc : (ar.start1 : Int) - computeOffset ar.cigar1_unrolled ≤
        (self.start1 : Int) - computeOffset self.cigar1_unrolled
    · rw [if_pos hc]
      exact ⟨.s3, Or.inl rfl, rfl⟩
    · rw [if_neg hc, if_pos (by omega)]
      exact ⟨.s4, Or.inr rfl, rfl⟩
  obtain ⟨b, hb1, hb2⟩ := hb
  refine ⟨⟨b, hb1, hb2⟩, ?_, ?_⟩
  · rw [hb2]
    exact noFuel_map _ _ (mixedLoops_noFuel T self ar b)
  · intro r hr
    rw [hb2] at hr
    obtain ⟨st, -, rfl⟩ := map_eq_ok _ _ _ hr
    exact ⟨rfl, rfl, rfl, rfl⟩

theorem mergeMixed_spanning_single_witness :
    (bridgeSingle.single_end = true ∧ bridgeSingle.start1 ≤ gapPair.end1 ∧
      bridgeSingle.end1 ≥ gapPair.start2) ∧
    (∃ r, gapPair.mergeAlignmentRecordsMixed sampleTables bridgeSingle = .ok r ∧
      r.single_end = true ∧ r.start1 = 100 ∧ r.end1 = 112 ∧
      r.cigar1 = [⟨'M', 13⟩]) ∧
    ((∃ b, (b = MixedBranch.s3 ∨ b = MixedBranch.s4) ∧
      gapPair.mergeAlignmentRecordsMixed sampleTables bridgeSingle =
        (mixedLoops sampleTables gapPair bridgeSingle b).map
          (storeMate1 gapPair bridgeSingle (max bridgeSingle.end1 gapPair.end2) true)) ∧
    NoFuel (gapPair.mergeAlignmentRecordsMixed sampleTables bridgeSingle) ∧
    ∀ r, gapPair.mergeAlignmentRecordsMixed sampleTables bridgeSingle = .ok r →
      r.single_end = true ∧ r.start1 = min gapPair.start1 bridgeSingle.start1 ∧
      r.end1 = max bridgeSingle.end1 gapPair.end2 ∧
      r.cigar1 = createCigar r.cigar1_unrolled) :=
  ⟨⟨rfl, by decide, by decide⟩, ⟨_, rfl, by decide, by decide, by decide, by decide⟩,
    mergeMixed_spanning_single sampleTables gapPair bridgeSingle rfl (by decide) (by decide)⟩

theorem mergeMixed_disjoint_sides_witness :
    lateSingle.single_end = true ∧ pairedRead.end1 < pairedRead.start2 ∧
    ¬ lateSingle.end1 < pairedRead.start2 ∧ lateSingle.start1 > pairedRead.end1 ∧
    ∃ r, pairedRead.mergeAlignmentRecordsMixed sampleTables lateSingle = .ok r ∧
      r.single_end = false ∧ r.end1 < r.start2 :=
  ⟨rfl, by decide, by decide, by decide,
    (mergeMixed_disjoint_sides sampleTables pairedRead lateSingle _ rfl (by decide)).2
      (by decide) (by decide) rfl⟩

/-! ## Proofs: range of the merged quality byte -/

theorem rpow_ten_neg_92 :
    (630 / 1000000000000 : ℝ) ≤ (10 : ℝ) ^ (-((92 : Int) : ℝ) / 10) ∧
    (10 : ℝ) ^ (-((92 : Int) : ℝ) / 10) ≤ 632 / 1000000000000 := by
  have hy : (0 : ℝ) ≤ (10 : ℝ) ^ (-((92 : Int) : ℝ) / 10) :=
    le_of_lt (Real.rpow_pos_of_pos (by norm_num) _)
  have h5 : ((10 : ℝ) ^ (-((92 : Int) : ℝ) / 10)) ^ 5 = (10 : ℝ) ^ (-46 : ℤ) := by
    rw [← Real.rpow_natCast, ← Real.rpow_mul (by norm_num)]
    have : (-((92 : Int) : ℝ) / 10 * ((5 : ℕ) : ℝ)) = ((-46 : ℤ) : ℝ) := by norm_num
    rw [this, Real.rpow_intCast]
  constructor
  · by_contra hc
    push_neg at hc
    have : ((10 : ℝ) ^ (-((92 : Int) : ℝ) / 10)) ^ 5 < (630 / 1000000000000 : ℝ) ^ 5 :=
      pow_lt_pow_left₀ hc hy (by norm_num)
    rw [h5] at this
    norm_num at this
  · by_contra hc
    push_neg at hc
    have : (632 / 1000000000000 : ℝ) ^ 5 < ((10 : ℝ) ^ (-((92 : Int) : ℝ) / 10)) ^ 5 :=
      pow_lt_pow_left₀ hc (by norm_num) (by norm_num)
    rw [h5] at this
    norm_num at this

/-- The numerator `prob1*(1-prob2/3)` of `disagreement(92, 0)`. -/
theorem disagreement_92_0_num (prob1 prob2 a1 a2 num : ℝ)
    (h1 : (6299 / 10000000000000 : ℝ) ≤ prob1) (h2 : prob1 ≤ (6321 / 10000000000000 : ℝ))
    (h3 : 1 - 1 / 1000000 ≤ prob2) (h4 : prob2 ≤ 1 + 1 / 1000000)
    (ha1 : Rounds (prob2 / 3) a1) (ha2 : Rounds (1 - a1) a2) (hnum : Rounds (prob1 * a2) num) :
    (4199 / 10000000000000 : ℝ) ≤ num ∧ num ≤ (4215 / 10000000000000 : ℝ) := by
  obtain ⟨x1, x2⟩ := rounds_pos (prob2 / 3) a1 (33333 / 100000 : ℝ) (33334 / 100000 : ℝ) ha1
    (by norm_num) (by linarith) (by linarith)
  obtain ⟨y1, y2⟩ := rounds_pos (1 - a1) a2 (66665 / 100000 : ℝ) (66668 / 100000 : ℝ) ha2
    (by norm_num) (by norm_num at x2 ⊢; linarith) (by norm_num at x1 ⊢; linarith)
  obtain ⟨z1, z2⟩ := rounds_mul_bounds prob1 a2 num (6299 / 10000000000000 : ℝ)
    (6321 / 10000000000000 : ℝ) (66664 / 100000 : ℝ) (66669 / 100000 : ℝ) hnum (by norm_num)
    (by norm_num) h1 h2 (by norm_num at y1 ⊢; linarith) (by norm_num at y2 ⊢; linarith)
  constructor
  · norm_num at z1 ⊢; linarith
  · norm_num at z2 ⊢; linarith

/-- The denominator `prob1+prob2-4*prob1*prob2/3` of `disagreement(92, 0)`. -/
theorem disagreement_92_0_den (prob1 prob2 b1 c1 c2 c3 den : ℝ)
    (h1 : (6299 / 10000000000000 : ℝ) ≤ prob1) (h2 : prob1 ≤ (6321 / 10000000000000 : ℝ))
    (h3 : 1 - 1 / 1000000 ≤ prob2) (h4 : prob2 ≤ 1 + 1 / 1000000)
    (hb1 : Rounds (prob1 + prob2) b1)
    (hc1 : Rounds (4 * prob1) c1) (hc2 : Rounds (c1 * prob2) c2) (hc3 : Rounds (c2 / 3) c3)
    (hden : Rounds (b1 - c3) den) :
    (99999 / 100000 : ℝ) ≤ den ∧ den ≤ (100001 / 100000 : ℝ) := by
  obtain ⟨x1, x2⟩ := rounds_pos (prob1 + prob2) b1 (999998 / 1000000 : ℝ)
    (1000002 / 1000000 : ℝ) hb1 (by norm_num) (by linarith) (by linarith)
  obtain ⟨y1, y2⟩ := rounds_pos (4 * prob1) c1 0 (1 / 100000000 : ℝ) hc1
    (by norm_num) (by linarith) (by linarith)
  obtain ⟨z1, z2⟩ := rounds_mul_bounds c1 prob2 c2 0 (2 / 100000000 : ℝ) 0 2 hc2 (by norm_num)
    (by norm_num) (by linarith) (by linarith) (by linarith) (by linarith)
  obtain ⟨w1, w2⟩ := rounds_pos (c2 / 3) c3 0 (2 / 100000000 : ℝ) hc3
    (by norm_num) (by norm_num at z1 ⊢; linarith) (by norm_num at z2 ⊢; linarith)
  obtain ⟨d1, d2⟩ := rounds_pos (b1 - c3) den (999996 / 1000000 : ℝ) (1000004 / 1000000 : ℝ)
    hden (by norm_num) (by norm_num at x1 w2 ⊢; linarith) (by norm_num at x2 w1 ⊢; linarith)
  constructor
  · norm_num at d1 ⊢; linarith
  · norm_num at d2 ⊢; linarith

theorem disagreement_92_0_phred (posterior : ℝ)
    (h1 : 419 / 1000000000000 ≤ posterior) (h2 : posterior ≤ 422 / 1000000000000) :
    PhredOf posterior 94 ∧ ∀ n, PhredOf posterior n → n = 94 := by
  have hpos : (0 : ℝ) < posterior := by linarith
  have hlo : ((-47 : ℤ) : ℝ) / (5 : ℕ) ≤ Real.logb 10 posterior := by
    apply le_logb_ten_of_pow posterior 5 (by norm_num) (-47)
    have : (419 / 1000000000000 : ℝ) ^ 5 ≤ posterior ^ 5 :=
      pow_le_pow_left₀ (by norm_num) h1 5
    have h3 : (10 : ℝ) ^ (-47 : ℤ) ≤ (419 / 1000000000000 : ℝ) ^ 5 := by norm_num
    exact le_trans h3 this
  have hhi : Real.logb 10 posterior ≤ ((-234 : ℤ) : ℝ) / (25 : ℕ) := by
    apply logb_ten_le_of_pow posterior hpos 25 (by norm_num) (-234)
    have : posterior ^ 25 ≤ (422 / 1000000000000 : ℝ) ^ 25 :=
      pow_le_pow_left₀ (le_of_lt hpos) h2 25
    have h3 : (422 / 1000000000000 : ℝ) ^ 25 ≤ (10 : ℝ) ^ (-234 : ℤ) := by norm_num
    exact le_trans this h3
  exact phredOf_eq posterior 94 _ _ hlo hhi (by norm_num) (by norm_num) (by norm_num)
    (by norm_num)

/-- The posterior that `disagreement(92, 0)` computes. -/
theorem disagreement_92_0_posterior
    (prob1 prob2 a1 a2 num b1 c1 c2 c3 den posterior : ℝ)
    (hp1 : PowProb 92 prob1) (hp2 : PowProb 0 prob2)
    (ha1 : Rounds (prob2 / 3) a1) (ha2 : Rounds (1 - a1) a2) (hnum : Rounds (prob1 * a2) num)
    (hb1 : Rounds (prob1 + prob2) b1)
    (hc1 : Rounds (4 * prob1) c1) (hc2 : Rounds (c1 * prob2) c2) (hc3 : Rounds (c2 / 3) c3)
    (hden : Rounds (b1 - c3) den) (hpost : Rounds (num / den) posterior) :
    419 / 1000000000000 ≤ posterior ∧ posterior ≤ 422 / 1000000000000 := by
  obtain ⟨a1', b1'⟩ := powProb_bounds 92 prob1 hp1 (by norm_num) (by norm_num)
  obtain ⟨h3, h4⟩ := powProb_zero prob2 hp2
  obtain ⟨r1, r2⟩ := rpow_ten_neg_92
  have h1 : (6299 / 10000000000000 : ℝ) ≤ prob1 := by
    have : (630 / 1000000000000 : ℝ) * (1 - 1 / 10000) ≤
        (10 : ℝ) ^ (-((92 : Int) : ℝ) / 10) * (1 - 1 / 10000) :=
      mul_le_mul_of_nonneg_right r1 (by norm_num)
    norm_num at this a1' ⊢
    linarith
  have h2 : prob1 ≤ (6321 / 10000000000000 : ℝ) := by
    have : (10 : ℝ) ^ (-((92 : Int) : ℝ) / 10) * (1 + 1 / 10000) ≤
        (632 / 1000000000000 : ℝ) * (1 + 1 / 10000) :=
      mul_le_mul_of_nonneg_right r2 (by norm_num)
    norm_num at this b1' ⊢
    linarith
  obtain ⟨n1, n2⟩ := disagreement_92_0_num prob1 prob2 a1 a2 num h1 h2 h3 h4 ha1 ha2 hnum
  obtain ⟨d1, d2⟩ := disagreement_92_0_den prob1 prob2 b1 c1 c2 c3 den h1 h2 h3 h4 hb1 hc1 hc2
    hc3 hden
  obtain ⟨pa, pb⟩ := rounds_div_bounds num den posterior _ _ _ _ hpost (by norm_num)
    (by norm_num) n1 n2 d1 d2
  constructor
  · norm_num at pa ⊢; linarith
  · norm_num at pb ⊢; linarith

theorem disagreement_92_0 : disagreement 92 0 94 ∧ ∀ n, disagreement 92 0 n → n = 94 := by
  constructor
  · have hp : PowProb 92 ((10 : ℝ) ^ (-((92 : Int) : ℝ) / 10)) :=
      ⟨_, rounds_exact _, rounds_exact _⟩
    have hq : PowProb 0 ((10 : ℝ) ^ (-((0 : Int) : ℝ) / 10)) :=
      ⟨_, rounds_exact _, rounds_exact _⟩
    set p : ℝ := (10 : ℝ) ^ (-((92 : Int) : ℝ) / 10) with hpdef
    set q : ℝ := (10 : ℝ) ^ (-((0 : Int) : ℝ) / 10) with hqdef
    have hb := disagreement_92_0_posterior p q (q / 3) (1 - q / 3) (p * (1 - q / 3)) (p + q)
      (4 * p) (4 * p * q) (4 * p * q / 3) (p + q - 4 * p * q / 3)
      (p * (1 - q / 3) / (p + q - 4 * p * q / 3)) hp hq (rounds_exact _) (rounds_exact _)
      (rounds_exact _) (rounds_exact _) (rounds_exact _) (rounds_exact _) (rounds_exact _)
      (rounds_exact _) (rounds_exact _)
    exact ⟨p, q, _, _, _, _, _, _, _, _, _, hp, hq, rounds_exact _, rounds_exact _,
      rounds_exact _, rounds_exact _, rounds_exact _, rounds_exact _, rounds_exact _,
      rounds_exact _, rounds_exact _, (disagreement_92_0_phred _ hb.1 hb.2).1⟩
  · rintro n ⟨prob1, prob2, a1, a2, num, b1, c1, c2, c3, den, posterior, hp1, hp2, ha1, ha2,
      hnum, hb1, hc1, hc2, hc3, hden, hpost, hph⟩
    have hb := disagreement_92_0_posterior prob1 prob2 a1 a2 num b1 c1 c2 c3 den posterior
      hp1 hp2 ha1 ha2 hnum hb1 hc1 hc2 hc3 hden hpost
    exact (disagreement_92_0_phred posterior hb.1 hb.2).2 n hph

/-- C39 (the code at the failing input): `disagreement(92, 0)` returns 94 and
nothing else, so with the table entry that `compute_error_disagreement` stores
at `[125][33]`, `computeEntry` on differing bases with the quality bytes 125
and 33 (both in 33..126) returns the first base with quality byte
`94 + 33 = 127`, which is above 126. -/
theorem computeEntry_disagreement_byte_127 (T : QualityTables) (b1 b2 : Char)
    (hne : b1 ≠ b2)
    (hT : disagreement (125 - 33) (33 - 33) (T.error_disagreement 125 33)) :
    T.error_disagreement 125 33 = 94 ∧ computeEntry T b1 125 b2 33 = (b1, 127) ∧
    ¬ ((computeEntry T b1 125 b2 33).2 ≤ 126) := by
  have h94 : T.error_disagreement 125 33 = 94 := disagreement_92_0.2 _ hT
  have e : computeEntry T b1 125 b2 33 = (b1, 127) := by
    simp only [computeEntry, if_neg hne, h94]
    rfl
  refine ⟨h94, e, ?_⟩
  rw [e]
  show ¬ ((127 : Int) ≤ 126)
  decide

theorem computeEntry_disagreement_byte_127_witness :
    'A' ≠ 'C' ∧
    disagreement (125 - 33) (33 - 33) (edgeTables.error_disagreement 125 33) ∧
    computeEntry edgeTables 'A' 125 'C' 33 = ('A', 127) :=
  ⟨by decide, disagreement_92_0.1,
    (computeEntry_disagreement_byte_127 edgeTables 'A' 'C' (by decide) disagreement_92_0.1).2.1⟩

/-! ## Proofs: the mixed merge at the start of the reference -/

/-- C36 (the code at the failing input): `edgePair` is paired-end with mates
`[1, 5]` and `[9, 13]`, `edgeSingle` is single-end on `[1, 11]` and overlaps
both mates; both padded starts are `-1`. The joint loop on mate 1 and the solo
loop up to mate 2 test the cursor `-1` against the `unsigned int` members
`end1 = 5` and `start2 = 9`, where it is 4294967295, so both loops are skipped
and the joint loop on mate 2 starts at position `-1`: it runs off the five
columns of mate 2 and the merge ends in a fault instead of a single-end record
on `[1, 13]`. The same reads 100 positions to the right collapse into the
single-end record on `[101, 113]` with CIGAR `13M`. -/
theorem mergeMixed_negative_cursor :
    edgePair.single_end = false ∧ edgeSingle.single_end = true ∧
    edgeSingle.start1 ≤ edgePair.end1 ∧ edgeSingle.end1 ≥ edgePair.start2 ∧
    (edgeSingle.start1 : Int) - computeOffset edgeSingle.cigar1_unrolled = -1 ∧
    (edgePair.start1 : Int) - computeOffset edgePair.cigar1_unrolled = -1 ∧
    ¬ (toUnsigned (-1) ≤ (edgePair.end1 : Int)) ∧
    ¬ (toUnsigned (-1) < (edgePair.start2 : Int)) ∧
    edgePair.cigar2_unrolled.length = 5 ∧
    edgePair.mergeAlignmentRecordsMixed sampleTables edgeSingle = .error .fault ∧
    ∃ r, farPair.mergeAlignmentRecordsMixed sampleTables farSingle = .ok r ∧
      r.single_end = true ∧ r.start1 = 101 ∧ r.end1 = 113 ∧ r.cigar1 = [⟨'M', 13⟩] ∧
      r.cigar1 = createCigar r.cigar1_unrolled := by
  refine ⟨by decide, rfl, by decide, by decide, by decide, by decide, by decide, by decide,
    by decide, rfl, _, rfl, ?_⟩
  decide

/-! ## Proofs: merging records with the same alignment -/

end HaploClique
